import Mathlib

/-!
# Arduino Solitaire: the board-state engine of `Solitaire.cpp`

A shallow embedding of the card/pile topology, the cursor state machine, the
move/target engine and the dirty-region bookkeeping of `BoardState`.

Memory model.  Every `Card` object of the program lives at a fixed address:

* `0 .. 51`  : the 52 cards allocated by `Deck::Deck()` (the `i`-th `new Card`),
* `52 .. 58` : `mBoardBases[0..6]`,
* `59 .. 62` : `mStackBases[0..3]`.

A `Card*` is an `Option Nat` (`none` is the null pointer) and the heap is a
function from addresses to `Card` values.  Dereferencing a null pointer,
indexing an array out of range, dividing by zero, a loop that cannot
terminate, and a call of `error(...)` (which never returns) are results in
`Except Fault`.
-/

namespace Solitaire

/-! ## Machine integers and faults -/

/-- Ways in which a call fails to return normally. -/
inductive Fault where
  | nullDeref
  | outOfBounds
  | divByZero
  | diverge
  | errorNoTargets
  | errorDeckSlot
  deriving DecidableEq, Repr

/-- The value of an `int` (16 bits on the AVR target) after wrap-around. -/
def wrapInt (x : Int) : Int := (x + 32768) % 65536 - 32768

/-- The value of an `int8_t` after conversion. -/
def wrapInt8 (x : Int) : Int := (x + 128) % 256 - 128

/-- The value of a `uint8_t` after conversion. -/
def wrapU8 (x : Int) : Nat := (x % 256).toNat

/-- Number of `Card` objects in memory: 52 pool cards and 11 anchors. -/
def heapSize : Nat := 63

/-- Bound on the iterations of a pointer-chasing loop.  There are only
`heapSize` nodes, so a traversal still running after this many steps is
on a cycle, where the source loop does not terminate (`Fault.diverge`). -/
def loopFuel : Nat := heapSize + 1

/-- The function `smartmod` of the source: `(abs(a * b) + a) % b` on `int`, with C++ truncating `%`. -/
def smartmod (a b : Int) : Except Fault Int :=
  if b = 0 then .error .divByZero
  else .ok (Int.tmod (wrapInt (wrapInt ((wrapInt (a * b)).natAbs) + a)) b)

/-- Dereference guard: a null pointer faults. -/
def deref (p : Option Nat) : Except Fault Nat :=
  match p with
  | some a => .ok a
  | none => .error .nullDeref

/-! ## CardId -/

/-- A card identity: two 4-bit bitfields. -/
structure CardId where
  mNumber : Nat
  mSuit : Nat
  deriving DecidableEq, Repr

namespace CardId

def NumZone : Nat := 0
def NumAce : Nat := 1
def NumKing : Nat := 13
def Hearts : Nat := 0

/-- The constructor `CardId(Number n, Suit s)`: both values are stored in 4-bit unsigned bitfields. -/
def new (n s : Int) : CardId := ⟨(n % 16).toNat, (s % 16).toNat⟩

def getNumber (c : CardId) : Nat := c.mNumber

def getSuit (c : CardId) : Nat := c.mSuit

/-- The colour `mSuit & 0x1` as a `bool`: black is `true`, red is `false`. -/
def getColor (c : CardId) : Bool := decide (c.mSuit &&& 1 ≠ 0)

/-- The hash `((int)mSuit)*13 + (((int)mNumber) - 1)` returned as `int8_t`. -/
def tohash (c : CardId) : Int := wrapInt8 ((c.mSuit : Int) * 13 + ((c.mNumber : Int) - 1))

/-- The inverse `fromhash(int8_t hash)`: `(hash % 13) + 1` and `hash / 13`, C++ truncating. -/
def fromhash (hash : Int) : CardId := new (Int.tmod hash 13 + 1) (Int.tdiv hash 13)

end CardId

/-! ## Rect -/

/-- A rectangle; `W = 0` or `H = 0` means empty.  Coordinates are screen
coordinates, far below the 16-bit range of `int`, so they are plain integers. -/
structure Rect where
  X : Int
  Y : Int
  W : Int
  H : Int
  deriving DecidableEq, Repr

namespace Rect

def zero : Rect := ⟨0, 0, 0, 0⟩

/-- The method `Rect::expand`. -/
def expand (r other : Rect) : Rect :=
  if other.W = 0 ∨ other.H = 0 then r
  else
    let left := max (r.X + r.W) (other.X + other.W)
    let bottom := max (r.Y + r.H) (other.Y + other.H)
    let x := min r.X other.X
    let y := min r.Y other.Y
    ⟨x, y, left - x, bottom - y⟩

/-- The method `Rect::intersects`. -/
def intersects (r other : Rect) : Bool :=
  if r.W = 0 ∨ r.H = 0 ∨ other.W = 0 ∨ other.H = 0 then false
  else if r.X > other.X + other.W ∨ other.X > r.X + r.W then false
  else if r.Y > other.Y + other.H ∨ other.Y > r.Y + r.H then false
  else true

/-- Rectangle `a` covers rectangle `b`. -/
def contains (a b : Rect) : Prop :=
  a.X ≤ b.X ∧ a.Y ≤ b.Y ∧ b.X + b.W ≤ a.X + a.W ∧ b.Y + b.H ≤ a.Y + a.H

instance (a b : Rect) : Decidable (contains a b) := by
  unfold contains; infer_instance

end Rect

/-! ## Card and the heap -/

/-- The enumeration `Card::Location`. -/
inductive CardLocation where
  | LocationDeck
  | LocationStack
  | LocationBoard
  | LocationDrag
  deriving DecidableEq, Repr

/-- A `Card` object. -/
structure Card where
  LastDrawnAt : Rect
  Next : Option Nat
  Prev : Option Nat
  FaceUp : Bool
  Highlight : Int
  Location : CardLocation
  Which : CardId
  deriving DecidableEq, Repr

namespace Card

/-- The constructor `Card(CardId which)`. -/
def new (which : CardId) : Card :=
  { LastDrawnAt := Rect.zero, Next := none, Prev := none, FaceUp := true, Highlight := 0,
    Location := .LocationDeck, Which := which }

/-- The default constructor `Card()`, used for the anchors. -/
def empty : Card := new (CardId.new CardId.NumZone CardId.Hearts)

def isempty (c : Card) : Bool := decide (c.Which.getNumber = CardId.NumZone)

end Card

abbrev Heap := Nat → Card

def setNext (h : Heap) (p : Nat) (v : Option Nat) : Heap :=
  fun q => if q = p then { h p with Next := v } else h q

def setPrev (h : Heap) (p : Nat) (v : Option Nat) : Heap :=
  fun q => if q = p then { h p with Prev := v } else h q

def setFaceUp (h : Heap) (p : Nat) (v : Bool) : Heap :=
  fun q => if q = p then { h p with FaceUp := v } else h q

def setLocation (h : Heap) (p : Nat) (v : CardLocation) : Heap :=
  fun q => if q = p then { h p with Location := v } else h q

def setLastDrawnAt (h : Heap) (p : Nat) (v : Rect) : Heap :=
  fun q => if q = p then { h p with LastDrawnAt := v } else h q

/-- Address of `mBoardBases[i]`. -/
def boardBase (i : Nat) : Nat := 52 + i

/-- Address of `mStackBases[i]`. -/
def stackBase (i : Nat) : Nat := 59 + i

/-! ## Deck -/

/-- The three-assignment swap of `Deck::shuffle`. -/
def swapAt (d : Nat → Nat) (i j : Nat) : Nat → Nat :=
  let tmp := d j
  let d1 : Nat → Nat := fun k => if k = j then d i else d k
  fun k => if k = i then tmp else d1 k

/-- The loop of `Deck::shuffle` from index `i` with `k` iterations left;
`draws i` is the value `rand()` returns in iteration `i`. -/
def shuffleFrom (draws : Nat → Nat) : Nat → Nat → (Nat → Nat) → (Nat → Nat)
  | 0, _, d => d
  | k + 1, i, d => shuffleFrom draws k (i + 1) (swapAt d i (i + draws i % (52 - i)))

/-- The method `Deck::shuffle` (Fisher-Yates over the 52 pointers of `mDeck`). -/
def Deck.shuffle (draws : Nat → Nat) (d : Nat → Nat) : Nat → Nat :=
  shuffleFrom draws 52 0 d

/-! ## BoardState -/

/-- The fields of `BoardState` (the two cursor colours, used only for painting, are left out). -/
structure BoardState where
  mCursorLocationX : Nat
  mCursorLocationY : Nat
  mHasHeldCards : Bool
  mHeldCard : Option Nat
  mHeldWasTopOfDeck : Bool
  mCardToReveal : Option Nat
  mCurrentTarget : Int
  mNumValidTargets : Nat
  mValidTargets : Nat → Nat
  mDirtyRegion : Rect
  mSourceDeck : Nat → Nat
  mDeck : Option Nat
  mTopOfDeck : Option Nat
  mStacks : Nat → Option Nat
  mBoard : Nat → Option Nat
  heap : Heap

/-- The state of the global `GameState` at program start: static storage is
zero-initialised, then the constructors of `Deck`, the anchors and `BoardState` run. -/
def BoardState.fresh : BoardState :=
  { mCursorLocationX := 0, mCursorLocationY := 0, mHasHeldCards := false, mHeldCard := none,
    mHeldWasTopOfDeck := false, mCardToReveal := none, mCurrentTarget := 0,
    mNumValidTargets := 0, mValidTargets := fun _ => 0, mDirtyRegion := Rect.zero,
    mSourceDeck := fun i => i, mDeck := none, mTopOfDeck := none,
    mStacks := fun _ => none, mBoard := fun _ => none,
    heap := fun a => if a < 52 then Card.new (CardId.fromhash a) else Card.empty }

/-! ## Dealing a new game -/

/-- The inner loop of the deal, `for (int i = 0; i <= pileN; ++i)`, with `k`
iterations left: returns the heap, `curCard` and `prev`. -/
def dealInner (src : Nat → Nat) : Nat → Nat → Nat → Heap → Heap × Nat × Nat
  | 0, curCard, prev, h => (h, curCard, prev)
  | k + 1, curCard, prev, h =>
    let cur := src curCard
    let h := setNext h prev (some cur)
    let h := setPrev h cur (some prev)
    let h := setLocation h cur .LocationBoard
    let h := setFaceUp h cur false
    dealInner src k (curCard + 1) cur h

/-- One iteration of `for (int pileN = 0; pileN < 7; ++pileN)`. -/
def dealPile (src : Nat → Nat) (pileN curCard : Nat) (h : Heap) (board : Nat → Option Nat) :
    Heap × Nat × (Nat → Option Nat) :=
  let first := boardBase pileN
  let h := setPrev h first none
  let h := setLocation h first .LocationBoard
  let h := setFaceUp h first false
  let r := dealInner src (pileN + 1) curCard first h
  let h := setFaceUp r.1 r.2.2 true
  let h := setNext h r.2.2 none
  (h, r.2.1, fun n => if n = pileN then some first else board n)

/-- The loop over the seven piles, from `pileN` with `k` iterations left. -/
def dealPiles (src : Nat → Nat) : Nat → Nat → Nat → Heap → (Nat → Option Nat) →
    Heap × Nat × (Nat → Option Nat)
  | 0, _, curCard, h, board => (h, curCard, board)
  | k + 1, pileN, curCard, h, board =>
    let r := dealPile src pileN curCard h board
    dealPiles src k (pileN + 1) r.2.1 r.1 r.2.2

/-- The loop `for (int stackN = 0; stackN < 4; ++stackN)` of `initialize`. -/
def initStacks : Nat → Nat → Heap → (Nat → Option Nat) → Heap × (Nat → Option Nat)
  | 0, _, h, stk => (h, stk)
  | k + 1, stackN, h, stk =>
    let stacks1 : Nat → Option Nat := fun n => if n = stackN then some (stackBase stackN) else stk n
    let h := setNext h (stackBase stackN) none
    let h := setPrev h (stackBase stackN) none
    initStacks k (stackN + 1) h stacks1

/-- The loop `while (curCard < 52)` linking the draw chain, with `k = 52 - curCard` iterations left. -/
def linkDeck (src : Nat → Nat) : Nat → Nat → Nat → Heap → Heap × Nat
  | 0, _, prev, h => (h, prev)
  | k + 1, curCard, prev, h =>
    let cur := src curCard
    let h := setLocation h cur .LocationDeck
    let h := setPrev h cur (some prev)
    let h := setNext h prev (some cur)
    linkDeck src k (curCard + 1) cur h

/-- The method `BoardState::initialize`; `draws` are the values of `rand()` in the shuffle. -/
def initializeBoard (draws : Nat → Nat) (s : BoardState) : BoardState :=
  let src := Deck.shuffle draws s.mSourceDeck
  let r := dealPiles src 7 0 0 s.heap s.mBoard
  let st := initStacks 4 0 r.1 s.mStacks
  let curCard := r.2.1
  let first := src curCard
  let h := setPrev st.1 first none
  let h := setLocation h first .LocationDeck
  let l := linkDeck src (52 - (curCard + 1)) (curCard + 1) first h
  let h := setNext l.1 l.2 none
  { s with
    mHasHeldCards := false
    mCursorLocationX := 1
    mCursorLocationY := 0
    mSourceDeck := src
    mDirtyRegion := ⟨0, 0, 160, 128⟩
    mBoard := r.2.2
    mStacks := st.2
    heap := h
    mDeck := some first
    mTopOfDeck := none }

/-! ## flip3 -/

/-- The loop `for (...) if (mTopOfDeck->Next) mTopOfDeck = mTopOfDeck->Next;` with `k` iterations. -/
def advanceTop (h : Heap) : Nat → Nat → Nat
  | 0, top => top
  | k + 1, top =>
    match (h top).Next with
    | some n => advanceTop h k n
    | none => advanceTop h k top

/-- The method `BoardState::flip3`. -/
def flip3 (s : BoardState) : BoardState :=
  match s.mTopOfDeck with
  | some top =>
    match (s.heap top).Next with
    | some _ => { s with mTopOfDeck := some (advanceTop s.heap 3 top) }
    | none => { s with mTopOfDeck := none }
  | none =>
    match s.mDeck with
    | some d => { s with mTopOfDeck := some (advanceTop s.heap 2 d) }
    | none => s

/-- The method `BoardState::invalidateDeckRegion`. -/
def invalidateDeckRegion (s : BoardState) : BoardState :=
  { s with mDirtyRegion := s.mDirtyRegion.expand ⟨0, 0, 75, 14⟩ }

/-! ## Cursor motion -/

/-- The loop of `getBoardStackSize`: `while (c->Next) { count++; c = c->Next; }` with a `uint8_t` count. -/
def sizeLoop (h : Heap) : Nat → Nat → Nat → Except Fault Nat
  | 0, _, _ => .error .diverge
  | fuel + 1, c, count =>
    match (h c).Next with
    | none => .ok count
    | some n => sizeLoop h fuel n ((count + 1) % 256)

/-- The method `BoardState::getBoardStackSize`. -/
def getBoardStackSize (s : BoardState) (n : Nat) : Except Fault Nat :=
  if n < 7 then
    match s.mBoard n with
    | none => .error .nullDeref
    | some c => sizeLoop s.heap loopFuel c 0
  else .error .outOfBounds

/-- The method `BoardState::toprowXtoBoardX` on `uint8_t`. -/
def toprowXtoBoardX (toprowX : Nat) : Nat :=
  if toprowX = 0 then 0 else (toprowX + 1) % 256

/-- The method `BoardState::boardXtoToprowX` on `uint8_t`. -/
def boardXtoToprowX (boardX : Nat) : Nat :=
  match boardX with
  | 0 => 0
  | 1 => 1
  | 2 => 1
  | n + 3 => n + 2

/-- The loop `while (!cur->FaceUp || n < mCursorLocationY) { cur = cur->Next; ++n; }` of `moveCursor`. -/
def skipFaceDown (h : Heap) (y : Nat) : Nat → Option Nat → Int → Except Fault Int
  | 0, _, _ => .error .diverge
  | fuel + 1, cur, n =>
    match cur with
    | none => .error .nullDeref
    | some c =>
      if (h c).FaceUp = false ∨ n < (y : Int) then skipFaceDown h y fuel (h c).Next (wrapInt (n + 1))
      else .ok n

/-- The branch of `moveCursor` taken while a chain is held. -/
def moveCursorHeld (s : BoardState) (dx dy : Int) : Except Fault BoardState := do
  let ct := if dx + dy > 0 then wrapInt8 (s.mCurrentTarget + 1) else wrapInt8 (s.mCurrentTarget - 1)
  let m ← smartmod ct s.mNumValidTargets
  let ct := wrapInt8 m
  if ct < 0 ∨ 12 ≤ ct then .error .outOfBounds
  else
    let currentTargetData := wrapInt8 (s.mValidTargets ct.toNat)
    let x := wrapU8 (currentTargetData >>> 1)
    let y := wrapU8 (Int.land currentTargetData 1)
    if y > 0 then do
      let sz ← getBoardStackSize s x
      .ok { s with mCurrentTarget := ct, mCursorLocationX := x, mCursorLocationY := max 1 sz }
    else
      .ok { s with mCurrentTarget := ct, mCursorLocationX := x, mCursorLocationY := y }

/-- The step `if (dy != 0) { ... }` of the browsing branch of `moveCursor`. -/
def moveCursorY (s : BoardState) (dy : Int) : Except Fault BoardState :=
  if dy ≠ 0 then
    if s.mCursorLocationY = 0 then
      let x := toprowXtoBoardX s.mCursorLocationX
      if dy > 0 then
        .ok { s with mCursorLocationX := x, mCursorLocationY := wrapU8 (s.mCursorLocationY + dy) }
      else do
        let sz ← getBoardStackSize s x
        .ok { s with mCursorLocationX := x, mCursorLocationY := sz }
    else do
      let sz ← getBoardStackSize s s.mCursorLocationX
      let m ← smartmod (s.mCursorLocationY + dy) (sz + 1)
      let y := wrapU8 m
      if y = 0 then
        .ok { s with mCursorLocationY := y, mCursorLocationX := boardXtoToprowX s.mCursorLocationX }
      else
        .ok { s with mCursorLocationY := y }
  else .ok s

/-- The step `if (dx != 0) { ... }` of the browsing branch of `moveCursor`. -/
def moveCursorX (s : BoardState) (dx : Int) : Except Fault BoardState :=
  if dx ≠ 0 then do
    let max : Int := if s.mCursorLocationY = 0 then 5 else 6
    let m ← smartmod (s.mCursorLocationX + dx) (max + 1)
    let x := wrapU8 m
    if s.mCursorLocationY > 0 then do
      let sz ← getBoardStackSize s x
      .ok { s with mCursorLocationX := x, mCursorLocationY := min s.mCursorLocationY sz }
    else
      .ok { s with mCursorLocationX := x }
  else .ok s

/-- The last step of the browsing branch: keep the cursor off unrevealed cards. -/
def moveCursorAdjust (s : BoardState) (dy : Int) : Except Fault BoardState :=
  if s.mCursorLocationY > 0 then
    if dy < 0 then
      .ok { s with mCursorLocationX := boardXtoToprowX s.mCursorLocationX, mCursorLocationY := 0 }
    else if s.mCursorLocationX < 7 then do
      let base ← deref (s.mBoard s.mCursorLocationX)
      let n ← skipFaceDown s.heap s.mCursorLocationY loopFuel (s.heap base).Next 1
      .ok { s with mCursorLocationY := wrapU8 n }
    else .error .outOfBounds
  else .ok s

/-- The method `BoardState::moveCursor`. -/
def moveCursor (s : BoardState) (dx dy : Int) : Except Fault BoardState :=
  if s.mHeldCard.isSome then moveCursorHeld s dx dy
  else do
    let s ← moveCursorY s dy
    let s ← moveCursorX s dx
    moveCursorAdjust s dy

/-! ## Putting the held chain down -/

/-- The loop `while (base->Next) base = base->Next;`. -/
def walkToEnd (h : Heap) : Nat → Nat → Except Fault Nat
  | 0, _ => .error .diverge
  | fuel + 1, c =>
    match (h c).Next with
    | none => .ok c
    | some n => walkToEnd h fuel n

/-- The loop `while (cur) { cur->Location = loc; cur = cur->Next; }`. -/
def setLocationChain (loc : CardLocation) : Nat → Option Nat → Heap → Except Fault Heap
  | 0, _, _ => .error .diverge
  | fuel + 1, cur, h =>
    match cur with
    | none => .ok h
    | some c => setLocationChain loc fuel (h c).Next (setLocation h c loc)

/-- The loop `while (cur) { mDirtyRegion.expand(cur->LastDrawnAt); cur = cur->Next; }`. -/
def expandChain (h : Heap) : Nat → Option Nat → Rect → Except Fault Rect
  | 0, _, _ => .error .diverge
  | fuel + 1, cur, r =>
    match cur with
    | none => .ok r
    | some c => expandChain h fuel (h c).Next (r.expand (h c).LastDrawnAt)

/-- The branch of `putDownHeldCard` that puts the held card back on the deck (cursor `(1, 0)`). -/
def putDownDeck (s : BoardState) (held : Nat) : Except Fault BoardState := do
  let r : Heap × Option Nat :=
    match s.mTopOfDeck with
    | some top => (setNext s.heap held (s.heap top).Next, s.mDeck)
    | none => (setNext s.heap held s.mDeck, some held)
  let h := setPrev r.1 held s.mTopOfDeck
  let top ← deref s.mTopOfDeck
  let nxt ← deref (h top).Next
  let h := setPrev h nxt (some held)
  let h := setNext h top (some held)
  let h := setLocation h held .LocationDeck
  let h := setFaceUp h held false
  .ok { s with heap := h, mDeck := r.2, mTopOfDeck := some held }

/-- The branch of `putDownHeldCard` that puts the held card on foundation `mCursorLocationX - 2`. -/
def putDownStack (s : BoardState) (held : Nat) : Except Fault BoardState :=
  let stackN := s.mCursorLocationX - 2
  if stackN < 4 then do
    let base ← deref (s.mStacks stackN)
    let h := setNext s.heap base (some held)
    let h := setPrev h held (some base)
    let h := setLocation h held .LocationStack
    .ok { s with heap := h, mStacks := fun n => if n = stackN then some held else s.mStacks n }
  else .error .outOfBounds

/-- The branch of `putDownHeldCard` that appends the held chain to tableau column `mCursorLocationX`. -/
def putDownBoard (s : BoardState) (held : Nat) : Except Fault BoardState :=
  if s.mCursorLocationX < 7 then do
    let base ← deref (s.mBoard s.mCursorLocationX)
    let base ← walkToEnd s.heap loopFuel base
    let h := setNext s.heap base (some held)
    let h := setPrev h held (some base)
    let h ← setLocationChain .LocationBoard loopFuel (some held) h
    .ok { s with heap := h }
  else .error .outOfBounds

/-- The tail of `putDownHeldCard`: reveal the card under the picked chain unless
the chain went back onto it, then clear `mHeldCard`. -/
def revealAndRelease (s : BoardState) (held : Nat) : BoardState :=
  let s1 :=
    match s.mCardToReveal with
    | some r =>
      if some r ≠ (s.heap held).Prev then
        { s with heap := setFaceUp s.heap r true,
                 mDirtyRegion := s.mDirtyRegion.expand (s.heap r).LastDrawnAt }
      else s
    | none => s
  { s1 with mHeldCard := none }

/-- The method `BoardState::putDownHeldCard`. -/
def putDownHeldCard (s : BoardState) : Except Fault BoardState := do
  let held ← deref s.mHeldCard
  let s1 ←
    if s.mCursorLocationY = 0 then
      if s.mCursorLocationX = 1 then putDownDeck s held
      else if s.mCursorLocationX > 1 then putDownStack s held
      else .error .errorDeckSlot
    else putDownBoard s held
  .ok (revealAndRelease s1 held)

/-! ## Picking a chain up -/

/-- The pick-up of the waste top (cursor `(1, 0)`). -/
def pickUpDeck (s : BoardState) : BoardState :=
  match s.mTopOfDeck with
  | none => s
  | some card =>
    let oldPrev := (s.heap card).Prev
    let oldNext := (s.heap card).Next
    let r : Heap × Option Nat :=
      match oldPrev with
      | some p => (setNext s.heap p oldNext, s.mDeck)
      | none => (s.heap, (s.heap card).Next)
    let h :=
      match oldNext with
      | some n => setPrev r.1 n oldPrev
      | none => r.1
    let h := setNext h card none
    let h := setPrev h card none
    let h := setLocation h card .LocationDrag
    let h := setFaceUp h card true
    invalidateDeckRegion
      { s with heap := h, mDeck := r.2, mTopOfDeck := oldPrev, mHeldCard := some card,
               mHeldWasTopOfDeck := true, mCardToReveal := none }

/-- The pick-up of a foundation top (cursor `(x, 0)` with `x >= 2`). -/
def pickUpStack (s : BoardState) : Except Fault BoardState :=
  if 2 ≤ s.mCursorLocationX ∧ s.mCursorLocationX - 2 < 4 then do
    let stackTop ← deref (s.mStacks (s.mCursorLocationX - 2))
    if (s.heap stackTop).isempty = false then do
      let prev ← deref (s.heap stackTop).Prev
      let h := setNext s.heap prev none
      let stk : Nat → Option Nat :=
        fun n => if n = s.mCursorLocationX - 2 then (h stackTop).Prev else s.mStacks n
      let h := setPrev h stackTop none
      let h := setLocation h stackTop .LocationDrag
      let h := setFaceUp h stackTop true
      .ok { s with heap := h, mStacks := stk, mHeldCard := some stackTop,
                   mHeldWasTopOfDeck := false, mCardToReveal := none }
    else .ok s
  else .error .outOfBounds

/-- The loop `for (int n = 1; n < mCursorLocationY; ++n) card = card->Next;` with `k` iterations. -/
def nthNext (h : Heap) : Nat → Option Nat → Except Fault (Option Nat)
  | 0, card => .ok card
  | k + 1, card => do
    let c ← deref card
    nthNext h k (h c).Next

/-- The pick-up from tableau column `mCursorLocationX` at row `mCursorLocationY >= 1`. -/
def pickUpBoard (s : BoardState) : Except Fault BoardState :=
  if s.mCursorLocationX < 7 then do
    let base ← deref (s.mBoard s.mCursorLocationX)
    match (s.heap base).Next with
    | none => .ok s
    | some first => do
      let card ← nthNext s.heap (s.mCursorLocationY - 1) (some first)
      let card ← deref card
      let oldPrev := (s.heap card).Prev
      let prev ← deref (s.heap card).Prev
      let h := setNext s.heap prev none
      let h := setPrev h card none
      let h ← setLocationChain .LocationDrag loopFuel (some card) h
      let old ← deref oldPrev
      let reveal := if (h old).isempty then none else oldPrev
      let y := if s.mCursorLocationY > 1 then s.mCursorLocationY - 1 else s.mCursorLocationY
      .ok { s with heap := h, mHeldCard := some card, mHeldWasTopOfDeck := false,
                   mCardToReveal := reveal, mCursorLocationY := y }
  else .error .outOfBounds

/-- The pick-up part of `button1Down` (cursor not on the draw pile, nothing held). -/
def pickUp (s : BoardState) : Except Fault BoardState :=
  if s.mCursorLocationY = 0 then
    if s.mCursorLocationX = 1 then .ok (pickUpDeck s)
    else pickUpStack s
  else pickUpBoard s

/-! ## Enumerating the drop targets -/

/-- The statement `mValidTargets[mNumValidTargets++] = v;` on the 12-slot buffer. -/
def pushTarget (s : BoardState) (v : Nat) : Except Fault BoardState :=
  if s.mNumValidTargets < 12 then
    .ok { s with mValidTargets := fun k => if k = s.mNumValidTargets then v % 256 else s.mValidTargets k,
                 mNumValidTargets := (s.mNumValidTargets + 1) % 256 }
  else .error .outOfBounds

/-- The body of the foundation loop of the enumeration for foundation `i`. -/
def enumStack (s : BoardState) (held : Nat) (i : Nat) : Except Fault BoardState := do
  let stack ← deref (s.mStacks i)
  let hw := (s.heap held).Which
  let sw := (s.heap stack).Which
  let fits : Bool :=
    if (s.heap stack).isempty then decide (hw.getNumber = CardId.NumAce)
    else decide (hw.getNumber = sw.getNumber + 1 ∧ hw.getSuit = sw.getSuit)
  if fits then
    let s1 :=
      if s.mCursorLocationX = i + 2 ∧ s.mCursorLocationY = 0 then
        { s with mCurrentTarget := wrapInt8 s.mNumValidTargets }
      else s
    pushTarget s1 (((i + 2) <<< 1) ||| 0)
  else .ok s

/-- The loop `for (int i = 0; i < 4; ++i)` over the foundations, from `i` with `k` iterations left. -/
def enumStacks (held : Nat) : Nat → Nat → BoardState → Except Fault BoardState
  | 0, _, s => .ok s
  | k + 1, i, s => do
    let s1 ← enumStack s held i
    enumStacks held k (i + 1) s1

/-- The body of the tableau loop of the enumeration for column `i`. -/
def enumBoardCol (s : BoardState) (held : Nat) (i : Nat) : Except Fault BoardState := do
  let base ← deref (s.mBoard i)
  let cur ← walkToEnd s.heap loopFuel base
  let hw := (s.heap held).Which
  let cw := (s.heap cur).Which
  if some cur = s.mCardToReveal ∨
      ((s.heap cur).isempty = true ∧ s.mCursorLocationX = i ∧ s.mCursorLocationY = 1) ∨
      ((s.heap cur).isempty = true ∧ hw.getNumber = CardId.NumKing) ∨
      (cw.getColor ≠ hw.getColor ∧ cw.getNumber = hw.getNumber + 1) then
    pushTarget s ((i <<< 1) ||| 1)
  else .ok s

/-- The loop `for (int i = 0; i < 7; ++i)` over the tableau, from `i` with `k` iterations left. -/
def enumBoard (held : Nat) : Nat → Nat → BoardState → Except Fault BoardState
  | 0, _, s => .ok s
  | k + 1, i, s => do
    let s1 ← enumBoardCol s held i
    enumBoard held k (i + 1) s1

/-- The enumeration of `button1Down`: fill `mValidTargets` for the chain just picked up. -/
def enumerateTargets (s : BoardState) : Except Fault BoardState := do
  let held ← deref s.mHeldCard
  let s0 := { s with mNumValidTargets := 0, mCurrentTarget := 0 }
  let s1 ←
    if s0.mHeldWasTopOfDeck then do
      let t ← pushTarget s0 ((1 <<< 1) ||| 0)
      .ok { t with mCurrentTarget := 0 }
    else .ok s0
  let s2 ←
    match (s1.heap held).Next with
    | none => enumStacks held 4 0 s1
    | some _ => .ok s1
  enumBoard held 7 0 s2

/-- The final loop of `button1Down`: add the held cards to the dirty region. -/
def invalidateHeld (s : BoardState) : Except Fault BoardState := do
  let r ← expandChain s.heap loopFuel s.mHeldCard s.mDirtyRegion
  .ok { s with mDirtyRegion := r }

/-- The method `BoardState::button1Down`. -/
def button1Down (s : BoardState) : Except Fault BoardState :=
  if s.mHeldCard.isSome then putDownHeldCard s
  else do
    let s1 ←
      if s.mCursorLocationX = 0 ∧ s.mCursorLocationY = 0 then .ok (invalidateDeckRegion (flip3 s))
      else pickUp s
    let s2 ←
      if s1.mHeldCard.isSome then do
        let t ← enumerateTargets s1
        if t.mNumValidTargets = 0 then .error .errorNoTargets
        else if t.mNumValidTargets = 1 then putDownHeldCard t
        else .ok t
      else .ok s1
    invalidateHeld s2


/-! ## Vocabulary of the properties -/

/-- The nodes met from the pointer `p` by following `Next` up to the null
pointer are exactly the nodes of `l`, in this order. -/
def Chain (h : Heap) : List Nat → Option Nat → Prop
  | [], p => p = none
  | a :: l, p => p = some a ∧ Chain h l (h a).Next

instance Chain.decide (h : Heap) : (l : List Nat) → (p : Option Nat) → Decidable (Chain h l p)
  | [], p => by unfold Chain; infer_instance
  | a :: l, p => by
    unfold Chain
    exact @instDecidableAnd _ _ _ (Chain.decide h l (h a).Next)

/-- The pointer to the `w`-th node of `l`, counted from 1; the null pointer for `w = 0`. -/
def nthPtr (l : List Nat) : Nat → Option Nat
  | 0 => none
  | w + 1 => l[w]?

/-- The cursor `(mCursorLocationX, mCursorLocationY)` a call leaves behind when it returns. -/
def cursorOf (r : Except Fault BoardState) : Option (Nat × Nat) :=
  match r with
  | .ok s => some (s.mCursorLocationX, s.mCursorLocationY)
  | .error _ => none

/-- The fault a call ends in, if it does not return. -/
def faultOf (r : Except Fault BoardState) : Option Fault :=
  match r with
  | .ok _ => none
  | .error e => some e

/-- Make `k` equal calls `moveCursor(dx, dy)` in a row. -/
def repeatMove (dx dy : Int) : Nat → BoardState → Except Fault BoardState
  | 0, s => .ok s
  | k + 1, s => moveCursor s dx dy >>= repeatMove dx dy k

/-! ## Sample boards -/

/-- Write the links `prev->Next = a; a->Prev = prev` along `l`, closing with a null `Next`. -/
def linkAfter (h : Heap) (prev : Nat) : List Nat → Heap
  | [] => setNext h prev none
  | a :: l => linkAfter (setPrev (setNext h prev (some a)) a (some prev)) a l

/-- Link the nodes of `l` as a chain without anchor: the first `Prev` is null. -/
def linkList (h : Heap) : List Nat → Heap
  | [] => h
  | a :: l => linkAfter (setPrev h a none) a l

/-- Link pile `i`, `i + 1`, ... after the anchors `base i`, `base (i + 1)`, ... -/
def linkPiles (base : Nat → Nat) : Nat → List (List Nat) → Heap → Heap
  | _, [], h => h
  | i, l :: ls, h => linkPiles base (i + 1) ls (linkAfter h (base i) l)

/-- Turn the cards of `l` face-down. -/
def turnDown (h : Heap) : List Nat → Heap
  | [] => h
  | a :: l => turnDown (setFaceUp h a false) l

/-- A board with nothing held: tableau columns `tab`, foundations `fnd`, the
draw/waste chain `deck` with waste top `top`, the cards of `down` face-down
and all others face-up, and the cursor at `(x, y)`. -/
def sampleBoard (tab fnd : List (List Nat)) (deck down : List Nat) (top : Option Nat)
    (x y : Nat) : BoardState :=
  { BoardState.fresh with
    mCursorLocationX := x
    mCursorLocationY := y
    mBoard := fun i => some (boardBase i)
    mStacks := fun i => some ((fnd.getD i []).getLastD (stackBase i))
    mDeck := deck.head?
    mTopOfDeck := top
    heap := turnDown (linkList (linkPiles stackBase 0 fnd
      (linkPiles boardBase 0 tab BoardState.fresh.heap)) deck) down }

/-- The sample board whose tableau column 2 holds the face-up cards 0, 1, 2, every other pile empty. -/
def threeUp (x y : Nat) : BoardState := sampleBoard [[], [], [0, 1, 2]] [] [] [] none x y

/-- The sample board with tableau column 0 holding card 3 and column 2 holding
the cards 0, 1, 2, of which card 0 is face-down. -/
def mixedBoard (x y : Nat) : BoardState := sampleBoard [[3], [], [0, 1, 2]] [] [] [0] none x y

/-- The board `threeUp` in targeting mode: card 5 is held, and the candidates are
foundation 0 (encoded 4), tableau column 2 (encoded 5) and tableau column 0
(encoded 1), the first being current. -/
def targetingBoard : BoardState :=
  { threeUp 2 0 with
    mHeldCard := some 5
    mNumValidTargets := 3
    mValidTargets := fun k => if k = 0 then 4 else if k = 1 then 5 else 1
    mCurrentTarget := 0 }

/-- The sample board whose draw/waste chain holds the cards 40, 41, 51, with
waste top `top`, tableau column 0 holding card 3, and the cursor on the waste slot. -/
def wasteBoard (top : Option Nat) : BoardState :=
  sampleBoard [[3]] [] [40, 41, 51] [] top 1 0

/-! ## Well-linked piles -/

/-- From node `a` on, the nodes of `l` follow one another through `Next`, every
`Prev` points back at the node before, and the last `Next` is null. -/
def Links (h : Heap) : Nat → List Nat → Prop
  | a, [] => (h a).Next = none
  | a, b :: l => (h a).Next = some b ∧ (h b).Prev = some a ∧ Links h b l

instance Links.decide (h : Heap) : (a : Nat) → (l : List Nat) → Decidable (Links h a l)
  | a, [] => by unfold Links; infer_instance
  | a, b :: l => by
    unfold Links
    exact @instDecidableAnd _ _ _ (@instDecidableAnd _ _ _ (Links.decide h b l))

/-- The list `l` is a well-linked pile: a null `Prev` at its head, then `Links`. -/
def IsPile (h : Heap) : List Nat → Prop
  | [] => True
  | a :: l => (h a).Prev = none ∧ Links h a l

instance IsPile.decide (h : Heap) : (l : List Nat) → Decidable (IsPile h l)
  | [] => by unfold IsPile; infer_instance
  | a :: l => by unfold IsPile; infer_instance

/-- The piles of a board as lists of card addresses (anchors left out): piles
`0..6` are the tableau columns, `7..10` the foundations, `11` is the draw/waste
chain and `12` the held chain. -/
abbrev Layout := Nat → List Nat

/-- Replace pile `p` of a layout. -/
def setPile (L : Layout) (p : Nat) (l : List Nat) : Layout :=
  fun q => if q = p then l else L q

/-- No card of pile `p` lies in another pile of `L`. -/
def Apart (L : Layout) (p : Nat) : Prop := ∀ q, q < 13 → p ≠ q → ∀ c ∈ L p, c ∉ L q

instance (L : Layout) (p : Nat) : Decidable (Apart L p) := by
  unfold Apart; infer_instance

/-- The piles of `L` hold card addresses only, without repetition inside a pile
or across two piles. -/
def Separate (L : Layout) : Prop :=
  (∀ p, p < 13 → ∀ c ∈ L p, c < 52) ∧
  (∀ p, p < 13 → (L p).Nodup) ∧
  (∀ p, p < 13 → Apart L p)

instance (L : Layout) : Decidable (Separate L) := by
  unfold Separate; infer_instance

/-- The anchor of pile `p`: `mBoardBases[p]` for a tableau column,
`mStackBases[p - 7]` for a foundation, none for the draw/waste and held chains. -/
def anchorOf (p : Nat) : List Nat :=
  if p < 7 then [boardBase p] else if p < 11 then [stackBase (p - 7)] else []

/-- The nodes of pile `p`: its anchor, if it has one, then its cards. -/
def pileNodes (L : Layout) (p : Nat) : List Nat := anchorOf p ++ L p

/-- The state `s` is a well-formed board with the piles `L`: every pile is
well linked from its anchor or head, `mBoard` points at the anchors, `mStacks`
at the last node of each foundation, `mDeck` and `mHeldCard` at the head of
their chains, `mTopOfDeck` is null or in the draw/waste chain, the piles are
separate, and every `Card` object carries the identity it was built with. -/
def Board (s : BoardState) (L : Layout) : Prop :=
  (∀ p, p < 13 → IsPile s.heap (pileNodes L p)) ∧
  (∀ i, i < 7 → s.mBoard i = some (boardBase i)) ∧
  (∀ i, i < 4 → s.mStacks i = some ((L (7 + i)).getLastD (stackBase i))) ∧
  s.mDeck = (L 11).head? ∧
  s.mHeldCard = (L 12).head? ∧
  (∀ c, s.mTopOfDeck = some c → c ∈ L 11) ∧
  Separate L ∧
  (∀ a, a < 63 → (s.heap a).Which = (BoardState.fresh.heap a).Which)

instance (s : BoardState) (L : Layout) : Decidable (Board s L) := by
  unfold Board; infer_instance

/-- Every card of the pool lies in one of the piles of `L`. -/
def Covers (L : Layout) : Prop := ∀ c, c < 52 → ∃ p, p < 13 ∧ c ∈ L p

instance (L : Layout) : Decidable (Covers L) := by
  unfold Covers; infer_instance

/-- The candidate list: the first `mNumValidTargets` entries of `mValidTargets`. -/
def targets (s : BoardState) : List Nat := (List.range s.mNumValidTargets).map s.mValidTargets

/-- The layout with the given tableau columns, foundations, draw/waste chain and held chain. -/
def layoutOf (tab fnd : List (List Nat)) (deck held : List Nat) : Layout :=
  fun p =>
    if p < 7 then tab.getD p []
    else if p < 11 then fnd.getD (p - 7) []
    else if p = 11 then deck
    else if p = 12 then held
    else []

/-- What `f` reads in the state a call returns, if it returns. -/
def observe {α : Type} (f : BoardState → α) (r : Except Fault BoardState) : Option α :=
  match r with
  | .ok s => some (f s)
  | .error _ => none

/-- The sample board whose tableau column 2 holds the cards 0, 1, 2 with
cards 0 and 1 face-down, every other pile empty. -/
def buriedBoard (x y : Nat) : BoardState := sampleBoard [[], [], [0, 1, 2]] [] [] [0, 1] none x y

/-- The heap after the chain `c :: l2` has been cut off its predecessor `q` and
stamped `LocationDrag`: the writes of a tableau pick-up. -/
def detachHeap (h : Heap) (q c : Nat) (l2 : List Nat) : Heap :=
  (c :: l2).foldl (fun g a => setLocation g a .LocationDrag) (setPrev (setNext h q none) c none)

/-- The heap after the chain `c :: l2` has been linked behind the node `q` and
stamped `LocationBoard`: the writes of a tableau put-down. -/
def attachHeap (h : Heap) (q c : Nat) (l2 : List Nat) : Heap :=
  (c :: l2).foldl (fun g a => setLocation g a .LocationBoard)
    (setPrev (setNext h q (some c)) c (some q))

/-- The state `t` is the state `s` with a new candidate list. -/
def Retargets (s t : BoardState) : Prop :=
  ∃ n v k, t = { s with mNumValidTargets := n, mValidTargets := v, mCurrentTarget := k }

/-- The test of the enumeration for foundation `i`: the held card `held` fits
on the foundation's top node. -/
def stackFits (s : BoardState) (held i : Nat) : Bool :=
  match s.mStacks i with
  | some a =>
    if (s.heap a).isempty then decide ((s.heap held).Which.getNumber = CardId.NumAce)
    else decide ((s.heap held).Which.getNumber = (s.heap a).Which.getNumber + 1 ∧
      (s.heap held).Which.getSuit = (s.heap a).Which.getSuit)
  | none => false

/-- The test of the enumeration for tableau column `i`, whose last node is `cur`. -/
def columnFits (s : BoardState) (held cur i : Nat) : Bool :=
  decide (some cur = s.mCardToReveal ∨
    ((s.heap cur).isempty = true ∧ s.mCursorLocationX = i ∧ s.mCursorLocationY = 1) ∨
    ((s.heap cur).isempty = true ∧ (s.heap held).Which.getNumber = CardId.NumKing) ∨
    ((s.heap cur).Which.getColor ≠ (s.heap held).Which.getColor ∧
      (s.heap cur).Which.getNumber = (s.heap held).Which.getNumber + 1))

/-- The candidate list the enumeration builds on a board with piles `L` for the
held chain starting at `held`: the deck slot (2) after a waste pick-up, then the
fitting foundations `i` as `2 * (i + 2)` when a single card is held, then the
fitting tableau columns `i` as `2 * i + 1`. -/
def expectedTargets (s : BoardState) (L : Layout) (held : Nat) : List Nat :=
  (if s.mHeldWasTopOfDeck then [2] else []) ++
  (if (s.heap held).Next = none then
    ((List.range 4).filter (fun i => stackFits s held i)).map (fun i => 2 * (i + 2))
   else []) ++
  ((List.range 7).filter (fun i => columnFits s held ((L i).getLastD (boardBase i)) i)).map
    (fun i => 2 * i + 1)

/-- The sample board `threeUp` with card 13 (the ace of spades) held and the
cursor on the waste slot. -/
def aceHeldBoard : BoardState := { threeUp 1 0 with mHeldCard := some 13 }

/-- The sample board `threeUp` with card 25 (the king of spades) held. -/
def kingHeldBoard : BoardState := { threeUp 1 0 with mHeldCard := some 25 }

/-- The heap after the card `c`, with neighbours `oldPrev` and `oldNext`, has
been unlinked from the draw/waste chain, stamped `LocationDrag` and turned
face-up: the writes of the waste pick-up. -/
def unlinkHeap (h : Heap) (oldPrev oldNext : Option Nat) (c : Nat) : Heap :=
  let h1 :=
    match oldPrev with
    | some p => setNext h p oldNext
    | none => h
  let h2 :=
    match oldNext with
    | some n => setPrev h1 n oldPrev
    | none => h1
  setFaceUp (setLocation (setPrev (setNext h2 c none) c none) c .LocationDrag) c true

/-- The heap after the card `c` has been linked between the waste top `q` and
its successor `nx`, stamped `LocationDeck` and turned face-down: the writes of
the put-back on the deck. -/
def insertHeap (h : Heap) (q nx c : Nat) : Heap :=
  setFaceUp (setLocation (setNext (setPrev (setPrev (setNext h c (some nx)) c (some q)) nx
    (some c)) q (some c)) c .LocationDeck) c false

/-- The heap after the single card `c` has been cut off its predecessor `q`,
stamped `LocationDrag` and turned face-up: the writes of a foundation pick-up. -/
def popHeap (h : Heap) (q c : Nat) : Heap :=
  setFaceUp (setLocation (setPrev (setNext h q none) c none) c .LocationDrag) c true

/-- The heap after the card `c` has been linked behind the node `q` and
stamped `LocationStack`: the writes of a foundation put-down. -/
def pushHeap (h : Heap) (q c : Nat) : Heap :=
  setLocation (setPrev (setNext h q (some c)) c (some q)) c .LocationStack

/-- The state right after the waste top `c`, which sat between `d1` and `d2`
in the draw/waste chain, has been picked up. -/
def wastePicked (s : BoardState) (c : Nat) (d1 d2 : List Nat) : BoardState :=
  invalidateDeckRegion
    { s with heap := unlinkHeap s.heap d1.getLast? d2.head? c, mDeck := (d1 ++ d2).head?,
             mTopOfDeck := d1.getLast?, mHeldCard := some c, mHeldWasTopOfDeck := true,
             mCardToReveal := none }

/-- The state right after the top card `c` of foundation `i`, which sat on the
cards `l1`, has been picked up. -/
def stackPicked (s : BoardState) (i c : Nat) (l1 : List Nat) : BoardState :=
  { s with heap := popHeap s.heap (l1.getLastD (stackBase i)) c,
           mStacks := fun n => if n = i then some (l1.getLastD (stackBase i)) else s.mStacks n,
           mHeldCard := some c, mHeldWasTopOfDeck := false, mCardToReveal := none }

/-- The state right after the chain `c :: l2`, which sat on the cards `l1` of
tableau column `x`, has been picked up. -/
def boardPicked (s : BoardState) (x c : Nat) (l1 l2 : List Nat) : BoardState :=
  { s with heap := detachHeap s.heap (l1.getLastD (boardBase x)) c l2,
           mHeldCard := some c, mHeldWasTopOfDeck := false, mCardToReveal := l1.getLast?,
           mCursorLocationY := if l1.length + 1 > 1 then l1.length else l1.length + 1 }

/-- The cards of `l` are the ace, the 2, ... of one single suit, in this order. -/
def Ordered (h : Heap) (l : List Nat) : Prop :=
  ∀ j, j < l.length →
    (h (l.getD j 0)).Which.getNumber = j + 1 ∧
    (h (l.getD j 0)).Which.getSuit = (h (l.headD 0)).Which.getSuit

instance (h : Heap) (l : List Nat) : Decidable (Ordered h l) := by
  unfold Ordered; infer_instance

/-- The card `c` continues foundation `i` of the layout: an ace on an empty
foundation, else the next rank of the suit of the foundation's top card. -/
def FitsOn (h : Heap) (L : Layout) (c i : Nat) : Prop :=
  (L (7 + i) = [] ∧ (h c).Which.getNumber = CardId.NumAce) ∨
  (∃ top, (L (7 + i)).getLast? = some top ∧
    (h c).Which.getNumber = (h top).Which.getNumber + 1 ∧
    (h c).Which.getSuit = (h top).Which.getSuit)

/-- The encoded location `v` is one the held chain of the layout may be put
down on: a tableau column when odd, and when even the deck slot or a foundation,
which take a single card, a foundation only the card that continues it. -/
def Offer (L : Layout) (v : Nat) : Prop :=
  v < 14 ∧
  (v % 2 = 0 → ∃ c, L 12 = [c] ∧ (4 ≤ v → FitsOn BoardState.fresh.heap L c (v / 2 - 2)))

/-- The bookkeeping of a board with piles `L` is in order: every foundation is
ordered, and while a chain is held there are at most 12 candidates, each of
them an admissible location, as is the cursor when it is in the top row. -/
def Tidy (s : BoardState) (L : Layout) : Prop :=
  (∀ i, i < 4 → Ordered BoardState.fresh.heap (L (7 + i))) ∧
  (L 12 ≠ [] →
    s.mNumValidTargets ≤ 12 ∧
    (∀ k, k < s.mNumValidTargets → Offer L (s.mValidTargets k)) ∧
    (s.mCursorLocationY = 0 → Offer L (2 * s.mCursorLocationX)))

/-- The state is a well-formed board over some piles that hold all 52 cards,
with its bookkeeping in order. -/
def Sound (s : BoardState) : Prop := ∃ L, Board s L ∧ Covers L ∧ Tidy s L

/-- The states of clean play: the state `initialize()` builds at program start
or when it is run again while nothing is held (pin 14 in `setup()`), and every
state a returning call of `button1Down`, `moveCursor` or `flip3` leads to from
such a state. A new deal while a chain is held is not clean play: `initialize()`
leaves `mHeldCard` as it is. -/
inductive CleanPlay : BoardState → Prop
  | init (draws : Nat → Nat) : CleanPlay (initializeBoard draws BoardState.fresh)
  | redeal (draws : Nat → Nat) (s : BoardState) : CleanPlay s → s.mHeldCard = none →
      CleanPlay (initializeBoard draws s)
  | button (s t : BoardState) : CleanPlay s → button1Down s = .ok t → CleanPlay t
  | move (s t : BoardState) (dx dy : Int) : CleanPlay s → moveCursor s dx dy = .ok t →
      CleanPlay t
  | flip (s : BoardState) : CleanPlay s → CleanPlay (flip3 s)

/-- The pointer a pile starts at: the anchor of a tableau column or foundation,
`mDeck` for the draw/waste chain, `mHeldCard` for the held chain. -/
def pileHead (s : BoardState) (p : Nat) : Option Nat :=
  if p < 7 then s.mBoard p
  else if p < 11 then some (stackBase (p - 7))
  else if p = 11 then s.mDeck
  else s.mHeldCard

/-- The number of cards dealt before tableau column `p` is started: `0, 1, 3, 6, ...`. -/
def tri : Nat → Nat
  | 0 => 0
  | p + 1 => tri p + (p + 1)

/-- The `k` cards `src cur, src (cur + 1), ...` that consecutive reads
`mSourceDeck[curCard++]` deliver from index `cur` on. -/
def run (src : Nat → Nat) (cur k : Nat) : List Nat :=
  (List.range k).map (fun j => src (cur + j))

/-- The piles `initialize` deals from the shuffled deck `src`: column `p` gets
`p + 1` cards, the draw chain the remaining 24, and the foundations and the held
chain are empty. -/
def dealtLayout (src : Nat → Nat) : Layout :=
  fun p => if p < 7 then run src (tri p) (p + 1) else if p = 11 then run src 28 24 else []

/-- The array `src` holds each of the 52 card addresses exactly once. -/
def Perm52 (src : Nat → Nat) : Prop :=
  (∀ i, i < 52 → src i < 52) ∧
  (∀ i j, i < 52 → j < 52 → src i = src j → i = j) ∧
  (∀ c, c < 52 → ∃ i, i < 52 ∧ src i = c)

/-! ## Drawing: the bookkeeping of `draw()` (every `tft` call, which only paints, is left out) -/

/-- The bookkeeping of `drawCard`: the rectangle of the card `cardHint` is
recorded in `LastDrawnAt`, and it is added to the dirty region unless it misses
the region (the early `return`). Without a hint nothing is recorded. -/
def drawCard (s : BoardState) (atx aty : Int) (cardHint : Option Nat) (drawSmall : Bool) :
    BoardState :=
  match cardHint with
  | none => s
  | some c =>
    let r : Rect := ⟨atx, aty, 21, 28 - (if drawSmall then 12 else 0)⟩
    { s with heap := setLastDrawnAt s.heap c r,
             mDirtyRegion := if r.intersects s.mDirtyRegion then s.mDirtyRegion.expand r
                             else s.mDirtyRegion }

/-- The bookkeeping of `drawCardBack`, the same as that of `drawCard`. -/
def drawCardBack (s : BoardState) (atx aty : Int) (cardHint : Option Nat) (drawSmall : Bool) :
    BoardState :=
  match cardHint with
  | none => s
  | some c =>
    let r : Rect := ⟨atx, aty, 21, 28 - (if drawSmall then 12 else 0)⟩
    { s with heap := setLastDrawnAt s.heap c r,
             mDirtyRegion := if r.intersects s.mDirtyRegion then s.mDirtyRegion.expand r
                             else s.mDirtyRegion }

/-- The rectangle `drawCursor(x, y)` and `drawGrabCursor(x, y)` register: 21 by 28 at
the `uint8_t` position. -/
def cursorRect (x y : Int) : Rect := ⟨wrapU8 x, wrapU8 y, 21, 28⟩

/-- The bookkeeping of `drawCursor`. -/
def drawCursor (s : BoardState) (x y : Int) : BoardState :=
  { s with mDirtyRegion := s.mDirtyRegion.expand (cursorRect x y) }

/-- The bookkeeping of `drawGrabCursor`. -/
def drawGrabCursor (s : BoardState) (x y : Int) : BoardState :=
  { s with mDirtyRegion := s.mDirtyRegion.expand (cursorRect x y) }

/-- The state of a `draw()` pass: the board, and where the cursor was drawn
(`cursorAtX`, `cursorAtY`). -/
structure Pass where
  st : BoardState
  cursorAtX : Int
  cursorAtY : Int

/-- The four clamping statements at the start of `draw()`. -/
def clampDirty (r : Rect) : Rect :=
  let x := if r.X < 0 then 0 else r.X
  let y := if r.Y < 0 then 0 else r.Y
  let w := if x + r.W > 160 then 160 - x else r.W
  let h := if y + r.H > 128 then 128 - y else r.H
  ⟨x, y, w, h⟩

/-- The loop `for (int i = 0; i < 2; ++i) if (cur && cur->Prev) { cur = cur->Prev; ++cardsToDraw; }`
with `k` iterations left; returns `cur` and `cardsToDraw`. -/
def stepBack (h : Heap) : Nat → Nat → Int → Nat × Int
  | 0, cur, n => (cur, n)
  | k + 1, cur, n =>
    match (h cur).Prev with
    | some p => stepBack h k p (n + 1)
    | none => stepBack h k cur n

/-- The loop `for (int i = 0; i < cardsToDraw; ++i)` over the revealed waste
cards, from `i` with `k` iterations left. -/
def drawWaste (cardsToDraw : Int) : Nat → Int → Option Nat → Pass → Pass
  | 0, _, _, p => p
  | k + 1, i, cur, p =>
    match cur with
    | none => drawWaste cardsToDraw k (i + 1) cur p
    | some c =>
      let s := drawCard p.st (22 + 14 * i) 2 (some c) true
      let p1 : Pass :=
        if s.mCursorLocationX = 1 ∧ s.mCursorLocationY = 0 ∧
            (i = cardsToDraw - 1 ∨ (s.heap c).Next = none) then
          ⟨drawCursor s (22 + 14 * i) 2, 22 + 14 * i, 2⟩
        else ⟨s, p.cursorAtX, p.cursorAtY⟩
      drawWaste cardsToDraw k (i + 1) (p1.st.heap c).Next p1

/-- The loop `for (int stackN = 0; stackN < 4; ++stackN)` over the foundations,
from `stackN` with `k` iterations left. -/
def drawStacks : Nat → Nat → Pass → Except Fault Pass
  | 0, _, p => .ok p
  | k + 1, stackN, p => do
    let cur ← deref (p.st.mStacks stackN)
    let s :=
      if (p.st.heap cur).isempty then p.st
      else drawCard p.st (75 + (stackN : Int) * 22) 2 (some cur) true
    let p1 : Pass :=
      if s.mCursorLocationY = 0 ∧ s.mCursorLocationX = stackN + 2 then
        ⟨drawCursor s (75 + (stackN : Int) * 22) 2, 75 + (stackN : Int) * 22, 2⟩
      else ⟨s, p.cursorAtX, p.cursorAtY⟩
    drawStacks k (stackN + 1) p1

/-- The loop `while (cur)` over the cards of tableau column `stackN`. -/
def drawColumn (stackN : Nat) : Nat → Option Nat → Int → Int → Pass → Except Fault Pass
  | 0, _, _, _, _ => .error .diverge
  | fuel + 1, cur, depth, cardN, p =>
    match cur with
    | none => .ok p
    | some c =>
      let oldDepth := depth
      let s :=
        if (p.st.heap c).FaceUp then drawCard p.st (3 + 22 * (stackN : Int)) (17 + depth) (some c) false
        else drawCardBack p.st (3 + 22 * (stackN : Int)) (17 + depth) (some c)
          (decide ((p.st.heap c).Next ≠ none))
      let depth := if (p.st.heap c).FaceUp then depth + 8 else depth + 4
      let cardN := cardN + 1
      let p1 : Pass :=
        if (s.mCursorLocationX : Int) = stackN ∧ (s.mCursorLocationY : Int) = cardN then
          ⟨drawCursor s (3 + 22 * (stackN : Int)) (17 + oldDepth), 3 + 22 * (stackN : Int),
            17 + oldDepth⟩
        else ⟨s, p.cursorAtX, p.cursorAtY⟩
      drawColumn stackN fuel (p1.st.heap c).Next depth cardN p1

/-- The loop `for (int stackN = 0; stackN < 7; ++stackN)` over the tableau,
from `stackN` with `k` iterations left. -/
def drawBoard : Nat → Nat → Pass → Except Fault Pass
  | 0, _, p => .ok p
  | k + 1, stackN, p => do
    let base ← deref (p.st.mBoard stackN)
    let cur := (p.st.heap base).Next
    let p1 : Pass :=
      if cur = none ∧ p.st.mCursorLocationX = stackN ∧ p.st.mCursorLocationY = 1 then
        ⟨drawCursor p.st (3 + 22 * (stackN : Int)) 17, 3 + 22 * (stackN : Int), 17⟩
      else p
    let p2 ← drawColumn stackN loopFuel cur 0 0 p1
    drawBoard k (stackN + 1) p2

/-- The loop `while (cur) { ++depth; drawCard(...); cur = cur->Next; }` over the
held cards behind the first. -/
def drawHeldRest (atx aty : Int) : Nat → Option Nat → Int → BoardState → Except Fault BoardState
  | 0, _, _, _ => .error .diverge
  | fuel + 1, cur, depth, s =>
    match cur with
    | none => .ok s
    | some c =>
      let s1 := drawCard s atx (aty + (depth + 1) * 8) (some c) false
      drawHeldRest atx aty fuel (s1.heap c).Next (depth + 1) s1

/-- The method `BoardState::draw`. -/
def draw (s : BoardState) : Except Fault BoardState := do
  let s := { s with mDirtyRegion := clampDirty s.mDirtyRegion }
  let s :=
    match s.mTopOfDeck with
    | none => drawCardBack s 1 2 none true
    | some top => if (s.heap top).Next ≠ none then drawCardBack s 1 2 none true else s
  let s := if s.mCursorLocationX = 0 ∧ s.mCursorLocationY = 0 then drawCursor s 1 2 else s
  let p0 : Pass := ⟨s, 0, 0⟩
  let p1 : Pass :=
    match s.mTopOfDeck with
    | some top =>
      let r := stepBack s.heap 2 top 1
      drawWaste r.2 r.2.toNat 0 (some r.1) p0
    | none =>
      if s.mCursorLocationX = 1 ∧ s.mCursorLocationY = 0 then ⟨drawCursor s 22 2, 22, 2⟩
      else p0
  let p2 ← drawStacks 4 0 p1
  let p3 ← drawBoard 7 0 p2
  let s3 ←
    match p3.st.mHeldCard with
    | some held =>
      let s1 := drawCard p3.st (p3.cursorAtX + 7) (p3.cursorAtY + 7) (some held) false
      let s2 := drawGrabCursor s1 (p3.cursorAtX + 7) (p3.cursorAtY + 7)
      drawHeldRest (p3.cursorAtX + 7) (p3.cursorAtY + 7) loopFuel (s2.heap held).Next 0 s2
    | none => .ok p3.st
  let r ← expandChain s3.heap loopFuel s3.mHeldCard ⟨p3.cursorAtX, p3.cursorAtY, 20, 29⟩
  .ok { s3 with mDirtyRegion := r }

/-- The calls `setup()` makes at program start and again whenever pin 14 is
low: `initialize()`, then `flip3()` (the `draw()` that follows is left out);
`draws` are the values of `rand()` in the shuffle. -/
def restart (draws : Nat → Nat) (s : BoardState) : BoardState :=
  flip3 (initializeBoard draws s)

/-- The values of `rand()` for a shuffle that swaps `mDeck[0]` and `mDeck[1]`
and leaves every other pointer in place. -/
def swapDraws : Nat → Nat := fun i => if i = 0 then 1 else 0

/-- A game from program start, with every shuffle draw 0, in which the ace of
hearts (card 0) is picked up from tableau column 0: `moveCursor(-1, 0)`,
`moveCursor(0, +1)`, `button1Down()`. -/
def acePickedUp : Except Fault BoardState :=
  moveCursor (restart (fun _ => 0) BoardState.fresh) (-1) 0
    >>= fun a => moveCursor a 0 1 >>= button1Down

/-- The game `acePickedUp`, then pin 14 (a new deal that swaps the first two
cards of the deck), `moveCursor(1, 0)` and `button1Down()`. -/
def aceRedealt : Except Fault BoardState :=
  acePickedUp >>= fun a => moveCursor (restart swapDraws a) 1 0 >>= button1Down

/-! # Properties -/

/-! ## Card identities and rectangles -/

theorem fromhash_tohash_cases (n s : Nat) (hn1 : 1 ≤ n) (hn : n ≤ 13) (hs : s ≤ 3) :
    CardId.fromhash (CardId.tohash ⟨n, s⟩) = ⟨n, s⟩ ∧ 0 ≤ CardId.tohash ⟨n, s⟩ ∧
      CardId.tohash ⟨n, s⟩ ≤ 51 := by
  interval_cases n <;> interval_cases s <;> decide

/-- C1: `tohash` and `fromhash` are mutually inverse: every hash in `0..51` is
recovered from the identity it decodes to, and every identity with rank in
`1..13` and suit in `0..3` is recovered from its hash, which lies in `0..51`. -/
theorem tohash_fromhash_inverse (h : Int) (c : CardId) (hh : 0 ≤ h ∧ h ≤ 51)
    (hc : 1 ≤ c.mNumber ∧ c.mNumber ≤ 13 ∧ c.mSuit ≤ 3) :
    CardId.tohash (CardId.fromhash h) = h ∧
      CardId.fromhash (CardId.tohash c) = c ∧ 0 ≤ CardId.tohash c ∧ CardId.tohash c ≤ 51 := by
  refine ⟨?_, ?_⟩
  · obtain ⟨h0, h1⟩ := hh
    interval_cases h <;> decide
  · obtain ⟨n, s⟩ := c
    exact fromhash_tohash_cases n s hc.1 hc.2.1 hc.2.2

theorem tohash_fromhash_inverse_witness :
    CardId.tohash (CardId.fromhash 37) = 37 ∧
      CardId.fromhash (CardId.tohash ⟨12, 2⟩) = ⟨12, 2⟩ ∧ 0 ≤ CardId.tohash ⟨12, 2⟩ ∧
      CardId.tohash ⟨12, 2⟩ ≤ 51 :=
  tohash_fromhash_inverse 37 ⟨12, 2⟩ (by decide) (by decide)

theorem Rect.expand_of_empty (a b : Rect) (hb : b.W = 0 ∨ b.H = 0) : a.expand b = a := by
  simp [Rect.expand, hb]

theorem Rect.expand_contains (a b : Rect) (hb : 0 < b.W ∧ 0 < b.H) :
    (a.expand b).contains a ∧ (a.expand b).contains b ∧
      ∀ c : Rect, c.contains a → c.contains b → c.contains (a.expand b) := by
  have h1 : ¬ (b.W = 0 ∨ b.H = 0) := by omega
  simp only [Rect.expand, h1, if_false, Rect.contains]
  refine ⟨?_, ?_, ?_⟩
  · refine ⟨min_le_left _ _, min_le_left _ _, ?_, ?_⟩ <;>
      simp only [add_sub_cancel, le_max_iff, le_refl, true_or]
  · refine ⟨min_le_right _ _, min_le_right _ _, ?_, ?_⟩ <;>
      simp only [add_sub_cancel, le_max_iff, le_refl, or_true]
  · intro c hca hcb
    refine ⟨le_min hca.1 hcb.1, le_min hca.2.1 hcb.2.1, ?_, ?_⟩ <;>
      simp only [add_sub_cancel, max_le_iff]
    · exact ⟨hca.2.2.1, hcb.2.2.1⟩
    · exact ⟨hca.2.2.2, hcb.2.2.2⟩

theorem Chain.next_getElem {h : Heap} : ∀ {l : List Nat} {p : Option Nat}, Chain h l p →
    ∀ (i : Nat) (a : Nat), l[i]? = some a → (h a).Next = l[i + 1]?
  | [], _, _, i, a, hi => by simp at hi
  | b :: l, p, hc, 0, a, hi => by
    simp at hi
    subst hi
    cases l with
    | nil => simpa [Chain] using hc.2
    | cons c l => simpa [Chain] using hc.2.1
  | b :: l, p, hc, i + 1, a, hi => by
    simp at hi
    simpa using Chain.next_getElem hc.2 i a hi

theorem Chain.head {h : Heap} {l : List Nat} {p : Option Nat} (hc : Chain h l p) : p = l[0]? := by
  cases l with
  | nil => simpa [Chain] using hc
  | cons a l => simpa [Chain] using hc.1

/-! ## flip3 -/

theorem advanceTop_chain {h : Heap} {l : List Nat} {p : Option Nat} (hc : Chain h l p) :
    ∀ (k i a : Nat), l[i]? = some a → some (advanceTop h k a) = l[min (i + k) (l.length - 1)]?
  | 0, i, a, hi => by
    have hlt : i < l.length := by
      rcases Nat.lt_or_ge i l.length with h1 | h1
      · exact h1
      · rw [List.getElem?_eq_none h1] at hi; cases hi
    simp only [advanceTop, Nat.add_zero]
    rw [show min i (l.length - 1) = i by omega, hi]
  | k + 1, i, a, hi => by
    have hlt : i < l.length := by
      rcases Nat.lt_or_ge i l.length with h1 | h1
      · exact h1
      · rw [List.getElem?_eq_none h1] at hi; cases hi
    have hn := Chain.next_getElem hc i a hi
    rcases Nat.lt_or_ge (i + 1) l.length with h1 | h1
    · have hb : l[i + 1]? = some l[i + 1] := List.getElem?_eq_getElem h1
      rw [hb] at hn
      simp only [advanceTop, hn]
      rw [advanceTop_chain hc k (i + 1) _ hb]
      congr 1
      omega
    · rw [List.getElem?_eq_none h1] at hn
      simp only [advanceTop, hn]
      rw [advanceTop_chain hc k i a hi]
      congr 1
      omega

/-- C12: with the draw/waste chain `l` (of length `n`) hanging from `mDeck` and
`mTopOfDeck` pointing at its `w`-th card (null for `w = 0`), `flip3` moves
`mTopOfDeck` to position `min (w + 3) n` when `w < n` and to the null pointer
(position 0) when `w = n`; in every state it leaves the heap (all `Next`/`Prev`
links), `mDeck`, the foundations and the tableau unchanged. -/
theorem flip3_advances (s : BoardState) (l : List Nat) (w : Nat)
    (hc : Chain s.heap l s.mDeck) (hw : w ≤ l.length) (htop : s.mTopOfDeck = nthPtr l w) :
    (flip3 s).mTopOfDeck = nthPtr l (if w < l.length then min (w + 3) l.length else 0) ∧
      (flip3 s).heap = s.heap ∧ (flip3 s).mDeck = s.mDeck ∧
      (flip3 s).mStacks = s.mStacks ∧ (flip3 s).mBoard = s.mBoard := by
  have hframe : (flip3 s).heap = s.heap ∧ (flip3 s).mDeck = s.mDeck ∧
      (flip3 s).mStacks = s.mStacks ∧ (flip3 s).mBoard = s.mBoard := by
    unfold flip3
    repeat' split
    all_goals simp
  refine ⟨?_, hframe⟩
  cases w with
  | zero =>
    simp only [nthPtr] at htop
    cases l with
    | nil =>
      have hd : s.mDeck = none := by simpa [Chain] using hc
      simp [flip3, htop, hd, nthPtr]
    | cons a l =>
      have hd : s.mDeck = some a := by simpa [Chain] using hc.1
      have h2 := advanceTop_chain hc 2 0 a (by simp)
      have e : min (0 + 3) (a :: l).length = min (0 + 2) ((a :: l).length - 1) + 1 := by
        simp only [List.length_cons]; omega
      simp only [flip3, htop, hd, List.length_cons, Nat.zero_lt_succ, if_true]
      rw [h2]
      simp only [List.length_cons] at e
      rw [e]
      simp [nthPtr]
  | succ w =>
    simp only [nthPtr] at htop
    have hlt : w < l.length := hw
    have hw' : l[w]? = some l[w] := List.getElem?_eq_getElem hlt
    rw [hw'] at htop
    have hn := Chain.next_getElem hc w _ hw'
    rcases Nat.lt_or_ge (w + 1) l.length with h1 | h1
    · have hb : l[w + 1]? = some l[w + 1] := List.getElem?_eq_getElem h1
      rw [hb] at hn
      have h3 := advanceTop_chain hc 3 w _ hw'
      have e : min (w + 1 + 3) l.length = min (w + 3) (l.length - 1) + 1 := by omega
      simp only [flip3, htop, hn, h1, if_true]
      rw [h3, e]
      simp [nthPtr]
    · rw [List.getElem?_eq_none h1] at hn
      have : ¬ (w + 1 < l.length) := by omega
      simp [flip3, htop, hn, this, nthPtr]

theorem flip3_advances_witness :
    (flip3 { BoardState.fresh with mDeck := some 0 }).mTopOfDeck =
        nthPtr [0] (if 0 < [0].length then min (0 + 3) [0].length else 0) ∧
      (flip3 { BoardState.fresh with mDeck := some 0 }).heap =
        ({ BoardState.fresh with mDeck := some 0 } : BoardState).heap ∧
      (flip3 { BoardState.fresh with mDeck := some 0 }).mDeck =
        ({ BoardState.fresh with mDeck := some 0 } : BoardState).mDeck ∧
      (flip3 { BoardState.fresh with mDeck := some 0 }).mStacks =
        ({ BoardState.fresh with mDeck := some 0 } : BoardState).mStacks ∧
      (flip3 { BoardState.fresh with mDeck := some 0 }).mBoard =
        ({ BoardState.fresh with mDeck := some 0 } : BoardState).mBoard :=
  flip3_advances { BoardState.fresh with mDeck := some 0 } [0] 0 (by decide) (by decide) rfl

/-! ## Input-level no-ops -/

theorem expandChain_none (h : Heap) (r : Rect) : expandChain h loopFuel none r = .ok r := rfl

theorem invalidateHeld_of_none (s : BoardState) (hheld : s.mHeldCard = none) :
    invalidateHeld s = .ok s := by
  cases s
  simp only at hheld
  subst hheld
  rfl

/-- C13: with nothing held, `button1Down` with the cursor on an empty
foundation, on an empty tableau column, or on the waste slot while the waste is
empty returns normally with the state unchanged, and `flip3` with an empty draw
chain and an empty waste returns the state unchanged. -/
theorem button1Down_noop (s : BoardState) (hheld : s.mHeldCard = none) :
    (∀ i a, i < 4 → s.mCursorLocationX = i + 2 → s.mCursorLocationY = 0 →
        s.mStacks i = some a → (s.heap a).isempty = true → button1Down s = .ok s) ∧
      (∀ b, s.mCursorLocationX < 7 → 0 < s.mCursorLocationY →
        s.mBoard s.mCursorLocationX = some b → (s.heap b).Next = none → button1Down s = .ok s) ∧
      (s.mCursorLocationX = 1 → s.mCursorLocationY = 0 → s.mTopOfDeck = none →
        button1Down s = .ok s) ∧
      (s.mDeck = none → s.mTopOfDeck = none → flip3 s = s) := by
  refine ⟨?_, ?_, ?_, ?_⟩
  · intro i a hi hx hy hst hemp
    have hp : pickUp s = .ok s := by
      have hx1 : ¬ (s.mCursorLocationX = 1) := by omega
      have hx2 : 2 ≤ s.mCursorLocationX ∧ s.mCursorLocationX - 2 < 4 := by omega
      have hx3 : s.mCursorLocationX - 2 = i := by omega
      simp [pickUp, hy, hx1, pickUpStack, hx2, hx3, hst, deref, bind, Except.bind, hemp, hi]
    have hx0 : ¬ (s.mCursorLocationX = 0 ∧ s.mCursorLocationY = 0) := by omega
    simp only [button1Down, hheld, Option.isSome_none, Bool.false_eq_true, if_false, hx0, hp,
      bind, Except.bind]
    exact invalidateHeld_of_none s hheld
  · intro b hx hy hb hn
    have hp : pickUp s = .ok s := by
      have hy0 : ¬ (s.mCursorLocationY = 0) := by omega
      simp only [pickUp, hy0, if_false, pickUpBoard, hx, if_true, hb, deref, bind, Except.bind, hn]
    have hx0 : ¬ (s.mCursorLocationX = 0 ∧ s.mCursorLocationY = 0) := by omega
    simp only [button1Down, hheld, Option.isSome_none, Bool.false_eq_true, if_false, hx0, hp,
      bind, Except.bind]
    exact invalidateHeld_of_none s hheld
  · intro hx hy ht
    have hp : pickUp s = .ok s := by
      simp only [pickUp, hy, if_true, hx, pickUpDeck, ht]
    have hx0 : ¬ (s.mCursorLocationX = 0 ∧ s.mCursorLocationY = 0) := by omega
    simp only [button1Down, hheld, Option.isSome_none, Bool.false_eq_true, if_false, hx0, hp,
      bind, Except.bind]
    exact invalidateHeld_of_none s hheld
  · intro hd ht
    simp only [flip3, ht, hd]

theorem button1Down_noop_witness :
    button1Down (initializeBoard (fun _ => 0) BoardState.fresh) =
      .ok (initializeBoard (fun _ => 0) BoardState.fresh) :=
  (button1Down_noop (initializeBoard (fun _ => 0) BoardState.fresh) rfl).2.2.1 rfl rfl rfl

/-! ## Arithmetic of the cursor -/

theorem wrapInt_of_small (x : Int) (h1 : -32768 ≤ x) (h2 : x < 32768) : wrapInt x = x := by
  unfold wrapInt
  omega

/-- On the small operands of the cursor code `smartmod` is the mathematical
remainder, never negative. -/
theorem smartmod_eq (a b : Int) (hb : 0 < b) (hb' : b ≤ 100) (ha1 : -100 ≤ a) (ha2 : a ≤ 300) :
    smartmod a b = .ok (a % b) := by
  have hb0 : ¬ (b = 0) := by omega
  have hp1 : a * b ≤ 30000 := by nlinarith
  have hp2 : -10000 ≤ a * b := by nlinarith
  simp only [smartmod, hb0, if_false]
  refine congrArg Except.ok ?_
  rw [wrapInt_of_small (a * b) (by omega) (by omega)]
  rcases Int.lt_or_le a 0 with hneg | hpos
  · have hle : a * b ≤ 0 := by nlinarith
    have habs : (((a * b).natAbs : Nat) : Int) = (-a) * b := by
      rw [Int.ofNat_natAbs_of_nonpos hle]; ring
    rw [habs]
    have h3 : 0 ≤ (-a) * b + a := by nlinarith
    rw [wrapInt_of_small ((-a) * b) (by nlinarith) (by nlinarith),
      wrapInt_of_small ((-a) * b + a) (by omega) (by nlinarith),
      Int.tmod_eq_emod h3 (by omega), Int.add_comm, Int.add_mul_emod_self]
  · have hge : 0 ≤ a * b := by nlinarith
    have habs : (((a * b).natAbs : Nat) : Int) = a * b := Int.natAbs_of_nonneg hge
    rw [habs]
    rw [wrapInt_of_small (a * b) (by omega) (by omega),
      wrapInt_of_small (a * b + a) (by omega) (by omega),
      Int.tmod_eq_emod (by omega) (by omega), Int.add_comm, Int.add_mul_emod_self]

theorem sizeLoop_chain (h : Heap) : ∀ (l : List Nat) (fuel c count : Nat),
    Chain h l (h c).Next → l.length < fuel → count + l.length < 256 →
      sizeLoop h fuel c count = .ok (count + l.length)
  | [], fuel, c, count, hc, hf, _ => by
    cases fuel with
    | zero => simp at hf
    | succ fuel =>
      have hn : (h c).Next = none := by simpa [Chain] using hc
      simp [sizeLoop, hn]
  | a :: l, fuel, c, count, hc, hf, hcount => by
    cases fuel with
    | zero => simp at hf
    | succ fuel =>
      have hn : (h c).Next = some a := by simpa [Chain] using hc.1
      simp only [List.length_cons] at hf hcount
      simp only [sizeLoop, hn]
      rw [Nat.mod_eq_of_lt (by omega),
        sizeLoop_chain h l fuel a (count + 1) hc.2 (by omega) (by omega)]
      simp only [List.length_cons]
      refine congrArg Except.ok ?_
      omega

/-- Tableau column `n` consists of the anchor `b` followed by the cards `l`. -/
theorem getBoardStackSize_chain (s : BoardState) (n b : Nat) (l : List Nat) (hn : n < 7)
    (hb : s.mBoard n = some b) (hc : Chain s.heap l (s.heap b).Next) (hl : l.length ≤ 52) :
    getBoardStackSize s n = .ok l.length := by
  simp only [getBoardStackSize, hn, if_true, hb]
  rw [sizeLoop_chain s.heap l loopFuel b 0 hc (by simp [loopFuel, heapSize]; omega) (by omega)]
  simp


theorem ok_bind {α β : Type} (a : α) (f : α → Except Fault β) : (Except.ok a >>= f) = f a := rfl

theorem error_bind {α β : Type} (e : Fault) (f : α → Except Fault β) :
    ((Except.error e : Except Fault α) >>= f) = .error e := rfl

theorem wrapU8_natCast (n : Nat) (h : n < 256) : wrapU8 (n : Int) = n := by
  unfold wrapU8
  omega

theorem moveCursorX_zero (s : BoardState) : moveCursorX s 0 = .ok s := by
  unfold moveCursorX
  rw [if_neg (by decide)]

theorem moveCursorAdjust_row0 (s : BoardState) (dy : Int) (h : s.mCursorLocationY = 0) :
    moveCursorAdjust s dy = .ok s := by
  unfold moveCursorAdjust
  rw [if_neg (by omega)]

theorem moveCursor_browse (s : BoardState) (dx dy : Int) (hheld : s.mHeldCard = none) :
    moveCursor s dx dy =
      (moveCursorY s dy >>= fun s1 => moveCursorX s1 dx >>= fun s2 => moveCursorAdjust s2 dy) := by
  unfold moveCursor
  rw [hheld]
  rfl

/-- Vertical motion from a tableau row onto row 0: the step taken when the new
row `(y + dy) mod (size + 1)` is 0. -/
theorem moveCursorY_to_top (s : BoardState) (b : Nat) (l : List Nat) (dy : Int)
    (hc : s.mCursorLocationX < 7) (hb : s.mBoard s.mCursorLocationX = some b)
    (hl : Chain s.heap l (s.heap b).Next) (h52 : l.length ≤ 52) (hdy : dy ≠ 0)
    (hy0 : s.mCursorLocationY ≠ 0)
    (hm : smartmod ((s.mCursorLocationY : Int) + dy) ((l.length : Int) + 1) = .ok 0) :
    moveCursorY s dy = .ok { s with mCursorLocationY := 0,
                                    mCursorLocationX := boardXtoToprowX s.mCursorLocationX } := by
  unfold moveCursorY
  rw [if_pos hdy, if_neg hy0, getBoardStackSize_chain s _ b l hc hb hl h52, ok_bind, hm, ok_bind]
  rfl

/-- C7: with nothing held and the cursor in tableau column `c`, whose pile
holds the `s >= 1` cards `l` (whatever their face-up flags), `moveCursor(0,-1)`
from row 1 and `moveCursor(0,+1)` from row `s` both put the cursor on
`(boardXtoToprowX c, 0)` and change nothing else: downward motion from the last
row wraps to row 0. -/
theorem moveCursor_vertical_wrap (s : BoardState) (c b : Nat) (l : List Nat)
    (hheld : s.mHeldCard = none) (hc : c < 7) (hx : s.mCursorLocationX = c)
    (hb : s.mBoard c = some b) (hl : Chain s.heap l (s.heap b).Next)
    (h1 : 1 ≤ l.length) (h52 : l.length ≤ 52) :
    (s.mCursorLocationY = 1 → moveCursor s 0 (-1) =
        .ok { s with mCursorLocationX := boardXtoToprowX c, mCursorLocationY := 0 }) ∧
      (s.mCursorLocationY = l.length → moveCursor s 0 1 =
        .ok { s with mCursorLocationX := boardXtoToprowX c, mCursorLocationY := 0 }) := by
  subst hx
  constructor
  · intro hy
    have hm : smartmod ((s.mCursorLocationY : Int) + (-1)) ((l.length : Int) + 1) = .ok 0 := by
      rw [smartmod_eq _ _ (by omega) (by omega) (by omega) (by omega), hy]
      simp
    rw [moveCursor_browse s 0 (-1) hheld,
      moveCursorY_to_top s b l (-1) hc hb hl h52 (by decide) (by omega) hm, ok_bind,
      moveCursorX_zero, ok_bind, moveCursorAdjust_row0 _ _ rfl]
  · intro hy
    have hm : smartmod ((s.mCursorLocationY : Int) + 1) ((l.length : Int) + 1) = .ok 0 := by
      rw [smartmod_eq _ _ (by omega) (by omega) (by omega) (by omega), hy]
      simp
    rw [moveCursor_browse s 0 1 hheld,
      moveCursorY_to_top s b l 1 hc hb hl h52 (by decide) (by omega) hm, ok_bind,
      moveCursorX_zero, ok_bind, moveCursorAdjust_row0 _ _ rfl]

/-- The scan of `moveCursor` over the cards `l` of a column stops on row `j + 1`
when the card there is face-up, `y <= j + 1`, and every earlier row it visits is
face-down or above row `y`. -/
theorem skipFaceDown_chain (h : Heap) (y : Nat) (l : List Nat) (j : Nat) (cj : Nat)
    (hj : l[j]? = some cj) (hup : (h cj).FaceUp = true) (hy : y ≤ j + 1) (hl : l.length ≤ 52)
    (hc : ∀ i a, l[i]? = some a → (h a).Next = l[i + 1]?) :
    ∀ (d fuel k : Nat), k + d = j → d < fuel →
      (∀ i a, k ≤ i → i < j → l[i]? = some a → (h a).FaceUp = false ∨ i + 1 < y) →
      skipFaceDown h y fuel l[k]? ((k : Int) + 1) = .ok ((j : Int) + 1)
  | 0, fuel, k, hk, hf, _ => by
    have hkj : k = j := by omega
    subst hkj
    cases fuel with
    | zero => omega
    | succ fuel =>
      rw [hj]
      unfold skipFaceDown
      have hcond : ¬ ((h cj).FaceUp = false ∨ ((k : Int) + 1) < (y : Int)) := by
        rw [hup]
        simp only [Bool.true_eq_false, false_or, not_lt]
        omega
      simp only [hcond, if_false]
  | d + 1, fuel, k, hk, hf, hskip => by
    cases fuel with
    | zero => omega
    | succ fuel =>
      have hlen : j < l.length := by
        rcases Nat.lt_or_ge j l.length with h1 | h1
        · exact h1
        · rw [List.getElem?_eq_none h1] at hj; cases hj
      have hk' : l[k]? = some l[k] := List.getElem?_eq_getElem (by omega)
      have hcond : (h l[k]).FaceUp = false ∨ ((k : Int) + 1) < (y : Int) := by
        rcases hskip k _ (le_refl _) (by omega) hk' with h1 | h1
        · exact Or.inl h1
        · exact Or.inr (by omega)
      rw [hk']
      unfold skipFaceDown
      simp only [hcond, if_true]
      rw [hc k _ hk', wrapInt_of_small _ (by omega) (by omega)]
      have := skipFaceDown_chain h y l j cj hj hup hy hl hc d fuel (k + 1) (by omega) (by omega)
        (fun i a hi1 hi2 hia => hskip i a (by omega) hi2 hia)
      rw [← this]
      congr 1

theorem Chain.getElem_lt_of_some {l : List Nat} {i a : Nat} (h : l[i]? = some a) : i < l.length := by
  rcases Nat.lt_or_ge i l.length with h1 | h1
  · exact h1
  · rw [List.getElem?_eq_none h1] at h; cases h

/-- Vertical motion inside a tableau column to a row other than 0. -/
theorem moveCursorY_in_column (s : BoardState) (b : Nat) (l : List Nat) (dy : Int) (y' : Nat)
    (hc : s.mCursorLocationX < 7) (hb : s.mBoard s.mCursorLocationX = some b)
    (hl : Chain s.heap l (s.heap b).Next) (h52 : l.length ≤ 52) (hdy : dy ≠ 0)
    (hy0 : s.mCursorLocationY ≠ 0) (hy' : y' ≠ 0) (hy256 : y' < 256)
    (hm : smartmod ((s.mCursorLocationY : Int) + dy) ((l.length : Int) + 1) = .ok (y' : Int)) :
    moveCursorY s dy = .ok { s with mCursorLocationY := y' } := by
  unfold moveCursorY
  rw [if_pos hdy, if_neg hy0, getBoardStackSize_chain s _ b l hc hb hl h52, ok_bind, hm, ok_bind]
  simp only [wrapU8_natCast y' hy256, hy', if_false]

/-- The adjustment step in a column whose scan stops on row `j + 1`. -/
theorem moveCursorAdjust_scan (s : BoardState) (b : Nat) (l : List Nat) (dy : Int) (j cj : Nat)
    (hc : s.mCursorLocationX < 7) (hb : s.mBoard s.mCursorLocationX = some b)
    (hl : Chain s.heap l (s.heap b).Next) (h52 : l.length ≤ 52) (hdy : ¬ dy < 0)
    (hy0 : 0 < s.mCursorLocationY) (hj : l[j]? = some cj) (hup : (s.heap cj).FaceUp = true)
    (hy : s.mCursorLocationY ≤ j + 1)
    (hskip : ∀ i a, i < j → l[i]? = some a →
      (s.heap a).FaceUp = false ∨ i + 1 < s.mCursorLocationY) :
    moveCursorAdjust s dy = .ok { s with mCursorLocationY := j + 1 } := by
  have hjl := Chain.getElem_lt_of_some hj
  unfold moveCursorAdjust
  rw [if_pos hy0, if_neg hdy, if_pos hc, hb]
  simp only [deref, ok_bind]
  have hsk := skipFaceDown_chain s.heap s.mCursorLocationY l j cj hj hup hy h52
    (fun i a hia => Chain.next_getElem hl i a hia) j loopFuel 0 (by omega)
    (by simp [loopFuel, heapSize]; omega) (fun i a _ hi2 hia => hskip i a hi2 hia)
  rw [Chain.head hl]
  simp only [Nat.cast_zero, zero_add] at hsk
  rw [hsk, ok_bind]
  have : wrapU8 ((j : Int) + 1) = j + 1 := by
    have := wrapU8_natCast (j + 1) (by omega)
    simpa using this
  rw [this]

/-- C14 (as amended): with nothing held and the cursor on row `r` (in `1..s`) of
tableau column `c`, whose pile holds the `s` cards `l`: `moveCursor(0,-1)` puts
the cursor on row 0 (at `boardXtoToprowX c`) whatever `r` is; `moveCursor(0,+1)`
puts it on row `(r + 1) mod (s + 1)` when `r = s` or the card on row `r + 1` is
face-up. -/
theorem moveCursor_vertical_in_column (s : BoardState) (c b r : Nat) (l : List Nat)
    (hheld : s.mHeldCard = none) (hc : c < 7) (hx : s.mCursorLocationX = c)
    (hb : s.mBoard c = some b) (hl : Chain s.heap l (s.heap b).Next) (h52 : l.length ≤ 52)
    (hy : s.mCursorLocationY = r) (hr1 : 1 ≤ r) (hrs : r ≤ l.length) :
    moveCursor s 0 (-1) =
        .ok { s with mCursorLocationX := boardXtoToprowX c, mCursorLocationY := 0 } ∧
      ((r = l.length ∨ ∃ a, l[r]? = some a ∧ (s.heap a).FaceUp = true) →
        moveCursor s 0 1 =
          .ok { s with mCursorLocationX := if r = l.length then boardXtoToprowX c else c,
                       mCursorLocationY := (r + 1) % (l.length + 1) }) := by
  subst hx
  constructor
  · rw [moveCursor_browse s 0 (-1) hheld]
    rcases Nat.eq_or_lt_of_le hr1 with h1 | h1
    · have hm : smartmod ((s.mCursorLocationY : Int) + (-1)) ((l.length : Int) + 1) = .ok 0 := by
        rw [smartmod_eq _ _ (by omega) (by omega) (by omega) (by omega), hy, ← h1]
        simp
      rw [moveCursorY_to_top s b l (-1) hc hb hl h52 (by decide) (by omega) hm, ok_bind,
        moveCursorX_zero, ok_bind, moveCursorAdjust_row0 _ _ rfl]
    · have hm : smartmod ((s.mCursorLocationY : Int) + (-1)) ((l.length : Int) + 1) =
          .ok ((r - 1 : Nat) : Int) := by
        rw [smartmod_eq _ _ (by omega) (by omega) (by omega) (by omega), hy]
        refine congrArg Except.ok ?_
        rw [Int.emod_eq_of_lt (by omega) (by omega)]
        omega
      rw [moveCursorY_in_column s b l (-1) (r - 1) hc hb hl h52 (by decide) (by omega)
        (by omega) (by omega) hm, ok_bind, moveCursorX_zero, ok_bind]
      unfold moveCursorAdjust
      rw [if_pos (show 0 < r - 1 by omega), if_pos (by decide)]
  · intro hcase
    rw [moveCursor_browse s 0 1 hheld]
    by_cases hrl : r = l.length
    · have hm : smartmod ((s.mCursorLocationY : Int) + 1) ((l.length : Int) + 1) = .ok 0 := by
        rw [smartmod_eq _ _ (by omega) (by omega) (by omega) (by omega), hy, hrl]
        simp
      rw [moveCursorY_to_top s b l 1 hc hb hl h52 (by decide) (by omega) hm, ok_bind,
        moveCursorX_zero, ok_bind, moveCursorAdjust_row0 _ _ rfl, if_pos hrl, hrl]
      simp
    · obtain ⟨a, ha, hup⟩ := hcase.resolve_left hrl
      have hlt : r < l.length := Chain.getElem_lt_of_some ha
      have hm : smartmod ((s.mCursorLocationY : Int) + 1) ((l.length : Int) + 1) =
          .ok ((r + 1 : Nat) : Int) := by
        rw [smartmod_eq _ _ (by omega) (by omega) (by omega) (by omega), hy]
        refine congrArg Except.ok ?_
        rw [Int.emod_eq_of_lt (by omega) (by omega)]
        omega
      have hadj := moveCursorAdjust_scan { s with mCursorLocationY := r + 1 } b l 1 r a hc hb hl
        h52 (by decide) (Nat.succ_pos r) ha hup (le_refl _)
        (fun i a hi _ => Or.inr (by show i + 1 < r + 1; omega))
      rw [moveCursorY_in_column s b l 1 (r + 1) hc hb hl h52 (by decide) (by omega)
        (by omega) (by omega) hm, ok_bind, moveCursorX_zero, ok_bind, hadj,
        if_neg hrl, Nat.mod_eq_of_lt (by omega)]

theorem moveCursor_vertical_wrap_witness :
    moveCursor (threeUp 2 1) 0 (-1) =
        .ok { threeUp 2 1 with mCursorLocationX := boardXtoToprowX 2, mCursorLocationY := 0 } ∧
      moveCursor (threeUp 2 3) 0 1 =
        .ok { threeUp 2 3 with mCursorLocationX := boardXtoToprowX 2, mCursorLocationY := 0 } :=
  ⟨(moveCursor_vertical_wrap (threeUp 2 1) 2 54 [0, 1, 2] rfl (by decide) rfl rfl (by decide)
      (by decide) (by decide)).1 rfl,
    (moveCursor_vertical_wrap (threeUp 2 3) 2 54 [0, 1, 2] rfl (by decide) rfl rfl (by decide)
      (by decide) (by decide)).2 rfl⟩

/-- C14 (counterexample): in a column of three face-up cards, with nothing
held, `moveCursor(0,-1)` from row 2 leaves the cursor on row 0 (at top-row
column 1), while the wraparound formula gives `(2 - 1) mod 4 = 1`. -/
theorem moveCursor_up_not_modular :
    (threeUp 2 2).mHeldCard = none ∧
      Chain (threeUp 2 2).heap [0, 1, 2] ((threeUp 2 2).heap (boardBase 2)).Next ∧
      cursorOf (moveCursor (threeUp 2 2) 0 (-1)) = some (1, 0) ∧
      ((2 : Int) + (-1)) % (3 + 1) = 1 := by
  decide

theorem moveCursor_vertical_in_column_witness :
    moveCursor (threeUp 2 2) 0 (-1) =
        .ok { threeUp 2 2 with mCursorLocationX := boardXtoToprowX 2, mCursorLocationY := 0 } ∧
      moveCursor (threeUp 2 2) 0 1 =
        .ok { threeUp 2 2 with
              mCursorLocationX := if 2 = [0, 1, 2].length then boardXtoToprowX 2 else 2,
              mCursorLocationY := (2 + 1) % ([0, 1, 2].length + 1) } :=
  ⟨(moveCursor_vertical_in_column (threeUp 2 2) 2 54 2 [0, 1, 2] rfl (by decide) rfl rfl
      (by decide) (by decide) rfl (by decide) (by decide)).1,
    (moveCursor_vertical_in_column (threeUp 2 2) 2 54 2 [0, 1, 2] rfl (by decide) rfl rfl
      (by decide) (by decide) rfl (by decide) (by decide)).2 (Or.inr ⟨2, rfl, rfl⟩)⟩

/-! ## Entering the tableau, horizontal motion -/

theorem moveCursorY_zero (s : BoardState) : moveCursorY s 0 = .ok s := by
  unfold moveCursorY
  rw [if_neg (by decide)]

/-- With nothing held, any `moveCursor(0,+1)` from the top row into an empty
tableau column dereferences the missing first card. -/
theorem moveCursor_enter_empty_column (s : BoardState) (b : Nat) (hheld : s.mHeldCard = none)
    (hy : s.mCursorLocationY = 0) (hx : toprowXtoBoardX s.mCursorLocationX < 7)
    (hb : s.mBoard (toprowXtoBoardX s.mCursorLocationX) = some b)
    (hn : (s.heap b).Next = none) : moveCursor s 0 1 = .error .nullDeref := by
  rw [moveCursor_browse s 0 1 hheld]
  unfold moveCursorY
  rw [if_pos (by decide), if_pos hy, if_pos (by decide), ok_bind, moveCursorX_zero, ok_bind]
  unfold moveCursorAdjust
  have hy1 : wrapU8 ((s.mCursorLocationY : Int) + 1) = 1 := by rw [hy]; rfl
  simp only [hy1, Nat.lt_one_iff, if_true, hx, hb, deref, ok_bind, hn]
  rw [if_neg (by decide)]
  rfl

/-- C15 (the failing input): on the sample board, whose tableau column 0 is
empty, with nothing held and the cursor on `(0, 0)`, `moveCursor(0,+1)` does not
return: it dereferences the missing first card of the column. -/
theorem moveCursor_enter_empty_column_faults :
    (threeUp 0 0).mHeldCard = none ∧
      ((threeUp 0 0).heap (boardBase (toprowXtoBoardX 0))).Next = none ∧
      moveCursor (threeUp 0 0) 0 1 = .error .nullDeref :=
  ⟨rfl, by decide, moveCursor_enter_empty_column (threeUp 0 0) 52 rfl rfl (by decide) rfl
    (by decide)⟩

theorem wrapU8_of_small (m : Int) (h0 : 0 ≤ m) (h1 : m < 256) : wrapU8 m = m.toNat := by
  unfold wrapU8
  rw [Int.emod_eq_of_lt h0 h1]

theorem BoardState.setX_self (s : BoardState) : { s with mCursorLocationX := s.mCursorLocationX } = s := by
  cases s
  rfl

/-- A horizontal step on the top row. -/
theorem moveCursor_top_row (s : BoardState) (dx : Int) (hheld : s.mHeldCard = none)
    (hy : s.mCursorLocationY = 0) (hx : s.mCursorLocationX ≤ 5) (hdx : dx = 1 ∨ dx = -1) :
    moveCursor s dx 0 =
      .ok { s with mCursorLocationX := (((s.mCursorLocationX : Int) + dx) % 6).toNat } := by
  have hdx0 : dx ≠ 0 := by omega
  have hm : smartmod ((s.mCursorLocationX : Int) + dx) (5 + 1) =
      .ok (((s.mCursorLocationX : Int) + dx) % 6) := by
    rw [smartmod_eq _ _ (by omega) (by omega) (by omega) (by omega)]
    rfl
  have hw : wrapU8 (((s.mCursorLocationX : Int) + dx) % 6) =
      (((s.mCursorLocationX : Int) + dx) % 6).toNat := wrapU8_of_small _ (by omega) (by omega)
  have hX : moveCursorX s dx =
      .ok { s with mCursorLocationX := (((s.mCursorLocationX : Int) + dx) % 6).toNat } := by
    unfold moveCursorX
    rw [if_pos hdx0]
    simp only [hy, if_true, hm, ok_bind, hw, lt_self_iff_false, gt_iff_lt, if_false]
  rw [moveCursor_browse s dx 0 hheld, moveCursorY_zero, ok_bind, hX, ok_bind,
    moveCursorAdjust_row0
      { s with mCursorLocationX := (((s.mCursorLocationX : Int) + dx) % 6).toNat } 0 hy]

theorem repeatMove_top_row (dx : Int) (hdx : dx = 1 ∨ dx = -1) : ∀ (k : Nat) (s : BoardState),
    s.mHeldCard = none → s.mCursorLocationY = 0 → s.mCursorLocationX ≤ 5 →
    repeatMove dx 0 k s =
      .ok { s with mCursorLocationX := (((s.mCursorLocationX : Int) + k * dx) % 6).toNat }
  | 0, s, _, _, hx => by
    simp only [repeatMove, Nat.cast_zero, zero_mul, add_zero]
    rw [Int.emod_eq_of_lt (by omega) (by omega), Int.toNat_ofNat, BoardState.setX_self]
  | k + 1, s, hheld, hy, hx => by
    unfold repeatMove
    have hrec := repeatMove_top_row dx hdx k
      { s with mCursorLocationX := (((s.mCursorLocationX : Int) + dx) % 6).toNat } hheld hy
      (by show Int.toNat _ ≤ 5; omega)
    rw [moveCursor_top_row s dx hheld hy hx hdx, ok_bind, hrec]
    refine congrArg Except.ok ?_
    have : ((((((s.mCursorLocationX : Int) + dx) % 6).toNat : Nat) : Int) + (k : Int) * dx) % 6 =
        ((s.mCursorLocationX : Int) + ((k + 1 : Nat) : Int) * dx) % 6 := by
      rw [Int.toNat_of_nonneg (by omega)]
      rcases hdx with h | h <;> simp only [h] <;> push_cast <;> omega
    show ({ s with mCursorLocationX := Int.toNat _ } : BoardState) = _
    rw [this]

/-- A horizontal step below the top row, before the adjustment. -/
theorem moveCursorX_in_rows (s : BoardState) (dx : Int) (b : Nat) (l : List Nat)
    (hdx : dx = 1 ∨ dx = -1) (hy : 1 ≤ s.mCursorLocationY) (hx : s.mCursorLocationX ≤ 6)
    (hb : s.mBoard (((s.mCursorLocationX : Int) + dx) % 7).toNat = some b)
    (hl : Chain s.heap l (s.heap b).Next) (h52 : l.length ≤ 52) :
    moveCursorX s dx =
      .ok { s with mCursorLocationX := (((s.mCursorLocationX : Int) + dx) % 7).toNat,
                   mCursorLocationY := min s.mCursorLocationY l.length } := by
  have hdx0 : dx ≠ 0 := by omega
  have hy0 : ¬ (s.mCursorLocationY = 0) := by omega
  have hypos : s.mCursorLocationY > 0 := by omega
  have hm : smartmod ((s.mCursorLocationX : Int) + dx) (6 + 1) =
      .ok (((s.mCursorLocationX : Int) + dx) % 7) := by
    rw [smartmod_eq _ _ (by omega) (by omega) (by omega) (by omega)]
    rfl
  have hw : wrapU8 (((s.mCursorLocationX : Int) + dx) % 7) =
      (((s.mCursorLocationX : Int) + dx) % 7).toNat := wrapU8_of_small _ (by omega) (by omega)
  have hx7 : (((s.mCursorLocationX : Int) + dx) % 7).toNat < 7 := by omega
  have hsz := getBoardStackSize_chain s _ b l hx7 hb hl h52
  unfold moveCursorX
  rw [if_pos hdx0]
  simp only [hy0, if_false, hm, ok_bind, hw, hypos, if_true, hsz]

/-- C16: with nothing held and `dx` in `{-1, +1}`, `moveCursor(dx, 0)` from
`(x, 0)` puts the cursor on `((x + dx) mod 6, 0)` and six equal steps return the
state to where it started; from `(x, y)` with `y >= 1`, when the destination
column `x' = (x + dx) mod 7` holds the cards `l` (not empty), it puts the cursor
on `(x', y')` where `y'` is the least row `>= min(y, size)` whose card is
face-up. Nothing but the cursor changes. -/
theorem moveCursor_horizontal (s : BoardState) (dx : Int) (hheld : s.mHeldCard = none)
    (hdx : dx = 1 ∨ dx = -1) :
    (s.mCursorLocationY = 0 → s.mCursorLocationX ≤ 5 →
        moveCursor s dx 0 =
            .ok { s with mCursorLocationX := (((s.mCursorLocationX : Int) + dx) % 6).toNat } ∧
          repeatMove dx 0 6 s = .ok s) ∧
      (∀ (b y' cy : Nat) (l : List Nat), 1 ≤ s.mCursorLocationY → s.mCursorLocationX ≤ 6 →
        s.mBoard (((s.mCursorLocationX : Int) + dx) % 7).toNat = some b →
        Chain s.heap l (s.heap b).Next → l ≠ [] → l.length ≤ 52 →
        min s.mCursorLocationY l.length ≤ y' → l[y' - 1]? = some cy →
        (s.heap cy).FaceUp = true →
        (∀ k a, min s.mCursorLocationY l.length ≤ k → k < y' → l[k - 1]? = some a →
          (s.heap a).FaceUp = false) →
        moveCursor s dx 0 =
          .ok { s with mCursorLocationX := (((s.mCursorLocationX : Int) + dx) % 7).toNat,
                       mCursorLocationY := y' }) := by
  have hdx0 : dx ≠ 0 := by omega
  constructor
  · intro hy hx
    refine ⟨moveCursor_top_row s dx hheld hy hx hdx, ?_⟩
    rw [repeatMove_top_row dx hdx 6 s hheld hy hx]
    have : (((s.mCursorLocationX : Int) + ((6 : Nat) : Int) * dx) % 6).toNat =
        s.mCursorLocationX := by
      omega
    rw [this, BoardState.setX_self]
  · intro b y' cy l hy hx hb hl hne h52 hmin hcy hup hleast
    have hlen : 1 ≤ l.length := by
      cases l with
      | nil => exact absurd rfl hne
      | cons a l => simp
    have hy'1 : 1 ≤ y' := by omega
    have hy'l : y' - 1 < l.length := Chain.getElem_lt_of_some hcy
    have hx7 : (((s.mCursorLocationX : Int) + dx) % 7).toNat < 7 := by omega
    rw [moveCursor_browse s dx 0 hheld, moveCursorY_zero, ok_bind,
      moveCursorX_in_rows s dx b l hdx hy hx hb hl h52, ok_bind]
    have hadj := moveCursorAdjust_scan
      { s with mCursorLocationX := (((s.mCursorLocationX : Int) + dx) % 7).toNat,
               mCursorLocationY := min s.mCursorLocationY l.length }
      b l 0 (y' - 1) cy hx7 hb hl h52 (by decide)
      (by show 0 < min s.mCursorLocationY l.length; omega) hcy hup
      (by show min s.mCursorLocationY l.length ≤ y' - 1 + 1; omega)
      (fun i a hi hia => by
        show (s.heap a).FaceUp = false ∨ i + 1 < min s.mCursorLocationY l.length
        by_cases hlt : i + 1 < min s.mCursorLocationY l.length
        · exact Or.inr hlt
        · exact Or.inl (hleast (i + 1) a (by omega) (by omega) (by simpa using hia)))
    rw [hadj]
    have : y' - 1 + 1 = y' := by omega
    simp only [this]

theorem moveCursor_horizontal_witness :
    (moveCursor (mixedBoard 1 0) 1 0 = .ok { mixedBoard 1 0 with mCursorLocationX := 2 } ∧
        repeatMove 1 0 6 (mixedBoard 1 0) = .ok (mixedBoard 1 0)) ∧
      moveCursor (mixedBoard 1 1) 1 0 =
        .ok { mixedBoard 1 1 with mCursorLocationX := 2, mCursorLocationY := 2 } :=
  ⟨(moveCursor_horizontal (mixedBoard 1 0) 1 rfl (Or.inl rfl)).1 rfl (by decide),
    (moveCursor_horizontal (mixedBoard 1 1) 1 rfl (Or.inl rfl)).2 54 2 1 [0, 1, 2] (by decide)
      (by decide) rfl (by decide) (by decide) (by decide) (by decide) rfl (by decide)
      (fun k a h1 h2 h3 => by
        have hk : k = 1 := by
          have : min (mixedBoard 1 1).mCursorLocationY [0, 1, 2].length = 1 := by decide
          omega
        subst hk
        have ha : a = 0 := by simpa using h3.symm
        subst ha
        decide)⟩

/-! ## Targeting mode -/

theorem wrapInt8_of_small (x : Int) (h1 : -128 ≤ x) (h2 : x < 128) : wrapInt8 x = x := by
  unfold wrapInt8
  omega

theorem decode_column (v : Nat) (hv : v < 128) : wrapU8 (wrapInt8 (v : Int) >>> 1) = v / 2 := by
  rw [wrapInt8_of_small _ (by omega) (by omega)]
  have : (v : Int) >>> 1 = ((v >>> 1 : Nat) : Int) := rfl
  rw [this, Nat.shiftRight_eq_div_pow, pow_one, wrapU8_natCast _ (by omega)]

theorem decode_row (v : Nat) (hv : v < 128) : wrapU8 (Int.land (wrapInt8 (v : Int)) 1) = v % 2 := by
  rw [wrapInt8_of_small _ (by omega) (by omega)]
  have : Int.land (v : Int) 1 = ((v &&& 1 : Nat) : Int) := rfl
  rw [this, Nat.and_one_is_mod, wrapU8_natCast _ (by omega)]

/-- C17: while a chain is held, with `n` candidates (`1 <= n <= 12`) and the
current index in `0..n-1`, `moveCursor(dx, dy)` sets `mCurrentTarget` to
`(index + 1) mod n` when `dx + dy > 0` and to `(index - 1) mod n` otherwise, and
puts the cursor on the decoding of the candidate `v` found there: column
`v >> 1`, row 0 when `v` is even, else `max 1 (size of that column)`. Nothing
else in the state changes. -/
theorem moveCursor_targeting (s : BoardState) (dx dy : Int) (held b : Nat) (l : List Nat)
    (hheld : s.mHeldCard = some held)
    (hn1 : 1 ≤ s.mNumValidTargets) (hn12 : s.mNumValidTargets ≤ 12)
    (hct0 : 0 ≤ s.mCurrentTarget) (hctn : s.mCurrentTarget < s.mNumValidTargets)
    (hv : s.mValidTargets ((if dx + dy > 0 then (s.mCurrentTarget + 1) % s.mNumValidTargets
        else (s.mCurrentTarget - 1) % s.mNumValidTargets).toNat) < 128)
    (hodd : s.mValidTargets ((if dx + dy > 0 then (s.mCurrentTarget + 1) % s.mNumValidTargets
        else (s.mCurrentTarget - 1) % s.mNumValidTargets).toNat) % 2 = 1 →
      s.mValidTargets ((if dx + dy > 0 then (s.mCurrentTarget + 1) % s.mNumValidTargets
        else (s.mCurrentTarget - 1) % s.mNumValidTargets).toNat) / 2 < 7 ∧
      s.mBoard (s.mValidTargets ((if dx + dy > 0 then (s.mCurrentTarget + 1) % s.mNumValidTargets
        else (s.mCurrentTarget - 1) % s.mNumValidTargets).toNat) / 2) = some b ∧
      Chain s.heap l (s.heap b).Next ∧ l.length ≤ 52) :
    moveCursor s dx dy =
      .ok { s with
        mCurrentTarget := if dx + dy > 0 then (s.mCurrentTarget + 1) % s.mNumValidTargets
          else (s.mCurrentTarget - 1) % s.mNumValidTargets
        mCursorLocationX := s.mValidTargets ((if dx + dy > 0 then
            (s.mCurrentTarget + 1) % s.mNumValidTargets
          else (s.mCurrentTarget - 1) % s.mNumValidTargets).toNat) >>> 1
        mCursorLocationY :=
          if s.mValidTargets ((if dx + dy > 0 then (s.mCurrentTarget + 1) % s.mNumValidTargets
            else (s.mCurrentTarget - 1) % s.mNumValidTargets).toNat) &&& 1 = 0 then 0
          else max 1 l.length } := by
  generalize hct' : (if dx + dy > 0 then (s.mCurrentTarget + 1) % (s.mNumValidTargets : Int)
    else (s.mCurrentTarget - 1) % (s.mNumValidTargets : Int)) = ct' at hv hodd ⊢
  have hct'0 : 0 ≤ ct' := by
    rw [← hct']; split <;> exact Int.emod_nonneg _ (by omega)
  have hct'n : ct' < s.mNumValidTargets := by
    rw [← hct']; split <;> exact Int.emod_lt_of_pos _ (by omega)
  have hm : smartmod (if dx + dy > 0 then wrapInt8 (s.mCurrentTarget + 1)
      else wrapInt8 (s.mCurrentTarget - 1)) (s.mNumValidTargets : Int) = .ok ct' := by
    rw [← hct']
    split
    · rw [wrapInt8_of_small _ (by omega) (by omega),
        smartmod_eq _ _ (by omega) (by omega) (by omega) (by omega)]
    · rw [wrapInt8_of_small _ (by omega) (by omega),
        smartmod_eq _ _ (by omega) (by omega) (by omega) (by omega)]
  have hw : wrapInt8 ct' = ct' := wrapInt8_of_small _ (by omega) (by omega)
  have hrange : ¬ (ct' < 0 ∨ 12 ≤ ct') := by omega
  have hmc : moveCursor s dx dy = moveCursorHeld s dx dy := by
    unfold moveCursor
    rw [hheld]
    rfl
  rw [hmc]
  unfold moveCursorHeld
  simp only [hm, ok_bind, hw, hrange, if_false, decode_column _ hv, decode_row _ hv,
    Nat.shiftRight_eq_div_pow, pow_one, Nat.and_one_is_mod]
  rcases Nat.mod_two_eq_zero_or_one (s.mValidTargets ct'.toNat) with h0 | h1
  · simp only [h0, lt_self_iff_false, gt_iff_lt, if_false, if_true]
  · obtain ⟨h7, hb, hl, h52⟩ := hodd h1
    simp only [h1, gt_iff_lt, Nat.lt_one_iff, Nat.pos_of_ne_zero, zero_lt_one, if_true,
      getBoardStackSize_chain s _ b l h7 hb hl h52, ok_bind, one_ne_zero, if_false]

theorem moveCursor_targeting_witness :
    moveCursor targetingBoard 1 0 =
      .ok { targetingBoard with
            mCurrentTarget := 1, mCursorLocationX := 2, mCursorLocationY := 3 } :=
  moveCursor_targeting targetingBoard 1 0 5 54 [0, 1, 2] rfl (by decide) (by decide) (by decide)
    (by decide) (by decide) (fun _ => ⟨by decide, rfl, by decide, by decide⟩)

/-! ## Putting a card back on the deck -/

theorem putDownDeck_no_waste (s : BoardState) (held : Nat) (htop : s.mTopOfDeck = none) :
    putDownDeck s held = .error .nullDeref := by
  unfold putDownDeck
  simp only [htop, deref, error_bind]

theorem putDownDeck_last (s : BoardState) (held top : Nat) (htop : s.mTopOfDeck = some top)
    (hne : top ≠ held) (hn : (s.heap top).Next = none) :
    putDownDeck s held = .error .nullDeref := by
  unfold putDownDeck
  have h1 : (setPrev (setNext s.heap held (s.heap top).Next) held (some top) top).Next = none := by
    simp only [setPrev, setNext, hne, if_false, hn]
  simp only [htop, deref, ok_bind, h1, error_bind]

/-- C20 (the failing inputs): on the sample board with draw/waste chain
40, 41, 51 and the cursor on the waste slot, picking up the waste top and putting
it straight back does not return when the waste holds exactly one card (top is
card 40) and when the draw pile is exhausted (top is card 51); in both cases
`putDownHeldCard` dereferences a null pointer, also when both steps are made by
two presses of the button. With the top in the middle (card 41) the two presses
return. -/
theorem deck_putback_faults :
    faultOf (pickUp (wasteBoard (some 40)) >>= putDownHeldCard) = some Fault.nullDeref ∧
      faultOf (pickUp (wasteBoard (some 51)) >>= putDownHeldCard) = some Fault.nullDeref ∧
      faultOf (button1Down (wasteBoard (some 40)) >>= button1Down) = some Fault.nullDeref ∧
      faultOf (button1Down (wasteBoard (some 51)) >>= button1Down) = some Fault.nullDeref ∧
      faultOf (button1Down (wasteBoard (some 41)) >>= button1Down) = none := by
  decide

/-! ## Field-wise reading of the heap writes -/

theorem setNext_Next (h : Heap) (p : Nat) (v : Option Nat) (q : Nat) :
    (setNext h p v q).Next = if q = p then v else (h q).Next := by
  unfold setNext
  split <;> rfl

theorem setNext_Prev (h : Heap) (p : Nat) (v : Option Nat) (q : Nat) :
    (setNext h p v q).Prev = (h q).Prev := by
  unfold setNext
  split
  · next hq => rw [hq]
  · rfl

theorem setNext_FaceUp (h : Heap) (p : Nat) (v : Option Nat) (q : Nat) :
    (setNext h p v q).FaceUp = (h q).FaceUp := by
  unfold setNext
  split
  · next hq => rw [hq]
  · rfl

theorem setNext_Location (h : Heap) (p : Nat) (v : Option Nat) (q : Nat) :
    (setNext h p v q).Location = (h q).Location := by
  unfold setNext
  split
  · next hq => rw [hq]
  · rfl

theorem setNext_LastDrawnAt (h : Heap) (p : Nat) (v : Option Nat) (q : Nat) :
    (setNext h p v q).LastDrawnAt = (h q).LastDrawnAt := by
  unfold setNext
  split
  · next hq => rw [hq]
  · rfl

theorem setNext_Which (h : Heap) (p : Nat) (v : Option Nat) (q : Nat) :
    (setNext h p v q).Which = (h q).Which := by
  unfold setNext
  split
  · next hq => rw [hq]
  · rfl

theorem setPrev_Next (h : Heap) (p : Nat) (v : Option Nat) (q : Nat) :
    (setPrev h p v q).Next = (h q).Next := by
  unfold setPrev
  split
  · next hq => rw [hq]
  · rfl

theorem setPrev_Prev (h : Heap) (p : Nat) (v : Option Nat) (q : Nat) :
    (setPrev h p v q).Prev = if q = p then v else (h q).Prev := by
  unfold setPrev
  split <;> rfl

theorem setPrev_FaceUp (h : Heap) (p : Nat) (v : Option Nat) (q : Nat) :
    (setPrev h p v q).FaceUp = (h q).FaceUp := by
  unfold setPrev
  split
  · next hq => rw [hq]
  · rfl

theorem setPrev_Location (h : Heap) (p : Nat) (v : Option Nat) (q : Nat) :
    (setPrev h p v q).Location = (h q).Location := by
  unfold setPrev
  split
  · next hq => rw [hq]
  · rfl

theorem setPrev_LastDrawnAt (h : Heap) (p : Nat) (v : Option Nat) (q : Nat) :
    (setPrev h p v q).LastDrawnAt = (h q).LastDrawnAt := by
  unfold setPrev
  split
  · next hq => rw [hq]
  · rfl

theorem setPrev_Which (h : Heap) (p : Nat) (v : Option Nat) (q : Nat) :
    (setPrev h p v q).Which = (h q).Which := by
  unfold setPrev
  split
  · next hq => rw [hq]
  · rfl

theorem setFaceUp_Next (h : Heap) (p : Nat) (v : Bool) (q : Nat) :
    (setFaceUp h p v q).Next = (h q).Next := by
  unfold setFaceUp
  split
  · next hq => rw [hq]
  · rfl

theorem setFaceUp_Prev (h : Heap) (p : Nat) (v : Bool) (q : Nat) :
    (setFaceUp h p v q).Prev = (h q).Prev := by
  unfold setFaceUp
  split
  · next hq => rw [hq]
  · rfl

theorem setFaceUp_FaceUp (h : Heap) (p : Nat) (v : Bool) (q : Nat) :
    (setFaceUp h p v q).FaceUp = if q = p then v else (h q).FaceUp := by
  unfold setFaceUp
  split <;> rfl

theorem setFaceUp_Location (h : Heap) (p : Nat) (v : Bool) (q : Nat) :
    (setFaceUp h p v q).Location = (h q).Location := by
  unfold setFaceUp
  split
  · next hq => rw [hq]
  · rfl

theorem setFaceUp_LastDrawnAt (h : Heap) (p : Nat) (v : Bool) (q : Nat) :
    (setFaceUp h p v q).LastDrawnAt = (h q).LastDrawnAt := by
  unfold setFaceUp
  split
  · next hq => rw [hq]
  · rfl

theorem setFaceUp_Which (h : Heap) (p : Nat) (v : Bool) (q : Nat) :
    (setFaceUp h p v q).Which = (h q).Which := by
  unfold setFaceUp
  split
  · next hq => rw [hq]
  · rfl

theorem setLocation_Next (h : Heap) (p : Nat) (v : CardLocation) (q : Nat) :
    (setLocation h p v q).Next = (h q).Next := by
  unfold setLocation
  split
  · next hq => rw [hq]
  · rfl

theorem setLocation_Prev (h : Heap) (p : Nat) (v : CardLocation) (q : Nat) :
    (setLocation h p v q).Prev = (h q).Prev := by
  unfold setLocation
  split
  · next hq => rw [hq]
  · rfl

theorem setLocation_FaceUp (h : Heap) (p : Nat) (v : CardLocation) (q : Nat) :
    (setLocation h p v q).FaceUp = (h q).FaceUp := by
  unfold setLocation
  split
  · next hq => rw [hq]
  · rfl

theorem setLocation_Location (h : Heap) (p : Nat) (v : CardLocation) (q : Nat) :
    (setLocation h p v q).Location = if q = p then v else (h q).Location := by
  unfold setLocation
  split <;> rfl

theorem setLocation_LastDrawnAt (h : Heap) (p : Nat) (v : CardLocation) (q : Nat) :
    (setLocation h p v q).LastDrawnAt = (h q).LastDrawnAt := by
  unfold setLocation
  split
  · next hq => rw [hq]
  · rfl

theorem setLocation_Which (h : Heap) (p : Nat) (v : CardLocation) (q : Nat) :
    (setLocation h p v q).Which = (h q).Which := by
  unfold setLocation
  split
  · next hq => rw [hq]
  · rfl

theorem setLastDrawnAt_Next (h : Heap) (p : Nat) (v : Rect) (q : Nat) :
    (setLastDrawnAt h p v q).Next = (h q).Next := by
  unfold setLastDrawnAt
  split
  · next hq => rw [hq]
  · rfl

theorem setLastDrawnAt_Prev (h : Heap) (p : Nat) (v : Rect) (q : Nat) :
    (setLastDrawnAt h p v q).Prev = (h q).Prev := by
  unfold setLastDrawnAt
  split
  · next hq => rw [hq]
  · rfl

theorem setLastDrawnAt_FaceUp (h : Heap) (p : Nat) (v : Rect) (q : Nat) :
    (setLastDrawnAt h p v q).FaceUp = (h q).FaceUp := by
  unfold setLastDrawnAt
  split
  · next hq => rw [hq]
  · rfl

theorem setLastDrawnAt_Location (h : Heap) (p : Nat) (v : Rect) (q : Nat) :
    (setLastDrawnAt h p v q).Location = (h q).Location := by
  unfold setLastDrawnAt
  split
  · next hq => rw [hq]
  · rfl

theorem setLastDrawnAt_LastDrawnAt (h : Heap) (p : Nat) (v : Rect) (q : Nat) :
    (setLastDrawnAt h p v q).LastDrawnAt = if q = p then v else (h q).LastDrawnAt := by
  unfold setLastDrawnAt
  split <;> rfl

theorem setLastDrawnAt_Which (h : Heap) (p : Nat) (v : Rect) (q : Nat) :
    (setLastDrawnAt h p v q).Which = (h q).Which := by
  unfold setLastDrawnAt
  split
  · next hq => rw [hq]
  · rfl

/-! ## Piles under heap writes -/

theorem Links.congr {h h' : Heap} : ∀ {a : Nat} {l : List Nat},
    (∀ c, c ∈ a :: l → (h' c).Next = (h c).Next) → (∀ c, c ∈ l → (h' c).Prev = (h c).Prev) →
    Links h a l → Links h' a l
  | a, [], hn, _, hl => by
    unfold Links at *
    rw [hn a (List.mem_cons_self _ _)]
    exact hl
  | a, b :: l, hn, hp, hl => by
    unfold Links at *
    refine ⟨?_, ?_, Links.congr (fun c hc => hn c (List.mem_cons_of_mem _ hc))
      (fun c hc => hp c (List.mem_cons_of_mem _ hc)) hl.2.2⟩
    · rw [hn a (List.mem_cons_self _ _)]
      exact hl.1
    · rw [hp b (List.mem_cons_self _ _)]
      exact hl.2.1

theorem IsPile.congr_pile {h h' : Heap} {l : List Nat}
    (hn : ∀ c, c ∈ l → (h' c).Next = (h c).Next) (hp : ∀ c, c ∈ l → (h' c).Prev = (h c).Prev)
    (hl : IsPile h l) : IsPile h' l := by
  cases l with
  | nil => trivial
  | cons a l =>
    unfold IsPile at *
    exact ⟨by rw [hp a (List.mem_cons_self _ _)]; exact hl.1,
      Links.congr hn (fun c hc => hp c (List.mem_cons_of_mem _ hc)) hl.2⟩

theorem Links.chain {h : Heap} : ∀ {a : Nat} {l : List Nat}, Links h a l → Chain h l (h a).Next
  | a, [], hl => by
    unfold Links at hl
    unfold Chain
    exact hl
  | a, b :: l, hl => by
    unfold Links at hl
    unfold Chain
    exact ⟨hl.1, Links.chain hl.2.2⟩

theorem getLastD_mem (a : Nat) : ∀ (l : List Nat), l.getLastD a ∈ a :: l
  | [] => by simp
  | b :: l => by
    rw [List.getLastD_cons]
    exact List.mem_cons_of_mem _ (getLastD_mem b l)

theorem Links.last_next {h : Heap} : ∀ {a : Nat} {l : List Nat}, Links h a l →
    (h (l.getLastD a)).Next = none
  | a, [], hl => by
    unfold Links at hl
    exact hl
  | a, b :: l, hl => by
    unfold Links at hl
    rw [List.getLastD_cons]
    exact Links.last_next hl.2.2

/-- In a linked list the node after the prefix `l1` points back at the end of `l1`. -/
theorem Links.prev_of_split {h : Heap} (c : Nat) (l2 : List Nat) : ∀ (a : Nat) (l1 : List Nat),
    Links h a (l1 ++ c :: l2) → (h c).Prev = some (l1.getLastD a)
  | a, [], hl => by
    unfold Links at hl
    exact hl.2.1
  | a, b :: l1, hl => by
    rw [List.cons_append] at hl
    unfold Links at hl
    rw [List.getLastD_cons]
    exact Links.prev_of_split c l2 b l1 hl.2.2

/-- Cutting a linked list before the node `c`: the writes `q->Next = 0; c->Prev = 0`. -/
theorem Links.detach {h : Heap} (c : Nat) (l2 : List Nat) : ∀ (a : Nat) (l1 : List Nat),
    (a :: (l1 ++ c :: l2)).Nodup → Links h a (l1 ++ c :: l2) →
    Links (setPrev (setNext h (l1.getLastD a) none) c none) a l1 ∧
      Links (setPrev (setNext h (l1.getLastD a) none) c none) c l2
  | a, [], hnd, hl => by
    rw [List.nil_append] at hnd hl
    unfold Links at hl
    have hac : a ≠ c := by
      intro e; subst e
      simp at hnd
    have hcl2 : c ∉ l2 := by
      have := (List.nodup_cons.mp (List.nodup_cons.mp hnd).2).1
      exact this
    have hal2 : a ∉ l2 := by
      have := (List.nodup_cons.mp hnd).1
      exact fun hm => this (List.mem_cons_of_mem _ hm)
    constructor
    · unfold Links
      rw [setPrev_Next, setNext_Next, List.getLastD_nil, if_pos rfl]
    · refine Links.congr ?_ ?_ hl.2.2
      · intro x hx
        rw [setPrev_Next, setNext_Next, List.getLastD_nil, if_neg]
        intro e; subst e
        rcases List.mem_cons.mp hx with h1 | h1
        · exact hac h1
        · exact hal2 h1
      · intro x hx
        rw [setPrev_Prev, setNext_Prev, if_neg]
        intro e; subst e
        exact hcl2 hx
  | a, b :: l1, hnd, hl => by
    rw [List.cons_append] at hnd hl
    unfold Links at hl
    rw [List.getLastD_cons]
    have hnd' := (List.nodup_cons.mp hnd).2
    have ih := Links.detach c l2 b l1 hnd' hl.2.2
    refine ⟨?_, ih.2⟩
    unfold Links
    have hq : l1.getLastD b ∈ b :: l1 := getLastD_mem b l1
    have haq : a ≠ l1.getLastD b := by
      intro e
      have := (List.nodup_cons.mp hnd).1
      apply this
      rw [e]
      rcases List.mem_cons.mp hq with h1 | h1
      · rw [h1]; exact List.mem_cons_self _ _
      · exact List.mem_cons_of_mem _ (List.mem_append_left _ h1)
    have hbc : b ≠ c := by
      intro e; subst e
      have := (List.nodup_cons.mp hnd').1
      exact this (List.mem_append_right _ (List.mem_cons_self _ _))
    refine ⟨?_, ?_, ih.1⟩
    · rw [setPrev_Next, setNext_Next, if_neg haq]
      exact hl.1
    · rw [setPrev_Prev, if_neg hbc, setNext_Prev]
      exact hl.2.1

/-- Joining the linked list from `c` to the end of the linked list from `a`:
the writes `q->Next = c; c->Prev = q`. -/
theorem Links.attach {h : Heap} (c : Nat) (l2 : List Nat) : ∀ (a : Nat) (l1 : List Nat),
    (a :: (l1 ++ c :: l2)).Nodup → Links h a l1 → Links h c l2 →
    Links (setPrev (setNext h (l1.getLastD a) (some c)) c (some (l1.getLastD a))) a
      (l1 ++ c :: l2)
  | a, [], hnd, _, hl2 => by
    rw [List.nil_append] at hnd ⊢
    have hac : a ≠ c := by
      intro e; subst e
      simp at hnd
    have hcl2 : c ∉ l2 := (List.nodup_cons.mp (List.nodup_cons.mp hnd).2).1
    have hal2 : a ∉ l2 := fun hm => (List.nodup_cons.mp hnd).1 (List.mem_cons_of_mem _ hm)
    unfold Links
    rw [List.getLastD_nil]
    refine ⟨?_, ?_, ?_⟩
    · rw [setPrev_Next, setNext_Next, if_pos rfl]
    · rw [setPrev_Prev, if_pos rfl]
    · refine Links.congr ?_ ?_ hl2
      · intro x hx
        rw [setPrev_Next, setNext_Next, if_neg]
        intro e; subst e
        rcases List.mem_cons.mp hx with h1 | h1
        · exact hac h1
        · exact hal2 h1
      · intro x hx
        rw [setPrev_Prev, setNext_Prev, if_neg]
        intro e; subst e
        exact hcl2 hx
  | a, b :: l1, hnd, hl1, hl2 => by
    rw [List.cons_append] at hnd ⊢
    unfold Links at hl1
    rw [List.getLastD_cons]
    have hnd' := (List.nodup_cons.mp hnd).2
    have ih := Links.attach c l2 b l1 hnd' hl1.2.2 hl2
    unfold Links
    have hq : l1.getLastD b ∈ b :: l1 := getLastD_mem b l1
    have haq : a ≠ l1.getLastD b := by
      intro e
      apply (List.nodup_cons.mp hnd).1
      rw [e]
      rcases List.mem_cons.mp hq with h1 | h1
      · rw [h1]; exact List.mem_cons_self _ _
      · exact List.mem_cons_of_mem _ (List.mem_append_left _ h1)
    have hbc : b ≠ c := by
      intro e; subst e
      exact (List.nodup_cons.mp hnd').1 (List.mem_append_right _ (List.mem_cons_self _ _))
    refine ⟨?_, ?_, ih⟩
    · rw [setPrev_Next, setNext_Next, if_neg haq]
      exact hl1.1
    · rw [setPrev_Prev, if_neg hbc, setNext_Prev]
      exact hl1.2.1

/-! ## The pointer loops on well-linked piles -/

theorem Chain.congr_next {h h' : Heap} (hn : ∀ c, (h' c).Next = (h c).Next) :
    ∀ {l : List Nat} {p : Option Nat}, Chain h l p → Chain h' l p
  | [], _, hc => hc
  | a :: l, p, hc => by
    unfold Chain at *
    refine ⟨hc.1, ?_⟩
    rw [hn a]
    exact Chain.congr_next hn hc.2

theorem walkToEnd_links (h : Heap) : ∀ (l : List Nat) (fuel a : Nat), Links h a l →
    l.length < fuel → walkToEnd h fuel a = .ok (l.getLastD a)
  | [], fuel, a, hl, hf => by
    cases fuel with
    | zero => omega
    | succ fuel =>
      unfold Links at hl
      unfold walkToEnd
      rw [hl]
      rfl
  | b :: l, fuel, a, hl, hf => by
    cases fuel with
    | zero => omega
    | succ fuel =>
      unfold Links at hl
      unfold walkToEnd
      rw [hl.1, List.getLastD_cons]
      exact walkToEnd_links h l fuel b hl.2.2 (by simp only [List.length_cons] at hf; omega)

theorem nthNext_chain (h : Heap) : ∀ (k : Nat) (l : List Nat) (p : Option Nat), Chain h l p →
    k < l.length → nthNext h k p = .ok l[k]?
  | 0, l, p, hc, _ => by
    unfold nthNext
    rw [Chain.head hc]
  | k + 1, [], _, _, hk => by simp at hk
  | k + 1, a :: l, p, hc, hk => by
    unfold Chain at hc
    unfold nthNext
    rw [hc.1]
    simp only [deref, ok_bind, List.getElem?_cons_succ]
    exact nthNext_chain h k l _ hc.2 (by simp only [List.length_cons] at hk; omega)

/-- The heap after `Location = loc` has been written to every node of `l`. -/
theorem setLocationChain_chain (loc : CardLocation) : ∀ (l : List Nat) (fuel : Nat)
    (p : Option Nat) (h : Heap), Chain h l p → l.length < fuel →
    setLocationChain loc fuel p h = .ok (l.foldl (fun g a => setLocation g a loc) h)
  | [], fuel, p, h, hc, hf => by
    cases fuel with
    | zero => omega
    | succ fuel =>
      unfold Chain at hc
      unfold setLocationChain
      rw [hc]
      rfl
  | a :: l, fuel, p, h, hc, hf => by
    cases fuel with
    | zero => omega
    | succ fuel =>
      unfold Chain at hc
      unfold setLocationChain
      rw [hc.1]
      simp only [List.foldl_cons]
      exact setLocationChain_chain loc l fuel _ _
        (Chain.congr_next (fun c => setLocation_Next h a loc c) hc.2)
        (by simp only [List.length_cons] at hf; omega)

theorem foldl_setLocation_Next (loc : CardLocation) : ∀ (l : List Nat) (h : Heap) (q : Nat),
    (l.foldl (fun g a => setLocation g a loc) h q).Next = (h q).Next
  | [], _, _ => rfl
  | a :: l, h, q => by
    rw [List.foldl_cons, foldl_setLocation_Next loc l, setLocation_Next]

theorem foldl_setLocation_Prev (loc : CardLocation) : ∀ (l : List Nat) (h : Heap) (q : Nat),
    (l.foldl (fun g a => setLocation g a loc) h q).Prev = (h q).Prev
  | [], _, _ => rfl
  | a :: l, h, q => by
    rw [List.foldl_cons, foldl_setLocation_Prev loc l, setLocation_Prev]

theorem foldl_setLocation_FaceUp (loc : CardLocation) : ∀ (l : List Nat) (h : Heap) (q : Nat),
    (l.foldl (fun g a => setLocation g a loc) h q).FaceUp = (h q).FaceUp
  | [], _, _ => rfl
  | a :: l, h, q => by
    rw [List.foldl_cons, foldl_setLocation_FaceUp loc l, setLocation_FaceUp]

theorem foldl_setLocation_Which (loc : CardLocation) : ∀ (l : List Nat) (h : Heap) (q : Nat),
    (l.foldl (fun g a => setLocation g a loc) h q).Which = (h q).Which
  | [], _, _ => rfl
  | a :: l, h, q => by
    rw [List.foldl_cons, foldl_setLocation_Which loc l, setLocation_Which]

theorem foldl_setLocation_LastDrawnAt (loc : CardLocation) :
    ∀ (l : List Nat) (h : Heap) (q : Nat),
    (l.foldl (fun g a => setLocation g a loc) h q).LastDrawnAt = (h q).LastDrawnAt
  | [], _, _ => rfl
  | a :: l, h, q => by
    rw [List.foldl_cons, foldl_setLocation_LastDrawnAt loc l, setLocation_LastDrawnAt]

theorem foldl_setLocation_Location (loc : CardLocation) : ∀ (l : List Nat) (h : Heap) (q : Nat),
    (l.foldl (fun g a => setLocation g a loc) h q).Location =
      if q ∈ l then loc else (h q).Location
  | [], _, _ => by simp
  | a :: l, h, q => by
    rw [List.foldl_cons, foldl_setLocation_Location loc l, setLocation_Location]
    by_cases h1 : q ∈ l
    · simp [h1]
    · by_cases h2 : q = a
      · simp [h1, h2]
      · simp [h1, h2]

theorem expandChain_chain (h : Heap) : ∀ (l : List Nat) (fuel : Nat) (p : Option Nat) (r : Rect),
    Chain h l p → l.length < fuel →
    expandChain h fuel p r = .ok (l.foldl (fun r a => r.expand (h a).LastDrawnAt) r)
  | [], fuel, p, r, hc, hf => by
    cases fuel with
    | zero => omega
    | succ fuel =>
      unfold Chain at hc
      unfold expandChain
      rw [hc]
      rfl
  | a :: l, fuel, p, r, hc, hf => by
    cases fuel with
    | zero => omega
    | succ fuel =>
      unfold Chain at hc
      unfold expandChain
      rw [hc.1]
      simp only [List.foldl_cons]
      exact expandChain_chain h l fuel _ _ hc.2 (by simp only [List.length_cons] at hf; omega)

theorem IsPile.head_chain {h : Heap} {l : List Nat} (hl : IsPile h l) : Chain h l l.head? := by
  cases l with
  | nil => rfl
  | cons a l =>
    unfold IsPile at hl
    unfold Chain
    exact ⟨rfl, Links.chain hl.2⟩

/-! ## Layouts -/

theorem setPile_same (L : Layout) (p : Nat) (l : List Nat) : setPile L p l p = l := by
  unfold setPile
  rw [if_pos rfl]

theorem setPile_other (L : Layout) (p q : Nat) (l : List Nat) (h : q ≠ p) :
    setPile L p l q = L q := by
  unfold setPile
  rw [if_neg h]

theorem length_le_of_nodup_lt {l : List Nat} (hnd : l.Nodup) (hlt : ∀ c, c ∈ l → c < 52) :
    l.length ≤ 52 := by
  have hsub : l.toFinset ⊆ Finset.range 52 := by
    intro c hc
    rw [List.mem_toFinset] at hc
    exact Finset.mem_range.mpr (hlt c hc)
  have := Finset.card_le_card hsub
  rw [List.toFinset_card_of_nodup hnd, Finset.card_range] at this
  exact this

theorem Separate.length_le {L : Layout} (hS : Separate L) (p : Nat) (hp : p < 13) :
    (L p).length ≤ 52 :=
  length_le_of_nodup_lt (hS.2.1 p hp) (hS.1 p hp)

/-- Redistributing the cards of two piles between them keeps the piles separate. -/
theorem Separate.move {L : Layout} (hS : Separate L) (a b : Nat) (ha : a < 13) (hb : b < 13)
    (A B : List Nat)
    (hmem : ∀ c, (c ∈ A ∨ c ∈ B) ↔ (c ∈ L a ∨ c ∈ L b))
    (hA : A.Nodup) (hB : B.Nodup) (hAB : ∀ c, c ∈ A → c ∉ B) :
    Separate (setPile (setPile L a A) b B) := by
  obtain ⟨hlt, hnd, hap⟩ := hS
  have hval : ∀ q, setPile (setPile L a A) b B q = if q = b then B else if q = a then A else L q := by
    intro q
    unfold setPile
    rfl
  have hsrc : ∀ c, c ∈ A ∨ c ∈ B → c ∈ L a ∨ c ∈ L b := fun c hc => (hmem c).mp hc
  refine ⟨?_, ?_, ?_⟩
  · intro p hp c hc
    rw [hval] at hc
    by_cases h1 : p = b
    · rw [if_pos h1] at hc
      rcases hsrc c (Or.inr hc) with h | h
      · exact hlt a ha c h
      · exact hlt b hb c h
    · rw [if_neg h1] at hc
      by_cases h2 : p = a
      · rw [if_pos h2] at hc
        rcases hsrc c (Or.inl hc) with h | h
        · exact hlt a ha c h
        · exact hlt b hb c h
      · rw [if_neg h2] at hc
        exact hlt p hp c hc
  · intro p hp
    rw [hval]
    by_cases h1 : p = b
    · rw [if_pos h1]; exact hB
    · rw [if_neg h1]
      by_cases h2 : p = a
      · rw [if_pos h2]; exact hA
      · rw [if_neg h2]; exact hnd p hp
  · intro p hp q hq hpq c hc
    rw [hval] at hc ⊢
    by_cases hp1 : p = b
    · rw [if_pos hp1] at hc
      have hqb : q ≠ b := fun e => hpq (hp1.trans e.symm)
      rw [if_neg hqb]
      by_cases hq2 : q = a
      · rw [if_pos hq2]
        exact fun hcA => hAB c hcA hc
      · rw [if_neg hq2]
        rcases hsrc c (Or.inr hc) with h | h
        · exact hap a ha q hq (fun e => hq2 e.symm) c h
        · exact hap b hb q hq (fun e => hqb e.symm) c h
    · rw [if_neg hp1] at hc
      by_cases hp2 : p = a
      · rw [if_pos hp2] at hc
        have hqa : q ≠ a := fun e => hpq (hp2.trans e.symm)
        by_cases hq1 : q = b
        · rw [if_pos hq1]
          exact hAB c hc
        · rw [if_neg hq1, if_neg hqa]
          rcases hsrc c (Or.inl hc) with h | h
          · exact hap a ha q hq (fun e => hqa e.symm) c h
          · exact hap b hb q hq (fun e => hq1 e.symm) c h
      · rw [if_neg hp2] at hc
        by_cases hq1 : q = b
        · rw [if_pos hq1]
          intro hcB
          rcases hsrc c (Or.inr hcB) with h | h
          · exact hap p hp a ha hp2 c hc h
          · exact hap p hp b hb hp1 c hc h
        · rw [if_neg hq1]
          by_cases hq2 : q = a
          · rw [if_pos hq2]
            intro hcA
            rcases hsrc c (Or.inl hcA) with h | h
            · exact hap p hp a ha hp2 c hc h
            · exact hap p hp b hb hp1 c hc h
          · rw [if_neg hq2]
            exact hap p hp q hq hpq c hc

/-- Moving the tail `l2` of pile `a` to the end of pile `b`. -/
theorem Separate.move_tail {L : Layout} (hS : Separate L) (a b : Nat) (ha : a < 13)
    (hb : b < 13) (hab : a ≠ b) (l1 l2 : List Nat) (hsplit : L a = l1 ++ l2) :
    Separate (setPile (setPile L a l1) b (L b ++ l2)) := by
  have hnda : (l1 ++ l2).Nodup := hsplit ▸ hS.2.1 a ha
  have hndb := hS.2.1 b hb
  have hdis : ∀ c, c ∈ L a → c ∉ L b := hS.2.2 a ha b hb hab
  rw [List.nodup_append] at hnda
  refine Separate.move hS a b ha hb l1 (L b ++ l2) ?_ hnda.1 ?_ ?_
  · intro c
    rw [hsplit, List.mem_append, List.mem_append]
    tauto
  · rw [List.nodup_append]
    refine ⟨hndb, hnda.2.1, ?_⟩
    intro c hcb hc2
    exact hdis c (by rw [hsplit]; exact List.mem_append_right _ hc2) hcb
  · intro c hc1 hcB
    rcases List.mem_append.mp hcB with h | h
    · exact hdis c (by rw [hsplit]; exact List.mem_append_left _ hc1) h
    · exact hnda.2.2 hc1 h

theorem Covers.move_cards {L : Layout} (hC : Covers L) (a b : Nat) (ha : a < 13) (hb : b < 13)
    (hab : a ≠ b) (A B : List Nat) (hmem : ∀ c, (c ∈ A ∨ c ∈ B) ↔ (c ∈ L a ∨ c ∈ L b)) :
    Covers (setPile (setPile L a A) b B) := by
  intro c hc
  obtain ⟨p, hp, hcp⟩ := hC c hc
  have hval : ∀ q, setPile (setPile L a A) b B q = if q = b then B else if q = a then A else L q := by
    intro q
    unfold setPile
    rfl
  by_cases h1 : p = a ∨ p = b
  · have hsrc : c ∈ L a ∨ c ∈ L b := by
      rcases h1 with h | h
      · exact Or.inl (h ▸ hcp)
      · exact Or.inr (h ▸ hcp)
    rcases (hmem c).mpr hsrc with h | h
    · exact ⟨a, ha, by rw [hval, if_neg hab, if_pos rfl]; exact h⟩
    · exact ⟨b, hb, by rw [hval, if_pos rfl]; exact h⟩
  · have hpa : p ≠ a := fun e => h1 (Or.inl e)
    have hpb : p ≠ b := fun e => h1 (Or.inr e)
    exact ⟨p, hp, by rw [hval, if_neg hpb, if_neg hpa]; exact hcp⟩

/-! ## A new deal and the cursor in play -/

theorem initializeBoard_mHeldCard (draws : Nat → Nat) (s : BoardState) :
    (initializeBoard draws s).mHeldCard = s.mHeldCard := rfl

/-- C25 (the failing input): two presses of the button on the sample board
with waste top 51 leave card 51 held among several candidates; `initialize()`
called in that state clears `mHasHeldCards` but leaves `mHeldCard` pointing at
card 51, so the engine is still in targeting mode after the deal. -/
theorem initialize_keeps_held_chain :
    observe (fun s => s.mHeldCard) (button1Down (wasteBoard (some 51))) = some (some 51) ∧
      observe (fun s => ((initializeBoard (fun _ => 0) s).mHasHeldCards,
          (initializeBoard (fun _ => 0) s).mHeldCard))
        (button1Down (wasteBoard (some 51))) = some (false, some 51) := by
  decide

/-- C22 (the failing input): on the sample board (column 0 holds the face-up
card 3, column 6 is empty) with nothing held and the cursor on `(0, 1)`,
`moveCursor(-1, 0)` leaves the cursor on `(6, 0)`: row 0 with a column beyond 5;
the next `button1Down` then indexes `mStacks[4]`. -/
theorem moveCursor_leaves_top_row_range :
    Board (mixedBoard 0 1) (layoutOf [[3], [], [0, 1, 2]] [] [] []) ∧
      ((mixedBoard 0 1).heap 3).FaceUp = true ∧
      cursorOf (moveCursor (mixedBoard 0 1) (-1) 0) = some (6, 0) ∧
      faultOf (moveCursor (mixedBoard 0 1) (-1) 0 >>= button1Down) =
        some Fault.outOfBounds := by
  decide

set_option maxRecDepth 100000 in
set_option maxHeartbeats 4000000 in
/-- C23 (the failing input): after `initialize()` with the identity shuffle,
`moveCursor(0,+1)` puts the cursor on the face-up card 5 at `(2, 3)`; a press
of the button picks it up, finds its column as the only candidate and puts it
back, leaving the cursor on `(2, 2)`, the face-down card 4; the pick-up of the
next press detaches the chain starting at card 4, which is face-down. -/
theorem pickUp_takes_face_down_card :
    cursorOf (moveCursor (initializeBoard (fun _ => 0) BoardState.fresh) 0 1) = some (2, 3) ∧
      cursorOf (moveCursor (initializeBoard (fun _ => 0) BoardState.fresh) 0 1 >>= button1Down) =
        some (2, 2) ∧
      observe (fun s => (s.mHeldCard, (s.heap 4).FaceUp))
        (moveCursor (initializeBoard (fun _ => 0) BoardState.fresh) 0 1 >>= button1Down) =
        some (none, false) ∧
      observe (fun s => ((s.heap 54).Next, (s.heap 3).Next, (s.heap 4).Next))
        (moveCursor (initializeBoard (fun _ => 0) BoardState.fresh) 0 1 >>= button1Down) =
        some (some 3, some 4, some 5) ∧
      observe (fun s => (s.mHeldCard, (s.heap 4).FaceUp))
        (moveCursor (initializeBoard (fun _ => 0) BoardState.fresh) 0 1 >>= button1Down
          >>= pickUp) = some (some 4, false) := by
  decide

/-! ## Well-formed boards -/

theorem mem_anchorOf (p c : Nat) : c ∈ anchorOf p ↔ p < 11 ∧ c = 52 + p := by
  unfold anchorOf boardBase stackBase
  by_cases h7 : p < 7
  · rw [if_pos h7, List.mem_singleton]
    omega
  · rw [if_neg h7]
    by_cases h11 : p < 11
    · rw [if_pos h11, List.mem_singleton]
      omega
    · rw [if_neg h11]
      simp only [List.not_mem_nil, false_iff]
      omega

theorem mem_pileNodes (L : Layout) (p c : Nat) :
    c ∈ pileNodes L p ↔ (p < 11 ∧ c = 52 + p) ∨ c ∈ L p := by
  unfold pileNodes
  rw [List.mem_append, mem_anchorOf]

theorem anchorOf_nodup (p : Nat) : (anchorOf p).Nodup := by
  unfold anchorOf
  split
  · exact List.nodup_singleton _
  · split
    · exact List.nodup_singleton _
    · exact List.nodup_nil

theorem Separate.pileNodes_nodup {L : Layout} (hS : Separate L) (p : Nat) (hp : p < 13) :
    (pileNodes L p).Nodup := by
  unfold pileNodes
  rw [List.nodup_append]
  refine ⟨anchorOf_nodup p, hS.2.1 p hp, ?_⟩
  intro c hc1 hc2
  have h1 := (mem_anchorOf p c).mp hc1
  have h2 := hS.1 p hp c hc2
  omega

theorem Separate.pileNodes_apart {L : Layout} (hS : Separate L) (p q : Nat) (hp : p < 13)
    (hq : q < 13) (hpq : p ≠ q) (c : Nat) (hc : c ∈ pileNodes L p) : c ∉ pileNodes L q := by
  rw [mem_pileNodes] at hc ⊢
  intro hcq
  rcases hc with h1 | h1
  · rcases hcq with h2 | h2
    · omega
    · have := hS.1 q hq c h2
      omega
  · rcases hcq with h2 | h2
    · have := hS.1 p hp c h1
      omega
    · exact hS.2.2 p hp q hq hpq c h1 h2

theorem pileNodes_setPile_same (L : Layout) (p : Nat) (l : List Nat) :
    pileNodes (setPile L p l) p = anchorOf p ++ l := by
  unfold pileNodes
  rw [setPile_same]

theorem pileNodes_setPile_other (L : Layout) (p q : Nat) (l : List Nat) (h : q ≠ p) :
    pileNodes (setPile L p l) q = pileNodes L q := by
  unfold pileNodes
  rw [setPile_other L p q l h]

theorem fresh_isempty_card : ∀ a, a < 52 → (BoardState.fresh.heap a).isempty = false := by
  decide

theorem fresh_isempty_anchor (a : Nat) (h : 52 ≤ a) : (BoardState.fresh.heap a).isempty = true := by
  unfold BoardState.fresh
  simp only
  rw [if_neg (by omega)]
  rfl

theorem Card.isempty_congr {c d : Card} (h : c.Which = d.Which) : c.isempty = d.isempty := by
  unfold Card.isempty
  rw [h]

theorem Board.isempty_card {s : BoardState} {L : Layout} (hB : Board s L) (a : Nat)
    (ha : a < 52) : (s.heap a).isempty = false := by
  rw [Card.isempty_congr (hB.2.2.2.2.2.2.2 a (by omega))]
  exact fresh_isempty_card a ha

theorem Board.isempty_anchor {s : BoardState} {L : Layout} (hB : Board s L) (a : Nat)
    (h1 : 52 ≤ a) (h2 : a < 63) : (s.heap a).isempty = true := by
  rw [Card.isempty_congr (hB.2.2.2.2.2.2.2 a h2)]
  exact fresh_isempty_anchor a h1

/-- A heap write that touches the links of two piles only, and leaves them well
linked as the new piles `A` and `B`, leaves every pile well linked. -/
theorem linked_of_two {h g : Heap} {L : Layout} (hS : Separate L)
    (hL : ∀ p, p < 13 → IsPile h (pileNodes L p)) (a b : Nat) (ha : a < 13) (hb : b < 13)
    (A B : List Nat)
    (hframe : ∀ q, q ∉ pileNodes L a → q ∉ pileNodes L b →
      (g q).Next = (h q).Next ∧ (g q).Prev = (h q).Prev)
    (hA : a ≠ b → IsPile g (anchorOf a ++ A)) (hB : IsPile g (anchorOf b ++ B)) :
    ∀ p, p < 13 → IsPile g (pileNodes (setPile (setPile L a A) b B) p) := by
  intro p hp
  by_cases hpb : p = b
  · subst hpb
    rw [pileNodes_setPile_same]
    exact hB
  · rw [pileNodes_setPile_other _ _ _ _ hpb]
    by_cases hpa : p = a
    · subst hpa
      rw [pileNodes_setPile_same]
      exact hA hpb
    · rw [pileNodes_setPile_other _ _ _ _ hpa]
      refine IsPile.congr_pile ?_ ?_ (hL p hp)
      · intro c hc
        exact (hframe c (hS.pileNodes_apart p a hp ha hpa c hc)
          (hS.pileNodes_apart p b hp hb hpb c hc)).1
      · intro c hc
        exact (hframe c (hS.pileNodes_apart p a hp ha hpa c hc)
          (hS.pileNodes_apart p b hp hb hpb c hc)).2

theorem anchorOf_tab (x : Nat) (hx : x < 7) : anchorOf x = [boardBase x] := by
  unfold anchorOf
  rw [if_pos hx]

theorem anchorOf_fnd (i : Nat) (hi : i < 4) : anchorOf (7 + i) = [stackBase i] := by
  unfold anchorOf
  rw [if_neg (by omega), if_pos (by omega)]
  congr 2
  omega

theorem anchorOf_deck : anchorOf 11 = [] := rfl

theorem anchorOf_held : anchorOf 12 = [] := rfl

theorem Board.tab_pile {s : BoardState} {L : Layout} (hB : Board s L) (x : Nat) (hx : x < 7) :
    (s.heap (boardBase x)).Prev = none ∧ Links s.heap (boardBase x) (L x) := by
  have h := hB.1 x (by omega)
  unfold pileNodes at h
  rw [anchorOf_tab x hx] at h
  exact h

theorem Board.fnd_pile {s : BoardState} {L : Layout} (hB : Board s L) (i : Nat) (hi : i < 4) :
    (s.heap (stackBase i)).Prev = none ∧ Links s.heap (stackBase i) (L (7 + i)) := by
  have h := hB.1 (7 + i) (by omega)
  unfold pileNodes at h
  rw [anchorOf_fnd i hi] at h
  exact h

theorem Board.deck_pile {s : BoardState} {L : Layout} (hB : Board s L) : IsPile s.heap (L 11) := by
  have h := hB.1 11 (by omega)
  unfold pileNodes at h
  rw [anchorOf_deck] at h
  exact h

theorem Board.held_pile {s : BoardState} {L : Layout} (hB : Board s L) : IsPile s.heap (L 12) := by
  have h := hB.1 12 (by omega)
  unfold pileNodes at h
  rw [anchorOf_held] at h
  exact h

theorem getLast?_cons_getLastD (d : Nat) : ∀ (l : List Nat), (d :: l).getLast? = some (l.getLastD d)
  | [] => rfl
  | e :: l => by
    rw [List.getLast?_cons_cons, getLast?_cons_getLastD e l, List.getLastD_cons]

theorem getElem?_split (c : Nat) (l2 : List Nat) : ∀ (l1 : List Nat),
    (l1 ++ c :: l2)[l1.length]? = some c
  | [] => by simp
  | a :: l1 => by
    rw [List.cons_append, List.length_cons, List.getElem?_cons_succ]
    exact getElem?_split c l2 l1

/-- The pick-up from a tableau column, on a well-formed board: the cursor is
on row `|l1| + 1` of column `x`, whose cards are `l1 ++ c :: l2`. -/
theorem pickUpBoard_eq (s : BoardState) (L : Layout) (x c : Nat) (l1 l2 : List Nat)
    (hB : Board s L) (hx : x < 7) (hX : s.mCursorLocationX = x)
    (hsplit : L x = l1 ++ c :: l2) (hY : s.mCursorLocationY = l1.length + 1) :
    pickUpBoard s =
      .ok { s with heap := detachHeap s.heap (l1.getLastD (boardBase x)) c l2,
                   mHeldCard := some c, mHeldWasTopOfDeck := false,
                   mCardToReveal := l1.getLast?,
                   mCursorLocationY := if l1.length + 1 > 1 then l1.length else l1.length + 1 } := by
  subst hX
  have hS := hB.2.2.2.2.2.2.1
  have hlen : (L s.mCursorLocationX).length ≤ 52 := hS.length_le _ (by omega)
  obtain ⟨_, hlinks⟩ := hB.tab_pile _ hx
  have hchain := Links.chain hlinks
  have hpos : 0 < (L s.mCursorLocationX).length := by rw [hsplit]; simp
  have hnext : (s.heap (boardBase s.mCursorLocationX)).Next =
      some ((L s.mCursorLocationX)[0]) := by
    rw [Chain.head hchain]
    exact List.getElem?_eq_getElem hpos
  have hnth : nthNext s.heap l1.length (some ((L s.mCursorLocationX)[0])) = .ok (some c) := by
    rw [← hnext, nthNext_chain s.heap l1.length _ _ hchain (by rw [hsplit]; simp)]
    refine congrArg Except.ok ?_
    rw [hsplit]
    exact getElem?_split c l2 l1
  rw [hsplit] at hlinks
  have hprev := Links.prev_of_split c l2 _ l1 hlinks
  have hnd : (boardBase s.mCursorLocationX :: (l1 ++ c :: l2)).Nodup := by
    have := hS.pileNodes_nodup _ (show s.mCursorLocationX < 13 by omega)
    unfold pileNodes at this
    rw [anchorOf_tab _ hx, hsplit] at this
    exact this
  have hdet := Links.detach c l2 _ l1 hnd hlinks
  have hlen2 : (c :: l2).length < loopFuel := by
    have : (l1 ++ c :: l2).length ≤ 52 := hsplit ▸ hlen
    simp only [List.length_append, List.length_cons] at this ⊢
    simp only [loopFuel, heapSize]
    omega
  have hloc := setLocationChain_chain .LocationDrag (c :: l2) loopFuel (some c)
    (setPrev (setNext s.heap (l1.getLastD (boardBase s.mCursorLocationX)) none) c none)
    ⟨rfl, Links.chain hdet.2⟩ hlen2
  have hemp : (detachHeap s.heap (l1.getLastD (boardBase s.mCursorLocationX)) c l2
      (l1.getLastD (boardBase s.mCursorLocationX))).isempty = decide (l1 = []) := by
    have hw : (detachHeap s.heap (l1.getLastD (boardBase s.mCursorLocationX)) c l2
        (l1.getLastD (boardBase s.mCursorLocationX))).Which =
        (s.heap (l1.getLastD (boardBase s.mCursorLocationX))).Which := by
      unfold detachHeap
      rw [foldl_setLocation_Which, setPrev_Which, setNext_Which]
    rw [Card.isempty_congr hw]
    cases l1 with
    | nil =>
      rw [List.getLastD_nil, hB.isempty_anchor _ (by unfold boardBase; omega)
        (by unfold boardBase; omega)]
      simp
    | cons d l1 =>
      have hmem : (d :: l1).getLastD (boardBase s.mCursorLocationX) ∈ L s.mCursorLocationX := by
        rw [hsplit, List.getLastD_cons]
        exact List.mem_append_left _ (getLastD_mem d l1)
      rw [hB.isempty_card _ (hS.1 _ (by omega) _ hmem)]
      simp
  unfold pickUpBoard
  rw [if_pos hx, hB.2.1 _ hx]
  simp only [deref, ok_bind, hnext, hY, Nat.add_sub_cancel, hnth, hprev]
  rw [hloc, ok_bind]
  unfold detachHeap at hemp
  rw [hemp]
  cases l1 with
  | nil => rfl
  | cons d l1 =>
    simp only [reduceCtorEq, decide_False, Bool.false_eq_true, if_false, List.getLastD_cons,
      List.length_cons, getLast?_cons_getLastD]
    rfl

theorem detachHeap_Next (h : Heap) (q c : Nat) (l2 : List Nat) (a : Nat) :
    (detachHeap h q c l2 a).Next = if a = q then none else (h a).Next := by
  unfold detachHeap
  rw [foldl_setLocation_Next, setPrev_Next, setNext_Next]

theorem detachHeap_Prev (h : Heap) (q c : Nat) (l2 : List Nat) (a : Nat) :
    (detachHeap h q c l2 a).Prev = if a = c then none else (h a).Prev := by
  unfold detachHeap
  rw [foldl_setLocation_Prev, setPrev_Prev, setNext_Prev]

theorem detachHeap_Which (h : Heap) (q c : Nat) (l2 : List Nat) (a : Nat) :
    (detachHeap h q c l2 a).Which = (h a).Which := by
  unfold detachHeap
  rw [foldl_setLocation_Which, setPrev_Which, setNext_Which]

theorem detachHeap_FaceUp (h : Heap) (q c : Nat) (l2 : List Nat) (a : Nat) :
    (detachHeap h q c l2 a).FaceUp = (h a).FaceUp := by
  unfold detachHeap
  rw [foldl_setLocation_FaceUp, setPrev_FaceUp, setNext_FaceUp]

theorem attachHeap_Next (h : Heap) (q c : Nat) (l2 : List Nat) (a : Nat) :
    (attachHeap h q c l2 a).Next = if a = q then some c else (h a).Next := by
  unfold attachHeap
  rw [foldl_setLocation_Next, setPrev_Next, setNext_Next]

theorem attachHeap_Prev (h : Heap) (q c : Nat) (l2 : List Nat) (a : Nat) :
    (attachHeap h q c l2 a).Prev = if a = c then some q else (h a).Prev := by
  unfold attachHeap
  rw [foldl_setLocation_Prev, setPrev_Prev, setNext_Prev]

theorem attachHeap_Which (h : Heap) (q c : Nat) (l2 : List Nat) (a : Nat) :
    (attachHeap h q c l2 a).Which = (h a).Which := by
  unfold attachHeap
  rw [foldl_setLocation_Which, setPrev_Which, setNext_Which]

theorem attachHeap_FaceUp (h : Heap) (q c : Nat) (l2 : List Nat) (a : Nat) :
    (attachHeap h q c l2 a).FaceUp = (h a).FaceUp := by
  unfold attachHeap
  rw [foldl_setLocation_FaceUp, setPrev_FaceUp, setNext_FaceUp]

theorem attachHeap_Location (h : Heap) (q c : Nat) (l2 : List Nat) (a : Nat) :
    (attachHeap h q c l2 a).Location =
      if a ∈ c :: l2 then .LocationBoard else (h a).Location := by
  unfold attachHeap
  rw [foldl_setLocation_Location, setPrev_Location, setNext_Location]

/-- Cutting the chain `c :: l2` off a pile with nodes `a :: (l1 ++ c :: l2)`. -/
theorem detachHeap_links {h : Heap} (a c : Nat) (l1 l2 : List Nat)
    (hnd : (a :: (l1 ++ c :: l2)).Nodup) (hl : Links h a (l1 ++ c :: l2)) :
    Links (detachHeap h (l1.getLastD a) c l2) a l1 ∧
      Links (detachHeap h (l1.getLastD a) c l2) c l2 := by
  have hdet := Links.detach c l2 a l1 hnd hl
  constructor
  · refine Links.congr ?_ ?_ hdet.1
    · intro x _
      rw [detachHeap_Next, setPrev_Next, setNext_Next]
    · intro x _
      rw [detachHeap_Prev, setPrev_Prev, setNext_Prev]
  · refine Links.congr ?_ ?_ hdet.2
    · intro x _
      rw [detachHeap_Next, setPrev_Next, setNext_Next]
    · intro x _
      rw [detachHeap_Prev, setPrev_Prev, setNext_Prev]

/-- Linking the chain `c :: l2` behind a pile with nodes `a :: l1`. -/
theorem attachHeap_links {h : Heap} (a c : Nat) (l1 l2 : List Nat)
    (hnd : (a :: (l1 ++ c :: l2)).Nodup) (hl1 : Links h a l1) (hl2 : Links h c l2) :
    Links (attachHeap h (l1.getLastD a) c l2) a (l1 ++ c :: l2) := by
  have hatt := Links.attach c l2 a l1 hnd hl1 hl2
  refine Links.congr ?_ ?_ hatt
  · intro x _
    rw [attachHeap_Next, setPrev_Next, setNext_Next]
  · intro x _
    rw [attachHeap_Prev, setPrev_Prev, setNext_Prev]

/-- The state after a tableau pick-up is a well-formed board: the chain
`c :: l2` has moved from column `x` to the held pile. -/
theorem pickUpBoard_board (s : BoardState) (L : Layout) (x c : Nat) (l1 l2 : List Nat)
    (r : Option Nat) (w : Bool) (y : Nat)
    (hB : Board s L) (hheld : L 12 = []) (hx : x < 7) (hsplit : L x = l1 ++ c :: l2) :
    Board { s with heap := detachHeap s.heap (l1.getLastD (boardBase x)) c l2,
                   mHeldCard := some c, mHeldWasTopOfDeck := w, mCardToReveal := r,
                   mCursorLocationY := y }
      (setPile (setPile L x l1) 12 (c :: l2)) := by
  obtain ⟨hL, hb, hst, hdk, hh, htop, hS, hW⟩ := hB
  have hx13 : x < 13 := by omega
  have hx12 : x ≠ 12 := by omega
  have hnd : (boardBase x :: (l1 ++ c :: l2)).Nodup := by
    have := hS.pileNodes_nodup x hx13
    unfold pileNodes at this
    rw [anchorOf_tab x hx, hsplit] at this
    exact this
  have hpile := hL x hx13
  unfold pileNodes at hpile
  rw [anchorOf_tab x hx, hsplit] at hpile
  have hlk := detachHeap_links (boardBase x) c l1 l2 hnd hpile.2
  have hq : l1.getLastD (boardBase x) ∈ pileNodes L x := by
    unfold pileNodes
    rw [anchorOf_tab x hx, hsplit, List.singleton_append]
    have := getLastD_mem (boardBase x) l1
    rcases List.mem_cons.mp this with h1 | h1
    · rw [h1]; exact List.mem_cons_self _ _
    · exact List.mem_cons_of_mem _ (List.mem_append_left _ h1)
  have hc : c ∈ pileNodes L x := by
    unfold pileNodes
    rw [hsplit]
    exact List.mem_append_right _ (List.mem_append_right _ (List.mem_cons_self _ _))
  have hbc : boardBase x ≠ c := by
    intro e
    have := (List.nodup_cons.mp hnd).1
    exact this (e ▸ List.mem_append_right _ (List.mem_cons_self _ _))
  refine ⟨?_, hb, ?_, ?_, ?_, ?_, ?_, ?_⟩
  · refine linked_of_two hS hL x 12 hx13 (by omega) l1 (c :: l2) ?_ ?_ ?_
    · intro q hq1 _
      constructor
      · rw [detachHeap_Next, if_neg (by intro e; exact hq1 (by rw [e]; exact hq))]
      · rw [detachHeap_Prev, if_neg (by intro e; exact hq1 (by rw [e]; exact hc))]
    · intro _
      rw [anchorOf_tab x hx]
      exact ⟨by rw [detachHeap_Prev, if_neg hbc]; exact hpile.1, hlk.1⟩
    · rw [anchorOf_held]
      exact ⟨by rw [detachHeap_Prev, if_pos rfl], hlk.2⟩
  · intro i hi
    rw [setPile_other _ _ _ _ (by omega), setPile_other _ _ _ _ (by omega)]
    exact hst i hi
  · rw [setPile_other _ _ _ _ (by omega), setPile_other _ _ _ _ (by omega)]
    exact hdk
  · rw [setPile_same]
    rfl
  · intro d hd
    rw [setPile_other _ _ _ _ (by omega), setPile_other _ _ _ _ (by omega)]
    exact htop d hd
  · have := hS.move_tail x 12 hx13 (by omega) hx12 l1 (c :: l2) hsplit
    rw [hheld, List.nil_append] at this
    exact this
  · intro a ha
    show (detachHeap s.heap _ c l2 a).Which = _
    rw [detachHeap_Which]
    exact hW a ha

theorem Links.suffix {h : Heap} (c : Nat) (l2 : List Nat) : ∀ (a : Nat) (l1 : List Nat),
    Links h a (l1 ++ c :: l2) → Links h c l2
  | a, [], hl => by
    rw [List.nil_append] at hl
    unfold Links at hl
    exact hl.2.2
  | a, b :: l1, hl => by
    rw [List.cons_append] at hl
    unfold Links at hl
    exact Links.suffix c l2 b l1 hl.2.2

/-- A state with the same links, identities and pile pointers is a well-formed
board with the same piles. -/
theorem Board.of_same_links {s t : BoardState} {L : Layout} (hB : Board s L)
    (hNext : ∀ a, (t.heap a).Next = (s.heap a).Next)
    (hPrev : ∀ a, (t.heap a).Prev = (s.heap a).Prev)
    (hWhich : ∀ a, (t.heap a).Which = (s.heap a).Which)
    (hboard : t.mBoard = s.mBoard) (hstacks : t.mStacks = s.mStacks) (hdeck : t.mDeck = s.mDeck)
    (hheld : t.mHeldCard = s.mHeldCard) (htop : ∀ c, t.mTopOfDeck = some c → c ∈ L 11) :
    Board t L := by
  obtain ⟨hL, hb, hst, hdk, hh, _, hS, hW⟩ := hB
  refine ⟨?_, ?_, ?_, ?_, ?_, htop, hS, ?_⟩
  · intro p hp
    exact IsPile.congr_pile (fun c _ => hNext c) (fun c _ => hPrev c) (hL p hp)
  · rw [hboard]; exact hb
  · rw [hstacks]; exact hst
  · rw [hdeck]; exact hdk
  · rw [hheld]; exact hh
  · intro a ha
    rw [hWhich]
    exact hW a ha

/-- The put-down on a tableau column, on a well-formed board holding the chain `c :: l2`. -/
theorem putDownBoard_eq (s : BoardState) (L : Layout) (x c : Nat) (l2 : List Nat)
    (hB : Board s L) (hx : x < 7) (hX : s.mCursorLocationX = x) (hheld : L 12 = c :: l2) :
    putDownBoard s c =
      .ok { s with heap := attachHeap s.heap ((L x).getLastD (boardBase x)) c l2 } := by
  subst hX
  have hS := hB.2.2.2.2.2.2.1
  obtain ⟨_, hlinks⟩ := hB.tab_pile _ hx
  have hlen : (L s.mCursorLocationX).length ≤ 52 := hS.length_le _ (by omega)
  have hlen12 : (L 12).length ≤ 52 := hS.length_le 12 (by omega)
  have hwalk := walkToEnd_links s.heap _ loopFuel _ hlinks
    (by simp only [loopFuel, heapSize]; omega)
  have hhp := hB.held_pile
  rw [hheld] at hhp
  have hnd : (boardBase s.mCursorLocationX :: (L s.mCursorLocationX ++ c :: l2)).Nodup := by
    have h1 := hS.pileNodes_nodup _ (show s.mCursorLocationX < 13 by omega)
    have h2 := hS.pileNodes_nodup 12 (by omega)
    unfold pileNodes at h1 h2
    rw [anchorOf_tab _ hx, List.singleton_append] at h1
    rw [anchorOf_held, List.nil_append, hheld] at h2
    rw [← List.cons_append, List.nodup_append]
    refine ⟨h1, h2, ?_⟩
    intro a ha1 ha2
    have hp1 : a ∈ pileNodes L s.mCursorLocationX := by
      unfold pileNodes
      rw [anchorOf_tab _ hx, List.singleton_append]
      exact ha1
    have hp2 : a ∈ pileNodes L 12 := by
      unfold pileNodes
      rw [anchorOf_held, List.nil_append, hheld]
      exact ha2
    exact hS.pileNodes_apart _ 12 (by omega) (by omega) (by omega) a hp1 hp2
  have hatt := Links.attach c l2 _ _ hnd hlinks hhp.2
  have hsuf := Links.suffix c l2 _ _ hatt
  have hlen2 : (c :: l2).length < loopFuel := by
    rw [hheld] at hlen12
    simp only [loopFuel, heapSize]
    omega
  have hloc := setLocationChain_chain .LocationBoard (c :: l2) loopFuel (some c) _
    ⟨rfl, Links.chain hsuf⟩ hlen2
  unfold putDownBoard
  rw [if_pos hx, hB.2.1 _ hx]
  simp only [deref, ok_bind, hwalk]
  rw [hloc, ok_bind]
  rfl

/-- The state after a tableau put-down, once `mHeldCard` is cleared, is a
well-formed board: the held chain has moved to the end of column `x`. -/
theorem putDownBoard_board (s : BoardState) (L : Layout) (x c : Nat) (l2 : List Nat)
    (hB : Board s L) (hx : x < 7) (hheld : L 12 = c :: l2) :
    Board { s with heap := attachHeap s.heap ((L x).getLastD (boardBase x)) c l2,
                   mHeldCard := none }
      (setPile (setPile L 12 []) x (L x ++ c :: l2)) := by
  obtain ⟨hL, hb, hst, hdk, hh, htop, hS, hW⟩ := hB
  have hx13 : x < 13 := by omega
  have hnd1 := hS.pileNodes_nodup x hx13
  have hnd2 := hS.pileNodes_nodup 12 (by omega)
  have hpile := hL x hx13
  have hhp := hL 12 (by omega)
  unfold pileNodes at hnd1 hnd2 hpile hhp
  rw [anchorOf_tab x hx, List.singleton_append] at hnd1 hpile
  rw [anchorOf_held, List.nil_append, hheld] at hnd2 hhp
  have hcp : c ∈ pileNodes L 12 := by
    unfold pileNodes
    rw [anchorOf_held, List.nil_append, hheld]
    exact List.mem_cons_self _ _
  have hqp : (L x).getLastD (boardBase x) ∈ pileNodes L x := by
    unfold pileNodes
    rw [anchorOf_tab x hx, List.singleton_append]
    exact getLastD_mem _ _
  have hnd : (boardBase x :: (L x ++ c :: l2)).Nodup := by
    rw [← List.cons_append, List.nodup_append]
    refine ⟨hnd1, hnd2, ?_⟩
    intro a ha1 ha2
    have hp1 : a ∈ pileNodes L x := by
      unfold pileNodes
      rw [anchorOf_tab x hx, List.singleton_append]
      exact ha1
    have hp2 : a ∈ pileNodes L 12 := by
      unfold pileNodes
      rw [anchorOf_held, List.nil_append, hheld]
      exact ha2
    exact hS.pileNodes_apart x 12 hx13 (by omega) (by omega) a hp1 hp2
  have hbc : boardBase x ≠ c := by
    intro e
    exact (List.nodup_cons.mp hnd).1 (e ▸ List.mem_append_right _ (List.mem_cons_self _ _))
  refine ⟨?_, hb, ?_, ?_, ?_, ?_, ?_, ?_⟩
  · refine linked_of_two hS hL 12 x (by omega) hx13 [] (L x ++ c :: l2) ?_ ?_ ?_
    · intro q hq1 hq2
      constructor
      · rw [attachHeap_Next, if_neg (by intro e; exact hq2 (by rw [e]; exact hqp))]
      · rw [attachHeap_Prev, if_neg (by intro e; exact hq1 (by rw [e]; exact hcp))]
    · intro _
      rw [anchorOf_held]
      trivial
    · rw [anchorOf_tab x hx, List.singleton_append]
      exact ⟨by rw [attachHeap_Prev, if_neg hbc]; exact hpile.1,
        attachHeap_links (boardBase x) c (L x) l2 hnd hpile.2 hhp.2⟩
  · intro i hi
    rw [setPile_other _ _ _ _ (by omega), setPile_other _ _ _ _ (by omega)]
    exact hst i hi
  · rw [setPile_other _ _ _ _ (by omega), setPile_other _ _ _ _ (by omega)]
    exact hdk
  · rw [setPile_other _ _ _ _ (by omega), setPile_same]
    rfl
  · intro d hd
    rw [setPile_other _ _ _ _ (by omega), setPile_other _ _ _ _ (by omega)]
    exact htop d hd
  · exact hS.move_tail 12 x (by omega) hx13 (by omega) [] (c :: l2) (by rw [hheld]; rfl)
  · intro a ha
    show (attachHeap s.heap _ c l2 a).Which = _
    rw [attachHeap_Which]
    exact hW a ha

/-! ## Releasing the held chain -/

theorem revealAndRelease_Next (s : BoardState) (held a : Nat) :
    ((revealAndRelease s held).heap a).Next = (s.heap a).Next := by
  unfold revealAndRelease
  split
  · split
    · exact setFaceUp_Next _ _ _ _
    · rfl
  · rfl

theorem revealAndRelease_Prev (s : BoardState) (held a : Nat) :
    ((revealAndRelease s held).heap a).Prev = (s.heap a).Prev := by
  unfold revealAndRelease
  split
  · split
    · exact setFaceUp_Prev _ _ _ _
    · rfl
  · rfl

theorem revealAndRelease_Which (s : BoardState) (held a : Nat) :
    ((revealAndRelease s held).heap a).Which = (s.heap a).Which := by
  unfold revealAndRelease
  split
  · split
    · exact setFaceUp_Which _ _ _ _
    · rfl
  · rfl

theorem revealAndRelease_Location (s : BoardState) (held a : Nat) :
    ((revealAndRelease s held).heap a).Location = (s.heap a).Location := by
  unfold revealAndRelease
  split
  · split
    · exact setFaceUp_Location _ _ _ _
    · rfl
  · rfl

theorem revealAndRelease_FaceUp (s : BoardState) (held a : Nat) :
    ((revealAndRelease s held).heap a).FaceUp =
      if s.mCardToReveal = some a ∧ s.mCardToReveal ≠ (s.heap held).Prev then true
      else (s.heap a).FaceUp := by
  unfold revealAndRelease
  split
  · next r hr =>
    split
    · next hne =>
      show (setFaceUp s.heap r true a).FaceUp = _
      rw [setFaceUp_FaceUp, hr]
      by_cases har : a = r
      · rw [if_pos har, if_pos ⟨by rw [har], hne⟩]
      · rw [if_neg har, if_neg]
        intro hh
        exact har (Option.some.inj hh.1).symm
    · next hne =>
      rw [hr, if_neg]
      · intro hh
        exact hne hh.2
  · next hr =>
    rw [hr, if_neg]
    · intro hh
      cases hh.1

theorem revealAndRelease_fields (s : BoardState) (held : Nat) :
    (revealAndRelease s held).mHeldCard = none ∧
      (revealAndRelease s held).mBoard = s.mBoard ∧
      (revealAndRelease s held).mStacks = s.mStacks ∧
      (revealAndRelease s held).mDeck = s.mDeck ∧
      (revealAndRelease s held).mTopOfDeck = s.mTopOfDeck ∧
      (revealAndRelease s held).mCursorLocationX = s.mCursorLocationX ∧
      (revealAndRelease s held).mCursorLocationY = s.mCursorLocationY ∧
      (revealAndRelease s held).mNumValidTargets = s.mNumValidTargets ∧
      (revealAndRelease s held).mValidTargets = s.mValidTargets := by
  unfold revealAndRelease
  split
  · split
    · exact ⟨rfl, rfl, rfl, rfl, rfl, rfl, rfl, rfl, rfl⟩
    · exact ⟨rfl, rfl, rfl, rfl, rfl, rfl, rfl, rfl, rfl⟩
  · exact ⟨rfl, rfl, rfl, rfl, rfl, rfl, rfl, rfl, rfl⟩

/-- Releasing the held chain keeps a board well-formed, for the piles it has
once `mHeldCard` is cleared. -/
theorem revealAndRelease_board (s : BoardState) (held : Nat) (L : Layout)
    (hB : Board { s with mHeldCard := none } L) : Board (revealAndRelease s held) L := by
  have hf := revealAndRelease_fields s held
  refine Board.of_same_links hB (revealAndRelease_Next s held) (revealAndRelease_Prev s held)
    (revealAndRelease_Which s held) hf.2.1 hf.2.2.1 hf.2.2.2.1 hf.1 ?_
  intro c hc
  rw [hf.2.2.2.2.1] at hc
  exact hB.2.2.2.2.2.1 c hc

/-- The put-down of the held chain `c :: l2` with the cursor on tableau column `x`. -/
theorem putDownHeldCard_tableau (s : BoardState) (L : Layout) (x c : Nat) (l2 : List Nat)
    (hB : Board s L) (hx : x < 7) (hX : s.mCursorLocationX = x) (hY : s.mCursorLocationY ≠ 0)
    (hheld : L 12 = c :: l2) :
    putDownHeldCard s = .ok (revealAndRelease
      { s with heap := attachHeap s.heap ((L x).getLastD (boardBase x)) c l2 } c) := by
  have hd : deref s.mHeldCard = .ok c := by
    rw [hB.2.2.2.2.1, hheld]
    rfl
  unfold putDownHeldCard
  rw [hd, ok_bind, if_neg hY, putDownBoard_eq s L x c l2 hB hx hX hheld, ok_bind]

/-! ## Moves between piles -/

theorem pickUp_tableau (s : BoardState) (h : s.mCursorLocationY ≠ 0) :
    pickUp s = pickUpBoard s := by
  unfold pickUp
  rw [if_neg h]

/-- C21: on a well-formed board with nothing held, a pick-up on row `|l1| + 1` of
tableau column `a`, whose cards are `l1 ++ c :: l2`, leaves a well-formed board
in which column `a` holds `l1` (its last `Next` null), the held chain is
`c :: l2` (head `Prev` null) and all other piles are as before; putting the
chain down with the cursor on another tableau column `b` leaves a well-formed
board in which column `b` holds its old cards followed by `c :: l2`, column `a`
holds `l1`, nothing is held, every moved card is stamped `LocationBoard`, and
all other columns, the foundations and the draw/waste chain are as before. -/
theorem tableau_move (s : BoardState) (L : Layout) (a b c y : Nat) (k : Int) (l1 l2 : List Nat)
    (hB : Board s L) (hheld : L 12 = []) (ha : a < 7) (hb : b < 7) (hab : a ≠ b)
    (hX : s.mCursorLocationX = a) (hsplit : L a = l1 ++ c :: l2)
    (hY : s.mCursorLocationY = l1.length + 1) (hy : y ≠ 0) :
    ∃ s1, pickUp s = .ok s1 ∧
      Board s1 (setPile (setPile L a l1) 12 (c :: l2)) ∧
      s1.mHeldCard = some c ∧ (s1.heap c).Prev = none ∧
      (s1.heap (l1.getLastD (boardBase a))).Next = none ∧
      ∃ s2, putDownHeldCard { s1 with mCursorLocationX := b, mCursorLocationY := y,
                                      mCurrentTarget := k } = .ok s2 ∧
        Board s2 (setPile (setPile L a l1) b (L b ++ c :: l2)) ∧
        s2.mHeldCard = none ∧
        ∀ d, d ∈ c :: l2 → (s2.heap d).Location = .LocationBoard := by
  have hpick := pickUpBoard_eq s L a c l1 l2 hB ha hX hsplit hY
  have hB1 := pickUpBoard_board s L a c l1 l2 l1.getLast? false
    (if l1.length + 1 > 1 then l1.length else l1.length + 1) hB hheld ha hsplit
  have hex : ∃ s1, pickUp s = .ok s1 ∧ Board s1 (setPile (setPile L a l1) 12 (c :: l2)) ∧
      s1.mHeldCard = some c := ⟨_, by rw [pickUp_tableau s (by omega), hpick], hB1, rfl⟩
  obtain ⟨s1, hp1, hB1, hh1⟩ := hex
  refine ⟨s1, hp1, hB1, hh1, ?_, ?_, ?_⟩
  · have := hB1.held_pile
    rw [setPile_same] at this
    exact this.1
  · have := (hB1.tab_pile a ha).2
    rw [setPile_other _ _ _ _ (by omega), setPile_same] at this
    exact Links.last_next this
  · have hB1' : Board
        { s1 with mCursorLocationX := b, mCursorLocationY := y, mCurrentTarget := k }
        (setPile (setPile L a l1) 12 (c :: l2)) :=
      Board.of_same_links hB1 (fun _ => rfl) (fun _ => rfl) (fun _ => rfl) rfl rfl rfl rfl
        hB1.2.2.2.2.2.1
    have hL12 : setPile (setPile L a l1) 12 (c :: l2) 12 = c :: l2 := setPile_same _ _ _
    have hL1b : setPile (setPile L a l1) 12 (c :: l2) b = L b := by
      rw [setPile_other _ _ _ _ (by omega), setPile_other _ _ _ _ (fun e => hab e.symm)]
    have hput := putDownHeldCard_tableau _ _ b c l2 hB1' hb rfl hy hL12
    have hB2 := putDownBoard_board _ _ b c l2 hB1' hb hL12
    have hlay : setPile (setPile (setPile (setPile L a l1) 12 (c :: l2)) 12 []) b
        (setPile (setPile L a l1) 12 (c :: l2) b ++ c :: l2) =
        setPile (setPile L a l1) b (L b ++ c :: l2) := by
      funext p
      rw [hL1b]
      unfold setPile
      by_cases h1 : p = b
      · rw [if_pos h1, if_pos h1]
      · rw [if_neg h1, if_neg h1]
        by_cases h2 : p = 12
        · rw [if_pos h2]
          have : ¬ (p = a) := by omega
          rw [if_neg this, h2, hheld]
        · rw [if_neg h2, if_neg h2]
    rw [hlay] at hB2
    refine ⟨_, hput, revealAndRelease_board _ c _ hB2, (revealAndRelease_fields _ c).1, ?_⟩
    intro d hd
    rw [revealAndRelease_Location]
    show (attachHeap _ _ c l2 d).Location = _
    rw [attachHeap_Location, if_pos hd]

theorem tableau_move_witness :
    ∃ s1, pickUp (mixedBoard 2 2) = .ok s1 ∧ s1.mHeldCard = some 1 ∧
      ∃ s2, putDownHeldCard { s1 with mCursorLocationX := 0, mCursorLocationY := 1,
                                      mCurrentTarget := 0 } = .ok s2 ∧
        Board s2 (setPile (setPile (layoutOf [[3], [], [0, 1, 2]] [] [] []) 2 [0]) 0
          (layoutOf [[3], [], [0, 1, 2]] [] [] [] 0 ++ [1, 2])) ∧
        s2.mHeldCard = none := by
  obtain ⟨s1, h1, _, h2, _, _, s2, h3, h4, h5, _⟩ :=
    tableau_move (mixedBoard 2 2) (layoutOf [[3], [], [0, 1, 2]] [] [] []) 2 0 1 1 0 [0] [2]
      (by decide) (by decide) (by decide) (by decide) (by decide) rfl (by decide) rfl
      (by decide)
  exact ⟨s1, h1, h2, s2, h3, h4, h5⟩

/-! ## The enumeration of the drop targets -/

theorem Retargets.refl (s : BoardState) : Retargets s s :=
  ⟨s.mNumValidTargets, s.mValidTargets, s.mCurrentTarget, rfl⟩

theorem Retargets.trans {s t u : BoardState} (h1 : Retargets s t) (h2 : Retargets t u) :
    Retargets s u := by
  obtain ⟨n, v, k, rfl⟩ := h1
  obtain ⟨n', v', k', rfl⟩ := h2
  exact ⟨n', v', k', rfl⟩

theorem Retargets.stackFits {s t : BoardState} (h : Retargets s t) (held i : Nat) :
    stackFits t held i = stackFits s held i := by
  obtain ⟨n, v, k, rfl⟩ := h
  rfl

theorem Retargets.columnFits {s t : BoardState} (h : Retargets s t) (held cur i : Nat) :
    columnFits t held cur i = columnFits s held cur i := by
  obtain ⟨n, v, k, rfl⟩ := h
  rfl

theorem targets_length (s : BoardState) : (targets s).length = s.mNumValidTargets := by
  unfold targets
  rw [List.length_map, List.length_range]

theorem pushTarget_spec (s : BoardState) (v : Nat) (hv : v < 256) (hn : s.mNumValidTargets < 12) :
    ∃ t, pushTarget s v = .ok t ∧ Retargets s t ∧ targets t = targets s ++ [v] := by
  refine ⟨_, by unfold pushTarget; rw [if_pos hn], ⟨_, _, _, rfl⟩, ?_⟩
  unfold targets
  show List.map (fun k => if k = s.mNumValidTargets then v % 256 else s.mValidTargets k)
    (List.range ((s.mNumValidTargets + 1) % 256)) =
    List.map s.mValidTargets (List.range s.mNumValidTargets) ++ [v]
  rw [Nat.mod_eq_of_lt (show s.mNumValidTargets + 1 < 256 by omega), List.range_succ,
    List.map_append, List.map_singleton]
  simp only [if_true, Nat.mod_eq_of_lt hv]
  congr 1
  apply List.map_congr_left
  intro k hk
  rw [List.mem_range] at hk
  rw [if_neg (by omega)]

theorem enc_stack : ∀ i, i < 4 → ((i + 2) <<< 1) ||| 0 = 2 * (i + 2) := by decide

theorem enc_column : ∀ i, i < 7 → (i <<< 1) ||| 1 = 2 * i + 1 := by decide

theorem enumStack_spec (s : BoardState) (held i : Nat) (hi : i < 4)
    (hst : ∃ a, s.mStacks i = some a) (hn : s.mNumValidTargets < 12) :
    ∃ t, enumStack s held i = .ok t ∧ Retargets s t ∧
      targets t = targets s ++ (if stackFits s held i then [2 * (i + 2)] else []) := by
  obtain ⟨a, ha⟩ := hst
  have hfit : stackFits s held i =
      (if (s.heap a).isempty then decide ((s.heap held).Which.getNumber = CardId.NumAce)
       else decide ((s.heap held).Which.getNumber = (s.heap a).Which.getNumber + 1 ∧
        (s.heap held).Which.getSuit = (s.heap a).Which.getSuit)) := by
    unfold stackFits
    rw [ha]
  unfold enumStack
  rw [ha]
  simp only [deref, ok_bind]
  rw [← hfit, enc_stack i hi]
  by_cases hf : stackFits s held i = true
  · rw [if_pos hf, if_pos hf]
    by_cases hcur : s.mCursorLocationX = i + 2 ∧ s.mCursorLocationY = 0
    · rw [if_pos hcur]
      obtain ⟨t, ht, hr, htg⟩ := pushTarget_spec
        { s with mCurrentTarget := wrapInt8 s.mNumValidTargets } (2 * (i + 2)) (by omega) hn
      exact ⟨t, ht, Retargets.trans ⟨_, _, _, rfl⟩ hr, htg⟩
    · rw [if_neg hcur]
      exact pushTarget_spec s (2 * (i + 2)) (by omega) hn
  · rw [if_neg hf, if_neg hf, List.append_nil]
    exact ⟨s, rfl, Retargets.refl s, rfl⟩

theorem Retargets.mStacks {s t : BoardState} (h : Retargets s t) : t.mStacks = s.mStacks := by
  obtain ⟨n, v, k, rfl⟩ := h
  rfl

theorem Retargets.mBoard {s t : BoardState} (h : Retargets s t) : t.mBoard = s.mBoard := by
  obtain ⟨n, v, k, rfl⟩ := h
  rfl

theorem Retargets.heap {s t : BoardState} (h : Retargets s t) : t.heap = s.heap := by
  obtain ⟨n, v, k, rfl⟩ := h
  rfl

theorem enumStacks_spec (held : Nat) : ∀ (k i : Nat) (s : BoardState), i + k ≤ 4 →
    s.mNumValidTargets + k ≤ 12 → (∀ j, j < 4 → ∃ a, s.mStacks j = some a) →
    ∃ t, enumStacks held k i s = .ok t ∧ Retargets s t ∧
      targets t = targets s ++
        ((List.range' i k).filter (fun j => stackFits s held j)).map (fun j => 2 * (j + 2))
  | 0, i, s, _, _, _ => ⟨s, rfl, Retargets.refl s, by simp⟩
  | k + 1, i, s, hik, hnk, hst => by
    obtain ⟨t1, ht1, hr1, htg1⟩ := enumStack_spec s held i (by omega) (hst i (by omega))
      (by omega)
    have hlen1 : t1.mNumValidTargets ≤ s.mNumValidTargets + 1 := by
      rw [← targets_length t1, htg1, List.length_append, targets_length]
      split <;> simp
    obtain ⟨t2, ht2, hr2, htg2⟩ := enumStacks_spec held k (i + 1) t1 (by omega) (by omega)
      (by rw [hr1.mStacks]; exact hst)
    refine ⟨t2, ?_, Retargets.trans hr1 hr2, ?_⟩
    · unfold enumStacks
      rw [ht1, ok_bind, ht2]
    · rw [htg2, htg1, List.range'_succ, List.filter_cons, List.append_assoc]
      have hfun : (fun j => stackFits t1 held j) = (fun j => stackFits s held j) :=
        funext (fun j => hr1.stackFits held j)
      rw [hfun]
      congr 1
      by_cases hf : stackFits s held i = true
      · rw [if_pos hf, if_pos hf, List.map_cons]
        rfl
      · rw [if_neg hf, if_neg hf]
        rfl

theorem enumBoardCol_spec (s : BoardState) (held i : Nat) (col : List Nat) (hi : i < 7)
    (hb : s.mBoard i = some (boardBase i)) (hl : Links s.heap (boardBase i) col)
    (hlen : col.length ≤ 52) (hn : s.mNumValidTargets < 12) :
    ∃ t, enumBoardCol s held i = .ok t ∧ Retargets s t ∧
      targets t = targets s ++
        (if columnFits s held (col.getLastD (boardBase i)) i then [2 * i + 1] else []) := by
  have hwalk := walkToEnd_links s.heap col loopFuel (boardBase i) hl
    (by simp only [loopFuel, heapSize]; omega)
  unfold enumBoardCol
  rw [hb]
  simp only [deref, ok_bind, hwalk]
  rw [enc_column i hi]
  by_cases hf : columnFits s held (col.getLastD (boardBase i)) i = true
  · rw [if_pos hf]
    unfold columnFits at hf
    rw [if_pos (of_decide_eq_true hf)]
    exact pushTarget_spec s (2 * i + 1) (by omega) hn
  · rw [if_neg hf, List.append_nil]
    unfold columnFits at hf
    rw [if_neg (fun h => hf (decide_eq_true h))]
    exact ⟨s, rfl, Retargets.refl s, rfl⟩

theorem enumBoard_spec (held : Nat) (L : Layout) : ∀ (k i : Nat) (s : BoardState), i + k ≤ 7 →
    s.mNumValidTargets + k ≤ 12 →
    (∀ j, j < 7 → s.mBoard j = some (boardBase j) ∧ Links s.heap (boardBase j) (L j) ∧
      (L j).length ≤ 52) →
    ∃ t, enumBoard held k i s = .ok t ∧ Retargets s t ∧
      targets t = targets s ++
        ((List.range' i k).filter
          (fun j => columnFits s held ((L j).getLastD (boardBase j)) j)).map
          (fun j => 2 * j + 1)
  | 0, i, s, _, _, _ => ⟨s, rfl, Retargets.refl s, by simp⟩
  | k + 1, i, s, hik, hnk, hcol => by
    obtain ⟨hb, hl, hlen⟩ := hcol i (by omega)
    obtain ⟨t1, ht1, hr1, htg1⟩ := enumBoardCol_spec s held i (L i) (by omega) hb hl hlen
      (by omega)
    have hlen1 : t1.mNumValidTargets ≤ s.mNumValidTargets + 1 := by
      rw [← targets_length t1, htg1, List.length_append, targets_length]
      split <;> simp
    obtain ⟨t2, ht2, hr2, htg2⟩ := enumBoard_spec held L k (i + 1) t1 (by omega) (by omega)
      (by rw [hr1.mBoard, hr1.heap]; exact hcol)
    refine ⟨t2, ?_, Retargets.trans hr1 hr2, ?_⟩
    · unfold enumBoard
      rw [ht1, ok_bind, ht2]
    · rw [htg2, htg1, List.range'_succ, List.filter_cons, List.append_assoc]
      have hfun : (fun j => columnFits t1 held ((L j).getLastD (boardBase j)) j) =
          (fun j => columnFits s held ((L j).getLastD (boardBase j)) j) :=
        funext (fun j => hr1.columnFits held _ j)
      rw [hfun]
      congr 1
      by_cases hf : columnFits s held ((L i).getLastD (boardBase i)) i = true
      · rw [if_pos hf, if_pos hf, List.map_cons]
        rfl
      · rw [if_neg hf, if_neg hf]
        rfl

/-- The part of the enumeration after the deck slot: foundations, then tableau. -/
theorem enumerateTargets_tail (s s1 : BoardState) (L : Layout) (held : Nat) (hB : Board s L)
    (hr : Retargets s s1) (hn : s1.mNumValidTargets ≤ 1) :
    ∃ t, (match (s1.heap held).Next with
        | none => enumStacks held 4 0 s1 >>= fun y => enumBoard held 7 0 y
        | some _ => (Except.ok s1 : Except Fault BoardState) >>= fun y => enumBoard held 7 0 y) =
        .ok t ∧ Retargets s t ∧
      targets t = targets s1 ++
        (if (s.heap held).Next = none then
          ((List.range 4).filter (fun i => stackFits s held i)).map (fun i => 2 * (i + 2))
         else []) ++
        ((List.range 7).filter
          (fun i => columnFits s held ((L i).getLastD (boardBase i)) i)).map
          (fun i => 2 * i + 1) := by
  have hS := hB.2.2.2.2.2.2.1
  have hst : ∀ j, j < 4 → ∃ a, s.mStacks j = some a := fun j hj => ⟨_, hB.2.2.1 j hj⟩
  have hcol : ∀ j, j < 7 → s.mBoard j = some (boardBase j) ∧
      Links s.heap (boardBase j) (L j) ∧ (L j).length ≤ 52 :=
    fun j hj => ⟨hB.2.1 j hj, (hB.tab_pile j hj).2, hS.length_le j (by omega)⟩
  rw [hr.heap]
  cases hnx : (s.heap held).Next with
  | none =>
    obtain ⟨t2, ht2, hr2, htg2⟩ := enumStacks_spec held 4 0 s1 (by omega) (by omega)
      (by rw [hr.mStacks]; exact hst)
    have hr12 := Retargets.trans hr hr2
    have hn2 : t2.mNumValidTargets ≤ 5 := by
      rw [← targets_length t2, htg2, List.length_append, targets_length, List.length_map]
      have := List.length_filter_le (fun j => stackFits s1 held j) (List.range' 0 4)
      simp only [List.length_range'] at this
      omega
    obtain ⟨t3, ht3, hr3, htg3⟩ := enumBoard_spec held L 7 0 t2 (by omega) (by omega)
      (by rw [hr12.mBoard, hr12.heap]; exact hcol)
    refine ⟨t3, ?_, Retargets.trans hr12 hr3, ?_⟩
    · show enumStacks held 4 0 s1 >>= (fun y => enumBoard held 7 0 y) = _
      rw [ht2, ok_bind, ht3]
    · rw [htg3, htg2, if_pos rfl]
      simp only [List.range_eq_range']
      have hfun1 : (fun j => stackFits s1 held j) = (fun j => stackFits s held j) :=
        funext (fun j => hr.stackFits held j)
      have hfun2 : (fun j => columnFits t2 held ((L j).getLastD (boardBase j)) j) =
          (fun j => columnFits s held ((L j).getLastD (boardBase j)) j) :=
        funext (fun j => hr12.columnFits held _ j)
      rw [hfun1, hfun2]
  | some nx =>
    obtain ⟨t3, ht3, hr3, htg3⟩ := enumBoard_spec held L 7 0 s1 (by omega) (by omega)
      (by rw [hr.mBoard, hr.heap]; exact hcol)
    refine ⟨t3, ?_, Retargets.trans hr hr3, ?_⟩
    · show (Except.ok s1 : Except Fault BoardState) >>= (fun y => enumBoard held 7 0 y) = _
      rw [ok_bind, ht3]
    · rw [htg3, if_neg (by simp), List.append_nil]
      simp only [List.range_eq_range']
      have hfun2 : (fun j => columnFits s1 held ((L j).getLastD (boardBase j)) j) =
          (fun j => columnFits s held ((L j).getLastD (boardBase j)) j) :=
        funext (fun j => hr.columnFits held _ j)
      rw [hfun2]

/-- The enumeration on a well-formed board returns, changes nothing but the
candidate list, and builds the list `expectedTargets`. -/
theorem enumerateTargets_spec (s : BoardState) (L : Layout) (held : Nat) (hB : Board s L)
    (hheld : s.mHeldCard = some held) :
    ∃ t, enumerateTargets s = .ok t ∧ Retargets s t ∧ targets t = expectedTargets s L held := by
  have hd : deref s.mHeldCard = .ok held := by rw [hheld]; rfl
  by_cases hw : s.mHeldWasTopOfDeck = true
  · obtain ⟨t0, ht0, hr0, htg0⟩ := pushTarget_spec
      { s with mNumValidTargets := 0, mCurrentTarget := 0 } ((1 <<< 1) ||| 0)
      (by decide) (by show 0 < 12; omega)
    have hr1 : Retargets s { t0 with mCurrentTarget := 0 } := by
      obtain ⟨n, v, k, rfl⟩ := hr0
      exact ⟨_, _, _, rfl⟩
    have htg1 : targets { t0 with mCurrentTarget := 0 } = [2] := htg0
    obtain ⟨t, ht, hr, htg⟩ := enumerateTargets_tail s { t0 with mCurrentTarget := 0 } L held hB
      hr1 (by rw [← targets_length, htg1]; simp)
    refine ⟨t, ?_, hr, ?_⟩
    · unfold enumerateTargets
      rw [hd, ok_bind]
      show (if s.mHeldWasTopOfDeck = true then _ else _) = _
      rw [if_pos hw, ht0]
      exact ht
    · rw [htg, htg1]
      unfold expectedTargets
      rw [if_pos hw]
  · obtain ⟨t, ht, hr, htg⟩ := enumerateTargets_tail s
      { s with mNumValidTargets := 0, mCurrentTarget := 0 } L held hB ⟨_, _, _, rfl⟩
      (by show 0 ≤ 1; omega)
    refine ⟨t, ?_, hr, ?_⟩
    · unfold enumerateTargets
      rw [hd, ok_bind]
      show (if s.mHeldWasTopOfDeck = true then _ else _) = _
      rw [if_neg hw]
      exact ht
    · rw [htg]
      unfold expectedTargets
      rw [if_neg hw]
      rfl

theorem mem_expectedTargets_stack (s : BoardState) (L : Layout) (held i : Nat) (hi : i < 4) :
    2 * (i + 2) ∈ expectedTargets s L held ↔
      ((s.heap held).Next = none ∧ stackFits s held i = true) := by
  unfold expectedTargets
  rw [List.mem_append, List.mem_append]
  constructor
  · rintro ((h | h) | h)
    · split at h
      · rw [List.mem_singleton] at h; omega
      · cases h
    · split at h
      · next hn =>
        rw [List.mem_map] at h
        obtain ⟨j, hj, hje⟩ := h
        have : j = i := by omega
        subst this
        exact ⟨hn, (List.mem_filter.mp hj).2⟩
      · cases h
    · rw [List.mem_map] at h
      obtain ⟨j, _, hje⟩ := h
      omega
  · rintro ⟨hn, hf⟩
    refine Or.inl (Or.inr ?_)
    rw [if_pos hn, List.mem_map]
    exact ⟨i, List.mem_filter.mpr ⟨List.mem_range.mpr hi, hf⟩, rfl⟩

theorem mem_expectedTargets_column (s : BoardState) (L : Layout) (held i : Nat) (hi : i < 7) :
    2 * i + 1 ∈ expectedTargets s L held ↔
      columnFits s held ((L i).getLastD (boardBase i)) i = true := by
  unfold expectedTargets
  rw [List.mem_append, List.mem_append]
  constructor
  · rintro ((h | h) | h)
    · split at h
      · rw [List.mem_singleton] at h; omega
      · cases h
    · split at h
      · rw [List.mem_map] at h
        obtain ⟨j, _, hje⟩ := h
        omega
      · cases h
    · rw [List.mem_map] at h
      obtain ⟨j, hj, hje⟩ := h
      have : j = i := by omega
      subst this
      exact (List.mem_filter.mp hj).2
  · intro hf
    refine Or.inr ?_
    rw [List.mem_map]
    exact ⟨i, List.mem_filter.mpr ⟨List.mem_range.mpr hi, hf⟩, rfl⟩

/-- On a well-formed board the held chain is a single card exactly when its head has no `Next`. -/
theorem Board.held_single {s : BoardState} {L : Layout} (hB : Board s L) (c : Nat)
    (l2 : List Nat) (hheld : L 12 = c :: l2) : (s.heap c).Next = none ↔ l2 = [] := by
  have hp := hB.held_pile
  rw [hheld] at hp
  have hl := hp.2
  cases l2 with
  | nil =>
    unfold Links at hl
    simp [hl]
  | cons d l2 =>
    unfold Links at hl
    simp [hl.1]

/-- The test for foundation `i` read on the piles of a well-formed board. -/
theorem Board.stackFits_iff {s : BoardState} {L : Layout} (hB : Board s L) (held i : Nat)
    (hi : i < 4) :
    stackFits s held i = true ↔
      (L (7 + i) = [] ∧ (s.heap held).Which.getNumber = CardId.NumAce) ∨
      (∃ top, (L (7 + i)).getLast? = some top ∧
        (s.heap held).Which.getNumber = (s.heap top).Which.getNumber + 1 ∧
        (s.heap held).Which.getSuit = (s.heap top).Which.getSuit) := by
  unfold stackFits
  rw [hB.2.2.1 i hi]
  cases hL : L (7 + i) with
  | nil =>
    simp only [List.getLastD_nil]
    rw [hB.isempty_anchor _ (by unfold stackBase; omega) (by unfold stackBase; omega)]
    simp
  | cons d l =>
    have hmem : (d :: l).getLastD (stackBase i) ∈ L (7 + i) := by
      rw [hL, List.getLastD_cons]
      exact getLastD_mem d l
    dsimp only
    rw [hB.isempty_card _ (hB.2.2.2.2.2.2.1.1 _ (by omega) _ hmem)]
    simp only [Bool.false_eq_true, if_false, decide_eq_true_eq, reduceCtorEq, false_and,
      false_or, getLast?_cons_getLastD, List.getLastD_cons, Option.some.injEq, exists_eq_left']

/-- C11: on a well-formed board holding the chain `c :: l2`, the enumeration
returns, and foundation `i` is in the candidate list it builds (encoded
`((i + 2) << 1) | 0`) if and only if the held chain is the single card `c` and
either the foundation is empty and `c` is an ace, or `c` has the suit of the
foundation's top card and a rank exactly one above it. -/
theorem foundation_candidate_iff (s : BoardState) (L : Layout) (c i : Nat) (l2 : List Nat)
    (hB : Board s L) (hheld : L 12 = c :: l2) (hi : i < 4) :
    ∃ t, enumerateTargets s = .ok t ∧ Retargets s t ∧
      (((i + 2) <<< 1) ||| 0 ∈ targets t ↔
        l2 = [] ∧
          ((L (7 + i) = [] ∧ (s.heap c).Which.getNumber = CardId.NumAce) ∨
            (∃ top, (L (7 + i)).getLast? = some top ∧
              (s.heap c).Which.getNumber = (s.heap top).Which.getNumber + 1 ∧
              (s.heap c).Which.getSuit = (s.heap top).Which.getSuit))) := by
  have hh : s.mHeldCard = some c := by rw [hB.2.2.2.2.1, hheld]; rfl
  obtain ⟨t, ht, hr, htg⟩ := enumerateTargets_spec s L c hB hh
  refine ⟨t, ht, hr, ?_⟩
  rw [htg, enc_stack i hi, mem_expectedTargets_stack s L c i hi, hB.held_single c l2 hheld,
    hB.stackFits_iff c i hi]

/-- C5: on a well-formed board holding the chain `c :: l2`, the enumeration
returns, and the candidate list it builds contains every empty foundation `i`
(encoded `((i + 2) << 1) | 0`) when the held chain is a single ace, and every
empty tableau column `i` (encoded `(i << 1) | 1`) when `c` is a king. -/
theorem empty_piles_offered (s : BoardState) (L : Layout) (c : Nat) (l2 : List Nat)
    (hB : Board s L) (hheld : L 12 = c :: l2) :
    ∃ t, enumerateTargets s = .ok t ∧ Retargets s t ∧
      (l2 = [] → (s.heap c).Which.getNumber = CardId.NumAce →
        ∀ i, i < 4 → L (7 + i) = [] → ((i + 2) <<< 1) ||| 0 ∈ targets t) ∧
      ((s.heap c).Which.getNumber = CardId.NumKing →
        ∀ i, i < 7 → L i = [] → (i <<< 1) ||| 1 ∈ targets t) := by
  have hh : s.mHeldCard = some c := by rw [hB.2.2.2.2.1, hheld]; rfl
  obtain ⟨t, ht, hr, htg⟩ := enumerateTargets_spec s L c hB hh
  refine ⟨t, ht, hr, ?_, ?_⟩
  · intro hl2 hace i hi hemp
    rw [htg, enc_stack i hi, mem_expectedTargets_stack s L c i hi, hB.held_single c l2 hheld,
      hB.stackFits_iff c i hi]
    exact ⟨hl2, Or.inl ⟨hemp, hace⟩⟩
  · intro hking i hi hemp
    rw [htg, enc_column i hi, mem_expectedTargets_column s L c i hi, hemp, List.getLastD_nil]
    unfold columnFits
    rw [decide_eq_true_eq]
    exact Or.inr (Or.inr (Or.inl ⟨hB.isempty_anchor _ (by unfold boardBase; omega)
      (by unfold boardBase; omega), hking⟩))

theorem foundation_candidate_iff_witness :
    ∃ t, enumerateTargets aceHeldBoard = .ok t ∧ ((1 + 2) <<< 1) ||| 0 ∈ targets t := by
  obtain ⟨t, ht, _, hiff⟩ := foundation_candidate_iff aceHeldBoard
    (layoutOf [[], [], [0, 1, 2]] [] [] [13]) 13 1 [] (by decide) rfl (by decide)
  exact ⟨t, ht, hiff.mpr ⟨rfl, Or.inl ⟨rfl, by decide⟩⟩⟩

theorem empty_piles_offered_witness :
    (∃ t, enumerateTargets aceHeldBoard = .ok t ∧ ((3 + 2) <<< 1) ||| 0 ∈ targets t) ∧
      ∃ t, enumerateTargets kingHeldBoard = .ok t ∧ (4 <<< 1) ||| 1 ∈ targets t := by
  obtain ⟨t, ht, _, hace, _⟩ := empty_piles_offered aceHeldBoard
    (layoutOf [[], [], [0, 1, 2]] [] [] [13]) 13 [] (by decide) rfl
  obtain ⟨u, hu, _, _, hking⟩ := empty_piles_offered kingHeldBoard
    (layoutOf [[], [], [0, 1, 2]] [] [] [25]) 25 [] (by decide) rfl
  exact ⟨⟨t, ht, hace rfl (by decide) 3 (by decide) rfl⟩,
    ⟨u, hu, hking (by decide) 4 (by decide) rfl⟩⟩

/-! ## The draw/waste chain and the foundations under pick-up and put-down -/

theorem unlinkHeap_Next (h : Heap) (op nx : Option Nat) (c q : Nat) :
    (unlinkHeap h op nx c q).Next =
      if q = c then none else if op = some q then nx else (h q).Next := by
  unfold unlinkHeap
  rw [setFaceUp_Next, setLocation_Next, setPrev_Next, setNext_Next]
  by_cases hqc : q = c
  · rw [if_pos hqc, if_pos hqc]
  · rw [if_neg hqc, if_neg hqc]
    cases nx with
    | none =>
      cases op with
      | none => simp
      | some p =>
        simp only [setNext_Next, Option.some.injEq]
        by_cases hqp : q = p
        · rw [if_pos hqp, if_pos hqp.symm]
        · rw [if_neg hqp, if_neg (fun e => hqp e.symm)]
    | some n =>
      cases op with
      | none => simp [setPrev_Next]
      | some p =>
        simp only [setPrev_Next, setNext_Next, Option.some.injEq]
        by_cases hqp : q = p
        · rw [if_pos hqp, if_pos hqp.symm]
        · rw [if_neg hqp, if_neg (fun e => hqp e.symm)]

theorem unlinkHeap_Prev (h : Heap) (op nx : Option Nat) (c q : Nat) :
    (unlinkHeap h op nx c q).Prev =
      if q = c then none else if nx = some q then op else (h q).Prev := by
  unfold unlinkHeap
  rw [setFaceUp_Prev, setLocation_Prev, setPrev_Prev, setNext_Prev]
  by_cases hqc : q = c
  · rw [if_pos hqc, if_pos hqc]
  · rw [if_neg hqc, if_neg hqc]
    cases nx with
    | none =>
      cases op with
      | none => simp
      | some p => simp [setNext_Prev]
    | some n =>
      cases op with
      | none =>
        simp only [setPrev_Prev, Option.some.injEq]
        by_cases hqn : q = n
        · rw [if_pos hqn, if_pos hqn.symm]
        · rw [if_neg hqn, if_neg (fun e => hqn e.symm)]
      | some p =>
        simp only [setPrev_Prev, setNext_Prev, Option.some.injEq]
        by_cases hqn : q = n
        · rw [if_pos hqn, if_pos hqn.symm]
        · rw [if_neg hqn, if_neg (fun e => hqn e.symm)]

theorem unlinkHeap_Which (h : Heap) (op nx : Option Nat) (c q : Nat) :
    (unlinkHeap h op nx c q).Which = (h q).Which := by
  unfold unlinkHeap
  rw [setFaceUp_Which, setLocation_Which, setPrev_Which, setNext_Which]
  cases nx <;> cases op <;> simp [setPrev_Which, setNext_Which]

theorem insertHeap_Next (h : Heap) (q nx c t : Nat) :
    (insertHeap h q nx c t).Next =
      if t = q then some c else if t = c then some nx else (h t).Next := by
  unfold insertHeap
  rw [setFaceUp_Next, setLocation_Next, setNext_Next, setPrev_Next, setPrev_Next, setNext_Next]

theorem insertHeap_Prev (h : Heap) (q nx c t : Nat) :
    (insertHeap h q nx c t).Prev =
      if t = nx then some c else if t = c then some q else (h t).Prev := by
  unfold insertHeap
  rw [setFaceUp_Prev, setLocation_Prev, setNext_Prev, setPrev_Prev, setPrev_Prev, setNext_Prev]

theorem insertHeap_Which (h : Heap) (q nx c t : Nat) :
    (insertHeap h q nx c t).Which = (h t).Which := by
  unfold insertHeap
  rw [setFaceUp_Which, setLocation_Which, setNext_Which, setPrev_Which, setPrev_Which,
    setNext_Which]

theorem popHeap_Next (h : Heap) (q c t : Nat) :
    (popHeap h q c t).Next = if t = q then none else (h t).Next := by
  unfold popHeap
  rw [setFaceUp_Next, setLocation_Next, setPrev_Next, setNext_Next]

theorem popHeap_Prev (h : Heap) (q c t : Nat) :
    (popHeap h q c t).Prev = if t = c then none else (h t).Prev := by
  unfold popHeap
  rw [setFaceUp_Prev, setLocation_Prev, setPrev_Prev, setNext_Prev]

theorem popHeap_Which (h : Heap) (q c t : Nat) : (popHeap h q c t).Which = (h t).Which := by
  unfold popHeap
  rw [setFaceUp_Which, setLocation_Which, setPrev_Which, setNext_Which]

theorem popHeap_FaceUp (h : Heap) (q c t : Nat) :
    (popHeap h q c t).FaceUp = if t = c then true else (h t).FaceUp := by
  unfold popHeap
  rw [setFaceUp_FaceUp, setLocation_FaceUp, setPrev_FaceUp, setNext_FaceUp]

theorem pushHeap_Next (h : Heap) (q c t : Nat) :
    (pushHeap h q c t).Next = if t = q then some c else (h t).Next := by
  unfold pushHeap
  rw [setLocation_Next, setPrev_Next, setNext_Next]

theorem pushHeap_Prev (h : Heap) (q c t : Nat) :
    (pushHeap h q c t).Prev = if t = c then some q else (h t).Prev := by
  unfold pushHeap
  rw [setLocation_Prev, setPrev_Prev, setNext_Prev]

theorem pushHeap_Which (h : Heap) (q c t : Nat) : (pushHeap h q c t).Which = (h t).Which := by
  unfold pushHeap
  rw [setLocation_Which, setPrev_Which, setNext_Which]

theorem pushHeap_FaceUp (h : Heap) (q c t : Nat) : (pushHeap h q c t).FaceUp = (h t).FaceUp := by
  unfold pushHeap
  rw [setLocation_FaceUp, setPrev_FaceUp, setNext_FaceUp]

theorem List.head?_not_mem_of_not_mem {l : List Nat} {b : Nat} (h : b ∉ l) : l.head? ≠ some b := by
  cases l with
  | nil => simp
  | cons a l =>
    intro e
    simp only [List.head?_cons, Option.some.injEq] at e
    exact h (e ▸ List.mem_cons_self _ _)

/-- Unlinking the node `c` from a linked list: the nodes before it are joined to the nodes after it. -/
theorem Links.unlink {h : Heap} (c : Nat) (d2 : List Nat) : ∀ (a : Nat) (l1 : List Nat),
    (a :: (l1 ++ c :: d2)).Nodup → Links h a (l1 ++ c :: d2) →
    Links (unlinkHeap h (some (l1.getLastD a)) d2.head? c) a (l1 ++ d2)
  | a, [], hnd, hl => by
    rw [List.nil_append] at hnd hl ⊢
    rw [List.getLastD_nil]
    unfold Links at hl
    have hac : a ≠ c := by
      intro e; subst e
      simp at hnd
    have hnd2 := (List.nodup_cons.mp (List.nodup_cons.mp hnd).2)
    have ha2 : a ∉ d2 := fun hm => (List.nodup_cons.mp hnd).1 (List.mem_cons_of_mem _ hm)
    cases d2 with
    | nil =>
      unfold Links
      rw [unlinkHeap_Next, if_neg hac, if_pos rfl]
      rfl
    | cons n d2 =>
      have hl2 := hl.2.2
      unfold Links at hl2
      have hnc : n ≠ c := by
        intro e
        exact hnd2.1 (e ▸ List.mem_cons_self _ _)
      have hnd3 := List.nodup_cons.mp hnd2.2
      unfold Links
      refine ⟨?_, ?_, ?_⟩
      · rw [unlinkHeap_Next, if_neg hac, if_pos rfl]
        rfl
      · rw [unlinkHeap_Prev, if_neg hnc, List.head?_cons, if_pos rfl]
      · refine Links.congr ?_ ?_ hl2.2.2
        · intro x hx
          have hxc : x ≠ c := by
            intro e
            exact hnd2.1 (e ▸ hx)
          have hxa : x ≠ a := by
            intro e
            exact ha2 (e ▸ hx)
          rw [unlinkHeap_Next, if_neg hxc, if_neg]
          intro e
          exact hxa (Option.some.inj e).symm
        · intro x hx
          have hxc : x ≠ c := by
            intro e
            exact hnd2.1 (e ▸ List.mem_cons_of_mem _ hx)
          have hxn : x ≠ n := by
            intro e
            exact hnd3.1 (e ▸ hx)
          rw [unlinkHeap_Prev, if_neg hxc, if_neg]
          intro e
          simp only [List.head?_cons, Option.some.injEq] at e
          exact hxn e.symm
  | a, b :: l1, hnd, hl => by
    rw [List.cons_append] at hnd hl ⊢
    unfold Links at hl
    rw [List.getLastD_cons]
    have hnd' := (List.nodup_cons.mp hnd).2
    have ih := Links.unlink c d2 b l1 hnd' hl.2.2
    have hnotin := (List.nodup_cons.mp hnd).1
    have hac : a ≠ c := by
      intro e
      exact hnotin (List.mem_cons_of_mem _ (List.mem_append_right _ (e ▸ List.mem_cons_self _ _)))
    have hbc : b ≠ c := by
      intro e
      exact (List.nodup_cons.mp hnd').1 (List.mem_append_right _ (e ▸ List.mem_cons_self _ _))
    have hq : l1.getLastD b ∈ b :: l1 := getLastD_mem b l1
    have haq : a ≠ l1.getLastD b := by
      intro e
      apply hnotin
      rw [e]
      rcases List.mem_cons.mp hq with h1 | h1
      · rw [h1]; exact List.mem_cons_self _ _
      · exact List.mem_cons_of_mem _ (List.mem_append_left _ h1)
    have hb2 : b ∉ d2 := fun hm => (List.nodup_cons.mp hnd').1
      (List.mem_append_right _ (List.mem_cons_of_mem _ hm))
    unfold Links
    refine ⟨?_, ?_, ih⟩
    · rw [unlinkHeap_Next, if_neg hac, if_neg]
      · exact hl.1
      · intro e
        exact haq (Option.some.inj e).symm
    · rw [unlinkHeap_Prev, if_neg hbc, if_neg (List.head?_not_mem_of_not_mem hb2)]
      exact hl.2.1

/-- Inserting the node `c` into a linked list behind the node that ends the prefix `l1`. -/
theorem Links.insert {h : Heap} (c nx : Nat) (d2 : List Nat) : ∀ (a : Nat) (l1 : List Nat),
    (c :: a :: (l1 ++ nx :: d2)).Nodup → Links h a (l1 ++ nx :: d2) →
    Links (insertHeap h (l1.getLastD a) nx c) a (l1 ++ c :: nx :: d2)
  | a, [], hnd, hl => by
    rw [List.nil_append] at hnd hl ⊢
    rw [List.getLastD_nil]
    unfold Links at hl
    have hc := List.nodup_cons.mp hnd
    have ha := List.nodup_cons.mp hc.2
    have hn := List.nodup_cons.mp ha.2
    have hca : c ≠ a := fun e => hc.1 (e ▸ List.mem_cons_self _ _)
    have hcn : c ≠ nx := fun e =>
      hc.1 (List.mem_cons_of_mem _ (e ▸ List.mem_cons_self _ _))
    have han : a ≠ nx := fun e => ha.1 (e ▸ List.mem_cons_self _ _)
    unfold Links
    refine ⟨?_, ?_, ?_⟩
    · rw [insertHeap_Next, if_pos rfl]
    · rw [insertHeap_Prev, if_neg hcn, if_pos rfl]
    · unfold Links
      refine ⟨?_, ?_, ?_⟩
      · rw [insertHeap_Next, if_neg hca, if_pos rfl]
      · rw [insertHeap_Prev, if_pos rfl]
      · refine Links.congr ?_ ?_ hl.2.2
        · intro x hx
          have hxa : x ≠ a := fun e => ha.1 (e ▸ hx)
          have hxc : x ≠ c := fun e => hc.1 (List.mem_cons_of_mem _ (e ▸ hx))
          rw [insertHeap_Next, if_neg hxa, if_neg hxc]
        · intro x hx
          have hxn : x ≠ nx := fun e => hn.1 (e ▸ hx)
          have hxc : x ≠ c := fun e =>
            hc.1 (List.mem_cons_of_mem _ (List.mem_cons_of_mem _ (e ▸ hx)))
          rw [insertHeap_Prev, if_neg hxn, if_neg hxc]
  | a, b :: l1, hnd, hl => by
    rw [List.cons_append] at hnd hl ⊢
    unfold Links at hl
    rw [List.getLastD_cons]
    have hc := List.nodup_cons.mp hnd
    have ha := List.nodup_cons.mp hc.2
    have hnd' : (c :: b :: (l1 ++ nx :: d2)).Nodup := by
      rw [List.nodup_cons]
      exact ⟨fun hm => hc.1 (List.mem_cons_of_mem _ hm), ha.2⟩
    have ih := Links.insert c nx d2 b l1 hnd' hl.2.2
    have hq : l1.getLastD b ∈ b :: l1 := getLastD_mem b l1
    have haq : a ≠ l1.getLastD b := by
      intro e
      apply ha.1
      rw [e]
      rcases List.mem_cons.mp hq with h1 | h1
      · rw [h1]; exact List.mem_cons_self _ _
      · exact List.mem_cons_of_mem _ (List.mem_append_left _ h1)
    have hac : a ≠ c := fun e => hc.1 (e ▸ List.mem_cons_self _ _)
    have hbc : b ≠ c := fun e =>
      hc.1 (List.mem_cons_of_mem _ (e ▸ List.mem_cons_self _ _))
    have hbn : b ≠ nx := fun e =>
      (List.nodup_cons.mp ha.2).1 (List.mem_append_right _ (e ▸ List.mem_cons_self _ _))
    unfold Links
    refine ⟨?_, ?_, ih⟩
    · rw [insertHeap_Next, if_neg haq, if_neg hac]
      exact hl.1
    · rw [insertHeap_Prev, if_neg hbn, if_neg hbc]
      exact hl.2.1

theorem Links.snoc_prev {h : Heap} (c : Nat) : ∀ (a : Nat) (l1 : List Nat),
    Links h a (l1 ++ [c]) → (h c).Prev = some (l1.getLastD a) :=
  fun a l1 hl => Links.prev_of_split c [] a l1 hl

theorem getLastD_append_singleton (a c : Nat) : ∀ (l : List Nat), (l ++ [c]).getLastD a = c
  | [] => rfl
  | b :: l => by
    rw [List.cons_append, List.getLastD_cons]
    exact getLastD_append_singleton b c l

theorem getLastD_append_cons (a c : Nat) (l2 : List Nat) : ∀ (l : List Nat),
    (l ++ c :: l2).getLastD a = l2.getLastD c
  | [] => by rw [List.nil_append, List.getLastD_cons]
  | b :: l => by
    rw [List.cons_append, List.getLastD_cons]
    exact getLastD_append_cons b c l2 l

/-- The pick-up of the top card `c` of foundation `i` on a well-formed board. -/
theorem pickUpStack_eq (s : BoardState) (L : Layout) (i c : Nat) (l1 : List Nat)
    (hB : Board s L) (hi : i < 4) (hX : s.mCursorLocationX = i + 2)
    (hsplit : L (7 + i) = l1 ++ [c]) :
    pickUpStack s =
      .ok { s with heap := popHeap s.heap (l1.getLastD (stackBase i)) c,
                   mStacks := fun n => if n = i then some (l1.getLastD (stackBase i))
                                       else s.mStacks n,
                   mHeldCard := some c, mHeldWasTopOfDeck := false, mCardToReveal := none } := by
  have hS := hB.2.2.2.2.2.2.1
  have hx2 : 2 ≤ s.mCursorLocationX ∧ s.mCursorLocationX - 2 < 4 := by omega
  have hxi : s.mCursorLocationX - 2 = i := by omega
  have htop : s.mStacks i = some c := by
    rw [hB.2.2.1 i hi, hsplit, getLastD_append_singleton]
  have hc52 : c < 52 := hS.1 (7 + i) (by omega) c (by rw [hsplit]; simp)
  have hlinks := (hB.fnd_pile i hi).2
  rw [hsplit] at hlinks
  have hprev := Links.snoc_prev c _ l1 hlinks
  have hnd : (stackBase i :: (l1 ++ [c])).Nodup := by
    have := hS.pileNodes_nodup (7 + i) (by omega)
    unfold pileNodes at this
    rw [anchorOf_fnd i hi, hsplit] at this
    exact this
  have hqc : c ≠ l1.getLastD (stackBase i) := by
    intro e
    have hm := getLastD_mem (stackBase i) l1
    rw [← e] at hm
    have h1 := List.nodup_cons.mp hnd
    rcases List.mem_cons.mp hm with h2 | h2
    · exact h1.1 (h2 ▸ List.mem_append_right _ (List.mem_singleton_self _))
    · have := (List.nodup_append.mp h1.2).2.2
      exact this h2 (List.mem_singleton_self _)
  unfold pickUpStack
  rw [if_pos hx2]
  simp only [hxi, htop, deref, ok_bind, hB.isempty_card c hc52, if_true, hprev, setNext_Prev]
  rfl

theorem pickUpStack_empty (s : BoardState) (L : Layout) (i : Nat) (hB : Board s L) (hi : i < 4)
    (hX : s.mCursorLocationX = i + 2) (hemp : L (7 + i) = []) : pickUpStack s = .ok s := by
  have hx2 : 2 ≤ s.mCursorLocationX ∧ s.mCursorLocationX - 2 < 4 := by omega
  have hxi : s.mCursorLocationX - 2 = i := by omega
  have htop : s.mStacks i = some (stackBase i) := by
    rw [hB.2.2.1 i hi, hemp, List.getLastD_nil]
  unfold pickUpStack
  rw [if_pos hx2]
  simp only [hxi, htop, deref, ok_bind,
    hB.isempty_anchor (stackBase i) (by unfold stackBase; omega) (by unfold stackBase; omega)]
  rfl

/-- The state after a foundation pick-up is a well-formed board: the card `c`
has moved from foundation `i` to the held pile. -/
theorem pickUpStack_board (s : BoardState) (L : Layout) (i c : Nat) (l1 : List Nat)
    (hB : Board s L) (hheld : L 12 = []) (hi : i < 4) (hsplit : L (7 + i) = l1 ++ [c]) :
    Board { s with heap := popHeap s.heap (l1.getLastD (stackBase i)) c,
                   mStacks := fun n => if n = i then some (l1.getLastD (stackBase i))
                                       else s.mStacks n,
                   mHeldCard := some c, mHeldWasTopOfDeck := false, mCardToReveal := none }
      (setPile (setPile L (7 + i) l1) 12 [c]) := by
  obtain ⟨hL, hb, hst, hdk, hh, htop, hS, hW⟩ := hB
  have hp13 : 7 + i < 13 := by omega
  have hnd : (stackBase i :: (l1 ++ [c])).Nodup := by
    have := hS.pileNodes_nodup (7 + i) hp13
    unfold pileNodes at this
    rw [anchorOf_fnd i hi, hsplit] at this
    exact this
  have hpile := hL (7 + i) hp13
  unfold pileNodes at hpile
  rw [anchorOf_fnd i hi, hsplit] at hpile
  have hdet := Links.detach c [] (stackBase i) l1 hnd hpile.2
  have hq : l1.getLastD (stackBase i) ∈ pileNodes L (7 + i) := by
    unfold pileNodes
    rw [anchorOf_fnd i hi, hsplit, List.singleton_append]
    have := getLastD_mem (stackBase i) l1
    rcases List.mem_cons.mp this with h1 | h1
    · rw [h1]; exact List.mem_cons_self _ _
    · exact List.mem_cons_of_mem _ (List.mem_append_left _ h1)
  have hc : c ∈ pileNodes L (7 + i) := by
    unfold pileNodes
    rw [hsplit]
    exact List.mem_append_right _ (List.mem_append_right _ (List.mem_singleton_self _))
  have hbc : stackBase i ≠ c := by
    intro e
    exact (List.nodup_cons.mp hnd).1 (e ▸ List.mem_append_right _ (List.mem_singleton_self _))
  refine ⟨?_, hb, ?_, ?_, ?_, ?_, ?_, ?_⟩
  · refine linked_of_two hS hL (7 + i) 12 hp13 (by omega) l1 [c] ?_ ?_ ?_
    · intro q hq1 _
      constructor
      · rw [popHeap_Next, if_neg (by intro e; exact hq1 (by rw [e]; exact hq))]
      · rw [popHeap_Prev, if_neg (by intro e; exact hq1 (by rw [e]; exact hc))]
    · intro _
      rw [anchorOf_fnd i hi]
      refine ⟨by rw [popHeap_Prev, if_neg hbc]; exact hpile.1, ?_⟩
      refine Links.congr ?_ ?_ hdet.1
      · intro x _
        rw [popHeap_Next, setPrev_Next, setNext_Next]
      · intro x _
        rw [popHeap_Prev, setPrev_Prev, setNext_Prev]
    · rw [anchorOf_held]
      refine ⟨by rw [popHeap_Prev, if_pos rfl], ?_⟩
      refine Links.congr ?_ ?_ hdet.2
      · intro x _
        rw [popHeap_Next, setPrev_Next, setNext_Next]
      · intro x _
        rw [popHeap_Prev, setPrev_Prev, setNext_Prev]
  · intro j hj
    show (if j = i then some (l1.getLastD (stackBase i)) else s.mStacks j) = _
    rw [setPile_other _ _ _ _ (by omega)]
    by_cases hji : j = i
    · rw [if_pos hji, hji, setPile_same]
    · rw [if_neg hji, setPile_other _ _ _ _ (by omega)]
      exact hst j hj
  · rw [setPile_other _ _ _ _ (by omega), setPile_other _ _ _ _ (by omega)]
    exact hdk
  · rw [setPile_same]
    rfl
  · intro d hd
    rw [setPile_other _ _ _ _ (by omega), setPile_other _ _ _ _ (by omega)]
    exact htop d hd
  · have := hS.move_tail (7 + i) 12 hp13 (by omega) (by omega) l1 [c] hsplit
    rw [hheld, List.nil_append] at this
    exact this
  · intro a ha
    show (popHeap s.heap _ c a).Which = _
    rw [popHeap_Which]
    exact hW a ha

/-- The put-down of the held card `c` on foundation `i` on a well-formed board. -/
theorem putDownStack_eq (s : BoardState) (L : Layout) (i c : Nat) (hB : Board s L)
    (hi : i < 4) (hX : s.mCursorLocationX = i + 2) :
    putDownStack s c =
      .ok { s with heap := pushHeap s.heap ((L (7 + i)).getLastD (stackBase i)) c,
                   mStacks := fun n => if n = i then some c else s.mStacks n } := by
  have hxi : s.mCursorLocationX - 2 = i := by omega
  unfold putDownStack
  simp only [hxi, hi, if_true, hB.2.2.1 i hi, deref, ok_bind]
  rfl

/-- The state after a foundation put-down of a single held card, once
`mHeldCard` is cleared, is a well-formed board. -/
theorem putDownStack_board (s : BoardState) (L : Layout) (i c : Nat) (hB : Board s L)
    (hi : i < 4) (hheld : L 12 = [c]) :
    Board { s with heap := pushHeap s.heap ((L (7 + i)).getLastD (stackBase i)) c,
                   mStacks := fun n => if n = i then some c else s.mStacks n,
                   mHeldCard := none }
      (setPile (setPile L 12 []) (7 + i) (L (7 + i) ++ [c])) := by
  obtain ⟨hL, hb, hst, hdk, hh, htop, hS, hW⟩ := hB
  have hp13 : 7 + i < 13 := by omega
  have hnd1 := hS.pileNodes_nodup (7 + i) hp13
  have hnd2 := hS.pileNodes_nodup 12 (by omega)
  have hpile := hL (7 + i) hp13
  have hhp := hL 12 (by omega)
  unfold pileNodes at hnd1 hnd2 hpile hhp
  rw [anchorOf_fnd i hi, List.singleton_append] at hnd1 hpile
  rw [anchorOf_held, List.nil_append, hheld] at hnd2 hhp
  have hcp : c ∈ pileNodes L 12 := by
    unfold pileNodes
    rw [anchorOf_held, List.nil_append, hheld]
    exact List.mem_singleton_self _
  have hqp : (L (7 + i)).getLastD (stackBase i) ∈ pileNodes L (7 + i) := by
    unfold pileNodes
    rw [anchorOf_fnd i hi, List.singleton_append]
    exact getLastD_mem _ _
  have hnd : (stackBase i :: (L (7 + i) ++ [c])).Nodup := by
    rw [← List.cons_append, List.nodup_append]
    refine ⟨hnd1, hnd2, ?_⟩
    intro a ha1 ha2
    have hp1 : a ∈ pileNodes L (7 + i) := by
      unfold pileNodes
      rw [anchorOf_fnd i hi, List.singleton_append]
      exact ha1
    have hp2 : a ∈ pileNodes L 12 := by
      unfold pileNodes
      rw [anchorOf_held, List.nil_append, hheld]
      exact ha2
    exact hS.pileNodes_apart (7 + i) 12 hp13 (by omega) (by omega) a hp1 hp2
  have hbc : stackBase i ≠ c := by
    intro e
    exact (List.nodup_cons.mp hnd).1 (e ▸ List.mem_append_right _ (List.mem_singleton_self _))
  have hatt := Links.attach c [] (stackBase i) (L (7 + i)) hnd hpile.2 hhp.2
  refine ⟨?_, hb, ?_, ?_, ?_, ?_, ?_, ?_⟩
  · refine linked_of_two hS hL 12 (7 + i) (by omega) hp13 [] (L (7 + i) ++ [c]) ?_ ?_ ?_
    · intro q hq1 hq2
      constructor
      · rw [pushHeap_Next, if_neg (by intro e; exact hq2 (by rw [e]; exact hqp))]
      · rw [pushHeap_Prev, if_neg (by intro e; exact hq1 (by rw [e]; exact hcp))]
    · intro _
      rw [anchorOf_held]
      trivial
    · rw [anchorOf_fnd i hi, List.singleton_append]
      refine ⟨by rw [pushHeap_Prev, if_neg hbc]; exact hpile.1, ?_⟩
      refine Links.congr ?_ ?_ hatt
      · intro x _
        rw [pushHeap_Next, setPrev_Next, setNext_Next]
      · intro x _
        rw [pushHeap_Prev, setPrev_Prev, setNext_Prev]
  · intro j hj
    show (if j = i then some c else s.mStacks j) = _
    by_cases hji : j = i
    · rw [if_pos hji, hji, setPile_same, getLastD_append_singleton]
    · rw [if_neg hji, setPile_other _ _ _ _ (by omega), setPile_other _ _ _ _ (by omega)]
      exact hst j hj
  · rw [setPile_other _ _ _ _ (by omega), setPile_other _ _ _ _ (by omega)]
    exact hdk
  · rw [setPile_other _ _ _ _ (by omega), setPile_same]
    rfl
  · intro d hd
    rw [setPile_other _ _ _ _ (by omega), setPile_other _ _ _ _ (by omega)]
    exact htop d hd
  · exact hS.move_tail 12 (7 + i) (by omega) hp13 (by omega) [] [c] (by rw [hheld]; rfl)
  · intro a ha
    show (pushHeap s.heap _ c a).Which = _
    rw [pushHeap_Which]
    exact hW a ha

/-- The put-down of the single held card `c` with the cursor on foundation `i`. -/
theorem putDownHeldCard_foundation (s : BoardState) (L : Layout) (i c : Nat) (l2 : List Nat)
    (hB : Board s L) (hi : i < 4) (hX : s.mCursorLocationX = i + 2)
    (hY : s.mCursorLocationY = 0) (hheld : L 12 = c :: l2) :
    putDownHeldCard s = .ok (revealAndRelease
      { s with heap := pushHeap s.heap ((L (7 + i)).getLastD (stackBase i)) c,
               mStacks := fun n => if n = i then some c else s.mStacks n } c) := by
  have hd : deref s.mHeldCard = .ok c := by
    rw [hB.2.2.2.2.1, hheld]
    rfl
  unfold putDownHeldCard
  rw [hd, ok_bind, if_pos hY, if_neg (by omega), if_pos (by omega),
    putDownStack_eq s L i c hB hi hX, ok_bind]

theorem unlinkHeap_FaceUp (h : Heap) (op nx : Option Nat) (c q : Nat) :
    (unlinkHeap h op nx c q).FaceUp = if q = c then true else (h q).FaceUp := by
  unfold unlinkHeap
  rw [setFaceUp_FaceUp, setLocation_FaceUp, setPrev_FaceUp, setNext_FaceUp]
  cases nx <;> cases op <;> simp [setPrev_FaceUp, setNext_FaceUp]

theorem insertHeap_FaceUp (h : Heap) (q nx c t : Nat) :
    (insertHeap h q nx c t).FaceUp = if t = c then false else (h t).FaceUp := by
  unfold insertHeap
  rw [setFaceUp_FaceUp, setLocation_FaceUp, setNext_FaceUp, setPrev_FaceUp, setPrev_FaceUp,
    setNext_FaceUp]

/-- A state that agrees with a well-formed board on the heap and the pile
pointers is a well-formed board with the same piles. -/
theorem Board.of_fields {s t : BoardState} {L : Layout} (hB : Board s L)
    (hh : t.heap = s.heap) (hb : t.mBoard = s.mBoard) (hst : t.mStacks = s.mStacks)
    (hd : t.mDeck = s.mDeck) (hc : t.mHeldCard = s.mHeldCard)
    (ht : t.mTopOfDeck = s.mTopOfDeck) : Board t L := by
  unfold Board at hB ⊢
  rw [hh, hb, hst, hd, hc, ht]
  exact hB

theorem Links.next_head {h : Heap} {a : Nat} {l : List Nat} (hl : Links h a l) :
    (h a).Next = l.head? := by
  cases l with
  | nil =>
    unfold Links at hl
    rw [hl]
    rfl
  | cons b l =>
    unfold Links at hl
    rw [hl.1]
    rfl

/-- In a well-linked pile the node `c` points back at the node before it and
forward at the node after it. -/
theorem IsPile.split {h : Heap} (c : Nat) (d1 d2 : List Nat) (hp : IsPile h (d1 ++ c :: d2)) :
    (h c).Prev = d1.getLast? ∧ (h c).Next = d2.head? := by
  cases d1 with
  | nil =>
    rw [List.nil_append] at hp
    unfold IsPile at hp
    exact ⟨by rw [hp.1]; rfl, hp.2.next_head⟩
  | cons a l1 =>
    rw [List.cons_append] at hp
    unfold IsPile at hp
    exact ⟨by rw [Links.prev_of_split c d2 a l1 hp.2, getLast?_cons_getLastD],
      (Links.suffix c d2 a l1 hp.2).next_head⟩

/-- Unlinking the node `c` from a well-linked pile without anchor. -/
theorem IsPile.unlink_pile {h : Heap} (c : Nat) (d1 d2 : List Nat) (hnd : (d1 ++ c :: d2).Nodup)
    (hp : IsPile h (d1 ++ c :: d2)) :
    IsPile (unlinkHeap h d1.getLast? d2.head? c) (d1 ++ d2) := by
  cases d1 with
  | nil =>
    rw [List.nil_append] at hp hnd ⊢
    unfold IsPile at hp
    cases d2 with
    | nil => trivial
    | cons n d2 =>
      have hl := hp.2
      unfold Links at hl
      have h1 := List.nodup_cons.mp hnd
      have h2 := List.nodup_cons.mp h1.2
      have hnc : n ≠ c := fun e => h1.1 (e ▸ List.mem_cons_self _ _)
      unfold IsPile
      refine ⟨?_, Links.congr ?_ ?_ hl.2.2⟩
      · rw [unlinkHeap_Prev, if_neg hnc, List.head?_cons, if_pos rfl]
        rfl
      · intro x hx
        have hxc : x ≠ c := fun e => h1.1 (e ▸ hx)
        rw [unlinkHeap_Next, if_neg hxc, if_neg]
        intro e
        cases e
      · intro x hx
        have hxc : x ≠ c := fun e => h1.1 (e ▸ List.mem_cons_of_mem _ hx)
        have hxn : x ≠ n := fun e => h2.1 (e ▸ hx)
        rw [unlinkHeap_Prev, if_neg hxc, if_neg]
        intro e
        simp only [List.head?_cons, Option.some.injEq] at e
        exact hxn e.symm
  | cons a l1 =>
    rw [List.cons_append] at hp hnd ⊢
    unfold IsPile at hp ⊢
    rw [getLast?_cons_getLastD]
    have h1 := List.nodup_cons.mp hnd
    have hac : a ≠ c := fun e =>
      h1.1 (List.mem_append_right _ (e ▸ List.mem_cons_self _ _))
    have ha2 : a ∉ d2 := fun hm =>
      h1.1 (List.mem_append_right _ (List.mem_cons_of_mem _ hm))
    refine ⟨?_, Links.unlink c d2 a l1 hnd hp.2⟩
    rw [unlinkHeap_Prev, if_neg hac, if_neg (List.head?_not_mem_of_not_mem ha2)]
    exact hp.1

/-- Linking the node `c` into a well-linked pile without anchor, between the
neighbours `q` and `nx`. -/
theorem IsPile.insert_pile {h : Heap} (c q nx : Nat) (d1 d2 : List Nat)
    (hnd : (c :: (d1 ++ q :: nx :: d2)).Nodup) (hp : IsPile h (d1 ++ q :: nx :: d2)) :
    IsPile (insertHeap h q nx c) (d1 ++ q :: c :: nx :: d2) := by
  have hc := List.nodup_cons.mp hnd
  cases d1 with
  | nil =>
    rw [List.nil_append] at hp hnd hc ⊢
    unfold IsPile at hp ⊢
    have hq := List.nodup_cons.mp hc.2
    have hqn : q ≠ nx := fun e => hq.1 (e ▸ List.mem_cons_self _ _)
    have hqc : q ≠ c := fun e => hc.1 (e ▸ List.mem_cons_self _ _)
    refine ⟨?_, Links.insert c nx d2 q [] hnd hp.2⟩
    rw [insertHeap_Prev, if_neg hqn, if_neg hqc]
    exact hp.1
  | cons a l1 =>
    have e1 : a :: l1 ++ q :: nx :: d2 = a :: ((l1 ++ [q]) ++ nx :: d2) := by simp
    have e2 : a :: l1 ++ q :: c :: nx :: d2 = a :: ((l1 ++ [q]) ++ c :: nx :: d2) := by simp
    rw [e1] at hp hnd hc
    rw [e2]
    unfold IsPile at hp ⊢
    have ha := List.nodup_cons.mp hc.2
    have han : a ≠ nx := fun e =>
      ha.1 (List.mem_append_right _ (e ▸ List.mem_cons_self _ _))
    have hac : a ≠ c := fun e => hc.1 (e ▸ List.mem_cons_self _ _)
    have := Links.insert c nx d2 a (l1 ++ [q]) hnd hp.2
    rw [getLastD_append_singleton] at this
    refine ⟨?_, this⟩
    rw [insertHeap_Prev, if_neg han, if_neg hac]
    exact hp.1

/-- The pick-up of the waste top `c`. -/
theorem pickUpDeck_eq (s : BoardState) (c : Nat) (htop : s.mTopOfDeck = some c) :
    pickUpDeck s = invalidateDeckRegion
      { s with heap := unlinkHeap s.heap (s.heap c).Prev (s.heap c).Next c,
               mDeck := if (s.heap c).Prev = none then (s.heap c).Next else s.mDeck,
               mTopOfDeck := (s.heap c).Prev, mHeldCard := some c,
               mHeldWasTopOfDeck := true, mCardToReveal := none } := by
  unfold pickUpDeck
  rw [htop]
  dsimp only
  cases hp : (s.heap c).Prev with
  | none => rfl
  | some p => rfl

/-- After a waste pick-up the board is well formed: the card `c` has moved
from the draw/waste chain to the held pile. -/
theorem pickUpDeck_board (s t : BoardState) (L : Layout) (c : Nat) (d1 d2 : List Nat)
    (hB : Board s L) (hheld : L 12 = []) (hsplit : L 11 = d1 ++ c :: d2)
    (hheap : t.heap = unlinkHeap s.heap d1.getLast? d2.head? c)
    (hb : t.mBoard = s.mBoard) (hst : t.mStacks = s.mStacks)
    (hdk : t.mDeck = (d1 ++ d2).head?) (hh : t.mHeldCard = some c)
    (htp : t.mTopOfDeck = d1.getLast?) :
    Board t (setPile (setPile L 11 (d1 ++ d2)) 12 [c]) := by
  obtain ⟨hL, hbb, hstk, hdeck, hhc, htop, hS, hW⟩ := hB
  have hnd : (d1 ++ c :: d2).Nodup := hsplit ▸ hS.2.1 11 (by omega)
  have hpile : IsPile s.heap (d1 ++ c :: d2) := by
    have := hL 11 (by omega)
    unfold pileNodes at this
    rw [anchorOf_deck, List.nil_append, hsplit] at this
    exact this
  have hnd' := List.nodup_append.mp hnd
  have hc2 := List.nodup_cons.mp hnd'.2.1
  have hmem11 : ∀ q, q ∈ d1 ∨ q = c ∨ q ∈ d2 → q ∈ pileNodes L 11 := by
    intro q hq
    unfold pileNodes
    rw [anchorOf_deck, List.nil_append, hsplit, List.mem_append, List.mem_cons]
    exact hq
  unfold Board
  rw [hheap, hb, hst, hdk, hh, htp]
  refine ⟨?_, hbb, ?_, ?_, ?_, ?_, ?_, ?_⟩
  · refine linked_of_two hS hL 11 12 (by omega) (by omega) (d1 ++ d2) [c] ?_ ?_ ?_
    · intro q hq1 _
      have hqc : q ≠ c := fun e => hq1 (hmem11 q (Or.inr (Or.inl e)))
      constructor
      · rw [unlinkHeap_Next, if_neg hqc, if_neg]
        intro e
        exact hq1 (hmem11 q (Or.inl (List.mem_of_mem_getLast? e)))
      · rw [unlinkHeap_Prev, if_neg hqc, if_neg]
        intro e
        exact hq1 (hmem11 q (Or.inr (Or.inr (List.mem_of_mem_head? e))))
    · intro _
      rw [anchorOf_deck, List.nil_append]
      exact IsPile.unlink_pile c d1 d2 hnd hpile
    · rw [anchorOf_held, List.nil_append]
      unfold IsPile
      refine ⟨by rw [unlinkHeap_Prev, if_pos rfl], ?_⟩
      unfold Links
      rw [unlinkHeap_Next, if_pos rfl]
  · intro i hi
    rw [setPile_other _ _ _ _ (by omega), setPile_other _ _ _ _ (by omega)]
    exact hstk i hi
  · rw [setPile_other _ _ _ _ (by omega), setPile_same]
  · rw [setPile_same]
    rfl
  · intro x hx
    rw [setPile_other _ _ _ _ (by omega), setPile_same]
    exact List.mem_append_left _ (List.mem_of_mem_getLast? hx)
  · refine Separate.move hS 11 12 (by omega) (by omega) (d1 ++ d2) [c] ?_ ?_ ?_ ?_
    · intro x
      rw [hsplit, hheld]
      simp only [List.mem_append, List.mem_cons, List.not_mem_nil, or_false]
      tauto
    · rw [List.nodup_append]
      refine ⟨hnd'.1, hc2.2, ?_⟩
      intro x h1 h2
      exact hnd'.2.2 h1 (List.mem_cons_of_mem _ h2)
    · exact List.nodup_singleton c
    · intro x hx hxc
      rw [List.mem_singleton] at hxc
      subst hxc
      rcases List.mem_append.mp hx with h1 | h1
      · exact hnd'.2.2 h1 (List.mem_cons_self _ _)
      · exact hc2.1 h1
  · intro a ha
    rw [unlinkHeap_Which]
    exact hW a ha

/-- The put-back of the single held card `c` behind the waste top `q`, whose
successor in the draw/waste chain is `nx`. -/
theorem putDownDeck_eq (s : BoardState) (L : Layout) (c q nx : Nat) (l2 d1 d2 : List Nat)
    (hB : Board s L) (hheld : L 12 = c :: l2) (hsplit : L 11 = d1 ++ q :: nx :: d2)
    (htop : s.mTopOfDeck = some q) :
    putDownDeck s c =
      .ok { s with heap := insertHeap s.heap q nx c, mTopOfDeck := some c } := by
  have hS := hB.2.2.2.2.2.2.1
  have hqc : q ≠ c := by
    intro e
    have h1 : q ∈ L 11 := by rw [hsplit]; simp
    have h2 : q ∈ L 12 := by rw [hheld, e]; simp
    exact hS.2.2 11 (by omega) 12 (by omega) (by omega) q h1 h2
  have hqn : (s.heap q).Next = some nx := by
    have := (IsPile.split q d1 (nx :: d2) (hsplit ▸ hB.deck_pile)).2
    rw [this]
    rfl
  unfold putDownDeck
  simp only [htop, deref, ok_bind, setPrev_Next, setNext_Next, if_neg hqc, hqn]
  rfl

/-- After the put-back on the deck the board is well formed: the held card `c`
sits in the draw/waste chain right behind the former waste top `q`. -/
theorem putDownDeck_board (s t : BoardState) (L : Layout) (c q nx : Nat) (d1 d2 : List Nat)
    (hB : Board s L) (hheld : L 12 = [c]) (hsplit : L 11 = d1 ++ q :: nx :: d2)
    (hheap : t.heap = insertHeap s.heap q nx c)
    (hb : t.mBoard = s.mBoard) (hst : t.mStacks = s.mStacks)
    (hdk : t.mDeck = s.mDeck) (hh : t.mHeldCard = none)
    (htp : t.mTopOfDeck = some c) :
    Board t (setPile (setPile L 12 []) 11 (d1 ++ q :: c :: nx :: d2)) := by
  obtain ⟨hL, hbb, hstk, hdeck, hhc, htop, hS, hW⟩ := hB
  have hnd11 : (d1 ++ q :: nx :: d2).Nodup := hsplit ▸ hS.2.1 11 (by omega)
  have hc11 : c ∉ d1 ++ q :: nx :: d2 := by
    intro hm
    exact hS.2.2 12 (by omega) 11 (by omega) (by omega) c (by rw [hheld]; simp)
      (by rw [hsplit]; exact hm)
  have hnd : (c :: (d1 ++ q :: nx :: d2)).Nodup := List.nodup_cons.mpr ⟨hc11, hnd11⟩
  have hpile : IsPile s.heap (d1 ++ q :: nx :: d2) := by
    have := hL 11 (by omega)
    unfold pileNodes at this
    rw [anchorOf_deck, List.nil_append, hsplit] at this
    exact this
  have hmem11 : ∀ x, x ∈ d1 ++ q :: nx :: d2 → x ∈ pileNodes L 11 := by
    intro x hx
    unfold pileNodes
    rw [anchorOf_deck, List.nil_append, hsplit]
    exact hx
  have hmem12 : c ∈ pileNodes L 12 := by
    unfold pileNodes
    rw [anchorOf_held, List.nil_append, hheld]
    exact List.mem_singleton_self _
  unfold Board
  rw [hheap, hb, hst, hdk, hh, htp]
  refine ⟨?_, hbb, ?_, ?_, ?_, ?_, ?_, ?_⟩
  · refine linked_of_two hS hL 12 11 (by omega) (by omega) [] (d1 ++ q :: c :: nx :: d2) ?_ ?_ ?_
    · intro x hx1 hx2
      have hxc : x ≠ c := fun e => hx1 (e ▸ hmem12)
      have hxq : x ≠ q := fun e => hx2 (hmem11 x (by rw [e]; simp))
      have hxn : x ≠ nx := fun e => hx2 (hmem11 x (by rw [e]; simp))
      constructor
      · rw [insertHeap_Next, if_neg hxq, if_neg hxc]
      · rw [insertHeap_Prev, if_neg hxn, if_neg hxc]
    · intro _
      rw [anchorOf_held]
      trivial
    · rw [anchorOf_deck, List.nil_append]
      exact IsPile.insert_pile c q nx d1 d2 hnd hpile
  · intro i hi
    rw [setPile_other _ _ _ _ (by omega), setPile_other _ _ _ _ (by omega)]
    exact hstk i hi
  · rw [setPile_same, hdeck, hsplit]
    cases d1 <;> rfl
  · rw [setPile_other _ _ _ _ (by omega), setPile_same]
    rfl
  · intro x hx
    rw [setPile_same]
    cases hx
    simp
  · refine Separate.move hS 12 11 (by omega) (by omega) [] (d1 ++ q :: c :: nx :: d2) ?_ ?_ ?_ ?_
    · intro x
      rw [hsplit, hheld]
      simp only [List.mem_append, List.mem_cons, List.not_mem_nil, List.mem_singleton,
        false_or, or_false]
      tauto
    · exact List.nodup_nil
    · have : (d1 ++ q :: c :: nx :: d2).Perm (c :: (d1 ++ q :: nx :: d2)) := by
        have h1 : (d1 ++ q :: c :: nx :: d2) = (d1 ++ [q]) ++ c :: (nx :: d2) := by simp
        have h2 : (d1 ++ q :: nx :: d2) = (d1 ++ [q]) ++ (nx :: d2) := by simp
        rw [h1, h2]
        exact List.perm_middle
      exact this.nodup_iff.mpr hnd
    · intro x hx
      cases hx
  · intro a ha
    rw [insertHeap_Which]
    exact hW a ha

/-! ## What a pick-up does -/

theorem nthNext_short (h : Heap) : ∀ (k : Nat) (l : List Nat) (p : Option Nat), Chain h l p →
    l.length ≤ k → ∀ r, nthNext h k p = .ok r → r = none
  | 0, l, p, hc, hk, r, hr => by
    have hl : l = [] := List.length_eq_zero.mp (Nat.le_zero.mp hk)
    subst hl
    unfold Chain at hc
    unfold nthNext at hr
    rw [hc] at hr
    exact (Except.ok.inj hr).symm
  | k + 1, [], p, hc, _, r, hr => by
    unfold Chain at hc
    unfold nthNext at hr
    rw [hc] at hr
    cases hr
  | k + 1, a :: l, p, hc, hk, r, hr => by
    unfold Chain at hc
    unfold nthNext at hr
    rw [hc.1] at hr
    simp only [deref, ok_bind] at hr
    exact nthNext_short h k l _ hc.2 (by simp only [List.length_cons] at hk; omega) r hr

/-- A tableau pick-up that returns with a card held has cut the chain starting
at the cursor row off its column. -/
theorem pickUpBoard_outcome (s t : BoardState) (L : Layout) (c : Nat) (hB : Board s L)
    (hheld : s.mHeldCard = none) (hY : s.mCursorLocationY ≠ 0)
    (hp : pickUpBoard s = .ok t) (hc : t.mHeldCard = some c) :
    ∃ l1 l2, s.mCursorLocationX < 7 ∧ L s.mCursorLocationX = l1 ++ c :: l2 ∧
      s.mCursorLocationY = l1.length + 1 ∧ t = boardPicked s s.mCursorLocationX c l1 l2 := by
  by_cases hx : s.mCursorLocationX < 7
  · by_cases hk : s.mCursorLocationY - 1 < (L s.mCursorLocationX).length
    · have hsplit : L s.mCursorLocationX =
          (L s.mCursorLocationX).take (s.mCursorLocationY - 1) ++
            (L s.mCursorLocationX)[s.mCursorLocationY - 1] ::
              (L s.mCursorLocationX).drop (s.mCursorLocationY - 1 + 1) := by
        rw [← List.drop_eq_getElem_cons hk, List.take_append_drop]
      have hlen : ((L s.mCursorLocationX).take (s.mCursorLocationY - 1)).length =
          s.mCursorLocationY - 1 := by
        rw [List.length_take]
        omega
      have heq := pickUpBoard_eq s L _ _ _ _ hB hx rfl hsplit (by rw [hlen]; omega)
      rw [heq] at hp
      have ht := Except.ok.inj hp
      subst ht
      have hcc : (L s.mCursorLocationX)[s.mCursorLocationY - 1] = c := Option.some.inj hc
      rw [hcc] at hsplit
      refine ⟨_, _, hx, hsplit, by rw [hlen]; omega, ?_⟩
      rw [hcc]
      rfl
    · exfalso
      obtain ⟨_, hlinks⟩ := hB.tab_pile _ hx
      have hchain := Links.chain hlinks
      unfold pickUpBoard at hp
      rw [if_pos hx, hB.2.1 _ hx] at hp
      simp only [deref, ok_bind] at hp
      cases hn : (s.heap (boardBase s.mCursorLocationX)).Next with
      | none =>
        rw [hn] at hp
        have ht := Except.ok.inj hp
        subst ht
        rw [hheld] at hc
        cases hc
      | some first =>
        rw [hn] at hp hchain
        dsimp only at hp
        cases hr : nthNext s.heap (s.mCursorLocationY - 1) (some first) with
        | error e =>
          rw [hr] at hp
          cases hp
        | ok r =>
          have hrn := nthNext_short s.heap _ _ _ hchain (by omega) r hr
          subst hrn
          rw [hr] at hp
          cases hp
  · unfold pickUpBoard at hp
    rw [if_neg hx] at hp
    cases hp

/-- A foundation pick-up that returns with a card held has taken the top card. -/
theorem pickUpStack_outcome (s t : BoardState) (L : Layout) (c : Nat) (hB : Board s L)
    (hheld : s.mHeldCard = none) (hp : pickUpStack s = .ok t) (hc : t.mHeldCard = some c) :
    ∃ i l1, i < 4 ∧ s.mCursorLocationX = i + 2 ∧ L (7 + i) = l1 ++ [c] ∧
      t = stackPicked s i c l1 := by
  by_cases hx : 2 ≤ s.mCursorLocationX ∧ s.mCursorLocationX - 2 < 4
  · have hi : s.mCursorLocationX - 2 < 4 := hx.2
    have hX : s.mCursorLocationX = (s.mCursorLocationX - 2) + 2 := by omega
    rcases List.eq_nil_or_concat (L (7 + (s.mCursorLocationX - 2))) with hnil | ⟨l1, b, hcat⟩
    · rw [pickUpStack_empty s L _ hB hi hX hnil] at hp
      have ht := Except.ok.inj hp
      subst ht
      rw [hheld] at hc
      cases hc
    · rw [List.concat_eq_append] at hcat
      rw [pickUpStack_eq s L _ b l1 hB hi hX hcat] at hp
      have ht := Except.ok.inj hp
      subst ht
      have hbc : b = c := Option.some.inj hc
      subst hbc
      exact ⟨_, l1, hi, hX, hcat, rfl⟩
  · unfold pickUpStack at hp
    rw [if_neg hx] at hp
    cases hp

/-- A waste pick-up that leaves a card held has unlinked the waste top. -/
theorem pickUpDeck_outcome (s : BoardState) (L : Layout) (c : Nat) (hB : Board s L)
    (hheld : s.mHeldCard = none) (hc : (pickUpDeck s).mHeldCard = some c) :
    ∃ d1 d2, L 11 = d1 ++ c :: d2 ∧ s.mTopOfDeck = some c ∧
      pickUpDeck s = wastePicked s c d1 d2 := by
  cases htop : s.mTopOfDeck with
  | none =>
    exfalso
    have : pickUpDeck s = s := by
      unfold pickUpDeck
      rw [htop]
    rw [this, hheld] at hc
    cases hc
  | some b =>
    have heq := pickUpDeck_eq s b htop
    rw [heq] at hc
    have hbc : b = c := Option.some.inj hc
    subst hbc
    obtain ⟨d1, d2, hsplit⟩ := List.append_of_mem (hB.2.2.2.2.2.1 b htop)
    have hpn := IsPile.split b d1 d2 (hsplit ▸ hB.deck_pile)
    refine ⟨d1, d2, hsplit, rfl, ?_⟩
    rw [heq, hpn.1, hpn.2]
    unfold wastePicked
    have hdk : (if d1.getLast? = none then d2.head? else s.mDeck) = (d1 ++ d2).head? := by
      cases d1 with
      | nil => rfl
      | cons a l =>
        rw [if_neg (by rw [getLast?_cons_getLastD]; exact Option.some_ne_none _),
          hB.2.2.2.1, hsplit]
        rfl
    rw [hdk]

/-- A pick-up that returns with the card `c` held was a waste, a foundation or
a tableau pick-up of a chain headed by `c`. -/
theorem pickUp_outcome (s t : BoardState) (L : Layout) (c : Nat) (hB : Board s L)
    (hheld : L 12 = []) (hp : pickUp s = .ok t) (hc : t.mHeldCard = some c) :
    (∃ d1 d2, s.mCursorLocationY = 0 ∧ s.mCursorLocationX = 1 ∧ L 11 = d1 ++ c :: d2 ∧
        s.mTopOfDeck = some c ∧ t = wastePicked s c d1 d2) ∨
    (∃ i l1, i < 4 ∧ s.mCursorLocationY = 0 ∧ s.mCursorLocationX = i + 2 ∧
        L (7 + i) = l1 ++ [c] ∧ t = stackPicked s i c l1) ∨
    (∃ x l1 l2, x < 7 ∧ s.mCursorLocationX = x ∧ L x = l1 ++ c :: l2 ∧
        s.mCursorLocationY = l1.length + 1 ∧ t = boardPicked s x c l1 l2) := by
  have hnone : s.mHeldCard = none := by rw [hB.2.2.2.2.1, hheld]; rfl
  unfold pickUp at hp
  by_cases hY : s.mCursorLocationY = 0
  · rw [if_pos hY] at hp
    by_cases hX : s.mCursorLocationX = 1
    · rw [if_pos hX] at hp
      have ht := Except.ok.inj hp
      subst ht
      obtain ⟨d1, d2, hsplit, htop, heq⟩ := pickUpDeck_outcome s L c hB hnone hc
      exact Or.inl ⟨d1, d2, hY, hX, hsplit, htop, heq⟩
    · rw [if_neg hX] at hp
      obtain ⟨i, l1, hi, hXi, hsplit, heq⟩ := pickUpStack_outcome s t L c hB hnone hp hc
      exact Or.inr (Or.inl ⟨i, l1, hi, hY, hXi, hsplit, heq⟩)
  · rw [if_neg hY] at hp
    obtain ⟨l1, l2, hx, hsplit, hYl, heq⟩ := pickUpBoard_outcome s t L c hB hnone hY hp hc
    exact Or.inr (Or.inr ⟨_, l1, l2, hx, rfl, hsplit, hYl, heq⟩)

theorem wastePicked_board (s : BoardState) (L : Layout) (c : Nat) (d1 d2 : List Nat)
    (hB : Board s L) (hheld : L 12 = []) (hsplit : L 11 = d1 ++ c :: d2) :
    Board (wastePicked s c d1 d2) (setPile (setPile L 11 (d1 ++ d2)) 12 [c]) :=
  pickUpDeck_board s _ L c d1 d2 hB hheld hsplit rfl rfl rfl rfl rfl rfl

theorem stackPicked_board (s : BoardState) (L : Layout) (i c : Nat) (l1 : List Nat)
    (hB : Board s L) (hheld : L 12 = []) (hi : i < 4) (hsplit : L (7 + i) = l1 ++ [c]) :
    Board (stackPicked s i c l1) (setPile (setPile L (7 + i) l1) 12 [c]) :=
  pickUpStack_board s L i c l1 hB hheld hi hsplit

theorem boardPicked_board (s : BoardState) (L : Layout) (x c : Nat) (l1 l2 : List Nat)
    (hB : Board s L) (hheld : L 12 = []) (hx : x < 7) (hsplit : L x = l1 ++ c :: l2) :
    Board (boardPicked s x c l1 l2) (setPile (setPile L x l1) 12 (c :: l2)) :=
  pickUpBoard_board s L x c l1 l2 _ _ _ hB hheld hx hsplit

theorem getD_append_left (l1 l2 : List Nat) (j : Nat) (hj : j < l1.length) :
    (l1 ++ l2).getD j 0 = l1.getD j 0 := by
  rw [List.getD_eq_getElem?_getD, List.getD_eq_getElem?_getD, List.getElem?_append_left hj]

theorem getD_append_length (l1 : List Nat) (c : Nat) (l2 : List Nat) :
    (l1 ++ c :: l2).getD l1.length 0 = c := by
  rw [List.getD_eq_getElem?_getD, getElem?_split]
  rfl

theorem headD_append (l1 l2 : List Nat) (h : l1 ≠ []) : (l1 ++ l2).headD 0 = l1.headD 0 := by
  cases l1 with
  | nil => exact absurd rfl h
  | cons a l => rfl

/-- An ordered foundation without its top card is ordered, and the top card continues it. -/
theorem Ordered.of_snoc {h : Heap} {l : List Nat} {c : Nat} (ho : Ordered h (l ++ [c])) :
    Ordered h l ∧
      ((l = [] ∧ (h c).Which.getNumber = CardId.NumAce) ∨
        (∃ top, l.getLast? = some top ∧
          (h c).Which.getNumber = (h top).Which.getNumber + 1 ∧
          (h c).Which.getSuit = (h top).Which.getSuit)) := by
  have hlen : (l ++ [c]).length = l.length + 1 := by simp
  constructor
  · intro j hj
    have hne : l ≠ [] := by
      intro e
      rw [e] at hj
      exact Nat.not_lt_zero _ hj
    have := ho j (by rw [hlen]; omega)
    rw [getD_append_left l [c] j hj, headD_append l [c] hne] at this
    exact this
  · have hc := ho l.length (by rw [hlen]; omega)
    rw [getD_append_length] at hc
    rcases List.eq_nil_or_concat l with hnil | ⟨l', top, hcat⟩
    · left
      subst hnil
      exact ⟨rfl, hc.1⟩
    · right
      rw [List.concat_eq_append] at hcat
      subst hcat
      have ht := ho l'.length
        (by rw [hlen, List.length_append, List.length_singleton]; omega)
      rw [List.append_assoc, List.singleton_append, getD_append_length] at ht
      refine ⟨top, by simp, ?_, ?_⟩
      · rw [hc.1, ht.1]
        simp
      · rw [hc.2, ht.2, List.append_assoc, List.singleton_append]

/-- An ordered foundation stays ordered when the card that continues it is put on top. -/
theorem Ordered.snoc {h : Heap} {l : List Nat} {c : Nat} (ho : Ordered h l)
    (hf : (l = [] ∧ (h c).Which.getNumber = CardId.NumAce) ∨
      (∃ top, l.getLast? = some top ∧
        (h c).Which.getNumber = (h top).Which.getNumber + 1 ∧
        (h c).Which.getSuit = (h top).Which.getSuit)) :
    Ordered h (l ++ [c]) := by
  intro j hj
  have hlen : (l ++ [c]).length = l.length + 1 := by simp
  rw [hlen] at hj
  rcases Nat.lt_or_ge j l.length with hlt | hge
  · have hne : l ≠ [] := by
      intro e
      rw [e] at hlt
      exact Nat.not_lt_zero _ hlt
    rw [getD_append_left l [c] j hlt, headD_append l [c] hne]
    exact ho j hlt
  · have hj' : j = l.length := by omega
    subst hj'
    rw [getD_append_length]
    rcases hf with ⟨hnil, hace⟩ | ⟨top, htop, hnum, hsuit⟩
    · subst hnil
      exact ⟨hace, rfl⟩
    · rcases List.eq_nil_or_concat l with hnil | ⟨l', b, hcat⟩
      · subst hnil
        cases htop
      · rw [List.concat_eq_append] at hcat
        subst hcat
        have hb : b = top := by simpa using htop
        subst hb
        have ht := ho l'.length (by simp)
        rw [getD_append_length] at ht
        have hne : l' ++ [b] ≠ [] := by simp
        rw [headD_append _ [c] hne]
        refine ⟨?_, ?_⟩
        · rw [hnum, ht.1]
          simp
        · rw [hsuit, ht.2]

theorem Ordered.congr_which {h g : Heap} {l : List Nat} (hw : ∀ a, (g a).Which = (h a).Which)
    (ho : Ordered h l) : Ordered g l := by
  intro j hj
  rw [hw, hw]
  exact ho j hj

theorem expectedTargets_length_le (s : BoardState) (L : Layout) (held : Nat) :
    (expectedTargets s L held).length ≤ 12 := by
  unfold expectedTargets
  rw [List.length_append, List.length_append, List.length_map]
  have h1 : (if s.mHeldWasTopOfDeck = true then [2] else ([] : List Nat)).length ≤ 1 := by
    split <;> simp
  have h2 : (if (s.heap held).Next = none then
      ((List.range 4).filter (fun i => stackFits s held i)).map (fun i => 2 * (i + 2))
      else []).length ≤ 4 := by
    split
    · rw [List.length_map]
      exact (List.length_filter_le _ _).trans (by simp)
    · simp
  have h3 : ((List.range 7).filter
      (fun i => columnFits s held ((L i).getLastD (boardBase i)) i)).length ≤ 7 :=
    (List.length_filter_le _ _).trans (by simp)
  omega

/-- The test for tableau column `i` read on the piles of a well-formed board. -/
theorem Board.columnFits_iff {s : BoardState} {L : Layout} (hB : Board s L) (held i : Nat)
    (hi : i < 7) :
    columnFits s held ((L i).getLastD (boardBase i)) i = true ↔
      ((L i).getLast? = s.mCardToReveal ∧ L i ≠ [] ∨
        some (boardBase i) = s.mCardToReveal ∧ L i = []) ∨
      (L i = [] ∧ s.mCursorLocationX = i ∧ s.mCursorLocationY = 1) ∨
      (L i = [] ∧ (s.heap held).Which.getNumber = CardId.NumKing) ∨
      (∃ top, (L i).getLast? = some top ∧
        (s.heap top).Which.getColor ≠ (s.heap held).Which.getColor ∧
        (s.heap top).Which.getNumber = (s.heap held).Which.getNumber + 1) := by
  unfold columnFits
  rw [decide_eq_true_eq]
  cases hL : L i with
  | nil =>
    have hemp := hB.isempty_anchor (boardBase i) (by unfold boardBase; omega)
      (by unfold boardBase; omega)
    have hnum : (s.heap (boardBase i)).Which.getNumber = 0 := by
      unfold Card.isempty at hemp
      exact of_decide_eq_true hemp
    simp only [List.getLastD_nil, hemp, true_and, List.getLast?_nil, ne_eq, not_true_eq_false,
      and_false, false_or, and_true, reduceCtorEq, false_and, exists_false, or_false, hnum]
  | cons d l =>
    have hmem : l.getLastD d ∈ L i := by
      rw [hL]
      exact getLastD_mem d l
    have hemp := hB.isempty_card _ (hB.2.2.2.2.2.2.1.1 i (by omega) _ hmem)
    simp only [List.getLastD_cons, hemp, Bool.false_eq_true, false_and, false_or,
      getLast?_cons_getLastD, ne_eq, reduceCtorEq, not_false_eq_true, and_true, and_false,
      or_false, Option.some.injEq, exists_eq_left']

/-- After a pick-up, tableau column `i` is a candidate exactly when it is the
column of origin (`P`), or empty with a king held, or topped by a card of the
other colour one rank above the held card. -/
theorem column_offer_iff (t : BoardState) (L1 : Layout) (c i : Nat) (hB1 : Board t L1)
    (hc : t.mHeldCard = some c) (hi : i < 7) (P : Prop)
    (hrev : (((L1 i).getLast? = t.mCardToReveal ∧ L1 i ≠ [] ∨
        some (boardBase i) = t.mCardToReveal ∧ L1 i = []) ∨
      (L1 i = [] ∧ t.mCursorLocationX = i ∧ t.mCursorLocationY = 1)) ↔ P) :
    ∃ u, enumerateTargets t = .ok u ∧ Retargets t u ∧
      ((i <<< 1) ||| 1 ∈ targets u ↔
        (P ∨
         (L1 i = [] ∧ (t.heap c).Which.getNumber = CardId.NumKing) ∨
         (∃ top, (L1 i).getLast? = some top ∧
            (t.heap top).Which.getColor ≠ (t.heap c).Which.getColor ∧
            (t.heap top).Which.getNumber = (t.heap c).Which.getNumber + 1))) := by
  obtain ⟨u, hu, hr, htg⟩ := enumerateTargets_spec t L1 c hB1 hc
  refine ⟨u, hu, hr, ?_⟩
  rw [htg, enc_column i hi, mem_expectedTargets_column t L1 c i hi, hB1.columnFits_iff c i hi,
    ← or_assoc, hrev]

theorem getLast?_mem {l : List Nat} {a : Nat} (h : l.getLast? = some a) : a ∈ l :=
  List.mem_of_mem_getLast? h

/-- C10: on a well-formed board with nothing held, after a pick-up that returns
with the card `c` heading the held chain, the board is again well formed (piles
`L1`, the tableau columns other than the column of origin unchanged), the
enumeration returns, and tableau column `i` is in the candidate list (encoded
`(i << 1) | 1`) if and only if it is the column the chain was picked from, or
it is empty and `c` is a king, or its last card has the other colour and a
rank exactly one above `c`. -/
theorem tableau_candidate_iff (s t : BoardState) (L : Layout) (c i : Nat) (hB : Board s L)
    (hheld : L 12 = []) (hp : pickUp s = .ok t) (hc : t.mHeldCard = some c) (hi : i < 7) :
    ∃ L1 u, Board t L1 ∧
      (∀ j, j < 7 → (s.mCursorLocationY = 0 ∨ j ≠ s.mCursorLocationX) → L1 j = L j) ∧
      enumerateTargets t = .ok u ∧
      ((i <<< 1) ||| 1 ∈ targets u ↔
        ((s.mCursorLocationY ≠ 0 ∧ s.mCursorLocationX = i) ∨
         (L1 i = [] ∧ (t.heap c).Which.getNumber = CardId.NumKing) ∨
         (∃ top, (L1 i).getLast? = some top ∧
            (t.heap top).Which.getColor ≠ (t.heap c).Which.getColor ∧
            (t.heap top).Which.getNumber = (t.heap c).Which.getNumber + 1))) := by
  rcases pickUp_outcome s t L c hB hheld hp hc with
    ⟨d1, d2, hY, hX, hsplit, htop, rfl⟩ | ⟨k, l1, hk, hY, hX, hsplit, rfl⟩ |
    ⟨x, l1, l2, hx, hX, hsplit, hY, rfl⟩
  · have hB1 := wastePicked_board s L c d1 d2 hB hheld hsplit
    have hrev : (((setPile (setPile L 11 (d1 ++ d2)) 12 [c] i).getLast? =
          (wastePicked s c d1 d2).mCardToReveal ∧ setPile (setPile L 11 (d1 ++ d2)) 12 [c] i ≠ [] ∨
        some (boardBase i) = (wastePicked s c d1 d2).mCardToReveal ∧
          setPile (setPile L 11 (d1 ++ d2)) 12 [c] i = []) ∨
      (setPile (setPile L 11 (d1 ++ d2)) 12 [c] i = [] ∧
        (wastePicked s c d1 d2).mCursorLocationX = i ∧
        (wastePicked s c d1 d2).mCursorLocationY = 1)) ↔
        (s.mCursorLocationY ≠ 0 ∧ s.mCursorLocationX = i) := by
      have h1 : (wastePicked s c d1 d2).mCardToReveal = none := rfl
      have h2 : (wastePicked s c d1 d2).mCursorLocationY = s.mCursorLocationY := rfl
      rw [h1, h2, hY]
      simp only [List.getLast?_eq_none_iff, reduceCtorEq, false_and, or_false, ne_eq,
        not_true_eq_false, zero_ne_one, and_false]
      tauto
    obtain ⟨u, hu, _, hiff⟩ := column_offer_iff _ _ c i hB1 hc hi _ hrev
    refine ⟨_, u, hB1, ?_, hu, hiff⟩
    intro j hj _
    rw [setPile_other _ _ _ _ (by omega), setPile_other _ _ _ _ (by omega)]
  · have hB1 := stackPicked_board s L k c l1 hB hheld hk hsplit
    have hrev : (((setPile (setPile L (7 + k) l1) 12 [c] i).getLast? =
          (stackPicked s k c l1).mCardToReveal ∧ setPile (setPile L (7 + k) l1) 12 [c] i ≠ [] ∨
        some (boardBase i) = (stackPicked s k c l1).mCardToReveal ∧
          setPile (setPile L (7 + k) l1) 12 [c] i = []) ∨
      (setPile (setPile L (7 + k) l1) 12 [c] i = [] ∧
        (stackPicked s k c l1).mCursorLocationX = i ∧
        (stackPicked s k c l1).mCursorLocationY = 1)) ↔
        (s.mCursorLocationY ≠ 0 ∧ s.mCursorLocationX = i) := by
      have h1 : (stackPicked s k c l1).mCardToReveal = none := rfl
      have h2 : (stackPicked s k c l1).mCursorLocationY = s.mCursorLocationY := rfl
      rw [h1, h2, hY]
      simp only [List.getLast?_eq_none_iff, reduceCtorEq, false_and, or_false, ne_eq,
        not_true_eq_false, zero_ne_one, and_false]
      tauto
    obtain ⟨u, hu, _, hiff⟩ := column_offer_iff _ _ c i hB1 hc hi _ hrev
    refine ⟨_, u, hB1, ?_, hu, hiff⟩
    intro j hj _
    rw [setPile_other _ _ _ _ (by omega), setPile_other _ _ _ _ (by omega)]
  · have hB1 := boardPicked_board s L x c l1 l2 hB hheld hx hsplit
    have hS := hB.2.2.2.2.2.2.1
    have hY0 : s.mCursorLocationY ≠ 0 := by omega
    have hrev : (((setPile (setPile L x l1) 12 (c :: l2) i).getLast? =
          (boardPicked s x c l1 l2).mCardToReveal ∧
            setPile (setPile L x l1) 12 (c :: l2) i ≠ [] ∨
        some (boardBase i) = (boardPicked s x c l1 l2).mCardToReveal ∧
          setPile (setPile L x l1) 12 (c :: l2) i = []) ∨
      (setPile (setPile L x l1) 12 (c :: l2) i = [] ∧
        (boardPicked s x c l1 l2).mCursorLocationX = i ∧
        (boardPicked s x c l1 l2).mCursorLocationY = 1)) ↔
        (s.mCursorLocationY ≠ 0 ∧ s.mCursorLocationX = i) := by
      have h1 : (boardPicked s x c l1 l2).mCardToReveal = l1.getLast? := rfl
      have h2 : (boardPicked s x c l1 l2).mCursorLocationY =
          if l1.length + 1 > 1 then l1.length else l1.length + 1 := rfl
      have h3 : (boardPicked s x c l1 l2).mCursorLocationX = s.mCursorLocationX := rfl
      rw [h1, h2, h3, setPile_other _ _ _ _ (show i ≠ 12 by omega)]
      by_cases hix : i = x
      · subst hix
        rw [setPile_same]
        constructor
        · intro _
          exact ⟨hY0, hX⟩
        · intro _
          cases l1 with
          | nil => exact Or.inr ⟨rfl, hX, rfl⟩
          | cons a l => exact Or.inl (Or.inl ⟨rfl, List.cons_ne_nil _ _⟩)
      · rw [setPile_other _ _ _ _ hix]
        constructor
        · rintro ((⟨he, hne⟩ | ⟨he, _⟩) | ⟨_, hXi, _⟩)
          · exfalso
            obtain ⟨top, htop⟩ : ∃ top, (L i).getLast? = some top := by
              cases hLi : (L i).getLast? with
              | none => exact absurd (List.getLast?_eq_none_iff.mp hLi) hne
              | some top => exact ⟨top, rfl⟩
            have hm1 : top ∈ L i := getLast?_mem htop
            have hm2 : top ∈ L x := by
              rw [hsplit]
              exact List.mem_append_left _ (getLast?_mem (he ▸ htop))
            exact hS.2.2 i (by omega) x (by omega) hix top hm1 hm2
          · exfalso
            have hm : boardBase i ∈ L x := by
              rw [hsplit]
              exact List.mem_append_left _ (getLast?_mem he.symm)
            have := hS.1 x (by omega) _ hm
            unfold boardBase at this
            omega
          · exact absurd (hXi.symm.trans hX) hix
        · rintro ⟨_, hXi⟩
          exact absurd (hXi.symm.trans hX) hix
    obtain ⟨u, hu, _, hiff⟩ := column_offer_iff _ _ c i hB1 hc hi _ hrev
    refine ⟨_, u, hB1, ?_, hu, hiff⟩
    intro j hj hor
    rw [setPile_other _ _ _ _ (by omega)]
    rcases hor with h0 | hne
    · exact absurd h0 hY0
    · rw [setPile_other _ _ _ _ (by rw [← hX]; exact hne)]

theorem tableau_candidate_iff_witness :
    ∃ u, enumerateTargets (boardPicked (threeUp 2 3) 2 2 [0, 1] []) = .ok u ∧
      (2 <<< 1) ||| 1 ∈ targets u := by
  obtain ⟨L1, u, _, _, hu, hiff⟩ := tableau_candidate_iff (threeUp 2 3)
    (boardPicked (threeUp 2 3) 2 2 [0, 1] []) (layoutOf [[], [], [0, 1, 2]] [] [] []) 2 2
    (by decide) rfl
    ((pickUp_tableau _ (by decide)).trans
      (pickUpBoard_eq (threeUp 2 3) (layoutOf [[], [], [0, 1, 2]] [] [] []) 2 2 [0, 1] []
        (by decide) (by decide) rfl rfl rfl))
    rfl (by decide)
  exact ⟨u, hu, hiff.mpr (Or.inl ⟨by decide, rfl⟩)⟩

/-! ## The faults of a put-down -/

theorem deref_fault {p : Option Nat} {e : Fault} (h : deref p = .error e) : e = .nullDeref := by
  cases p with
  | none => exact (Except.error.inj h).symm
  | some a => cases h

theorem walkToEnd_fault (h : Heap) : ∀ (fuel c : Nat) (e : Fault),
    walkToEnd h fuel c = .error e → e = .diverge
  | 0, _, e, he => (Except.error.inj he).symm
  | fuel + 1, c, e, he => by
    unfold walkToEnd at he
    cases hn : (h c).Next with
    | none => rw [hn] at he; cases he
    | some n =>
      rw [hn] at he
      exact walkToEnd_fault h fuel n e he

theorem setLocationChain_fault (loc : CardLocation) : ∀ (fuel : Nat) (p : Option Nat) (h : Heap)
    (e : Fault), setLocationChain loc fuel p h = .error e → e = .diverge
  | 0, _, _, e, he => (Except.error.inj he).symm
  | fuel + 1, p, h, e, he => by
    unfold setLocationChain at he
    cases p with
    | none => cases he
    | some c => exact setLocationChain_fault loc fuel _ _ e he

theorem expandChain_fault (h : Heap) : ∀ (fuel : Nat) (p : Option Nat) (r : Rect) (e : Fault),
    expandChain h fuel p r = .error e → e = .diverge
  | 0, _, _, e, he => (Except.error.inj he).symm
  | fuel + 1, p, r, e, he => by
    unfold expandChain at he
    cases p with
    | none => cases he
    | some c => exact expandChain_fault h fuel _ _ e he

theorem invalidateHeld_fault (s : BoardState) (e : Fault) (he : invalidateHeld s = .error e) :
    e = .diverge := by
  unfold invalidateHeld at he
  cases hx : expandChain s.heap loopFuel s.mHeldCard s.mDirtyRegion with
  | error e' =>
    rw [hx, error_bind] at he
    rw [← Except.error.inj he]
    exact expandChain_fault _ _ _ _ _ hx
  | ok r =>
    rw [hx, ok_bind] at he
    cases he

theorem putDownDeck_fault (s : BoardState) (held : Nat) (e : Fault)
    (he : putDownDeck s held = .error e) : e = .nullDeref := by
  unfold putDownDeck at he
  cases h1 : deref s.mTopOfDeck with
  | error e1 =>
    simp only [h1, error_bind] at he
    rw [← Except.error.inj he]
    exact deref_fault h1
  | ok top =>
    simp only [h1, ok_bind] at he
    generalize hq : deref _ = q at he
    cases q with
    | error e2 =>
      rw [error_bind] at he
      rw [← Except.error.inj he]
      exact deref_fault hq
    | ok nxt =>
      rw [ok_bind] at he
      cases he

theorem putDownStack_fault (s : BoardState) (held : Nat) (e : Fault)
    (he : putDownStack s held = .error e) : e = .nullDeref ∨ e = .outOfBounds := by
  unfold putDownStack at he
  dsimp only at he
  split at he
  · cases h1 : deref (s.mStacks (s.mCursorLocationX - 2)) with
    | error e1 =>
      rw [h1, error_bind] at he
      rw [← Except.error.inj he]
      exact Or.inl (deref_fault h1)
    | ok base =>
      rw [h1, ok_bind] at he
      cases he
  · exact Or.inr (Except.error.inj he).symm

theorem putDownBoard_fault (s : BoardState) (held : Nat) (e : Fault)
    (he : putDownBoard s held = .error e) : e ≠ .errorNoTargets := by
  unfold putDownBoard at he
  split at he
  · cases h1 : deref (s.mBoard s.mCursorLocationX) with
    | error e1 =>
      rw [h1, error_bind] at he
      rw [← Except.error.inj he, deref_fault h1]
      decide
    | ok base =>
      rw [h1, ok_bind] at he
      cases h2 : walkToEnd s.heap loopFuel base with
      | error e2 =>
        rw [h2, error_bind] at he
        rw [← Except.error.inj he, walkToEnd_fault _ _ _ _ h2]
        decide
      | ok b =>
        rw [h2, ok_bind] at he
        dsimp only at he
        cases hq : setLocationChain .LocationBoard loopFuel (some held)
            (setPrev (setNext s.heap b (some held)) held (some b)) with
        | error e3 =>
          rw [hq, error_bind] at he
          rw [← Except.error.inj he, setLocationChain_fault _ _ _ _ _ hq]
          decide
        | ok g =>
          rw [hq, ok_bind] at he
          cases he
  · rw [← Except.error.inj he]
    decide

theorem putDownHeldCard_fault (s : BoardState) (e : Fault)
    (he : putDownHeldCard s = .error e) : e ≠ .errorNoTargets := by
  unfold putDownHeldCard at he
  cases h1 : deref s.mHeldCard with
  | error e1 =>
    rw [h1, error_bind] at he
    rw [← Except.error.inj he, deref_fault h1]
    decide
  | ok held =>
    rw [h1, ok_bind] at he
    dsimp only at he
    split at he
    · split at he
      · cases hq : putDownDeck s held with
        | error e2 =>
          rw [hq, error_bind] at he
          rw [← Except.error.inj he, putDownDeck_fault _ _ _ hq]
          decide
        | ok s1 =>
          rw [hq, ok_bind] at he
          cases he
      · split at he
        · cases hq : putDownStack s held with
          | error e2 =>
            rw [hq, error_bind] at he
            rw [← Except.error.inj he]
            rcases putDownStack_fault _ _ _ hq with h | h <;> rw [h] <;> decide
          | ok s1 =>
            rw [hq, ok_bind] at he
            cases he
        · rw [error_bind] at he
          rw [← Except.error.inj he]
          decide
    · cases hq : putDownBoard s held with
      | error e2 =>
        rw [hq, error_bind] at he
        rw [← Except.error.inj he]
        exact putDownBoard_fault _ _ _ hq
      | ok s1 =>
        rw [hq, ok_bind] at he
        cases he

theorem pickUp_not_on_draw_pile (s t : BoardState) (hp : pickUp s = .ok t) :
    ¬ (s.mCursorLocationX = 0 ∧ s.mCursorLocationY = 0) := by
  rintro ⟨hX, hY⟩
  unfold pickUp pickUpStack at hp
  rw [if_pos hY, if_neg (by omega), if_neg (by omega)] at hp
  cases hp

/-- What `button1Down` does after a pick-up that leaves a card held. -/
theorem button1Down_picked (s t u : BoardState) (c : Nat) (hheld : s.mHeldCard = none)
    (hp : pickUp s = .ok t) (hc : t.mHeldCard = some c) (hu : enumerateTargets t = .ok u) :
    button1Down s =
      if u.mNumValidTargets = 0 then .error .errorNoTargets
      else if u.mNumValidTargets = 1 then putDownHeldCard u >>= invalidateHeld
      else invalidateHeld u := by
  unfold button1Down
  rw [hheld]
  simp only [Option.isSome_none, Bool.false_eq_true, if_false]
  rw [if_neg (pickUp_not_on_draw_pile s t hp), hp, ok_bind]
  simp only [hc, Option.isSome_some, if_true]
  rw [hu, ok_bind]
  by_cases h0 : u.mNumValidTargets = 0
  · simp only [h0, if_true, error_bind]
  · by_cases h1 : u.mNumValidTargets = 1
    · simp only [h1, if_true, one_ne_zero, if_false]
    · simp only [h0, h1, if_false, ok_bind]

/-- What `button1Down` does when the pick-up finds nothing to take. -/
theorem button1Down_nothing (s t : BoardState) (hheld : s.mHeldCard = none)
    (hp : pickUp s = .ok t) (hc : t.mHeldCard = none) :
    button1Down s = invalidateHeld t := by
  unfold button1Down
  rw [hheld]
  simp only [Option.isSome_none, Bool.false_eq_true, if_false]
  rw [if_neg (pickUp_not_on_draw_pile s t hp), hp, ok_bind]
  simp only [hc, Option.isSome_none, Bool.false_eq_true, if_false, ok_bind]

/-- What `button1Down` does when the pick-up faults. -/
theorem button1Down_fault (s : BoardState) (e : Fault) (hheld : s.mHeldCard = none)
    (hxy : ¬ (s.mCursorLocationX = 0 ∧ s.mCursorLocationY = 0)) (hp : pickUp s = .error e) :
    button1Down s = .error e := by
  unfold button1Down
  rw [hheld]
  simp only [Option.isSome_none, Bool.false_eq_true, if_false]
  rw [if_neg hxy, hp, error_bind]

/-- What `button1Down` does with the cursor on the draw pile and nothing held. -/
theorem button1Down_flip (s : BoardState) (hheld : s.mHeldCard = none)
    (hxy : s.mCursorLocationX = 0 ∧ s.mCursorLocationY = 0) :
    button1Down s = invalidateHeld (invalidateDeckRegion (flip3 s)) := by
  have hf : (invalidateDeckRegion (flip3 s)).mHeldCard = none := by
    unfold invalidateDeckRegion flip3
    repeat' split
    all_goals exact hheld
  unfold button1Down
  rw [hheld]
  simp only [Option.isSome_none, Bool.false_eq_true, if_false]
  rw [if_pos hxy, ok_bind]
  simp only [hf, Option.isSome_none, Bool.false_eq_true, if_false, ok_bind]

/-- What `button1Down` does while a chain is held. -/
theorem button1Down_held (s : BoardState) (c : Nat) (hheld : s.mHeldCard = some c) :
    button1Down s = putDownHeldCard s := by
  unfold button1Down
  rw [hheld]
  rfl

/-- After a tableau pick-up the column of origin passes the test of the enumeration. -/
theorem boardPicked_origin (s : BoardState) (L : Layout) (x c : Nat) (l1 l2 : List Nat)
    (hB : Board s L) (hheld : L 12 = []) (hx : x < 7) (hX : s.mCursorLocationX = x)
    (hsplit : L x = l1 ++ c :: l2) :
    columnFits (boardPicked s x c l1 l2) c
      ((setPile (setPile L x l1) 12 (c :: l2) x).getLastD (boardBase x)) x = true := by
  have hB1 := boardPicked_board s L x c l1 l2 hB hheld hx hsplit
  rw [hB1.columnFits_iff c x hx, setPile_other _ _ _ _ (show x ≠ 12 by omega), setPile_same]
  cases l1 with
  | nil => exact Or.inr (Or.inl ⟨rfl, hX, rfl⟩)
  | cons a l => exact Or.inl (Or.inl ⟨rfl, List.cons_ne_nil _ _⟩)

/-- After a pick-up on a board with ordered foundations the board is well formed
and at least one location passes the tests of the enumeration. -/
theorem picked_offer (s t : BoardState) (L : Layout) (c : Nat) (hB : Board s L)
    (hheld : L 12 = []) (hord : ∀ i, i < 4 → Ordered s.heap (L (7 + i)))
    (hp : pickUp s = .ok t) (hc : t.mHeldCard = some c) :
    ∃ L1, Board t L1 ∧ ∃ v, v ∈ expectedTargets t L1 c := by
  rcases pickUp_outcome s t L c hB hheld hp hc with
    ⟨d1, d2, hY, hX, hsplit, htop, rfl⟩ | ⟨k, l1, hk, hY, hX, hsplit, rfl⟩ |
    ⟨x, l1, l2, hx, hX, hsplit, hY, rfl⟩
  · refine ⟨_, wastePicked_board s L c d1 d2 hB hheld hsplit, 2, ?_⟩
    unfold expectedTargets
    refine List.mem_append_left _ (List.mem_append_left _ ?_)
    have : (wastePicked s c d1 d2).mHeldWasTopOfDeck = true := rfl
    rw [if_pos this]
    exact List.mem_singleton_self _
  · have hB1 := stackPicked_board s L k c l1 hB hheld hk hsplit
    refine ⟨_, hB1, 2 * (k + 2), ?_⟩
    rw [mem_expectedTargets_stack _ _ c k hk, hB1.held_single c [] (setPile_same _ _ _),
      hB1.stackFits_iff c k hk, setPile_other _ _ _ _ (show 7 + k ≠ 12 by omega), setPile_same]
    have ho : Ordered (stackPicked s k c l1).heap (l1 ++ [c]) := by
      refine Ordered.congr_which ?_ (hsplit ▸ hord k hk)
      intro a
      exact popHeap_Which _ _ _ _
    exact ⟨rfl, ho.of_snoc.2⟩
  · have hB1 := boardPicked_board s L x c l1 l2 hB hheld hx hsplit
    refine ⟨_, hB1, 2 * x + 1, ?_⟩
    rw [mem_expectedTargets_column _ _ c x hx]
    exact boardPicked_origin s L x c l1 l2 hB hheld hx hX hsplit

/-- C9: on a well-formed board with nothing held and ordered foundations, when
the pick-up of `button1Down` returns with a card held, the enumeration returns
(no write past the 12-slot buffer) with at least 1 and at most 12 candidates,
and `button1Down` does not end in the fault "Picked up, but no valid targets?". -/
theorem candidate_count (s t : BoardState) (L : Layout) (c : Nat) (hB : Board s L)
    (hheld : L 12 = []) (hord : ∀ i, i < 4 → Ordered s.heap (L (7 + i)))
    (hp : pickUp s = .ok t) (hc : t.mHeldCard = some c) :
    (∃ u, enumerateTargets t = .ok u ∧ 1 ≤ u.mNumValidTargets ∧ u.mNumValidTargets ≤ 12) ∧
      faultOf (button1Down s) ≠ some .errorNoTargets := by
  obtain ⟨L1, hB1, v, hv⟩ := picked_offer s t L c hB hheld hord hp hc
  obtain ⟨u, hu, _, htg⟩ := enumerateTargets_spec t L1 c hB1 hc
  have hn : u.mNumValidTargets = (expectedTargets t L1 c).length := by
    rw [← htg, targets_length]
  have h1 : 1 ≤ u.mNumValidTargets := by
    rw [hn]
    exact List.length_pos_of_mem hv
  have h12 : u.mNumValidTargets ≤ 12 := by
    rw [hn]
    exact expectedTargets_length_le t L1 c
  refine ⟨⟨u, hu, h1, h12⟩, ?_⟩
  have hnone : s.mHeldCard = none := by rw [hB.2.2.2.2.1, hheld]; rfl
  rw [button1Down_picked s t u c hnone hp hc hu, if_neg (by omega)]
  have hinv : ∀ w, faultOf (invalidateHeld w) ≠ some .errorNoTargets := by
    intro w
    cases hw : invalidateHeld w with
    | error e =>
      rw [invalidateHeld_fault w e hw]
      decide
    | ok w' =>
      intro h
      cases h
  split
  · cases hq : putDownHeldCard u with
    | error e =>
      rw [error_bind]
      intro h
      exact putDownHeldCard_fault u e hq (Option.some.inj h)
    | ok w =>
      rw [ok_bind]
      exact hinv w
  · exact hinv u

theorem candidate_count_witness :
    (∃ u, enumerateTargets (boardPicked (threeUp 2 3) 2 2 [0, 1] []) = .ok u ∧
        1 ≤ u.mNumValidTargets ∧ u.mNumValidTargets ≤ 12) ∧
      faultOf (button1Down (threeUp 2 3)) ≠ some .errorNoTargets :=
  candidate_count (threeUp 2 3) (boardPicked (threeUp 2 3) 2 2 [0, 1] [])
    (layoutOf [[], [], [0, 1, 2]] [] [] []) 2 (by decide) rfl (by decide)
    ((pickUp_tableau _ (by decide)).trans
      (pickUpBoard_eq (threeUp 2 3) (layoutOf [[], [], [0, 1, 2]] [] [] []) 2 2 [0, 1] []
        (by decide) (by decide) rfl rfl rfl))
    rfl

/-! ## What a put-down does -/

/-- The put-down of the held chain on tableau column `x`: the chain goes to the
end of the column, and the card recorded for reveal is turned face-up unless
the chain went back onto it. -/
theorem putDown_tableau (u : BoardState) (L : Layout) (x c : Nat) (l2 : List Nat)
    (hB : Board u L) (hx : x < 7) (hX : u.mCursorLocationX = x) (hY : u.mCursorLocationY ≠ 0)
    (hheld : L 12 = c :: l2) :
    ∃ w, putDownHeldCard u = .ok w ∧
      Board w (setPile (setPile L 12 []) x (L x ++ c :: l2)) ∧ w.mHeldCard = none ∧
      ∀ a, (w.heap a).FaceUp =
        if u.mCardToReveal = some a ∧
            u.mCardToReveal ≠ some ((L x).getLastD (boardBase x)) then true
        else (u.heap a).FaceUp := by
  refine ⟨_, putDownHeldCard_tableau u L x c l2 hB hx hX hY hheld,
    revealAndRelease_board _ c _ (putDownBoard_board u L x c l2 hB hx hheld),
    (revealAndRelease_fields _ c).1, ?_⟩
  intro a
  rw [revealAndRelease_FaceUp]
  show (if u.mCardToReveal = some a ∧ u.mCardToReveal ≠ (attachHeap u.heap _ c l2 c).Prev
    then true else (attachHeap u.heap _ c l2 a).FaceUp) = _
  rw [attachHeap_Prev, if_pos rfl, attachHeap_FaceUp]

/-- The put-down of the single held card on foundation `i`. -/
theorem putDown_foundation (u : BoardState) (L : Layout) (i c : Nat)
    (hB : Board u L) (hi : i < 4) (hX : u.mCursorLocationX = i + 2)
    (hY : u.mCursorLocationY = 0) (hheld : L 12 = [c]) :
    ∃ w, putDownHeldCard u = .ok w ∧
      Board w (setPile (setPile L 12 []) (7 + i) (L (7 + i) ++ [c])) ∧ w.mHeldCard = none ∧
      ∀ a, (w.heap a).FaceUp =
        if u.mCardToReveal = some a ∧
            u.mCardToReveal ≠ some ((L (7 + i)).getLastD (stackBase i)) then true
        else (u.heap a).FaceUp := by
  refine ⟨_, putDownHeldCard_foundation u L i c [] hB hi hX hY hheld,
    revealAndRelease_board _ c _ (putDownStack_board u L i c hB hi hheld),
    (revealAndRelease_fields _ c).1, ?_⟩
  intro a
  rw [revealAndRelease_FaceUp]
  show (if u.mCardToReveal = some a ∧ u.mCardToReveal ≠ (pushHeap u.heap _ c c).Prev
    then true else (pushHeap u.heap _ c a).FaceUp) = _
  rw [pushHeap_Prev, if_pos rfl, pushHeap_FaceUp]

/-- The put-down of the single held card on the deck slot, behind the waste top `q`. -/
theorem putDown_deck (u : BoardState) (L : Layout) (c q nx : Nat) (d1 d2 : List Nat)
    (hB : Board u L) (hX : u.mCursorLocationX = 1) (hY : u.mCursorLocationY = 0)
    (hheld : L 12 = [c]) (hsplit : L 11 = d1 ++ q :: nx :: d2) (htop : u.mTopOfDeck = some q) :
    ∃ w, putDownHeldCard u = .ok w ∧
      Board w (setPile (setPile L 12 []) 11 (d1 ++ q :: c :: nx :: d2)) ∧ w.mHeldCard = none := by
  have hd : deref u.mHeldCard = .ok c := by
    rw [hB.2.2.2.2.1, hheld]
    rfl
  have hput : putDownHeldCard u = .ok (revealAndRelease
      { u with heap := insertHeap u.heap q nx c, mTopOfDeck := some c } c) := by
    unfold putDownHeldCard
    rw [hd, ok_bind, if_pos hY, if_pos hX, putDownDeck_eq u L c q nx [] d1 d2 hB hheld hsplit htop,
      ok_bind]
  exact ⟨_, hput, revealAndRelease_board _ c _
    (putDownDeck_board u _ L c q nx d1 d2 hB hheld hsplit rfl rfl rfl rfl rfl rfl),
    (revealAndRelease_fields _ c).1⟩

/-- On a well-formed board the final loop of `button1Down` returns, changing
the dirty region only. -/
theorem invalidateHeld_board (u : BoardState) (L : Layout) (hB : Board u L) :
    ∃ r, invalidateHeld u = .ok { u with mDirtyRegion := r } := by
  have hch : Chain u.heap (L 12) u.mHeldCard := by
    rw [hB.2.2.2.2.1]
    exact hB.held_pile.head_chain
  have hlen : (L 12).length < loopFuel := by
    have := hB.2.2.2.2.2.2.1.length_le 12 (by omega)
    unfold loopFuel heapSize
    omega
  refine ⟨(L 12).foldl (fun r a => r.expand (u.heap a).LastDrawnAt) u.mDirtyRegion, ?_⟩
  unfold invalidateHeld
  rw [expandChain_chain u.heap (L 12) loopFuel _ _ hch hlen, ok_bind]

theorem Retargets.board {s t : BoardState} {L : Layout} (h : Retargets s t) (hB : Board s L) :
    Board t L := by
  obtain ⟨n, v, k, rfl⟩ := h
  exact Board.of_fields hB rfl rfl rfl rfl rfl rfl

/-- Moving a chain from pile `a` to the held pile and back restores the layout. -/
theorem setPile_restore (L : Layout) (a : Nat) (A B : List Nat) (hheld : L 12 = []) :
    setPile (setPile (setPile (setPile L a A) 12 B) 12 []) a (L a) = L := by
  funext p
  unfold setPile
  by_cases h1 : p = a
  · rw [if_pos h1, h1]
  · rw [if_neg h1]
    by_cases h2 : p = 12
    · rw [if_pos h2, h2, hheld]
    · rw [if_neg h2, if_neg h2, if_neg h1]

/-- C6: on a well-formed board with nothing held and the foundation cards
face-up, when the pick-up of `button1Down` takes a chain from a tableau column
or a foundation (the cursor is not on the waste slot) and the enumeration finds
exactly one candidate, that same call of `button1Down` returns with nothing
held, with every pile holding the cards it held before the call, and with the
face-up flag of every card unchanged. -/
theorem auto_place (s t u : BoardState) (L : Layout) (c : Nat) (hB : Board s L)
    (hheld : L 12 = [])
    (hnw : ¬ (s.mCursorLocationX = 1 ∧ s.mCursorLocationY = 0))
    (hfu : ∀ i, i < 4 → ∀ a, a ∈ L (7 + i) → (s.heap a).FaceUp = true)
    (hp : pickUp s = .ok t) (hc : t.mHeldCard = some c)
    (hu : enumerateTargets t = .ok u) (h1 : u.mNumValidTargets = 1) :
    ∃ w, button1Down s = .ok w ∧ w.mHeldCard = none ∧ Board w L ∧
      ∀ a, (w.heap a).FaceUp = (s.heap a).FaceUp := by
  have hnone : s.mHeldCard = none := by rw [hB.2.2.2.2.1, hheld]; rfl
  rw [button1Down_picked s t u c hnone hp hc hu, if_neg (by omega), if_pos h1]
  rcases pickUp_outcome s t L c hB hheld hp hc with
    ⟨d1, d2, hY, hX, hsplit, htop, rfl⟩ | ⟨k, l1, hk, hY, hX, hsplit, rfl⟩ |
    ⟨x, l1, l2, hx, hX, hsplit, hY, rfl⟩
  · exact absurd ⟨hX, hY⟩ hnw
  · have hB1 := stackPicked_board s L k c l1 hB hheld hk hsplit
    obtain ⟨u', hu', hr, _⟩ := enumerateTargets_spec _ _ c hB1 hc
    have huu : u' = u := Except.ok.inj (hu'.symm.trans hu)
    subst huu
    have hBu := hr.board hB1
    obtain ⟨n, v, kk, rfl⟩ := hr
    obtain ⟨w, hw, hBw, hwh, hwf⟩ := putDown_foundation _ _ k c hBu hk hX hY (setPile_same _ _ _)
    rw [hw, ok_bind, invalidateHeld_of_none w hwh]
    refine ⟨w, rfl, hwh, ?_, ?_⟩
    · rw [setPile_other _ _ _ _ (show 7 + k ≠ 12 by omega), setPile_same, ← hsplit,
        setPile_restore L (7 + k) l1 [c] hheld] at hBw
      exact hBw
    · intro a
      rw [hwf a, if_neg (by rintro ⟨h, _⟩; cases h)]
      show (popHeap s.heap _ c a).FaceUp = _
      rw [popHeap_FaceUp]
      split
      · next hac =>
        rw [hac]
        exact (hfu k hk c (by rw [hsplit]; simp)).symm
      · rfl
  · have hB1 := boardPicked_board s L x c l1 l2 hB hheld hx hsplit
    obtain ⟨u', hu', hr, _⟩ := enumerateTargets_spec _ _ c hB1 hc
    have huu : u' = u := Except.ok.inj (hu'.symm.trans hu)
    subst huu
    have hBu := hr.board hB1
    obtain ⟨n, v, kk, rfl⟩ := hr
    have hY' : (if l1.length + 1 > 1 then l1.length else l1.length + 1) ≠ 0 := by
      split <;> omega
    obtain ⟨w, hw, hBw, hwh, hwf⟩ := putDown_tableau _ _ x c l2 hBu hx hX hY' (setPile_same _ _ _)
    rw [hw, ok_bind, invalidateHeld_of_none w hwh]
    refine ⟨w, rfl, hwh, ?_, ?_⟩
    · rw [setPile_other _ _ _ _ (show x ≠ 12 by omega), setPile_same, ← hsplit,
        setPile_restore L x l1 (c :: l2) hheld] at hBw
      exact hBw
    · intro a
      rw [hwf a, if_neg]
      · show (detachHeap s.heap _ c l2 a).FaceUp = _
        rw [detachHeap_FaceUp]
      · rintro ⟨_, h⟩
        apply h
        show l1.getLast? = some ((setPile (setPile L x l1) 12 (c :: l2) x).getLastD (boardBase x))
        rw [setPile_other _ _ _ _ (show x ≠ 12 by omega), setPile_same]
        cases l1 with
        | nil =>
          rename_i h0
          cases h0
        | cons b l =>
          rw [List.getLastD_cons]
          exact getLast?_cons_getLastD b l

theorem auto_place_witness :
    ∃ w, button1Down (buriedBoard 2 3) = .ok w ∧ w.mHeldCard = none ∧
      Board w (layoutOf [[], [], [0, 1, 2]] [] [] []) ∧
      ∀ a, (w.heap a).FaceUp = ((buriedBoard 2 3).heap a).FaceUp := by
  have hB : Board (buriedBoard 2 3) (layoutOf [[], [], [0, 1, 2]] [] [] []) := by decide
  have hp : pickUp (buriedBoard 2 3) = .ok (boardPicked (buriedBoard 2 3) 2 2 [0, 1] []) :=
    (pickUp_tableau _ (by decide)).trans
      (pickUpBoard_eq (buriedBoard 2 3) (layoutOf [[], [], [0, 1, 2]] [] [] []) 2 2 [0, 1] []
        hB (by decide) rfl rfl rfl)
  have hB1 := boardPicked_board (buriedBoard 2 3) (layoutOf [[], [], [0, 1, 2]] [] [] []) 2 2
    [0, 1] [] hB rfl (by decide) rfl
  obtain ⟨u, hu, _, htg⟩ := enumerateTargets_spec _ _ 2 hB1 rfl
  have h1 : u.mNumValidTargets = 1 := by
    rw [← targets_length, htg]
    decide
  exact auto_place (buriedBoard 2 3) _ u (layoutOf [[], [], [0, 1, 2]] [] [] []) 2 hB rfl
    (by decide) (by decide) hp rfl hu h1

theorem mem_expectedTargets_cases (s : BoardState) (L : Layout) (held v : Nat)
    (hv : v ∈ expectedTargets s L held) :
    (v = 2 ∧ s.mHeldWasTopOfDeck = true) ∨
    (∃ i, i < 4 ∧ v = 2 * (i + 2) ∧ (s.heap held).Next = none ∧ stackFits s held i = true) ∨
    (∃ i, i < 7 ∧ v = 2 * i + 1 ∧
      columnFits s held ((L i).getLastD (boardBase i)) i = true) := by
  unfold expectedTargets at hv
  rw [List.mem_append, List.mem_append] at hv
  rcases hv with (h | h) | h
  · split at h
    · next hw =>
      rw [List.mem_singleton] at h
      exact Or.inl ⟨h, hw⟩
    · cases h
  · split at h
    · next hn =>
      rw [List.mem_map] at h
      obtain ⟨j, hj, hje⟩ := h
      rw [List.mem_filter, List.mem_range] at hj
      exact Or.inr (Or.inl ⟨j, hj.1, hje.symm, hn, hj.2⟩)
    · cases h
  · rw [List.mem_map] at h
    obtain ⟨j, hj, hje⟩ := h
    rw [List.mem_filter, List.mem_range] at hj
    exact Or.inr (Or.inr ⟨j, hj.1, hje.symm, hj.2⟩)

theorem mem_targets (s : BoardState) (k : Nat) (hk : k < s.mNumValidTargets) :
    s.mValidTargets k ∈ targets s := by
  unfold targets
  exact List.mem_map.mpr ⟨k, List.mem_range.mpr hk, rfl⟩

theorem mem_pileNodes_of_mem {L : Layout} {p d : Nat} (h : d ∈ L p) : d ∈ pileNodes L p := by
  unfold pileNodes
  exact List.mem_append_right _ h

theorem last_mem_pileNodes_tab (L : Layout) (i : Nat) (hi : i < 7) :
    (L i).getLastD (boardBase i) ∈ pileNodes L i := by
  unfold pileNodes
  rw [anchorOf_tab i hi, List.singleton_append]
  exact getLastD_mem _ _

theorem last_mem_pileNodes_fnd (L : Layout) (i : Nat) (hi : i < 4) :
    (L (7 + i)).getLastD (stackBase i) ∈ pileNodes L (7 + i) := by
  unfold pileNodes
  rw [anchorOf_fnd i hi, List.singleton_append]
  exact getLastD_mem _ _

/-- C4: on a well-formed board with nothing held, where tableau column `a`
ends in a face-down card `D` followed by one card `U` and the cursor is on the
row of `U`, the pick-up and the enumeration of `button1Down` return a state `u`
in which `U` is held and the column of origin (encoded `2 * a + 1`) is among
the candidates, so that there is more than one candidate as soon as there is
one other than the column of origin. When the column of origin is the only
candidate (`mNumValidTargets = 1`), `button1Down` returns with `U` back on its
column, nothing held and `D` still face-down. When there are more candidates
(`mNumValidTargets ≠ 1`), `button1Down` returns with `U` held,
`D` still face-down and the candidate list of `u`, and for every candidate `v`
of the list, with the cursor put on it (column `v >> 1`, row 0 exactly when `v`
is even), the put-down by `button1Down` returns and leaves `D` face-up when `v`
is not the column of origin and face-down when it is. -/
theorem reveal_correct (s : BoardState) (L : Layout) (a D U : Nat) (l0 : List Nat)
    (hB : Board s L) (hheld : L 12 = []) (ha : a < 7) (hcol : L a = l0 ++ [D, U])
    (hX : s.mCursorLocationX = a) (hY : s.mCursorLocationY = l0.length + 2)
    (hD : (s.heap D).FaceUp = false) :
    ∃ u, (pickUp s >>= enumerateTargets) = .ok u ∧ u.mHeldCard = some U ∧
      2 * a + 1 ∈ targets u ∧
      (∀ v, v ∈ targets u → v ≠ 2 * a + 1 → u.mNumValidTargets ≠ 1) ∧
      (u.mNumValidTargets = 1 →
        ∃ s1, button1Down s = .ok s1 ∧ s1.mHeldCard = none ∧ Board s1 L ∧
          (s1.heap D).FaceUp = false) ∧
      (u.mNumValidTargets ≠ 1 →
        ∃ s1, button1Down s = .ok s1 ∧ s1.mHeldCard = some U ∧
          (s1.heap D).FaceUp = false ∧
          s1.mNumValidTargets = u.mNumValidTargets ∧ s1.mValidTargets = u.mValidTargets ∧
          ∀ k y ct, k < s1.mNumValidTargets → (y = 0 ↔ s1.mValidTargets k % 2 = 0) →
            ∃ s2, button1Down { s1 with mCurrentTarget := ct,
                                        mCursorLocationX := s1.mValidTargets k >>> 1,
                                        mCursorLocationY := y } = .ok s2 ∧
              s2.mHeldCard = none ∧
              (s2.heap D).FaceUp = decide (s1.mValidTargets k ≠ 2 * a + 1)) := by
  have hnone : s.mHeldCard = none := by rw [hB.2.2.2.2.1, hheld]; rfl
  have hsplit : L a = (l0 ++ [D]) ++ U :: [] := by rw [hcol]; simp
  have hlen : (l0 ++ [D]).length = l0.length + 1 := by simp
  have hp : pickUp s = .ok (boardPicked s a U (l0 ++ [D]) []) :=
    (pickUp_tableau s (by omega)).trans
      (pickUpBoard_eq s L a U (l0 ++ [D]) [] hB ha hX hsplit (by rw [hlen]; omega))
  have hB1 := boardPicked_board s L a U (l0 ++ [D]) [] hB hheld ha hsplit
  have hS1 := hB1.2.2.2.2.2.2.1
  obtain ⟨u, hu, hr, htg⟩ := enumerateTargets_spec _ _ U hB1 rfl
  have hBu := hr.board hB1
  have hL12 : setPile (setPile L a (l0 ++ [D])) 12 [U] 12 = [U] := setPile_same _ _ _
  have hL1a : setPile (setPile L a (l0 ++ [D])) 12 [U] a = l0 ++ [D] := by
    rw [setPile_other _ _ _ _ (show a ≠ 12 by omega), setPile_same]
  have hDa : D ∈ pileNodes (setPile (setPile L a (l0 ++ [D])) 12 [U]) a := by
    apply mem_pileNodes_of_mem
    rw [hL1a]
    simp
  have hn1 : 1 ≤ u.mNumValidTargets := by
    rw [← targets_length, htg]
    exact List.length_pos_of_mem ((mem_expectedTargets_column _ _ U a ha).mpr
      (boardPicked_origin s L a U (l0 ++ [D]) [] hB hheld ha hX hsplit))
  have hrev : (boardPicked s a U (l0 ++ [D]) []).mCardToReveal = some D := by
    show (l0 ++ [D]).getLast? = some D
    simp
  have hfD : ((boardPicked s a U (l0 ++ [D]) []).heap D).FaceUp = false := by
    show (detachHeap s.heap _ U [] D).FaceUp = false
    rw [detachHeap_FaceUp]
    exact hD
  have hYp : (boardPicked s a U (l0 ++ [D]) []).mCursorLocationY ≠ 0 := by
    show (if (l0 ++ [D]).length + 1 > 1 then (l0 ++ [D]).length else (l0 ++ [D]).length + 1) ≠ 0
    rw [hlen]
    split <;> omega
  have horig : 2 * a + 1 ∈ targets u := by
    rw [htg]
    exact (mem_expectedTargets_column _ _ U a ha).mpr
      (boardPicked_origin s L a U (l0 ++ [D]) [] hB hheld ha hX hsplit)
  have hbd := button1Down_picked s _ u U hnone hp rfl hu
  rw [if_neg (by omega)] at hbd
  have hpe : (pickUp s >>= enumerateTargets) = .ok u := by
    rw [hp, ok_bind]
    exact hu
  have hmore : ∀ w, w ∈ targets u → w ≠ 2 * a + 1 → u.mNumValidTargets ≠ 1 := by
    intro w hw hne h1
    have hlen : (targets u).length = 1 := by rw [targets_length, h1]
    obtain ⟨x, hx⟩ := List.length_eq_one.mp hlen
    rw [hx] at hw horig
    rw [List.mem_singleton] at hw horig
    exact hne (hw.trans horig.symm)
  obtain ⟨n, v, kk, rfl⟩ := hr
  refine ⟨_, hpe, rfl, horig, hmore, fun h1 => ?_, fun h1 => ?_⟩
  · rw [hbd, if_pos h1]
    obtain ⟨w, hw, hBw, hwh, hwf⟩ := putDown_tableau _ _ a U [] hBu ha hX hYp hL12
    rw [hw, ok_bind, invalidateHeld_of_none w hwh]
    refine ⟨w, rfl, hwh, ?_, ?_⟩
    · rw [hL1a, ← hsplit, setPile_restore L a (l0 ++ [D]) [U] hheld] at hBw
      exact hBw
    · rw [hwf D, if_neg]
      · exact hfD
      · rintro ⟨_, h⟩
        apply h
        rw [hL1a, getLastD_append_singleton]
        exact hrev
  · rw [hbd, if_neg h1]
    obtain ⟨r, hinv⟩ := invalidateHeld_board _ _ hBu
    rw [hinv]
    refine ⟨_, rfl, rfl, hfD, rfl, rfl, ?_⟩
    intro k y ct hk hy
    dsimp only at hk hy ⊢
    have hmem : v k ∈ expectedTargets (boardPicked s a U (l0 ++ [D]) [])
        (setPile (setPile L a (l0 ++ [D])) 12 [U]) U := by
      rw [← htg]
      exact mem_targets _ k hk
    rw [button1Down_held _ U rfl]
    rcases mem_expectedTargets_cases _ _ _ _ hmem with ⟨_, hw⟩ | ⟨i, hi, hvi, _, _⟩ |
      ⟨i, hi, hvi, _⟩
    · cases hw
    · have hy0 : y = 0 := hy.mpr (by rw [show v k = 2 * (i + 2) from hvi]; omega)
      have hx : v k >>> 1 = i + 2 := by
        rw [show v k = 2 * (i + 2) from hvi, Nat.shiftRight_eq_div_pow]
        omega
      obtain ⟨w, hw, _, hwh, hwf⟩ := putDown_foundation
        { boardPicked s a U (l0 ++ [D]) [] with
          mNumValidTargets := n, mValidTargets := v, mDirtyRegion := r, mCurrentTarget := ct,
          mCursorLocationX := v k >>> 1, mCursorLocationY := y }
        _ i U (Board.of_fields hB1 rfl rfl rfl rfl rfl rfl) hi hx hy0 hL12
      refine ⟨w, hw, hwh, ?_⟩
      rw [hwf D, if_pos, show v k = 2 * (i + 2) from hvi]
      · symm
        rw [decide_eq_true_eq]
        omega
      · refine ⟨hrev, ?_⟩
        show (boardPicked s a U (l0 ++ [D]) []).mCardToReveal ≠ _
        rw [hrev]
        intro e
        have e' := Option.some.inj e
        have hm := last_mem_pileNodes_fnd (setPile (setPile L a (l0 ++ [D])) 12 [U]) i hi
        rw [← e'] at hm
        exact hS1.pileNodes_apart a (7 + i) (by omega) (by omega) (by omega) D hDa hm
    · have hy0 : y ≠ 0 := by
        intro e
        have := hy.mp e
        rw [show v k = 2 * i + 1 from hvi] at this
        omega
      have hx : v k >>> 1 = i := by
        rw [show v k = 2 * i + 1 from hvi, Nat.shiftRight_eq_div_pow]
        omega
      obtain ⟨w, hw, _, hwh, hwf⟩ := putDown_tableau
        { boardPicked s a U (l0 ++ [D]) [] with
          mNumValidTargets := n, mValidTargets := v, mDirtyRegion := r, mCurrentTarget := ct,
          mCursorLocationX := v k >>> 1, mCursorLocationY := y }
        _ i U [] (Board.of_fields hB1 rfl rfl rfl rfl rfl rfl) hi hx hy0 hL12
      refine ⟨w, hw, hwh, ?_⟩
      rw [hwf D, show v k = 2 * i + 1 from hvi]
      by_cases hia : i = a
      · subst hia
        rw [if_neg, decide_eq_false (by omega)]
        · exact hfD
        · rintro ⟨_, h⟩
          apply h
          rw [hL1a, getLastD_append_singleton]
          exact hrev
      · rw [if_pos, decide_eq_true (by omega)]
        refine ⟨hrev, ?_⟩
        show (boardPicked s a U (l0 ++ [D]) []).mCardToReveal ≠ _
        rw [hrev]
        intro e
        have e' := Option.some.inj e
        have hm := last_mem_pileNodes_tab (setPile (setPile L a (l0 ++ [D])) 12 [U]) i hi
        rw [← e'] at hm
        exact hS1.pileNodes_apart a i (by omega) (by omega) (fun h => hia h.symm) D hDa hm


theorem reveal_correct_witness :
    (∃ u, (pickUp (sampleBoard [[], [], [5, 1, 0]] [] [] [5, 1] none 2 3) >>=
          enumerateTargets) = .ok u ∧ u.mHeldCard = some 0 ∧
      2 * 2 + 1 ∈ targets u ∧
      (∀ v, v ∈ targets u → v ≠ 2 * 2 + 1 → u.mNumValidTargets ≠ 1) ∧
      (u.mNumValidTargets = 1 →
        ∃ s1, button1Down (sampleBoard [[], [], [5, 1, 0]] [] [] [5, 1] none 2 3) = .ok s1 ∧
          s1.mHeldCard = none ∧ Board s1 (layoutOf [[], [], [5, 1, 0]] [] [] []) ∧
          (s1.heap 1).FaceUp = false) ∧
      (u.mNumValidTargets ≠ 1 →
        ∃ s1, button1Down (sampleBoard [[], [], [5, 1, 0]] [] [] [5, 1] none 2 3) = .ok s1 ∧
          s1.mHeldCard = some 0 ∧ (s1.heap 1).FaceUp = false ∧
          s1.mNumValidTargets = u.mNumValidTargets ∧ s1.mValidTargets = u.mValidTargets ∧
          ∀ k y ct, k < s1.mNumValidTargets → (y = 0 ↔ s1.mValidTargets k % 2 = 0) →
            ∃ s2, button1Down { s1 with mCurrentTarget := ct,
                                        mCursorLocationX := s1.mValidTargets k >>> 1,
                                        mCursorLocationY := y } = .ok s2 ∧
              s2.mHeldCard = none ∧
              (s2.heap 1).FaceUp = decide (s1.mValidTargets k ≠ 2 * 2 + 1))) ∧
      observe targets (pickUp (sampleBoard [[], [], [5, 1, 0]] [] [] [5, 1] none 2 3) >>=
        enumerateTargets) = some [4, 6, 8, 10, 5] :=
  ⟨reveal_correct (sampleBoard [[], [], [5, 1, 0]] [] [] [5, 1] none 2 3)
    (layoutOf [[], [], [5, 1, 0]] [] [] []) 2 1 0 [5] (by decide) rfl (by decide) rfl rfl rfl
    (by decide), by decide⟩

/-! ## The invariant of play -/

theorem putDownHeldCard_held (s : BoardState) (c : Nat) (h : s.mHeldCard = some c) :
    putDownHeldCard s =
      (if s.mCursorLocationY = 0 then
        if s.mCursorLocationX = 1 then putDownDeck s c
        else if s.mCursorLocationX > 1 then putDownStack s c
        else .error .errorDeckSlot
      else putDownBoard s c) >>= fun s1 => .ok (revealAndRelease s1 c) := by
  unfold putDownHeldCard
  rw [h]
  simp only [deref, ok_bind]
  split
  · split
    · rfl
    · split <;> rfl
  · rfl

theorem Ordered.congr_on {h g : Heap} {l : List Nat}
    (hw : ∀ a, a ∈ l → (g a).Which = (h a).Which) (ho : Ordered h l) : Ordered g l := by
  intro j hj
  have hne : l ≠ [] := by
    intro e
    rw [e] at hj
    exact Nat.not_lt_zero _ hj
  have h1 : l.getD j 0 ∈ l := by
    rw [List.getD_eq_getElem?_getD, List.getElem?_eq_getElem hj]
    exact List.getElem_mem hj
  have h2 : l.headD 0 ∈ l := by
    cases l with
    | nil => exact absurd rfl hne
    | cons a l => exact List.mem_cons_self _ _
  rw [hw _ h1, hw _ h2]
  exact ho j hj

/-- The foundations of a layout stay ordered when the piles `a` and `b`, neither
of them a foundation, are replaced. -/
theorem ordered_setPile (L : Layout) (a b : Nat) (A B : List Nat)
    (ha : a < 7 ∨ 11 ≤ a) (hb : b < 7 ∨ 11 ≤ b)
    (ho : ∀ i, i < 4 → Ordered BoardState.fresh.heap (L (7 + i))) :
    ∀ i, i < 4 → Ordered BoardState.fresh.heap (setPile (setPile L a A) b B (7 + i)) := by
  intro i hi
  rw [setPile_other _ _ _ _ (by omega), setPile_other _ _ _ _ (by omega)]
  exact ho i hi

theorem Board.held_cons {s : BoardState} {L : Layout} (hB : Board s L) (c : Nat)
    (hh : s.mHeldCard = some c) : ∃ l2, L 12 = c :: l2 := by
  have h := hB.2.2.2.2.1
  rw [hh] at h
  cases hL : L 12 with
  | nil =>
    rw [hL] at h
    cases h
  | cons a l =>
    rw [hL] at h
    have e : c = a := Option.some.inj h
    exact ⟨l, by rw [e]⟩

theorem Board.held_nil {s : BoardState} {L : Layout} (hB : Board s L)
    (hh : s.mHeldCard = none) : L 12 = [] := by
  have h := hB.2.2.2.2.1
  rw [hh] at h
  cases hL : L 12 with
  | nil => rfl
  | cons a l =>
    rw [hL] at h
    cases h

/-- A layout with nothing held and ordered foundations has its bookkeeping in order. -/
theorem Tidy.of_released (t : BoardState) (L : Layout) (hheld : L 12 = [])
    (ho : ∀ i, i < 4 → Ordered BoardState.fresh.heap (L (7 + i))) : Tidy t L :=
  ⟨ho, fun h => absurd hheld h⟩

/-- A put-down that returns leaves a sound state. -/
theorem putDownHeldCard_sound (s t : BoardState) (L : Layout) (c : Nat) (hB : Board s L)
    (hC : Covers L) (hT : Tidy s L) (hh : s.mHeldCard = some c)
    (hp : putDownHeldCard s = .ok t) : Sound t := by
  obtain ⟨l2, hheld⟩ := hB.held_cons c hh
  have hne : L 12 ≠ [] := by rw [hheld]; exact List.cons_ne_nil _ _
  have hS := hB.2.2.2.2.2.2.1
  have hord := hT.1
  have hcur := (hT.2 hne).2.2
  have hp' := hp
  rw [putDownHeldCard_held s c hh] at hp'
  by_cases hY : s.mCursorLocationY = 0
  · rw [if_pos hY] at hp'
    obtain ⟨_, hev⟩ := hcur hY
    obtain ⟨c', hc', hfit⟩ := hev (by omega)
    have hl2 : l2 = [] := by
      rw [hheld] at hc'
      exact (List.cons.inj hc').2
    have hcc : c' = c := by
      rw [hheld] at hc'
      exact (List.cons.inj hc').1.symm
    subst hl2
    subst hcc
    by_cases hX1 : s.mCursorLocationX = 1
    · rw [if_pos hX1] at hp'
      cases htop : s.mTopOfDeck with
      | none =>
        rw [putDownDeck_no_waste s c' htop, error_bind] at hp'
        cases hp'
      | some q =>
        have hq11 : q ∈ L 11 := hB.2.2.2.2.2.1 q htop
        have hqc : q ≠ c' := by
          intro e
          exact hS.2.2 11 (by omega) 12 (by omega) (by omega) q hq11
            (by rw [hheld, e]; exact List.mem_singleton_self _)
        obtain ⟨d1, rest, hsplit⟩ := List.append_of_mem hq11
        cases rest with
        | nil =>
          have hqn := (IsPile.split q d1 [] (hsplit ▸ hB.deck_pile)).2
          rw [putDownDeck_last s c' q htop hqc hqn, error_bind] at hp'
          cases hp'
        | cons nx d2 =>
          obtain ⟨w, hw, hBw, hwh⟩ := putDown_deck s L c' q nx d1 d2 hB hX1 hY hheld hsplit htop
          have hwt : w = t := Except.ok.inj (hw.symm.trans hp)
          subst hwt
          refine ⟨_, hBw, ?_, Tidy.of_released _ _ ?_ ?_⟩
          · refine Covers.move_cards hC 12 11 (by omega) (by omega) (by omega) _ _ ?_
            intro x
            rw [hheld, hsplit]
            simp only [List.mem_append, List.mem_cons, List.not_mem_nil, List.mem_singleton,
              false_or, or_false]
            constructor
            · rintro (h | h | h | h | h) <;> simp [h]
            · rintro (h | h | h | h | h) <;> simp [h]
          · rw [setPile_other _ _ _ _ (by omega), setPile_same]
          · exact ordered_setPile L 12 11 _ _ (by omega) (by omega) hord
    · rw [if_neg hX1] at hp'
      by_cases hX2 : s.mCursorLocationX > 1
      · rw [if_pos hX2] at hp'
        by_cases hi : s.mCursorLocationX - 2 < 4
        · obtain ⟨w, hw, hBw, hwh, _⟩ := putDown_foundation s L (s.mCursorLocationX - 2) c' hB hi
            (by omega) hY hheld
          have hwt : w = t := Except.ok.inj (hw.symm.trans hp)
          subst hwt
          refine ⟨_, hBw, ?_, Tidy.of_released _ _ ?_ ?_⟩
          · refine Covers.move_cards hC 12 (7 + (s.mCursorLocationX - 2)) (by omega) (by omega)
              (by omega) _ _ ?_
            intro x
            rw [hheld]
            simp only [List.mem_append, List.mem_cons, List.not_mem_nil, List.mem_singleton,
              false_or, or_false]
            exact Or.comm
          · rw [setPile_other _ _ _ _ (by omega), setPile_same]
          · intro j hj
            by_cases hji : j = s.mCursorLocationX - 2
            · subst hji
              rw [setPile_same]
              have hf := hfit (by omega)
              rw [show 2 * s.mCursorLocationX / 2 - 2 = s.mCursorLocationX - 2 by omega] at hf
              exact Ordered.snoc (hord _ hj) hf
            · rw [setPile_other _ _ _ _ (by omega), setPile_other _ _ _ _ (by omega)]
              exact hord j hj
        · unfold putDownStack at hp'
          simp only [if_neg hi, error_bind] at hp'
          cases hp'
      · rw [if_neg hX2, error_bind] at hp'
        cases hp'
  · rw [if_neg hY] at hp'
    by_cases hx : s.mCursorLocationX < 7
    · obtain ⟨w, hw, hBw, hwh, _⟩ := putDown_tableau s L s.mCursorLocationX c l2 hB hx rfl hY hheld
      have hwt : w = t := Except.ok.inj (hw.symm.trans hp)
      subst hwt
      refine ⟨_, hBw, ?_, Tidy.of_released _ _ ?_ ?_⟩
      · refine Covers.move_cards hC 12 s.mCursorLocationX (by omega) (by omega) (by omega) _ _ ?_
        intro x
        rw [hheld]
        simp only [List.mem_append, List.mem_cons, List.not_mem_nil, false_or]
        exact Or.comm
      · rw [setPile_other _ _ _ _ (by omega), setPile_same]
      · exact ordered_setPile L 12 _ _ _ (by omega) (by omega) hord
    · unfold putDownBoard at hp'
      simp only [if_neg hx, error_bind] at hp'
      cases hp'

/-- A card that passes the foundation test of the enumeration continues the foundation. -/
theorem Board.fitsOn {s : BoardState} {L : Layout} (hB : Board s L) (c i : Nat) (hi : i < 4)
    (hc : c < 52) (hf : stackFits s c i = true) : FitsOn BoardState.fresh.heap L c i := by
  have hW := hB.2.2.2.2.2.2.2
  have hS := hB.2.2.2.2.2.2.1
  rw [hB.stackFits_iff c i hi] at hf
  unfold FitsOn
  rcases hf with ⟨hnil, hace⟩ | ⟨top, htop, hnum, hsuit⟩
  · left
    rw [← hW c (by omega)]
    exact ⟨hnil, hace⟩
  · right
    have ht : top < 52 := hS.1 (7 + i) (by omega) top (getLast?_mem htop)
    refine ⟨top, htop, ?_, ?_⟩
    · rw [← hW c (by omega), ← hW top (by omega)]
      exact hnum
    · rw [← hW c (by omega), ← hW top (by omega)]
      exact hsuit

/-- After the enumeration the bookkeeping of the board is in order. -/
theorem enumerate_tidy (t u : BoardState) (L1 : Layout) (c : Nat) (hB1 : Board t L1)
    (hc : t.mHeldCard = some c)
    (hord : ∀ i, i < 4 → Ordered BoardState.fresh.heap (L1 (7 + i)))
    (hwas : t.mHeldWasTopOfDeck = true → L1 12 = [c])
    (hcur : t.mCursorLocationY = 0 → Offer L1 (2 * t.mCursorLocationX))
    (hu : enumerateTargets t = .ok u) : Board u L1 ∧ Tidy u L1 := by
  obtain ⟨u', hu', hr, htg⟩ := enumerateTargets_spec t L1 c hB1 hc
  have huu : u' = u := Except.ok.inj (hu'.symm.trans hu)
  subst huu
  obtain ⟨l2, hheld⟩ := hB1.held_cons c hc
  have hc52 : c < 52 := hB1.2.2.2.2.2.2.1.1 12 (by omega) c (by rw [hheld]; exact List.mem_cons_self _ _)
  refine ⟨hr.board hB1, hord, fun _ => ⟨?_, ?_, ?_⟩⟩
  · rw [← targets_length, htg]
    exact expectedTargets_length_le t L1 c
  · intro k hk
    have hmem := mem_targets u' k hk
    rw [htg] at hmem
    rcases mem_expectedTargets_cases _ _ _ _ hmem with ⟨hv, hw⟩ | ⟨i, hi, hv, hn, hf⟩ |
      ⟨i, hi, hv, _⟩
    · rw [hv]
      exact ⟨by omega, fun _ => ⟨c, hwas hw, fun h => absurd h (by omega)⟩⟩
    · rw [hv]
      refine ⟨by omega, fun _ => ⟨c, ?_, fun _ => ?_⟩⟩
      · rw [hheld, (hB1.held_single c l2 hheld).mp hn]
      · rw [show 2 * (i + 2) / 2 - 2 = i by omega]
        exact hB1.fitsOn c i hi hc52 hf
    · rw [hv]
      exact ⟨by omega, fun h => absurd h (by omega)⟩
  · obtain ⟨n, v, k, rfl⟩ := hr
    exact hcur

theorem Offer.deck_slot (L : Layout) (c : Nat) (h : L 12 = [c]) : Offer L (2 * 1) :=
  ⟨by omega, fun _ => ⟨c, h, fun h4 => absurd h4 (by omega)⟩⟩

/-- After a pick-up and the enumeration the state is sound. -/
theorem picked_sound (s t u : BoardState) (L : Layout) (c : Nat) (hB : Board s L)
    (hC : Covers L) (hT : Tidy s L) (hheld : L 12 = []) (hp : pickUp s = .ok t)
    (hc : t.mHeldCard = some c) (hu : enumerateTargets t = .ok u) :
    ∃ L1, Board u L1 ∧ Covers L1 ∧ Tidy u L1 := by
  have hord := hT.1
  rcases pickUp_outcome s t L c hB hheld hp hc with
    ⟨d1, d2, hY, hX, hsplit, htop, rfl⟩ | ⟨k, l1, hk, hY, hX, hsplit, rfl⟩ |
    ⟨x, l1, l2, hx, hX, hsplit, hY, rfl⟩
  · have hB1 := wastePicked_board s L c d1 d2 hB hheld hsplit
    have hb := enumerate_tidy _ u _ c hB1 hc (ordered_setPile L 11 12 _ _ (by omega) (by omega) hord)
      (fun _ => setPile_same _ _ _)
      (fun _ => by
        rw [show (wastePicked s c d1 d2).mCursorLocationX = 1 from hX]
        exact Offer.deck_slot _ c (setPile_same _ _ _)) hu
    refine ⟨_, hb.1, ?_, hb.2⟩
    refine Covers.move_cards hC 11 12 (by omega) (by omega) (by omega) _ _ ?_
    intro a
    rw [hsplit, hheld]
    simp only [List.mem_append, List.mem_cons, List.not_mem_nil, List.mem_singleton, or_false]
    constructor
    · rintro ((h | h) | h) <;> simp [h]
    · rintro (h | h | h) <;> simp [h]
  · have hB1 := stackPicked_board s L k c l1 hB hheld hk hsplit
    have hok := (hsplit ▸ hord k hk : Ordered BoardState.fresh.heap (l1 ++ [c])).of_snoc
    have hord1 : ∀ i, i < 4 →
        Ordered BoardState.fresh.heap (setPile (setPile L (7 + k) l1) 12 [c] (7 + i)) := by
      intro i hi
      rw [setPile_other _ _ _ _ (by omega)]
      by_cases hik : i = k
      · rw [hik, setPile_same]
        exact hok.1
      · rw [setPile_other _ _ _ _ (by omega)]
        exact hord i hi
    have hb := enumerate_tidy _ u _ c hB1 hc hord1 (fun _ => setPile_same _ _ _)
      (fun _ => by
        rw [show (stackPicked s k c l1).mCursorLocationX = k + 2 from hX]
        refine ⟨by omega, fun _ => ⟨c, setPile_same _ _ _, fun _ => ?_⟩⟩
        rw [show 2 * (k + 2) / 2 - 2 = k by omega]
        unfold FitsOn
        rw [setPile_other _ _ _ _ (by omega), setPile_same]
        exact hok.2) hu
    refine ⟨_, hb.1, ?_, hb.2⟩
    refine Covers.move_cards hC (7 + k) 12 (by omega) (by omega) (by omega) _ _ ?_
    intro a
    rw [hsplit, hheld]
    simp only [List.mem_append, List.mem_cons, List.not_mem_nil, List.mem_singleton, or_false]
  · have hB1 := boardPicked_board s L x c l1 l2 hB hheld hx hsplit
    have hb := enumerate_tidy _ u _ c hB1 hc (ordered_setPile L x 12 _ _ (by omega) (by omega) hord)
      (fun h => by cases h)
      (fun h => by
        exfalso
        have h' : (if l1.length + 1 > 1 then l1.length else l1.length + 1) = 0 := h
        split at h' <;> omega) hu
    refine ⟨_, hb.1, ?_, hb.2⟩
    refine Covers.move_cards hC x 12 (by omega) (by omega) (by omega) _ _ ?_
    intro a
    rw [hsplit, hheld]
    simp only [List.mem_append, List.mem_cons, List.not_mem_nil, or_false]

theorem flip3_fields (s : BoardState) :
    (flip3 s).heap = s.heap ∧ (flip3 s).mBoard = s.mBoard ∧ (flip3 s).mStacks = s.mStacks ∧
      (flip3 s).mDeck = s.mDeck ∧ (flip3 s).mHeldCard = s.mHeldCard ∧
      (flip3 s).mNumValidTargets = s.mNumValidTargets ∧
      (flip3 s).mValidTargets = s.mValidTargets ∧
      (flip3 s).mCursorLocationX = s.mCursorLocationX ∧
      (flip3 s).mCursorLocationY = s.mCursorLocationY := by
  unfold flip3
  repeat' split
  all_goals exact ⟨rfl, rfl, rfl, rfl, rfl, rfl, rfl, rfl, rfl⟩

/-- The waste top that `flip3` leaves is a card of the draw/waste chain. -/
theorem flip3_top_mem (s : BoardState) (L : Layout) (hB : Board s L) (c : Nat)
    (hc : (flip3 s).mTopOfDeck = some c) : c ∈ L 11 := by
  have hch : Chain s.heap (L 11) (L 11).head? := hB.deck_pile.head_chain
  unfold flip3 at hc
  cases htop : s.mTopOfDeck with
  | some top =>
    rw [htop] at hc
    dsimp only at hc
    cases hn : (s.heap top).Next with
    | none =>
      rw [hn] at hc
      cases hc
    | some n =>
      rw [hn] at hc
      obtain ⟨i, hi⟩ := List.getElem?_of_mem (hB.2.2.2.2.2.1 top htop)
      have h3 := advanceTop_chain hch 3 i top hi
      rw [← Option.some.inj hc]
      exact List.mem_iff_getElem?.mpr ⟨_, h3.symm⟩
  | none =>
    rw [htop] at hc
    dsimp only at hc
    cases hd : s.mDeck with
    | none =>
      rw [hd] at hc
      dsimp only at hc
      rw [htop] at hc
      cases hc
    | some d =>
      rw [hd] at hc
      have h0 : (L 11)[0]? = some d := by
        rw [← hd, hB.2.2.2.1]
        cases L 11 <;> simp
      have h2 := advanceTop_chain hch 2 0 d h0
      rw [← Option.some.inj hc]
      exact List.mem_iff_getElem?.mpr ⟨_, h2.symm⟩

theorem Tidy.of_same_fields {s t : BoardState} {L : Layout} (hT : Tidy s L)
    (hn : t.mNumValidTargets = s.mNumValidTargets) (hv : t.mValidTargets = s.mValidTargets)
    (hx : t.mCursorLocationX = s.mCursorLocationX)
    (hy : t.mCursorLocationY = s.mCursorLocationY) : Tidy t L := by
  unfold Tidy at hT ⊢
  rw [hn, hv, hx, hy]
  exact hT

/-- A call of `flip3` keeps the state sound. -/
theorem flip3_sound (s : BoardState) (hS : Sound s) : Sound (flip3 s) := by
  obtain ⟨L, hB, hC, hT⟩ := hS
  have hf := flip3_fields s
  refine ⟨L, ?_, hC, hT.of_same_fields hf.2.2.2.2.2.1 hf.2.2.2.2.2.2.1 hf.2.2.2.2.2.2.2.1
    hf.2.2.2.2.2.2.2.2⟩
  exact Board.of_same_links hB (fun a => by rw [hf.1]) (fun a => by rw [hf.1])
    (fun a => by rw [hf.1]) hf.2.1 hf.2.2.1 hf.2.2.2.1 hf.2.2.2.2.1 (flip3_top_mem s L hB)

/-- A change of the dirty region keeps the state sound. -/
theorem Sound.of_dirty {s : BoardState} (hS : Sound s) (r : Rect) :
    Sound { s with mDirtyRegion := r } := by
  obtain ⟨L, hB, hC, hT⟩ := hS
  exact ⟨L, Board.of_fields hB rfl rfl rfl rfl rfl rfl, hC, hT.of_same_fields rfl rfl rfl rfl⟩

/-- The final loop of `button1Down`, when it returns, keeps the state sound. -/
theorem invalidateHeld_sound (s t : BoardState) (hS : Sound s) (hp : invalidateHeld s = .ok t) :
    Sound t := by
  have hS' := hS
  obtain ⟨L, hB, _, _⟩ := hS'
  obtain ⟨r, hr⟩ := invalidateHeld_board s L hB
  rw [← Except.ok.inj (hr.symm.trans hp)]
  exact hS.of_dirty r

theorem pickUpDeck_nothing (s : BoardState) (h : (pickUpDeck s).mHeldCard = none) :
    pickUpDeck s = s := by
  cases htop : s.mTopOfDeck with
  | none =>
    unfold pickUpDeck
    rw [htop]
  | some c =>
    rw [pickUpDeck_eq s c htop] at h
    cases h

theorem pickUpStack_nothing (s t : BoardState) (hp : pickUpStack s = .ok t)
    (h : t.mHeldCard = none) : t = s := by
  unfold pickUpStack at hp
  split at hp
  · cases h1 : deref (s.mStacks (s.mCursorLocationX - 2)) with
    | error e =>
      rw [h1, error_bind] at hp
      cases hp
    | ok top =>
      rw [h1, ok_bind] at hp
      split at hp
      · cases h2 : deref (s.heap top).Prev with
        | error e =>
          rw [h2, error_bind] at hp
          cases hp
        | ok prev =>
          rw [h2, ok_bind] at hp
          rw [← Except.ok.inj hp] at h
          cases h
      · exact (Except.ok.inj hp).symm
  · cases hp

theorem pickUpBoard_nothing (s t : BoardState) (hp : pickUpBoard s = .ok t)
    (h : t.mHeldCard = none) : t = s := by
  unfold pickUpBoard at hp
  split at hp
  · cases h1 : deref (s.mBoard s.mCursorLocationX) with
    | error e =>
      rw [h1, error_bind] at hp
      cases hp
    | ok base =>
      rw [h1, ok_bind] at hp
      cases hn : (s.heap base).Next with
      | none =>
        rw [hn] at hp
        exact (Except.ok.inj hp).symm
      | some first =>
        rw [hn] at hp
        dsimp only at hp
        cases h2 : nthNext s.heap (s.mCursorLocationY - 1) (some first) with
        | error e =>
          rw [h2, error_bind] at hp
          cases hp
        | ok card =>
          rw [h2, ok_bind] at hp
          cases h3 : deref card with
          | error e =>
            rw [h3, error_bind] at hp
            cases hp
          | ok cd =>
            rw [h3, ok_bind] at hp
            cases h4 : deref (s.heap cd).Prev with
            | error e =>
              rw [h4, error_bind] at hp
              cases hp
            | ok prev =>
              rw [h4, ok_bind] at hp
              cases h5 : setLocationChain .LocationDrag loopFuel (some cd)
                  (setPrev (setNext s.heap prev none) cd none) with
              | error e =>
                rw [h5, error_bind] at hp
                cases hp
              | ok g =>
                rw [h5, ok_bind, ok_bind] at hp
                rw [← Except.ok.inj hp] at h
                cases h
  · cases hp

/-- A pick-up that returns with nothing held has changed nothing. -/
theorem pickUp_nothing (s t : BoardState) (hp : pickUp s = .ok t) (h : t.mHeldCard = none) :
    t = s := by
  unfold pickUp at hp
  split at hp
  · split at hp
    · have e := Except.ok.inj hp
      rw [← e] at h ⊢
      exact pickUpDeck_nothing s h
    · exact pickUpStack_nothing s t hp h
  · exact pickUpBoard_nothing s t hp h

theorem smartmod_emod (a b : Int) (hb : 0 < b) (hb' : b ≤ 100) (ha1 : -200 ≤ a) (ha2 : a ≤ 300) :
    smartmod a b = .ok (a % b) := by
  have hb0 : ¬ (b = 0) := by omega
  have hp1 : a * b ≤ 30000 := by nlinarith
  have hp2 : -20000 ≤ a * b := by nlinarith
  simp only [smartmod, hb0, if_false]
  refine congrArg Except.ok ?_
  rw [wrapInt_of_small (a * b) (by omega) (by omega)]
  rcases Int.lt_or_le a 0 with hneg | hpos
  · have hle : a * b ≤ 0 := by nlinarith
    have habs : (((a * b).natAbs : Nat) : Int) = (-a) * b := by
      rw [Int.ofNat_natAbs_of_nonpos hle]; ring
    rw [habs]
    have h3 : 0 ≤ (-a) * b + a := by nlinarith
    rw [wrapInt_of_small ((-a) * b) (by nlinarith) (by nlinarith),
      wrapInt_of_small ((-a) * b + a) (by omega) (by nlinarith),
      Int.tmod_eq_emod h3 (by omega), Int.add_comm, Int.add_mul_emod_self]
  · have hge : 0 ≤ a * b := by nlinarith
    have habs : (((a * b).natAbs : Nat) : Int) = a * b := Int.natAbs_of_nonneg hge
    rw [habs]
    rw [wrapInt_of_small (a * b) (by omega) (by omega),
      wrapInt_of_small (a * b + a) (by omega) (by omega),
      Int.tmod_eq_emod (by omega) (by omega), Int.add_comm, Int.add_mul_emod_self]

theorem wrapInt8_range (x : Int) : -128 ≤ wrapInt8 x ∧ wrapInt8 x ≤ 127 := by
  unfold wrapInt8
  omega

/-- While a chain is held, a cursor move that returns has selected one of the
candidates and put the cursor on it. -/
theorem moveCursorHeld_outcome (s t : BoardState) (dx dy : Int)
    (hn12 : s.mNumValidTargets ≤ 12)
    (hv : ∀ k, k < s.mNumValidTargets → s.mValidTargets k < 14)
    (hp : moveCursorHeld s dx dy = .ok t) :
    ∃ k ct y, k < s.mNumValidTargets ∧
      t = { s with mCurrentTarget := ct, mCursorLocationX := s.mValidTargets k / 2,
                   mCursorLocationY := y } ∧
      (y = 0 → s.mValidTargets k % 2 = 0) := by
  unfold moveCursorHeld at hp
  dsimp only at hp
  by_cases hn0 : s.mNumValidTargets = 0
  · exfalso
    have : smartmod (if dx + dy > 0 then wrapInt8 (s.mCurrentTarget + 1)
        else wrapInt8 (s.mCurrentTarget - 1)) (s.mNumValidTargets : Int) = .error .divByZero := by
      unfold smartmod
      rw [if_pos (by rw [hn0]; rfl)]
    rw [this, error_bind] at hp
    cases hp
  · generalize hct : (if dx + dy > 0 then wrapInt8 (s.mCurrentTarget + 1)
        else wrapInt8 (s.mCurrentTarget - 1)) = ct' at hp
    have hr : -128 ≤ ct' ∧ ct' ≤ 127 := by
      rw [← hct]
      split <;> exact wrapInt8_range _
    have hm := smartmod_emod ct' s.mNumValidTargets (by omega) (by omega) (by omega) (by omega)
    have hm0 : 0 ≤ ct' % (s.mNumValidTargets : Int) := Int.emod_nonneg _ (by omega)
    have hmn : ct' % (s.mNumValidTargets : Int) < s.mNumValidTargets :=
      Int.emod_lt_of_pos _ (by omega)
    generalize hmm : ct' % (s.mNumValidTargets : Int) = m at hm hm0 hmn
    have hw : wrapInt8 m = m := wrapInt8_of_small _ (by omega) (by omega)
    have hk : m.toNat < s.mNumValidTargets := by omega
    have hv14 := hv m.toNat hk
    rw [hm, ok_bind, hw, if_neg (by omega), decode_column _ (by omega),
      decode_row _ (by omega)] at hp
    split at hp
    · next hy =>
      cases hsz : getBoardStackSize s (s.mValidTargets m.toNat / 2) with
      | error e =>
        rw [hsz, error_bind] at hp
        cases hp
      | ok sz =>
        rw [hsz, ok_bind] at hp
        refine ⟨m.toNat, m, max 1 sz, hk, (Except.ok.inj hp).symm, fun h => ?_⟩
        omega
    · next hy =>
      refine ⟨m.toNat, m, s.mValidTargets m.toNat % 2, hk, (Except.ok.inj hp).symm, fun h => h⟩

theorem moveCursorY_frame (s t : BoardState) (dy : Int) (hp : moveCursorY s dy = .ok t) :
    ∃ x y, t = { s with mCursorLocationX := x, mCursorLocationY := y } := by
  unfold moveCursorY at hp
  split at hp
  · split at hp
    · dsimp only at hp
      split at hp
      · exact ⟨_, _, (Except.ok.inj hp).symm⟩
      · cases hsz : getBoardStackSize s (toprowXtoBoardX s.mCursorLocationX) with
        | error e =>
          rw [hsz, error_bind] at hp
          cases hp
        | ok sz =>
          rw [hsz, ok_bind] at hp
          exact ⟨_, _, (Except.ok.inj hp).symm⟩
    · cases hsz : getBoardStackSize s s.mCursorLocationX with
      | error e =>
        rw [hsz, error_bind] at hp
        cases hp
      | ok sz =>
        rw [hsz, ok_bind] at hp
        cases hm : smartmod (s.mCursorLocationY + dy) ((sz : Int) + 1) with
        | error e =>
          rw [hm, error_bind] at hp
          cases hp
        | ok m =>
          rw [hm, ok_bind] at hp
          dsimp only at hp
          split at hp
          · exact ⟨_, _, (Except.ok.inj hp).symm⟩
          · exact ⟨s.mCursorLocationX, _, (Except.ok.inj hp).symm⟩
  · exact ⟨s.mCursorLocationX, s.mCursorLocationY, (Except.ok.inj hp).symm⟩

theorem moveCursorX_frame (s t : BoardState) (dx : Int) (hp : moveCursorX s dx = .ok t) :
    ∃ x y, t = { s with mCursorLocationX := x, mCursorLocationY := y } := by
  unfold moveCursorX at hp
  split at hp
  · dsimp only at hp
    cases hm : smartmod (s.mCursorLocationX + dx)
        ((if s.mCursorLocationY = 0 then (5 : Int) else 6) + 1) with
    | error e =>
      rw [hm, error_bind] at hp
      cases hp
    | ok m =>
      rw [hm, ok_bind] at hp
      split at hp
      · cases hsz : getBoardStackSize s (wrapU8 m) with
        | error e =>
          rw [hsz, error_bind] at hp
          cases hp
        | ok sz =>
          rw [hsz, ok_bind] at hp
          exact ⟨_, _, (Except.ok.inj hp).symm⟩
      · exact ⟨_, s.mCursorLocationY, (Except.ok.inj hp).symm⟩
  · exact ⟨s.mCursorLocationX, s.mCursorLocationY, (Except.ok.inj hp).symm⟩

theorem moveCursorAdjust_frame (s t : BoardState) (dy : Int)
    (hp : moveCursorAdjust s dy = .ok t) :
    ∃ x y, t = { s with mCursorLocationX := x, mCursorLocationY := y } := by
  unfold moveCursorAdjust at hp
  split at hp
  · split at hp
    · exact ⟨_, _, (Except.ok.inj hp).symm⟩
    · split at hp
      · cases hb : deref (s.mBoard s.mCursorLocationX) with
        | error e =>
          rw [hb, error_bind] at hp
          cases hp
        | ok base =>
          rw [hb, ok_bind] at hp
          cases hk : skipFaceDown s.heap s.mCursorLocationY loopFuel (s.heap base).Next 1 with
          | error e =>
            rw [hk, error_bind] at hp
            cases hp
          | ok n =>
            rw [hk, ok_bind] at hp
            exact ⟨s.mCursorLocationX, _, (Except.ok.inj hp).symm⟩
      · cases hp
  · exact ⟨s.mCursorLocationX, s.mCursorLocationY, (Except.ok.inj hp).symm⟩

/-- With nothing held, a cursor move that returns has changed the cursor only. -/
theorem moveCursor_frame (s t : BoardState) (dx dy : Int) (hh : s.mHeldCard = none)
    (hp : moveCursor s dx dy = .ok t) :
    ∃ x y, t = { s with mCursorLocationX := x, mCursorLocationY := y } := by
  unfold moveCursor at hp
  rw [hh] at hp
  simp only [Option.isSome_none, Bool.false_eq_true, if_false] at hp
  cases h1 : moveCursorY s dy with
  | error e =>
    rw [h1, error_bind] at hp
    cases hp
  | ok s1 =>
    rw [h1, ok_bind] at hp
    cases h2 : moveCursorX s1 dx with
    | error e =>
      rw [h2, error_bind] at hp
      cases hp
    | ok s2 =>
      rw [h2, ok_bind] at hp
      obtain ⟨x1, y1, rfl⟩ := moveCursorY_frame s s1 dy h1
      obtain ⟨x2, y2, rfl⟩ := moveCursorX_frame _ s2 dx h2
      obtain ⟨x3, y3, rfl⟩ := moveCursorAdjust_frame _ t dy hp
      exact ⟨x3, y3, rfl⟩

/-- A cursor move that returns keeps the state sound. -/
theorem moveCursor_sound (s t : BoardState) (dx dy : Int) (hS : Sound s)
    (hp : moveCursor s dx dy = .ok t) : Sound t := by
  obtain ⟨L, hB, hC, hT⟩ := hS
  cases hh : s.mHeldCard with
  | none =>
    obtain ⟨x, y, rfl⟩ := moveCursor_frame s t dx dy hh hp
    exact ⟨L, Board.of_fields hB rfl rfl rfl rfl rfl rfl, hC,
      Tidy.of_released _ L (hB.held_nil hh) hT.1⟩
  | some c =>
    obtain ⟨l2, hheld⟩ := hB.held_cons c hh
    have hne : L 12 ≠ [] := by rw [hheld]; exact List.cons_ne_nil _ _
    obtain ⟨hn12, hoff, _⟩ := hT.2 hne
    have hmc : moveCursor s dx dy = moveCursorHeld s dx dy := by
      unfold moveCursor
      rw [hh]
      rfl
    rw [hmc] at hp
    obtain ⟨k, ct, y, hk, rfl, hy⟩ := moveCursorHeld_outcome s t dx dy hn12
      (fun k hk => (hoff k hk).1) hp
    refine ⟨L, Board.of_fields hB rfl rfl rfl rfl rfl rfl, hC, hT.1, fun _ => ⟨hn12, hoff, ?_⟩⟩
    intro hy0
    have he := hy hy0
    have hv : 2 * (s.mValidTargets k / 2) = s.mValidTargets k := by omega
    show Offer L (2 * (s.mValidTargets k / 2))
    rw [hv]
    exact hoff k hk

/-- After a pick-up that leaves a card held the board is well formed. -/
theorem picked_board (s t : BoardState) (L : Layout) (c : Nat) (hB : Board s L)
    (hheld : L 12 = []) (hp : pickUp s = .ok t) (hc : t.mHeldCard = some c) :
    ∃ L1, Board t L1 := by
  rcases pickUp_outcome s t L c hB hheld hp hc with
    ⟨d1, d2, _, _, hsplit, _, rfl⟩ | ⟨k, l1, hk, _, _, hsplit, rfl⟩ |
    ⟨x, l1, l2, hx, _, hsplit, _, rfl⟩
  · exact ⟨_, wastePicked_board s L c d1 d2 hB hheld hsplit⟩
  · exact ⟨_, stackPicked_board s L k c l1 hB hheld hk hsplit⟩
  · exact ⟨_, boardPicked_board s L x c l1 l2 hB hheld hx hsplit⟩

/-- A call of `button1Down` that returns keeps the state sound. -/
theorem button1Down_sound (s t : BoardState) (hS : Sound s) (hp : button1Down s = .ok t) :
    Sound t := by
  have hS' := hS
  obtain ⟨L, hB, hC, hT⟩ := hS'
  cases hh : s.mHeldCard with
  | some c =>
    rw [button1Down_held s c hh] at hp
    exact putDownHeldCard_sound s t L c hB hC hT hh hp
  | none =>
    have hheld := hB.held_nil hh
    by_cases hxy : s.mCursorLocationX = 0 ∧ s.mCursorLocationY = 0
    · rw [button1Down_flip s hh hxy] at hp
      exact invalidateHeld_sound _ t ((flip3_sound s hS).of_dirty _) hp
    · cases hpk : pickUp s with
      | error e =>
        rw [button1Down_fault s e hh hxy hpk] at hp
        cases hp
      | ok t1 =>
        cases hc : t1.mHeldCard with
        | none =>
          rw [button1Down_nothing s t1 hh hpk hc, pickUp_nothing s t1 hpk hc] at hp
          exact invalidateHeld_sound s t hS hp
        | some c =>
          obtain ⟨L1, hB1⟩ := picked_board s t1 L c hB hheld hpk hc
          obtain ⟨u, hu, hr, _⟩ := enumerateTargets_spec t1 L1 c hB1 hc
          obtain ⟨L2, hB2, hC2, hT2⟩ := picked_sound s t1 u L c hB hC hT hheld hpk hc hu
          have hSu : Sound u := ⟨L2, hB2, hC2, hT2⟩
          have huc : u.mHeldCard = some c := by
            obtain ⟨n, v, k, rfl⟩ := hr
            exact hc
          rw [button1Down_picked s t1 u c hh hpk hc hu] at hp
          split at hp
          · cases hp
          · split at hp
            · cases hq : putDownHeldCard u with
              | error e =>
                rw [hq, error_bind] at hp
                cases hp
              | ok w =>
                rw [hq, ok_bind] at hp
                exact invalidateHeld_sound w t
                  (putDownHeldCard_sound u w L2 c hB2 hC2 hT2 huc hq) hp
            · exact invalidateHeld_sound u t hSu hp

/-! ## Dealing a new game -/

theorem swapAt_eq (d : Nat → Nat) (i j k : Nat) :
    swapAt d i j k = d (if k = i then j else if k = j then i else k) := by
  unfold swapAt
  dsimp only
  by_cases h1 : k = i
  · rw [if_pos h1, if_pos h1]
  · rw [if_neg h1, if_neg h1]
    by_cases h2 : k = j
    · rw [if_pos h2, if_pos h2]
    · rw [if_neg h2, if_neg h2]

theorem Perm52.swapAt {d : Nat → Nat} (hd : Perm52 d) (i j : Nat) (hi : i < 52) (hj : j < 52) :
    Perm52 (swapAt d i j) := by
  obtain ⟨hr, hinj, hsur⟩ := hd
  refine ⟨?_, ?_, ?_⟩
  · intro k hk
    rw [swapAt_eq]
    apply hr
    split
    · exact hj
    · split
      · exact hi
      · exact hk
  · intro a b ha hb hab
    rw [swapAt_eq, swapAt_eq] at hab
    have h := hinj _ _ (by split <;> [exact hj; (split <;> [exact hi; exact ha])])
      (by split <;> [exact hj; (split <;> [exact hi; exact hb])]) hab
    split at h <;> split at h <;> (try split at h) <;> (try split at h) <;> omega
  · intro c hc
    obtain ⟨m, hm, hmc⟩ := hsur c hc
    refine ⟨if m = i then j else if m = j then i else m, ?_, ?_⟩
    · split <;> [exact hj; (split <;> [exact hi; exact hm])]
    · rw [swapAt_eq, ← hmc]
      congr 1
      split <;> (try split) <;> (try split) <;> (try split) <;> omega

theorem Perm52.id : Perm52 (fun i => i) :=
  ⟨fun _ h => h, fun _ _ _ _ h => h, fun c hc => ⟨c, hc, rfl⟩⟩

theorem Perm52.shuffleFrom (draws : Nat → Nat) : ∀ (k i : Nat) (d : Nat → Nat), i + k ≤ 52 →
    Perm52 d → Perm52 (shuffleFrom draws k i d)
  | 0, _, _, _, hd => hd
  | k + 1, i, d, hik, hd => by
    unfold Solitaire.shuffleFrom
    have hlt : draws i % (52 - i) < 52 - i := Nat.mod_lt _ (by omega)
    exact Perm52.shuffleFrom draws k (i + 1) _ (by omega)
      (hd.swapAt i (i + draws i % (52 - i)) (by omega) (by omega))

/-- The shuffle leaves each of the 52 card addresses in the deck exactly once. -/
theorem Perm52.shuffle (draws : Nat → Nat) {d : Nat → Nat} (hd : Perm52 d) :
    Perm52 (Deck.shuffle draws d) :=
  Perm52.shuffleFrom draws 52 0 d (by omega) hd

theorem mem_run (src : Nat → Nat) (cur k c : Nat) :
    c ∈ run src cur k ↔ ∃ j, j < k ∧ src (cur + j) = c := by
  unfold run
  rw [List.mem_map]
  constructor
  · rintro ⟨j, hj, h⟩
    exact ⟨j, List.mem_range.mp hj, h⟩
  · rintro ⟨j, hj, h⟩
    exact ⟨j, List.mem_range.mpr hj, h⟩

theorem run_succ (src : Nat → Nat) (cur k : Nat) :
    run src cur (k + 1) = src cur :: run src (cur + 1) k := by
  unfold run
  rw [List.range_succ_eq_map, List.map_cons, List.map_map]
  refine congrArg₂ List.cons rfl (List.map_congr_left ?_)
  intro j _
  show src (cur + (j + 1)) = src (cur + 1 + j)
  rw [Nat.add_assoc, Nat.add_comm 1 j]

theorem run_length (src : Nat → Nat) (cur k : Nat) : (run src cur k).length = k := by
  unfold run
  rw [List.length_map, List.length_range]

theorem run_nodup {src : Nat → Nat} (hp : Perm52 src) (cur k : Nat) (h : cur + k ≤ 52) :
    (run src cur k).Nodup := by
  unfold run
  refine (List.nodup_range k).map_on ?_
  intro a ha b hb hab
  rw [List.mem_range] at ha hb
  have := hp.2.1 _ _ (by omega) (by omega) hab
  omega

theorem tri_values : tri 0 = 0 ∧ tri 1 = 1 ∧ tri 2 = 3 ∧ tri 3 = 6 ∧ tri 4 = 10 ∧ tri 5 = 15 ∧
    tri 6 = 21 ∧ tri 7 = 28 := by decide

theorem dealtLayout_tab (src : Nat → Nat) (p : Nat) (hp : p < 7) :
    dealtLayout src p = run src (tri p) (p + 1) := by
  unfold dealtLayout
  rw [if_pos hp]

theorem dealtLayout_deck (src : Nat → Nat) : dealtLayout src 11 = run src 28 24 := rfl

theorem dealtLayout_other (src : Nat → Nat) (p : Nat) (h : 7 ≤ p) (h' : p ≠ 11) :
    dealtLayout src p = [] := by
  unfold dealtLayout
  rw [if_neg (by omega), if_neg h']

theorem tri_bounds (p : Nat) (hp : p < 7) : tri (p + 1) ≤ 28 := by
  interval_cases p <;> decide

/-- A card of a dealt pile sits at an index of the source deck inside the span of the pile. -/
theorem mem_dealtLayout (src : Nat → Nat) (p c : Nat) (h : c ∈ dealtLayout src p) :
    ∃ idx, idx < 52 ∧ src idx = c ∧
      ((p < 7 ∧ tri p ≤ idx ∧ idx < tri (p + 1)) ∨ (p = 11 ∧ 28 ≤ idx)) := by
  by_cases hp : p < 7
  · rw [dealtLayout_tab src p hp, mem_run] at h
    obtain ⟨j, hj, hc⟩ := h
    have hb := tri_bounds p hp
    have ht : tri (p + 1) = tri p + (p + 1) := rfl
    exact ⟨tri p + j, by omega, hc, Or.inl ⟨hp, by omega, by omega⟩⟩
  · by_cases h11 : p = 11
    · subst h11
      rw [dealtLayout_deck, mem_run] at h
      obtain ⟨j, hj, hc⟩ := h
      exact ⟨28 + j, by omega, hc, Or.inr ⟨rfl, by omega⟩⟩
    · rw [dealtLayout_other src p (by omega) h11] at h
      cases h

theorem tri_spans_apart (p q idx : Nat) (hp : p < 7) (hq : q < 7) (hpq : p ≠ q)
    (h1 : tri p ≤ idx) (h2 : idx < tri (p + 1)) (h3 : tri q ≤ idx) (h4 : idx < tri (q + 1)) :
    False := by
  interval_cases p <;> interval_cases q <;> simp only [tri] at h1 h2 h3 h4 <;> omega

/-- The dealt piles hold card addresses only, each at most once. -/
theorem dealtLayout_separate {src : Nat → Nat} (hp : Perm52 src) : Separate (dealtLayout src) := by
  refine ⟨?_, ?_, ?_⟩
  · intro p _ c hc
    obtain ⟨idx, hidx, he, _⟩ := mem_dealtLayout src p c hc
    rw [← he]
    exact hp.1 idx hidx
  · intro p _
    by_cases h7 : p < 7
    · rw [dealtLayout_tab src p h7]
      have hb := tri_bounds p h7
      have ht : tri (p + 1) = tri p + (p + 1) := rfl
      exact run_nodup hp _ _ (by omega)
    · by_cases h11 : p = 11
      · rw [h11, dealtLayout_deck]
        exact run_nodup hp _ _ (by omega)
      · rw [dealtLayout_other src p (by omega) h11]
        exact List.nodup_nil
  · intro p _ q _ hpq c hc1 hc2
    obtain ⟨i1, hi1, he1, hs1⟩ := mem_dealtLayout src p c hc1
    obtain ⟨i2, hi2, he2, hs2⟩ := mem_dealtLayout src q c hc2
    have hii : i1 = i2 := hp.2.1 i1 i2 hi1 hi2 (he1.trans he2.symm)
    subst hii
    rcases hs1 with ⟨hp7, ha, hb⟩ | ⟨hp11, ha⟩
    · rcases hs2 with ⟨hq7, hc, hd⟩ | ⟨hq11, hc⟩
      · exact tri_spans_apart p q i1 hp7 hq7 hpq ha hb hc hd
      · have := tri_bounds p hp7
        omega
    · rcases hs2 with ⟨hq7, hc, hd⟩ | ⟨hq11, hc⟩
      · have := tri_bounds q hq7
        omega
      · omega

/-- Every card of the pool lies in one of the dealt piles. -/
theorem dealtLayout_covers {src : Nat → Nat} (hp : Perm52 src) : Covers (dealtLayout src) := by
  intro c hc
  obtain ⟨idx, hidx, he⟩ := hp.2.2 c hc
  have key : ∀ p a b, p < 7 → tri p = a → tri (p + 1) = b → a ≤ idx → idx < b →
      ∃ q, q < 13 ∧ c ∈ dealtLayout src q := by
    intro p a b hp7 ha hb h1 h2
    refine ⟨p, by omega, ?_⟩
    rw [dealtLayout_tab src p hp7, mem_run]
    have ht : tri (p + 1) = tri p + (p + 1) := rfl
    exact ⟨idx - tri p, by omega, by rw [← he]; congr 1; omega⟩
  by_cases h28 : idx < 28
  · by_cases h1 : idx < 1
    · exact key 0 0 1 (by omega) rfl rfl (by omega) (by omega)
    · by_cases h3 : idx < 3
      · exact key 1 1 3 (by omega) rfl rfl (by omega) (by omega)
      · by_cases h6 : idx < 6
        · exact key 2 3 6 (by omega) rfl rfl (by omega) (by omega)
        · by_cases h10 : idx < 10
          · exact key 3 6 10 (by omega) rfl rfl (by omega) (by omega)
          · by_cases h15 : idx < 15
            · exact key 4 10 15 (by omega) rfl rfl (by omega) (by omega)
            · by_cases h21 : idx < 21
              · exact key 5 15 21 (by omega) rfl rfl (by omega) (by omega)
              · exact key 6 21 28 (by omega) rfl rfl (by omega) (by omega)
  · refine ⟨11, by omega, ?_⟩
    rw [dealtLayout_deck, mem_run]
    exact ⟨idx - 28, by omega, by rw [← he]; congr 1; omega⟩

/-- The inner loop of the deal links the cards it reads behind `prev`; only the
last `Next` is still to be closed. -/
theorem dealInner_spec (src : Nat → Nat) : ∀ (k cur prev : Nat) (h : Heap),
    (prev :: run src cur k).Nodup →
    ∃ h', dealInner src k cur prev h = (h', cur + k, (run src cur k).getLastD prev) ∧
      Links (setNext h' ((run src cur k).getLastD prev) none) prev (run src cur k) ∧
      (∀ q, q ∉ prev :: run src cur k → h' q = h q) ∧
      (h' prev).Prev = (h prev).Prev ∧ (h' prev).FaceUp = (h prev).FaceUp ∧
      (∀ q, (h' q).Which = (h q).Which) ∧
      (∀ q, q ∈ run src cur k → (h' q).FaceUp = false)
  | 0, cur, prev, h, _ => by
    refine ⟨h, rfl, ?_, fun _ _ => rfl, rfl, rfl, fun _ => rfl, ?_⟩
    · show Links (setNext h prev none) prev []
      unfold Links
      rw [setNext_Next, if_pos rfl]
    · intro q hq
      cases hq
  | k + 1, cur, prev, h, hnd => by
    rw [run_succ] at hnd ⊢
    have hnd1 := List.nodup_cons.mp hnd
    have hpc : prev ≠ src cur := fun e => hnd1.1 (e ▸ List.mem_cons_self _ _)
    obtain ⟨h', he, hl, hfr, hpv, hfu, hw, hfd⟩ := dealInner_spec src k (cur + 1) (src cur)
      (setFaceUp (setLocation (setPrev (setNext h prev (some (src cur))) (src cur) (some prev))
        (src cur) .LocationBoard) (src cur) false) hnd1.2
    have hlast : (run src (cur + 1) k).getLastD (src cur) ∈ src cur :: run src (cur + 1) k :=
      getLastD_mem _ _
    have hpl : prev ≠ (run src (cur + 1) k).getLastD (src cur) := fun e => hnd1.1 (e ▸ hlast)
    have hprev := hfr prev hnd1.1
    refine ⟨h', ?_, ?_, ?_, ?_, ?_, ?_, ?_⟩
    · unfold dealInner
      rw [List.getLastD_cons]
      rw [he]
      exact congrArg (fun n => (h', n, (run src (cur + 1) k).getLastD (src cur)))
        (by omega)
    · rw [List.getLastD_cons]
      unfold Links
      refine ⟨?_, ?_, hl⟩
      · rw [setNext_Next, if_neg hpl, hprev, setFaceUp_Next, setLocation_Next, setPrev_Next,
          setNext_Next, if_pos rfl]
      · rw [setNext_Prev, hpv, setFaceUp_Prev, setLocation_Prev, setPrev_Prev, if_pos rfl]
    · intro q hq
      have hq1 : q ≠ prev := fun e => hq (e ▸ List.mem_cons_self _ _)
      have hq2 : q ∉ src cur :: run src (cur + 1) k := fun hm => hq (List.mem_cons_of_mem _ hm)
      have hq3 : q ≠ src cur := fun e => hq2 (e ▸ List.mem_cons_self _ _)
      rw [hfr q hq2]
      simp only [setFaceUp, setLocation, setPrev, setNext, if_neg hq1, if_neg hq3]
    · rw [hprev, setFaceUp_Prev, setLocation_Prev, setPrev_Prev, if_neg hpc, setNext_Prev]
    · rw [hprev, setFaceUp_FaceUp, if_neg hpc, setLocation_FaceUp, setPrev_FaceUp,
        setNext_FaceUp]
    · intro q
      rw [hw q, setFaceUp_Which, setLocation_Which, setPrev_Which, setNext_Which]
    · intro q hq
      rcases List.mem_cons.mp hq with h1 | h1
      · rw [h1, hfu, setFaceUp_FaceUp, if_pos rfl]
      · exact hfd q h1

/-- One iteration of the deal: column `p` is a well-linked pile of the cards
read from index `cur` on, face-down but for the last, and nothing else changes. -/
theorem dealPile_spec (src : Nat → Nat) (p cur : Nat) (h : Heap) (board : Nat → Option Nat)
    (hnd : (boardBase p :: run src cur (p + 1)).Nodup) :
    ∃ h2, dealPile src p cur h board =
        (h2, cur + (p + 1), fun n => if n = p then some (boardBase p) else board n) ∧
      IsPile h2 (boardBase p :: run src cur (p + 1)) ∧
      (∀ q, q ∉ boardBase p :: run src cur (p + 1) → h2 q = h q) ∧
      (∀ q, (h2 q).Which = (h q).Which) ∧
      (∀ q, q ∈ run src cur (p + 1) →
        (h2 q).FaceUp = decide (q = (run src cur (p + 1)).getLastD (boardBase p))) := by
  obtain ⟨h', he, hl, hfr, hpv, _, hw, hfd⟩ := dealInner_spec src (p + 1) cur (boardBase p)
    (setFaceUp (setLocation (setPrev h (boardBase p) none) (boardBase p) .LocationBoard)
      (boardBase p) false) hnd
  have hlast : (run src cur (p + 1)).getLastD (boardBase p) ∈ run src cur (p + 1) := by
    rw [run_succ, List.getLastD_cons]
    exact getLastD_mem _ _
  have hbl : boardBase p ≠ (run src cur (p + 1)).getLastD (boardBase p) :=
    fun e => (List.nodup_cons.mp hnd).1 (e ▸ hlast)
  refine ⟨setNext (setFaceUp h' ((run src cur (p + 1)).getLastD (boardBase p)) true)
    ((run src cur (p + 1)).getLastD (boardBase p)) none, ?_, ?_, ?_, ?_, ?_⟩
  · unfold dealPile
    simp only [he]
  · unfold IsPile
    refine ⟨?_, Links.congr ?_ ?_ hl⟩
    · rw [setNext_Prev, setFaceUp_Prev, hpv, setFaceUp_Prev, setLocation_Prev, setPrev_Prev,
        if_pos rfl]
    · intro c _
      rw [setNext_Next, setNext_Next, setFaceUp_Next]
    · intro c _
      rw [setNext_Prev, setNext_Prev, setFaceUp_Prev]
  · intro q hq
    have hq1 : q ≠ boardBase p := fun e => hq (e ▸ List.mem_cons_self _ _)
    have hq2 : q ≠ (run src cur (p + 1)).getLastD (boardBase p) :=
      fun e => hq (List.mem_cons_of_mem _ (e ▸ hlast))
    have := hfr q hq
    simp only [setNext, setFaceUp, if_neg hq2, this, setLocation, setPrev, if_neg hq1]
  · intro q
    rw [setNext_Which, setFaceUp_Which, hw q, setFaceUp_Which, setLocation_Which, setPrev_Which]
  · intro q hq
    rw [setNext_FaceUp, setFaceUp_FaceUp]
    by_cases hql : q = (run src cur (p + 1)).getLastD (boardBase p)
    · rw [if_pos hql, decide_eq_true hql]
    · rw [if_neg hql, decide_eq_false hql]
      exact hfd q hq

theorem pileNodes_dealt_tab (src : Nat → Nat) (p : Nat) (hp : p < 7) :
    pileNodes (dealtLayout src) p = boardBase p :: run src (tri p) (p + 1) := by
  unfold pileNodes
  rw [anchorOf_tab p hp, dealtLayout_tab src p hp]
  rfl

/-- The loop over the tableau columns deals every column as a well-linked pile. -/
theorem dealPiles_spec {src : Nat → Nat} (hp : Perm52 src) : ∀ (k p : Nat) (h : Heap)
    (board : Nat → Option Nat), p + k ≤ 7 →
    ∃ h' board', dealPiles src k p (tri p) h board = (h', tri (p + k), board') ∧
      (∀ n, board' n = if p ≤ n ∧ n < p + k then some (boardBase n) else board n) ∧
      (∀ i, p ≤ i → i < p + k →
        IsPile h' (pileNodes (dealtLayout src) i) ∧
        ∀ q, q ∈ dealtLayout src i →
          (h' q).FaceUp = decide (q = (dealtLayout src i).getLastD (boardBase i))) ∧
      (∀ q, (∀ i, p ≤ i → i < p + k → q ∉ pileNodes (dealtLayout src) i) → h' q = h q) ∧
      (∀ q, (h' q).Which = (h q).Which)
  | 0, p, h, board, _ => by
    refine ⟨h, board, rfl, ?_, ?_, fun _ _ => rfl, fun _ => rfl⟩
    · intro n
      rw [if_neg (by omega)]
    · intro i h1 h2
      omega
  | k + 1, p, h, board, hpk => by
    have hS := dealtLayout_separate hp
    have hp7 : p < 7 := by omega
    have hnd : (boardBase p :: run src (tri p) (p + 1)).Nodup := by
      rw [← pileNodes_dealt_tab src p hp7]
      exact hS.pileNodes_nodup p (by omega)
    obtain ⟨h2, he2, hpile2, hfr2, hw2, hfu2⟩ := dealPile_spec src p (tri p) h board hnd
    obtain ⟨h', board', he, hb, hpiles, hfr, hw⟩ := dealPiles_spec hp k (p + 1) h2
      (fun n => if n = p then some (boardBase p) else board n) (by omega)
    have hkeep : ∀ q, q ∈ pileNodes (dealtLayout src) p → h' q = h2 q := by
      intro q hq
      apply hfr
      intro i h1 h2
      exact hS.pileNodes_apart p i (by omega) (by omega) (by omega) q hq
    refine ⟨h', board', ?_, ?_, ?_, ?_, ?_⟩
    · unfold dealPiles
      simp only [he2]
      rw [show tri p + (p + 1) = tri (p + 1) from rfl, he,
        show p + 1 + k = p + (k + 1) by omega]
    · intro n
      rw [hb n]
      by_cases h1 : p + 1 ≤ n ∧ n < p + 1 + k
      · rw [if_pos h1, if_pos (by omega)]
      · rw [if_neg h1]
        by_cases h2 : n = p
        · rw [if_pos h2, if_pos (by omega), h2]
        · rw [if_neg h2, if_neg (by omega)]
    · intro i h1 h2
      by_cases hip : i = p
      · subst hip
        constructor
        · refine IsPile.congr_pile (fun c hc => by rw [hkeep c hc])
            (fun c hc => by rw [hkeep c hc]) ?_
          rw [pileNodes_dealt_tab src i hp7]
          exact hpile2
        · intro q hq
          rw [hkeep q (mem_pileNodes_of_mem hq), dealtLayout_tab src i hp7]
          exact hfu2 q (by rw [← dealtLayout_tab src i hp7]; exact hq)
      · exact hpiles i (by omega) (by omega)
    · intro q hq
      rw [hfr q (fun i h1 h2 => hq i (by omega) (by omega))]
      apply hfr2
      rw [← pileNodes_dealt_tab src p hp7]
      exact hq p (by omega) (by omega)
    · intro q
      rw [hw q, hw2 q]

/-- The loop that links the draw chain: the cards it reads are linked behind
`prev`, only the last `Next` is still to be closed, and no flag is written. -/
theorem linkDeck_spec (src : Nat → Nat) : ∀ (k cur prev : Nat) (h : Heap),
    (prev :: run src cur k).Nodup →
    ∃ h', linkDeck src k cur prev h = (h', (run src cur k).getLastD prev) ∧
      Links (setNext h' ((run src cur k).getLastD prev) none) prev (run src cur k) ∧
      (∀ q, q ∉ prev :: run src cur k → h' q = h q) ∧
      (h' prev).Prev = (h prev).Prev ∧
      (∀ q, (h' q).Which = (h q).Which) ∧
      (∀ q, (h' q).FaceUp = (h q).FaceUp)
  | 0, cur, prev, h, _ => by
    refine ⟨h, rfl, ?_, fun _ _ => rfl, rfl, fun _ => rfl, fun _ => rfl⟩
    show Links (setNext h prev none) prev []
    unfold Links
    rw [setNext_Next, if_pos rfl]
  | k + 1, cur, prev, h, hnd => by
    rw [run_succ] at hnd ⊢
    have hnd1 := List.nodup_cons.mp hnd
    have hpc : prev ≠ src cur := fun e => hnd1.1 (e ▸ List.mem_cons_self _ _)
    obtain ⟨h', he, hl, hfr, hpv, hw, hfu⟩ := linkDeck_spec src k (cur + 1) (src cur)
      (setNext (setPrev (setLocation h (src cur) .LocationDeck) (src cur) (some prev)) prev
        (some (src cur))) hnd1.2
    have hlast : (run src (cur + 1) k).getLastD (src cur) ∈ src cur :: run src (cur + 1) k :=
      getLastD_mem _ _
    have hpl : prev ≠ (run src (cur + 1) k).getLastD (src cur) := fun e => hnd1.1 (e ▸ hlast)
    have hprev := hfr prev hnd1.1
    refine ⟨h', ?_, ?_, ?_, ?_, ?_, ?_⟩
    · unfold linkDeck
      rw [List.getLastD_cons]
      exact he
    · rw [List.getLastD_cons]
      unfold Links
      refine ⟨?_, ?_, hl⟩
      · rw [setNext_Next, if_neg hpl, hprev, setNext_Next, if_pos rfl]
      · rw [setNext_Prev, hpv, setNext_Prev, setPrev_Prev, if_pos rfl]
    · intro q hq
      have hq1 : q ≠ prev := fun e => hq (e ▸ List.mem_cons_self _ _)
      have hq2 : q ∉ src cur :: run src (cur + 1) k := fun hm => hq (List.mem_cons_of_mem _ hm)
      have hq3 : q ≠ src cur := fun e => hq2 (e ▸ List.mem_cons_self _ _)
      rw [hfr q hq2]
      simp only [setLocation, setPrev, setNext, if_neg hq1, if_neg hq3]
    · rw [hprev, setNext_Prev, setPrev_Prev, if_neg hpc, setLocation_Prev]
    · intro q
      rw [hw q, setNext_Which, setPrev_Which, setLocation_Which]
    · intro q
      rw [hfu q, setNext_FaceUp, setPrev_FaceUp, setLocation_FaceUp]

theorem initStacks_four (h : Heap) (stk : Nat → Option Nat) :
    initStacks 4 0 h stk =
      (setPrev (setNext (setPrev (setNext (setPrev (setNext (setPrev (setNext h
        (stackBase 0) none) (stackBase 0) none) (stackBase 1) none) (stackBase 1) none)
        (stackBase 2) none) (stackBase 2) none) (stackBase 3) none) (stackBase 3) none,
       fun n => if n = 3 then some (stackBase 3) else if n = 2 then some (stackBase 2)
         else if n = 1 then some (stackBase 1) else if n = 0 then some (stackBase 0)
         else stk n) := rfl

/-- The loop that resets the foundations: every `mStacks[i]` points at its
anchor, whose links are null, and nothing else changes. -/
theorem initStacks_spec (h : Heap) (stk : Nat → Option Nat) :
    ∃ h' stk', initStacks 4 0 h stk = (h', stk') ∧
      (∀ i, i < 4 → stk' i = some (stackBase i)) ∧
      (∀ i, i < 4 → (h' (stackBase i)).Next = none ∧ (h' (stackBase i)).Prev = none) ∧
      (∀ q, (∀ i, i < 4 → q ≠ stackBase i) → h' q = h q) ∧
      (∀ q, (h' q).Which = (h q).Which) ∧
      (∀ q, (h' q).FaceUp = (h q).FaceUp) := by
  refine ⟨_, _, initStacks_four h stk, ?_, ?_, ?_, ?_, ?_⟩
  · intro i hi
    interval_cases i <;> rfl
  · intro i hi
    interval_cases i <;>
      simp [setNext_Next, setNext_Prev, setPrev_Next, setPrev_Prev, stackBase]
  · intro q hq
    have h0 := hq 0 (by omega)
    have h1 := hq 1 (by omega)
    have h2 := hq 2 (by omega)
    have h3 := hq 3 (by omega)
    simp only [setNext, setPrev, if_neg h0, if_neg h1, if_neg h2, if_neg h3]
  · intro q
    simp only [setNext_Which, setPrev_Which]
  · intro q
    simp only [setNext_FaceUp, setPrev_FaceUp]

theorem pileNodes_dealt_fnd (src : Nat → Nat) (i : Nat) (hi : i < 4) :
    pileNodes (dealtLayout src) (7 + i) = [stackBase i] := by
  unfold pileNodes
  rw [anchorOf_fnd i hi, dealtLayout_other src (7 + i) (by omega) (by omega)]
  rfl

theorem pileNodes_dealt_deck (src : Nat → Nat) :
    pileNodes (dealtLayout src) 11 = src 28 :: run src 29 23 := by
  unfold pileNodes
  rw [anchorOf_deck, dealtLayout_deck, run_succ]
  rfl

/-- The state `initialize` builds from a deck that holds every card once: the
board is well formed over the dealt piles, every tableau card but the last of
its column is face-down, the draw chain keeps the flags it had, and the waste
is empty. -/
theorem initializeBoard_dealt (draws : Nat → Nat) (s : BoardState) (hsrc : Perm52 s.mSourceDeck)
    (hheld : s.mHeldCard = none)
    (hW : ∀ a, a < 63 → (s.heap a).Which = (BoardState.fresh.heap a).Which) :
    Board (initializeBoard draws s) (dealtLayout (Deck.shuffle draws s.mSourceDeck)) ∧
      (∀ i, i < 7 → ∀ q, q ∈ dealtLayout (Deck.shuffle draws s.mSourceDeck) i →
        ((initializeBoard draws s).heap q).FaceUp =
          decide (q = (dealtLayout (Deck.shuffle draws s.mSourceDeck) i).getLastD
            (boardBase i))) ∧
      (∀ q, q ∈ dealtLayout (Deck.shuffle draws s.mSourceDeck) 11 →
        ((initializeBoard draws s).heap q).FaceUp = (s.heap q).FaceUp) ∧
      (initializeBoard draws s).mTopOfDeck = none := by
  have hp : Perm52 (Deck.shuffle draws s.mSourceDeck) := hsrc.shuffle draws
  generalize hsrcdef : Deck.shuffle draws s.mSourceDeck = src at hp ⊢
  have hS := dealtLayout_separate hp
  obtain ⟨h1, board1, he1, hb1, hpiles1, hfr1, hw1⟩ := dealPiles_spec hp 7 0 s.heap s.mBoard
    (by omega)
  obtain ⟨h2, stk2, he2, hstk2, hnp2, hfr2, hw2, hfu2⟩ := initStacks_spec h1 s.mStacks
  have hnd11 : (src 28 :: run src 29 23).Nodup := by
    rw [← pileNodes_dealt_deck src]
    exact hS.pileNodes_nodup 11 (by omega)
  obtain ⟨h4, he4, hl4, hfr4, hpv4, hw4, hfu4⟩ := linkDeck_spec src 23 29 (src 28)
    (setLocation (setPrev h2 (src 28) none) (src 28) .LocationDeck) hnd11
  have hinit : initializeBoard draws s =
      { s with mHasHeldCards := false, mCursorLocationX := 1, mCursorLocationY := 0,
               mSourceDeck := src, mDirtyRegion := ⟨0, 0, 160, 128⟩, mBoard := board1,
               mStacks := stk2,
               heap := setNext h4 ((run src 29 23).getLastD (src 28)) none,
               mDeck := some (src 28), mTopOfDeck := none } := by
    have he1' : dealPiles src 7 0 0 s.heap s.mBoard = (h1, 28, board1) := he1
    unfold initializeBoard
    simp only [hsrcdef, he1', he2]
    have he4' : linkDeck src (52 - (28 + 1)) (28 + 1) (src 28)
        (setLocation (setPrev h2 (src 28) none) (src 28) .LocationDeck) =
        (h4, (run src 29 23).getLastD (src 28)) := he4
    rw [he4']
  have hlast : (run src 29 23).getLastD (src 28) ∈ pileNodes (dealtLayout src) 11 := by
    rw [pileNodes_dealt_deck]
    exact getLastD_mem _ _
  have hfirst : src 28 ∈ pileNodes (dealtLayout src) 11 := by
    rw [pileNodes_dealt_deck]
    exact List.mem_cons_self _ _
  have hkeep : ∀ q, q ∉ pileNodes (dealtLayout src) 11 → (∀ i, i < 4 → q ≠ stackBase i) →
      setNext h4 ((run src 29 23).getLastD (src 28)) none q = h1 q := by
    intro q hq hqs
    have hq1 : q ≠ (run src 29 23).getLastD (src 28) := fun e => hq (e ▸ hlast)
    have hq2 : q ≠ src 28 := fun e => hq (e ▸ hfirst)
    have hq3 : q ∉ src 28 :: run src 29 23 := by
      rw [← pileNodes_dealt_deck]
      exact hq
    have := hfr4 q hq3
    simp only [setNext, if_neg hq1, this, setLocation, setPrev, if_neg hq2]
    exact hfr2 q hqs
  have htab : ∀ i, i < 7 → ∀ q, q ∈ pileNodes (dealtLayout src) i →
      setNext h4 ((run src 29 23).getLastD (src 28)) none q = h1 q := by
    intro i hi q hq
    refine hkeep q (hS.pileNodes_apart i 11 (by omega) (by omega) (by omega) q hq) ?_
    intro j hj e
    have hm : q ∈ pileNodes (dealtLayout src) (7 + j) := by
      rw [pileNodes_dealt_fnd src j hj, e]
      exact List.mem_singleton_self _
    exact hS.pileNodes_apart i (7 + j) (by omega) (by omega) (by omega) q hq hm
  have hanchor : ∀ j, j < 4 →
      setNext h4 ((run src 29 23).getLastD (src 28)) none (stackBase j) = h2 (stackBase j) := by
    intro j hj
    have hm : stackBase j ∈ pileNodes (dealtLayout src) (7 + j) := by
      rw [pileNodes_dealt_fnd src j hj]
      exact List.mem_singleton_self _
    have hq := hS.pileNodes_apart (7 + j) 11 (by omega) (by omega) (by omega) _ hm
    have hq1 : stackBase j ≠ (run src 29 23).getLastD (src 28) := fun e => hq (e ▸ hlast)
    have hq2 : stackBase j ≠ src 28 := fun e => hq (e ▸ hfirst)
    have hq3 : stackBase j ∉ src 28 :: run src 29 23 := by
      rw [← pileNodes_dealt_deck]
      exact hq
    have := hfr4 _ hq3
    simp only [setNext, if_neg hq1, this, setLocation, setPrev, if_neg hq2]
  rw [hinit]
  refine ⟨⟨?_, ?_, ?_, ?_, ?_, ?_, hS, ?_⟩, ?_, ?_, rfl⟩
  · intro p hp13
    show IsPile (setNext h4 ((run src 29 23).getLastD (src 28)) none) _
    by_cases h7 : p < 7
    · exact IsPile.congr_pile (fun c hc => by rw [htab p h7 c hc])
        (fun c hc => by rw [htab p h7 c hc]) (hpiles1 p (by omega) (by omega)).1
    · by_cases h11 : p < 11
      · obtain ⟨j, hj, rfl⟩ : ∃ j, j < 4 ∧ p = 7 + j := ⟨p - 7, by omega, by omega⟩
        rw [pileNodes_dealt_fnd src j hj]
        show (setNext h4 _ none (stackBase j)).Prev = none ∧
          (setNext h4 _ none (stackBase j)).Next = none
        rw [hanchor j hj]
        exact ⟨(hnp2 j hj).2, (hnp2 j hj).1⟩
      · by_cases h11' : p = 11
        · subst h11'
          rw [pileNodes_dealt_deck]
          unfold IsPile
          refine ⟨?_, hl4⟩
          rw [setNext_Prev, hpv4, setLocation_Prev, setPrev_Prev, if_pos rfl]
        · have : p = 12 := by omega
          subst this
          unfold pileNodes
          rw [anchorOf_held, dealtLayout_other src 12 (by omega) (by omega)]
          trivial
  · intro i hi
    show board1 i = _
    rw [hb1 i, if_pos (by omega)]
  · intro i hi
    show stk2 i = _
    rw [hstk2 i hi, dealtLayout_other src (7 + i) (by omega) (by omega)]
    rfl
  · show some (src 28) = _
    rw [dealtLayout_deck, run_succ]
    rfl
  · show s.mHeldCard = _
    rw [hheld, dealtLayout_other src 12 (by omega) (by omega)]
    rfl
  · intro c hc
    cases hc
  · intro a ha
    show (setNext h4 _ none a).Which = _
    rw [setNext_Which, hw4, setLocation_Which, setPrev_Which, hw2, hw1]
    exact hW a ha
  · intro i hi q hq
    show (setNext h4 _ none q).FaceUp = _
    rw [htab i hi q (mem_pileNodes_of_mem hq)]
    exact (hpiles1 i (by omega) (by omega)).2 q hq
  · intro q hq
    show (setNext h4 _ none q).FaceUp = _
    rw [setNext_FaceUp, hfu4, setLocation_FaceUp, setPrev_FaceUp, hfu2]
    rw [hfr1 q]
    intro i _ hi
    have hq11 : q ∈ pileNodes (dealtLayout src) 11 := mem_pileNodes_of_mem hq
    exact fun hm => hS.pileNodes_apart i 11 (by omega) (by omega) (by omega) q hm hq11

theorem Ordered.nil (h : Heap) : Ordered h [] := by
  intro j hj
  exact absurd hj (Nat.not_lt_zero _)

/-- The state `initialize()` builds at program start is sound. -/
theorem initializeBoard_sound (draws : Nat → Nat) :
    Sound (initializeBoard draws BoardState.fresh) := by
  have hd := initializeBoard_dealt draws BoardState.fresh Perm52.id rfl (fun _ _ => rfl)
  have hp : Perm52 (Deck.shuffle draws BoardState.fresh.mSourceDeck) := Perm52.id.shuffle draws
  refine ⟨_, hd.1, dealtLayout_covers hp, Tidy.of_released _ _
    (dealtLayout_other _ 12 (by omega) (by omega)) ?_⟩
  intro i hi
  rw [dealtLayout_other _ (7 + i) (by omega) (by omega)]
  exact Ordered.nil _

/-- In a well-linked pile a node with a `Prev` is the `Next` of that node. -/
theorem IsPile.prev_next {h : Heap} {l : List Nat} (hl : IsPile h l) (c q : Nat) (hc : c ∈ l)
    (hq : (h c).Prev = some q) : (h q).Next = some c := by
  obtain ⟨d1, d2, hsplit⟩ := List.append_of_mem hc
  subst hsplit
  have h1 := (IsPile.split c d1 d2 hl).1
  rw [hq] at h1
  rcases List.eq_nil_or_concat d1 with hnil | ⟨d1', b, hcat⟩
  · subst hnil
    cases h1
  · rw [List.concat_eq_append] at hcat
    subst hcat
    have hb : b = q := by
      rw [List.getLast?_append, List.getLast?_singleton] at h1
      exact (Option.some.inj h1).symm
    subst hb
    have h2 : IsPile h (d1' ++ b :: (c :: d2)) := by
      rw [List.append_assoc] at hl
      exact hl
    exact (IsPile.split b d1' (c :: d2) h2).2

/-- On a well-formed board the nodes met from the head of pile `p` are the nodes of the pile. -/
theorem Board.pile_chain {s : BoardState} {L : Layout} (hB : Board s L) (p : Nat)
    (hp : p < 13) : Chain s.heap (pileNodes L p) (pileHead s p) := by
  unfold pileHead
  by_cases h7 : p < 7
  · rw [if_pos h7, hB.2.1 p h7]
    unfold pileNodes
    rw [anchorOf_tab p h7, List.singleton_append]
    exact ⟨rfl, Links.chain (hB.tab_pile p h7).2⟩
  · rw [if_neg h7]
    by_cases h11 : p < 11
    · rw [if_pos h11]
      obtain ⟨j, hj, rfl⟩ : ∃ j, j < 4 ∧ p = 7 + j := ⟨p - 7, by omega, by omega⟩
      unfold pileNodes
      rw [anchorOf_fnd j hj, List.singleton_append, show 7 + j - 7 = j by omega]
      exact ⟨rfl, Links.chain (hB.fnd_pile j hj).2⟩
    · rw [if_neg h11]
      by_cases h11' : p = 11
      · rw [if_pos h11', h11', hB.2.2.2.1]
        unfold pileNodes
        rw [anchorOf_deck, List.nil_append]
        exact hB.deck_pile.head_chain
      · rw [if_neg h11']
        have : p = 12 := by omega
        subst this
        rw [hB.2.2.2.2.1]
        unfold pileNodes
        rw [anchorOf_held, List.nil_append]
        exact hB.held_pile.head_chain

theorem fresh_faceUp (q : Nat) : (BoardState.fresh.heap q).FaceUp = true := by
  show (if q < 52 then Card.new (CardId.fromhash q) else Card.empty).FaceUp = true
  split <;> rfl

/-- C18 (what the code does): for every outcome of the shuffle's draws, after
`initialize()` at program start the draw chain from `mDeck` holds 24 cards and
every one of them is face-up: `initialize()` never writes the `FaceUp` flag of a
draw-pile card, so each keeps the `true` its constructor gave it. -/
theorem initialize_leaves_draw_pile_face_up (draws : Nat → Nat) :
    ∃ d, Chain (initializeBoard draws BoardState.fresh).heap d
        (initializeBoard draws BoardState.fresh).mDeck ∧ d.length = 24 ∧
      ∀ q, q ∈ d → ((initializeBoard draws BoardState.fresh).heap q).FaceUp = true := by
  obtain ⟨hB, _, hfu, _⟩ :=
    initializeBoard_dealt draws BoardState.fresh Perm52.id rfl (fun _ _ => rfl)
  refine ⟨dealtLayout (Deck.shuffle draws BoardState.fresh.mSourceDeck) 11, ?_, ?_, ?_⟩
  · have := hB.deck_pile.head_chain
    rw [← hB.2.2.2.1] at this
    exact this
  · rw [dealtLayout_deck, run_length]
  · intro q hq
    rw [hfu q hq]
    exact fresh_faceUp q

set_option maxRecDepth 100000 in
set_option maxHeartbeats 4000000 in
/-- C8 (the failing input): the first `draw()` of the program, on the state
`setup()` has built by `initialize()` (here with every shuffle draw 0) and
`flip3()`, returns. In this pass the cursor, on the waste slot, is drawn on the
third revealed card: `drawCursor(50, 2)` registers the rectangle 21 by 28 at
(50, 2). The dirty region `draw()` leaves is 20 by 29 at (50, 2), which does not
contain that rectangle. -/
theorem draw_dirty_region_misses_cursor :
    observe (fun t => t.mDirtyRegion)
        (draw (flip3 (initializeBoard (fun _ => 0) BoardState.fresh))) =
      some ⟨50, 2, 20, 29⟩ ∧
    ¬ Rect.contains ⟨50, 2, 20, 29⟩ (cursorRect 50 2) := by decide

/-! ## Clean play, and a new deal while a chain is held -/

theorem flip3_sourceDeck (s : BoardState) : (flip3 s).mSourceDeck = s.mSourceDeck := by
  unfold flip3
  repeat' split
  all_goals rfl

theorem revealAndRelease_sourceDeck (s : BoardState) (held : Nat) :
    (revealAndRelease s held).mSourceDeck = s.mSourceDeck := by
  unfold revealAndRelease
  repeat' split
  all_goals rfl

theorem invalidateHeld_sourceDeck (s t : BoardState) (hp : invalidateHeld s = .ok t) :
    t.mSourceDeck = s.mSourceDeck := by
  unfold invalidateHeld at hp
  cases h : expandChain s.heap loopFuel s.mHeldCard s.mDirtyRegion with
  | error e =>
    rw [h, error_bind] at hp
    cases hp
  | ok r =>
    rw [h, ok_bind] at hp
    rw [← Except.ok.inj hp]

/-- A sequence of two steps that returns has returned from both. -/
theorem ok_of_bind {α β : Type} {x : Except Fault α} {f : α → Except Fault β} {b : β}
    (h : (x >>= f) = .ok b) : ∃ a, x = .ok a ∧ f a = .ok b := by
  cases x with
  | error e => cases h
  | ok a => exact ⟨a, rfl, h⟩

theorem putDownDeck_sourceDeck (s t : BoardState) (c : Nat) (hp : putDownDeck s c = .ok t) :
    t.mSourceDeck = s.mSourceDeck := by
  unfold putDownDeck at hp
  dsimp only at hp
  obtain ⟨top, _, hp⟩ := ok_of_bind hp
  obtain ⟨nxt, _, hp⟩ := ok_of_bind hp
  rw [← Except.ok.inj hp]

theorem putDownStack_sourceDeck (s t : BoardState) (c : Nat) (hp : putDownStack s c = .ok t) :
    t.mSourceDeck = s.mSourceDeck := by
  unfold putDownStack at hp
  dsimp only at hp
  split at hp
  · obtain ⟨base, _, hp⟩ := ok_of_bind hp
    rw [← Except.ok.inj hp]
  · cases hp

theorem putDownBoard_sourceDeck (s t : BoardState) (c : Nat) (hp : putDownBoard s c = .ok t) :
    t.mSourceDeck = s.mSourceDeck := by
  unfold putDownBoard at hp
  split at hp
  · obtain ⟨base, _, hp⟩ := ok_of_bind hp
    obtain ⟨last, _, hp⟩ := ok_of_bind hp
    obtain ⟨h, _, hp⟩ := ok_of_bind hp
    rw [← Except.ok.inj hp]
  · cases hp

theorem putDownHeldCard_sourceDeck (s t : BoardState) (hp : putDownHeldCard s = .ok t) :
    t.mSourceDeck = s.mSourceDeck := by
  cases hh : s.mHeldCard with
  | none =>
    unfold putDownHeldCard at hp
    rw [hh] at hp
    cases hp
  | some held =>
    rw [putDownHeldCard_held s held hh] at hp
    obtain ⟨s1, h1, hp⟩ := ok_of_bind hp
    rw [← Except.ok.inj hp, revealAndRelease_sourceDeck]
    split at h1
    · split at h1
      · exact putDownDeck_sourceDeck s s1 held h1
      · split at h1
        · exact putDownStack_sourceDeck s s1 held h1
        · cases h1
    · exact putDownBoard_sourceDeck s s1 held h1

theorem pickUpDeck_sourceDeck (s : BoardState) : (pickUpDeck s).mSourceDeck = s.mSourceDeck := by
  unfold pickUpDeck
  split <;> rfl

theorem pickUpStack_sourceDeck (s t : BoardState) (hp : pickUpStack s = .ok t) :
    t.mSourceDeck = s.mSourceDeck := by
  unfold pickUpStack at hp
  split at hp
  · obtain ⟨top, _, hp⟩ := ok_of_bind hp
    split at hp
    · obtain ⟨prev, _, hp⟩ := ok_of_bind hp
      rw [← Except.ok.inj hp]
    · rw [← Except.ok.inj hp]
  · cases hp

theorem pickUpBoard_sourceDeck (s t : BoardState) (hp : pickUpBoard s = .ok t) :
    t.mSourceDeck = s.mSourceDeck := by
  unfold pickUpBoard at hp
  split at hp
  · obtain ⟨base, _, hp⟩ := ok_of_bind hp
    split at hp
    · rw [← Except.ok.inj hp]
    · obtain ⟨card, _, hp⟩ := ok_of_bind hp
      obtain ⟨cd, _, hp⟩ := ok_of_bind hp
      obtain ⟨prev, _, hp⟩ := ok_of_bind hp
      obtain ⟨h, _, hp⟩ := ok_of_bind hp
      obtain ⟨old, _, hp⟩ := ok_of_bind hp
      rw [← Except.ok.inj hp]
  · cases hp

theorem pickUp_sourceDeck (s t : BoardState) (hp : pickUp s = .ok t) :
    t.mSourceDeck = s.mSourceDeck := by
  unfold pickUp at hp
  split at hp
  · split at hp
    · rw [← Except.ok.inj hp]
      exact pickUpDeck_sourceDeck s
    · exact pickUpStack_sourceDeck s t hp
  · exact pickUpBoard_sourceDeck s t hp

/-- A call of `button1Down` that returns from a sound state leaves `mSourceDeck` as it is. -/
theorem button1Down_sourceDeck (s t : BoardState) (hS : Sound s) (hp : button1Down s = .ok t) :
    t.mSourceDeck = s.mSourceDeck := by
  obtain ⟨L, hB, hC, hT⟩ := hS
  cases hh : s.mHeldCard with
  | some c =>
    rw [button1Down_held s c hh] at hp
    exact putDownHeldCard_sourceDeck s t hp
  | none =>
    have hheld := hB.held_nil hh
    by_cases hxy : s.mCursorLocationX = 0 ∧ s.mCursorLocationY = 0
    · rw [button1Down_flip s hh hxy] at hp
      rw [invalidateHeld_sourceDeck _ t hp]
      exact flip3_sourceDeck s
    · cases hpk : pickUp s with
      | error e =>
        rw [button1Down_fault s e hh hxy hpk] at hp
        cases hp
      | ok t1 =>
        have h1 := pickUp_sourceDeck s t1 hpk
        cases hc : t1.mHeldCard with
        | none =>
          rw [button1Down_nothing s t1 hh hpk hc] at hp
          rw [invalidateHeld_sourceDeck t1 t hp, h1]
        | some c =>
          obtain ⟨L1, hB1⟩ := picked_board s t1 L c hB hheld hpk hc
          obtain ⟨u, hu, hr, _⟩ := enumerateTargets_spec t1 L1 c hB1 hc
          have h2 : u.mSourceDeck = t1.mSourceDeck := by
            obtain ⟨n, v, k, rfl⟩ := hr
            rfl
          rw [button1Down_picked s t1 u c hh hpk hc hu] at hp
          split at hp
          · cases hp
          · split at hp
            · obtain ⟨w, hq, hp⟩ := ok_of_bind hp
              rw [invalidateHeld_sourceDeck w t hp, putDownHeldCard_sourceDeck u w hq, h2, h1]
            · rw [invalidateHeld_sourceDeck u t hp, h2, h1]

/-- A cursor move that returns from a sound state leaves `mSourceDeck` as it is. -/
theorem moveCursor_sourceDeck (s t : BoardState) (dx dy : Int) (hS : Sound s)
    (hp : moveCursor s dx dy = .ok t) : t.mSourceDeck = s.mSourceDeck := by
  obtain ⟨L, hB, hC, hT⟩ := hS
  cases hh : s.mHeldCard with
  | none =>
    obtain ⟨x, y, rfl⟩ := moveCursor_frame s t dx dy hh hp
    rfl
  | some c =>
    obtain ⟨l2, hheld⟩ := hB.held_cons c hh
    have hne : L 12 ≠ [] := by rw [hheld]; exact List.cons_ne_nil _ _
    obtain ⟨hn12, hoff, _⟩ := hT.2 hne
    have hmc : moveCursor s dx dy = moveCursorHeld s dx dy := by
      unfold moveCursor
      rw [hh]
      rfl
    rw [hmc] at hp
    obtain ⟨k, ct, y, hk, rfl, hy⟩ := moveCursorHeld_outcome s t dx dy hn12
      (fun k hk => (hoff k hk).1) hp
    rfl

/-- A new deal from a sound state with nothing held, whose `mSourceDeck` holds
every card once, gives a sound state. -/
theorem redeal_sound (draws : Nat → Nat) (s : BoardState) (hS : Sound s)
    (hP : Perm52 s.mSourceDeck) (hh : s.mHeldCard = none) :
    Sound (initializeBoard draws s) := by
  obtain ⟨L, hB, _, _⟩ := hS
  have hd := initializeBoard_dealt draws s hP hh hB.2.2.2.2.2.2.2
  have hp : Perm52 (Deck.shuffle draws s.mSourceDeck) := hP.shuffle draws
  refine ⟨_, hd.1, dealtLayout_covers hp, Tidy.of_released _ _
    (dealtLayout_other _ 12 (by omega) (by omega)) ?_⟩
  intro i hi
  rw [dealtLayout_other _ (7 + i) (by omega) (by omega)]
  exact Ordered.nil _

/-- Every state of clean play is sound, and its `mSourceDeck` holds every card once. -/
theorem CleanPlay.sound {s : BoardState} (hr : CleanPlay s) :
    Sound s ∧ Perm52 s.mSourceDeck := by
  induction hr with
  | init draws => exact ⟨initializeBoard_sound draws, Perm52.id.shuffle draws⟩
  | redeal draws s _ hh ih => exact ⟨redeal_sound draws s ih.1 ih.2 hh, ih.2.shuffle draws⟩
  | button s t _ hp ih =>
    refine ⟨button1Down_sound s t ih.1 hp, ?_⟩
    rw [button1Down_sourceDeck s t ih.1 hp]
    exact ih.2
  | move s t dx dy _ hp ih =>
    refine ⟨moveCursor_sound s t dx dy ih.1 hp, ?_⟩
    rw [moveCursor_sourceDeck s t dx dy ih.1 hp]
    exact ih.2
  | flip s _ ih =>
    refine ⟨flip3_sound s ih.1, ?_⟩
    rw [flip3_sourceDeck]
    exact ih.2
set_option maxRecDepth 100000 in
set_option maxHeartbeats 4000000 in
theorem acePickedUp_reads :
    observe (fun t => (t.mHeldCard, t.mCardToReveal, t.mNumValidTargets, t.mValidTargets 1))
        acePickedUp = some (some 0, none, 6, 6) ∧
      observe (fun t => t.mCurrentTarget) acePickedUp = some 0 ∧
      observe (fun t => (Deck.shuffle swapDraws t.mSourceDeck 1,
        Deck.shuffle swapDraws t.mSourceDeck 2)) acePickedUp = some (0, 2) := by
  decide

/-- The game `acePickedUp` returns, in a state of clean play. -/
theorem acePickedUp_play : ∃ s, acePickedUp = .ok s ∧ CleanPlay s := by
  have hf := acePickedUp_reads.2.1
  unfold acePickedUp at hf ⊢
  cases h1 : moveCursor (restart (fun _ => 0) BoardState.fresh) (-1) 0 with
  | error e =>
    rw [h1, error_bind] at hf
    cases hf
  | ok s1 =>
    rw [h1, ok_bind] at hf
    rw [ok_bind]
    cases h2 : moveCursor s1 0 1 with
    | error e =>
      rw [h2, error_bind] at hf
      cases hf
    | ok s2 =>
      rw [h2, ok_bind] at hf
      rw [ok_bind]
      cases h3 : button1Down s2 with
      | error e =>
        rw [h3] at hf
        cases hf
      | ok s3 =>
        exact ⟨s3, rfl, .button _ _ (.move _ _ _ _ (.move _ _ _ _ (.flip _ (.init _)) h1) h2) h3⟩
/-- A new deal from a sound state, whatever is held: once `mHeldCard` is
cleared, the state `initialize()` builds is a well-formed board over the dealt piles. -/
theorem redeal_board (draws : Nat → Nat) (s : BoardState) (hS : Sound s)
    (hP : Perm52 s.mSourceDeck) :
    Board { initializeBoard draws s with mHeldCard := none }
      (dealtLayout (Deck.shuffle draws s.mSourceDeck)) := by
  obtain ⟨L, hB, _, _⟩ := hS
  exact (initializeBoard_dealt draws { s with mHeldCard := none } hP rfl hB.2.2.2.2.2.2.2).1

theorem flip3_targeting (s : BoardState) :
    (flip3 s).mCurrentTarget = s.mCurrentTarget ∧ (flip3 s).mCardToReveal = s.mCardToReveal := by
  unfold flip3
  repeat' split
  all_goals exact ⟨rfl, rfl⟩

/-- While a chain is held with six candidates, the first of them current and
the second foundation 1, `moveCursor(1, 0)` puts the cursor on foundation 1. -/
theorem moveCursorHeld_second (s : BoardState) (hc : s.mCurrentTarget = 0)
    (hn : s.mNumValidTargets = 6) (hv : s.mValidTargets 1 = 6) :
    moveCursorHeld s 1 0 =
      .ok { s with mCurrentTarget := 1, mCursorLocationX := 3, mCursorLocationY := 0 } := by
  unfold moveCursorHeld
  dsimp only
  have h1 : smartmod (if (1 : Int) + 0 > 0 then wrapInt8 (s.mCurrentTarget + 1)
      else wrapInt8 (s.mCurrentTarget - 1)) (s.mNumValidTargets : Int) = .ok 1 := by
    rw [hc, hn]
    rfl
  rw [h1, ok_bind]
  have h2 : wrapInt8 1 = 1 := rfl
  have h3 : s.mValidTargets (1 : Int).toNat = 6 := hv
  rw [h2, if_neg (by decide), h3]
  rfl
/-- The put-down of the held card `c` on foundation `i`, whose top pointer is `base`. -/
theorem putDownStack_at (s : BoardState) (i c base : Nat) (hi : i < 4)
    (hX : s.mCursorLocationX = i + 2) (hb : s.mStacks i = some base) :
    putDownStack s c =
      .ok { s with heap := pushHeap s.heap base c,
                   mStacks := fun n => if n = i then some c else s.mStacks n } := by
  have hxi : s.mCursorLocationX - 2 = i := by omega
  unfold putDownStack
  simp only [hxi, hi, if_true, hb, deref, ok_bind]
  rfl

/-- While the card `c` is held and the cursor is on foundation `i`, whose top
pointer is `base`, `button1Down` links `c` behind `base` and releases it. -/
theorem button1Down_on_foundation (s : BoardState) (i c base : Nat) (hh : s.mHeldCard = some c)
    (hi : i < 4) (hX : s.mCursorLocationX = i + 2) (hY : s.mCursorLocationY = 0)
    (hb : s.mStacks i = some base) :
    button1Down s =
      .ok (revealAndRelease
        { s with heap := pushHeap s.heap base c,
                 mStacks := fun n => if n = i then some c else s.mStacks n } c) := by
  rw [button1Down_held s c hh, putDownHeldCard_held s c hh, if_pos hY, if_neg (by omega),
    if_pos (by omega), putDownStack_at s i c base hi hX hb, ok_bind]

/-- What the game `aceRedealt` leaves behind. The pick-up leaves card 0 held;
the new deal puts cards 0 and 2 on tableau column 1 and keeps card 0 held; the
put-down links card 0, still the head of column 1, behind the anchor of
foundation 1. -/
theorem aceRedealt_outcome :
    ∃ s u, acePickedUp = .ok s ∧ s.mHeldCard = some 0 ∧
      (restart swapDraws s).mHeldCard = some 0 ∧
      (restart swapDraws s).mBoard 1 = some 53 ∧
      Links (restart swapDraws s).heap 53 [0, 2] ∧
      aceRedealt = .ok u ∧ u.mHeldCard = none ∧ u.mBoard 1 = some 53 ∧
      (u.heap 53).Next = some 0 ∧ (u.heap 60).Next = some 0 ∧ (u.heap 0).Next = some 2 ∧
      (u.heap 2).Next = none ∧
      (u.heap 0).Which = (BoardState.fresh.heap 0).Which ∧
      (u.heap 2).Which = (BoardState.fresh.heap 2).Which := by
  obtain ⟨s, hs, hplay⟩ := acePickedUp_play
  obtain ⟨hr1, hr2, hr3⟩ := acePickedUp_reads
  rw [hs] at hr1 hr2 hr3
  have e1 : (s.mHeldCard, s.mCardToReveal, s.mNumValidTargets, s.mValidTargets 1) =
      (some 0, none, 6, 6) := Option.some.inj hr1
  have e2 : s.mCurrentTarget = 0 := Option.some.inj hr2
  have e3 : (Deck.shuffle swapDraws s.mSourceDeck 1, Deck.shuffle swapDraws s.mSourceDeck 2) =
      (0, 2) := Option.some.inj hr3
  obtain ⟨hheld, e1⟩ := Prod.mk.inj e1
  obtain ⟨hrev, e1⟩ := Prod.mk.inj e1
  obtain ⟨hn, hv⟩ := Prod.mk.inj e1
  obtain ⟨hs1, hs2⟩ := Prod.mk.inj e3
  obtain ⟨hS, hP⟩ := hplay.sound
  have hB := redeal_board swapDraws s hS hP
  have hf := flip3_fields (initializeBoard swapDraws s)
  have hft := flip3_targeting (initializeBoard swapDraws s)
  have hcol : dealtLayout (Deck.shuffle swapDraws s.mSourceDeck) 1 = [0, 2] := by
    rw [dealtLayout_tab _ 1 (by omega)]
    show run _ 1 2 = _
    rw [run_succ, run_succ, hs1, hs2]
    rfl
  have hl : Links (initializeBoard swapDraws s).heap 53 [0, 2] := by
    have := (hB.tab_pile 1 (by omega)).2
    rw [hcol] at this
    exact this
  have hb1 : (initializeBoard swapDraws s).mBoard 1 = some 53 := hB.2.1 1 (by omega)
  have hst : (initializeBoard swapDraws s).mStacks 1 = some 60 := by
    have := hB.2.2.1 1 (by omega)
    rw [dealtLayout_other _ (7 + 1) (by omega) (by omega)] at this
    exact this
  have hW := hB.2.2.2.2.2.2.2
  have hth : (restart swapDraws s).mHeldCard = some 0 := by
    unfold restart
    rw [hf.2.2.2.2.1]
    exact hheld
  have hmove : moveCursor (restart swapDraws s) 1 0 =
      .ok { restart swapDraws s with mCurrentTarget := 1, mCursorLocationX := 3,
                                     mCursorLocationY := 0 } := by
    have hmc : moveCursor (restart swapDraws s) 1 0 = moveCursorHeld (restart swapDraws s) 1 0 := by
      unfold moveCursor
      rw [hth]
      rfl
    rw [hmc]
    refine moveCursorHeld_second _ ?_ ?_ ?_
    · unfold restart
      rw [hft.1]
      exact e2
    · unfold restart
      rw [hf.2.2.2.2.2.1]
      exact hn
    · unfold restart
      rw [hf.2.2.2.2.2.2.1]
      exact hv
  have hput := button1Down_on_foundation
    { restart swapDraws s with mCurrentTarget := 1, mCursorLocationX := 3,
                               mCursorLocationY := 0 } 1 0 60 hth (by decide) rfl rfl
    (by show (restart swapDraws s).mStacks 1 = some 60
        unfold restart
        rw [hf.2.2.1]
        exact hst)
  have hheap : (restart swapDraws s).heap = (initializeBoard swapDraws s).heap := hf.1
  have hred : aceRedealt =
      button1Down { restart swapDraws s with mCurrentTarget := 1, mCursorLocationX := 3,
                                             mCursorLocationY := 0 } := by
    unfold aceRedealt
    rw [hs, ok_bind, hmove, ok_bind]
  have hfin := hred.trans hput
  refine ⟨s, _, hs, hheld, hth, ?_, ?_, hfin, (revealAndRelease_fields _ 0).1, ?_, ?_, ?_, ?_, ?_,
    ?_, ?_⟩
  · unfold restart
    rw [hf.2.1]
    exact hb1
  · rw [hheap]
    exact hl
  · rw [(revealAndRelease_fields _ 0).2.1]
    show (restart swapDraws s).mBoard 1 = some 53
    unfold restart
    rw [hf.2.1]
    exact hb1
  · rw [revealAndRelease_Next]
    show (pushHeap (restart swapDraws s).heap 60 0 53).Next = some 0
    rw [pushHeap_Next, if_neg (by decide), hheap]
    exact hl.1
  · rw [revealAndRelease_Next]
    show (pushHeap (restart swapDraws s).heap 60 0 60).Next = some 0
    rw [pushHeap_Next, if_pos rfl]
  · rw [revealAndRelease_Next]
    show (pushHeap (restart swapDraws s).heap 60 0 0).Next = some 2
    rw [pushHeap_Next, if_neg (by decide), hheap]
    exact hl.2.2.1
  · rw [revealAndRelease_Next]
    show (pushHeap (restart swapDraws s).heap 60 0 2).Next = none
    rw [pushHeap_Next, if_neg (by decide), hheap]
    exact hl.2.2.2.2
  · rw [revealAndRelease_Which]
    show (pushHeap (restart swapDraws s).heap 60 0 0).Which = _
    rw [pushHeap_Which, hheap]
    exact hW 0 (by decide)
  · rw [revealAndRelease_Which]
    show (pushHeap (restart swapDraws s).heap 60 0 2).Which = _
    rw [pushHeap_Which, hheap]
    exact hW 2 (by decide)
/-- In every state of clean play, every card with a non-null `Prev` is the
`Next` of that node, and there are node lists for the 13 piles (7 tableau
columns and 4 foundations from their anchors, the draw/waste chain from `mDeck`,
the held chain from `mHeldCard`) such that following `Next` from the head of a
pile meets exactly the nodes of its list, no node lies in the lists of two
piles, and every card lies in one of them. -/
theorem cleanPlay_chain_integrity (s : BoardState) (hr : CleanPlay s) :
    (∀ c q, c < 52 → (s.heap c).Prev = some q → (s.heap q).Next = some c) ∧
      ∃ L : Layout, (∀ p, p < 13 → Chain s.heap (pileNodes L p) (pileHead s p)) ∧
        (∀ p q, p < 13 → q < 13 → p ≠ q → ∀ a, a ∈ pileNodes L p → a ∉ pileNodes L q) ∧
        (∀ c, c < 52 → ∃ p, p < 13 ∧ c ∈ pileNodes L p) := by
  obtain ⟨L, hB, hC, _⟩ := hr.sound.1
  refine ⟨?_, L, fun p hp => hB.pile_chain p hp, ?_, ?_⟩
  · intro c q hc hq
    obtain ⟨p, hp, hcp⟩ := hC c hc
    exact (hB.1 p hp).prev_next c q (mem_pileNodes_of_mem hcp) hq
  · intro p q hp hq hpq a ha
    exact hB.2.2.2.2.2.2.1.pileNodes_apart p q hp hq hpq a ha
  · intro c hc
    obtain ⟨p, hp, hcp⟩ := hC c hc
    exact ⟨p, hp, mem_pileNodes_of_mem hcp⟩

/-- In every state of clean play, the chain behind the anchor of each
foundation is the ace, the 2, ... of one single suit, in this order. -/
theorem cleanPlay_foundations_ordered (s : BoardState) (hr : CleanPlay s) (i : Nat)
    (hi : i < 4) : ∃ l, Chain s.heap l (s.heap (stackBase i)).Next ∧ Ordered s.heap l := by
  obtain ⟨L, hB, _, hT⟩ := hr.sound.1
  refine ⟨L (7 + i), Links.chain (hB.fnd_pile i hi).2, ?_⟩
  refine Ordered.congr_on ?_ (hT.1 i hi)
  intro a ha
  exact hB.2.2.2.2.2.2.2 a (by have := hB.2.2.2.2.2.2.1.1 (7 + i) (by omega) a ha; omega)

/-- C3 (the failing input): from program start with every shuffle draw 0,
`moveCursor(-1, 0)`, `moveCursor(0, +1)` and `button1Down()` return and leave
card 0 held. Pin 14 then runs `initialize()` and `flip3()`, here with a shuffle
that swaps the first two cards: card 0 is dealt onto tableau column 1, whose
chain from the anchor 53 is 53, 0, 2, and it is still the head of the held
chain, so cards 0 and 2 are reached from two piles. `moveCursor(1, 0)` and
`button1Down()` then return with nothing held, and cards 0 and 2 are reached
both from the anchor of tableau column 1 and from the anchor 60 of foundation 1. -/
theorem restart_leaves_card_in_two_piles :
    ∃ s u, acePickedUp = .ok s ∧ s.mHeldCard = some 0 ∧
      Chain (restart swapDraws s).heap [53, 0, 2] (pileHead (restart swapDraws s) 1) ∧
      Chain (restart swapDraws s).heap [0, 2] (pileHead (restart swapDraws s) 12) ∧
      aceRedealt = .ok u ∧ u.mHeldCard = none ∧
      Chain u.heap [53, 0, 2] (pileHead u 1) ∧ Chain u.heap [60, 0, 2] (pileHead u 8) := by
  obtain ⟨s, u, hs, hheld, hth, htb, hl, hu, hun, hub, h53, h60, h0, h2, _, _⟩ :=
    aceRedealt_outcome
  refine ⟨s, u, hs, hheld, ⟨htb, hl.1, hl.2.2.1, hl.2.2.2.2⟩, ⟨hth, hl.2.2.1, hl.2.2.2.2⟩, hu,
    hun, ⟨hub, h53, h0, h2⟩, ⟨rfl, h60, h0, h2⟩⟩

/-- C24 (the failing input): from program start with every shuffle draw 0,
`moveCursor(-1, 0)`, `moveCursor(0, +1)` and `button1Down()` pick up the ace of
hearts (card 0) with foundation 1 among the candidates; pin 14 then runs
`initialize()` and `flip3()`, dealing card 0 onto tableau column 1 in front of
card 2; `moveCursor(1, 0)` and `button1Down()` return and leave nothing held.
The chain behind the anchor of foundation 1 is then card 0, card 2: the ace and
the 3 of hearts, which is not ace, 2, ... -/
theorem restart_breaks_foundation_order :
    ∃ u, aceRedealt = .ok u ∧ u.mHeldCard = none ∧
      Chain u.heap [0, 2] (u.heap (stackBase 1)).Next ∧
      (u.heap 0).Which.getNumber = 1 ∧ (u.heap 2).Which.getNumber = 3 ∧
      ¬ Ordered u.heap [0, 2] := by
  obtain ⟨s, u, _, _, _, _, _, hu, hun, _, _, h60, h0, h2, hw0, hw2⟩ := aceRedealt_outcome
  have hn2 : (u.heap 2).Which.getNumber = 3 := by
    rw [hw2]
    rfl
  refine ⟨u, hu, hun, ⟨h60, h0, h2⟩, ?_, hn2, ?_⟩
  · rw [hw0]
    rfl
  · intro ho
    have h := (ho 1 (by decide)).1
    have h' : (u.heap 2).Which.getNumber = 2 := h
    rw [hn2] at h'
    exact absurd h' (by decide)
/-- A new deal while a chain is held, in clean play: the head `c` of the held
chain is still held after `initialize()`, and the deal has linked it into one
of the twelve dealt piles. -/
theorem redeal_while_held (draws : Nat → Nat) (s : BoardState) (c : Nat) (hr : CleanPlay s)
    (hh : s.mHeldCard = some c) :
    (initializeBoard draws s).mHeldCard = some c ∧
      ∃ p l, p < 12 ∧ c ∈ l ∧
        Chain (initializeBoard draws s).heap l (pileHead (initializeBoard draws s) p) := by
  obtain ⟨hS, hP⟩ := hr.sound
  have hB := redeal_board draws s hS hP
  obtain ⟨L, hBs, _, _⟩ := hS
  obtain ⟨l2, hl⟩ := hBs.held_cons c hh
  have hc : c < 52 := hBs.2.2.2.2.2.2.1.1 12 (by omega) c (by rw [hl]; exact List.mem_cons_self _ _)
  obtain ⟨p, hp, hcp⟩ := dealtLayout_covers (hP.shuffle draws) c hc
  have hp12 : p ≠ 12 := by
    intro e
    rw [e, dealtLayout_other _ 12 (by omega) (by omega)] at hcp
    cases hcp
  refine ⟨hh, p, _, by omega, mem_pileNodes_of_mem hcp, ?_⟩
  have hch := hB.pile_chain p hp
  have hhead : pileHead { initializeBoard draws s with mHeldCard := none } p =
      pileHead (initializeBoard draws s) p := by
    unfold pileHead
    split
    · rfl
    · split
      · rfl
      · split
        · rfl
        · omega
  rw [hhead] at hch
  exact hch

end Solitaire
